import Mathlib

/-!
# E-ledger: enode registry, payment election and payment votes

A shallow embedding of the enode subsystem (`znode.cpp`, `znodeman.cpp`,
`znode-payments.cpp`, `activeznode.cpp`) together with theorems about it.

Conventions of the embedding.

* `uint256` values, scripts, public keys and signatures are natural numbers or
  lists of byte values; C++ `int` and `int64_t` quantities are `Int`, and a
  difference that involves a value a peer supplies is wrapped around by `int32`
  or `int64` as the compiled code wraps it.
* `std::vector` is `List`; `std::map` is an association list `StdMap` whose
  operations follow `find`, `count`, `insert`, `erase` and `operator[]`.
* Out parameters become extra components of the returned value; a `NULL`
  pointer result becomes `none`.
* Functions of the code base that live outside the translated files (hashing,
  serialization, the block index, the UTXO set, signature verification, sporks,
  the clock) are collected in the structure `Env` and passed explicitly.
* The global `activeEnode` is read from `Env` where a method of a record or of
  the registry is entered, and passed along explicitly from there on.  The call
  `activeEnode.ManageState()` inside `UpdateFromNewBroadcast` re-enters the
  registry; a record the registry holds is written to the vector before the call
  and read back after it, as the code reaches it through a pointer.  A vector
  that grows is taken to leave its records where they are.
* Locks, logging and network relays are not represented.
-/

namespace ELedger

/-! ## Primitive types -/

/-- The value a 32-bit `int` holds when the arithmetic result is `x`: the result wraps around
in two's complement, as it does in the compiled code. -/
def int32 (x : Int) : Int := (x + 2 ^ 31) % 2 ^ 32 - 2 ^ 31

/-- The value an `int64_t` holds when the arithmetic result is `x`: the result wraps around
in two's complement, as it does in the compiled code. -/
def int64 (x : Int) : Int := (x + 2 ^ 63) % 2 ^ 64 - 2 ^ 63

/-- The type `uint256`: a hash value, kept as a natural number. -/
abbrev uint256 := Nat

/-- The type `CScript`: the bytes of a script. -/
abbrev CScript := List Nat

/-- The type `CPubKey`: the bytes of a public key. -/
abbrev CPubKey := List Nat

/-- The type `COutPoint`: transaction hash and output index. -/
structure COutPoint where
  hash : Nat
  n : Nat
deriving DecidableEq, Repr

/-- The type `CTxIn`. -/
structure CTxIn where
  prevout : COutPoint
  scriptSig : CScript
  nSequence : Nat
deriving DecidableEq, Repr

/-- The value `CTxIn()`: null outpoint (`n = (uint32_t) -1`), empty script, final sequence. -/
def CTxIn.default : CTxIn :=
  { prevout := { hash := 0, n := 4294967295 }, scriptSig := [], nSequence := 4294967295 }

/-- The type `CService`: network address and port. -/
structure CService where
  ip : Nat
  port : Nat
deriving DecidableEq, Repr

/-- The value `CService()`. -/
def CService.default : CService := { ip := 0, port := 0 }

/-- The type `CTxOut`: an amount and the script it is paid to. -/
structure CTxOut where
  nValue : Int
  scriptPubKey : CScript
deriving DecidableEq, Repr

/-- The type `CTransaction`, reduced to its outputs (all the payment code reads). -/
structure CTransaction where
  vout : List CTxOut
deriving DecidableEq, Repr

/-! ## Association lists standing for `std::map` -/

/-- A `std::map<K, V>`; at most one entry per key is kept by the operations below. -/
abbrev StdMap (K V : Type) := List (K × V)

namespace StdMap

variable {K V : Type} [DecidableEq K]

/-- The lookup `m.find(k)`, `none` standing for `m.end()`. -/
def find (m : StdMap K V) (k : K) : Option V :=
  match m with
  | [] => none
  | (k0, v) :: rest => if k0 = k then some v else find rest k

/-- The test `m.count(k)`. -/
def count (m : StdMap K V) (k : K) : Bool := (find m k).isSome

/-- The removal `m.erase(k)`. -/
def erase (m : StdMap K V) (k : K) : StdMap K V := m.filter (fun p => decide (p.1 ≠ k))

/-- The assignment `m[k] = v`. -/
def set (m : StdMap K V) (k : K) (v : V) : StdMap K V :=
  match m with
  | [] => [(k, v)]
  | (k0, v0) :: rest => if k0 = k then (k0, v) :: rest else (k0, v0) :: set rest k v

/-- The insertion `m.insert(make_pair(k, v))`, which keeps an existing entry. -/
def insert (m : StdMap K V) (k : K) (v : V) : StdMap K V :=
  match find m k with
  | some _ => m
  | none => m ++ [(k, v)]

end StdMap

/-! ## Pings and enode records (`znode.h`) -/

/-- The class `CEnodePing`. -/
structure CEnodePing where
  vin : CTxIn
  blockHash : uint256
  sigTime : Int
  vchSig : List Nat
deriving DecidableEq, Repr

/-- The value `CEnodePing()`. -/
def CEnodePing.default : CEnodePing :=
  { vin := CTxIn.default, blockHash := 0, sigTime := 0, vchSig := [] }

/-- The comparison `operator==` of `CEnodePing`: the input and the block hash only. -/
def CEnodePing.eq (a b : CEnodePing) : Bool :=
  decide (a.vin = b.vin) && decide (a.blockHash = b.blockHash)

/-- The enumeration `CEnode::state`, in declaration order. -/
inductive state where
  | ENODE_PRE_ENABLED
  | ENODE_ENABLED
  | ENODE_EXPIRED
  | ENODE_OUTPOINT_SPENT
  | ENODE_UPDATE_REQUIRED
  | ENODE_WATCHDOG_EXPIRED
  | ENODE_NEW_START_REQUIRED
  | ENODE_POSE_BAN
deriving DecidableEq, Repr

def ENODE_CHECK_SECONDS : Int := 5
def ENODE_MIN_MNB_SECONDS : Int := 5 * 60
def ENODE_MIN_MNP_SECONDS : Int := 10 * 60
def ENODE_EXPIRATION_SECONDS : Int := 65 * 60
def ENODE_WATCHDOG_MAX_SECONDS : Int := 120 * 60
def ENODE_NEW_START_REQUIRED_SECONDS : Int := 180 * 60
def ENODE_POSE_BAN_MAX_SCORE : Int := 5

/-- The class `CEnode` (the governance vote map, which is unused, is left out). -/
structure CEnode where
  vin : CTxIn
  addr : CService
  pubKeyCollateralAddress : CPubKey
  pubKeyEnode : CPubKey
  lastPing : CEnodePing
  vchSig : List Nat
  sigTime : Int
  nLastDsq : Int
  nTimeLastChecked : Int
  nTimeLastPaid : Int
  nTimeLastWatchdogVote : Int
  nActiveState : state
  nCacheCollateralBlock : Int
  nBlockLastPaid : Int
  nProtocolVersion : Int
  nPoSeBanScore : Int
  nPoSeBanHeight : Int
  fAllowMixingTx : Bool
  fUnitTest : Bool
deriving DecidableEq, Repr

/-- The class `CEnodeBroadcast`: an enode record with the recovery flag. -/
structure CEnodeBroadcast where
  mn : CEnode
  fRecovery : Bool
deriving DecidableEq, Repr

namespace CEnode

def IsEnabled (mn : CEnode) : Bool := decide (mn.nActiveState = state.ENODE_ENABLED)
def IsPreEnabled (mn : CEnode) : Bool := decide (mn.nActiveState = state.ENODE_PRE_ENABLED)
def IsPoSeBanned (mn : CEnode) : Bool := decide (mn.nActiveState = state.ENODE_POSE_BAN)
def IsPoSeVerified (mn : CEnode) : Bool := decide (mn.nPoSeBanScore ≤ -ENODE_POSE_BAN_MAX_SCORE)
def IsExpired (mn : CEnode) : Bool := decide (mn.nActiveState = state.ENODE_EXPIRED)
def IsOutpointSpent (mn : CEnode) : Bool := decide (mn.nActiveState = state.ENODE_OUTPOINT_SPENT)
def IsUpdateRequired (mn : CEnode) : Bool := decide (mn.nActiveState = state.ENODE_UPDATE_REQUIRED)
def IsWatchdogExpired (mn : CEnode) : Bool :=
  decide (mn.nActiveState = state.ENODE_WATCHDOG_EXPIRED)
def IsNewStartRequired (mn : CEnode) : Bool :=
  decide (mn.nActiveState = state.ENODE_NEW_START_REQUIRED)

/-- The method `CEnode::IsValidForPayment`: only the enabled state qualifies. -/
def IsValidForPayment (mn : CEnode) : Bool :=
  if mn.nActiveState = state.ENODE_ENABLED then true else false

def IncreasePoSeBanScore (mn : CEnode) : CEnode :=
  if mn.nPoSeBanScore < ENODE_POSE_BAN_MAX_SCORE then
    { mn with nPoSeBanScore := mn.nPoSeBanScore + 1 }
  else mn

def DecreasePoSeBanScore (mn : CEnode) : CEnode :=
  if mn.nPoSeBanScore > -ENODE_POSE_BAN_MAX_SCORE then
    { mn with nPoSeBanScore := mn.nPoSeBanScore - 1 }
  else mn

def GetLastPaidBlock (mn : CEnode) : Int := mn.nBlockLastPaid

/-- The constructor `CEnode(const CEnodeBroadcast&)`. -/
def ofBroadcast (mnb : CEnodeBroadcast) : CEnode :=
  { vin := mnb.mn.vin
    addr := mnb.mn.addr
    pubKeyCollateralAddress := mnb.mn.pubKeyCollateralAddress
    pubKeyEnode := mnb.mn.pubKeyEnode
    lastPing := mnb.mn.lastPing
    vchSig := mnb.mn.vchSig
    sigTime := mnb.mn.sigTime
    nLastDsq := 0
    nTimeLastChecked := 0
    nTimeLastPaid := 0
    nTimeLastWatchdogVote := mnb.mn.sigTime
    nActiveState := mnb.mn.nActiveState
    nCacheCollateralBlock := 0
    nBlockLastPaid := 0
    nProtocolVersion := mnb.mn.nProtocolVersion
    nPoSeBanScore := 0
    nPoSeBanHeight := 0
    fAllowMixingTx := true
    fUnitTest := false }

end CEnode

/-- The constructor `CEnodeBroadcast(const CEnode&)`. -/
def CEnodeBroadcast.ofEnode (mn : CEnode) : CEnodeBroadcast := { mn := mn, fRecovery := false }

/-! ## The dense index (`CEnodeIndex`, `znodeman.cpp`) -/

/-- The class `CEnodeIndex`.  The forward map is keyed by `CTxIn`, whose ordering compares
the outpoint only, so its keys are outpoints and the stored key is kept with the index. -/
structure CEnodeIndex where
  nSize : Int
  mapIndex : StdMap COutPoint (CTxIn × Int)
  mapReverseIndex : StdMap Int CTxIn
deriving DecidableEq, Repr

namespace CEnodeIndex

/-- The constructor `CEnodeIndex()`. -/
def empty : CEnodeIndex := { nSize := 0, mapIndex := [], mapReverseIndex := [] }

def GetSize (ix : CEnodeIndex) : Int := ix.nSize

/-- The method `CEnodeIndex::Get`: the input stored under an index, if any. -/
def Get (ix : CEnodeIndex) (nIndex : Int) : Option CTxIn := ix.mapReverseIndex.find nIndex

/-- The method `CEnodeIndex::GetEnodeIndex`: the index of an input, or `-1`. -/
def GetEnodeIndex (ix : CEnodeIndex) (vinEnode : CTxIn) : Int :=
  match ix.mapIndex.find vinEnode.prevout with
  | none => -1
  | some p => p.2

/-- The method `CEnodeIndex::AddEnodeVIN`. -/
def AddEnodeVIN (ix : CEnodeIndex) (vinEnode : CTxIn) : CEnodeIndex :=
  match ix.mapIndex.find vinEnode.prevout with
  | some _ => ix
  | none =>
    let nNextIndex := ix.nSize
    { nSize := ix.nSize + 1
      mapIndex := ix.mapIndex.set vinEnode.prevout (vinEnode, nNextIndex)
      mapReverseIndex := ix.mapReverseIndex.set nNextIndex vinEnode }

/-- The method `CEnodeIndex::Clear`. -/
def Clear (_ix : CEnodeIndex) : CEnodeIndex := empty

end CEnodeIndex

/-! ## The registry (`CEnodeMan`, `znodeman.cpp`) -/

/-- The class `CEnodeVerification`. -/
structure CEnodeVerification where
  vin1 : CTxIn
  vin2 : CTxIn
  addr : CService
  nonce : Int
  nBlockHeight : Int
  vchSig1 : List Nat
  vchSig2 : List Nat
deriving DecidableEq, Repr

/-- The class `CEnodeMan`: the height of the current tip (`none` while `pCurrentBlockIndex`
is null), the enode vector, the dense indices, the flags and the gossip tables (peers are
identified by their address, hashes by their value). -/
structure CEnodeMan where
  pCurrentBlockIndex : Option Int
  vEnodes : List CEnode
  mAskedUsForEnodeList : StdMap Nat Int
  mWeAskedForEnodeList : StdMap Nat Int
  mWeAskedForEnodeListEntry : StdMap COutPoint (StdMap Nat Int)
  mWeAskedForVerification : StdMap Nat CEnodeVerification
  mMnbRecoveryRequests : StdMap uint256 (Int × List Nat)
  mMnbRecoveryGoodReplies : StdMap uint256 (List CEnodeBroadcast)
  listScheduledMnbRequestConnections : List (CService × uint256)
  nLastIndexRebuildTime : Int
  indexEnodes : CEnodeIndex
  indexEnodesOld : CEnodeIndex
  fIndexRebuilt : Bool
  fEnodesAdded : Bool
  fEnodesRemoved : Bool
  nLastWatchdogVoteTime : Int
  mapSeenEnodeBroadcast : StdMap uint256 (Int × CEnodeBroadcast)
  mapSeenEnodePing : StdMap uint256 CEnodePing
  mapSeenEnodeVerification : StdMap uint256 CEnodeVerification
  nDsqCount : Int
deriving DecidableEq, Repr

namespace CEnodeMan

/-- The constructor `CEnodeMan()`. -/
def empty : CEnodeMan :=
  { pCurrentBlockIndex := none
    vEnodes := []
    mAskedUsForEnodeList := []
    mWeAskedForEnodeList := []
    mWeAskedForEnodeListEntry := []
    mWeAskedForVerification := []
    mMnbRecoveryRequests := []
    mMnbRecoveryGoodReplies := []
    listScheduledMnbRequestConnections := []
    nLastIndexRebuildTime := 0
    indexEnodes := CEnodeIndex.empty
    indexEnodesOld := CEnodeIndex.empty
    fIndexRebuilt := false
    fEnodesAdded := false
    fEnodesRemoved := false
    nLastWatchdogVoteTime := 0
    mapSeenEnodeBroadcast := []
    mapSeenEnodePing := []
    mapSeenEnodeVerification := []
    nDsqCount := 0 }

/-- The method `CEnodeMan::size`. -/
def size (man : CEnodeMan) : Int := man.vEnodes.length

/-- The loop of `CEnodeMan::Find(const CTxIn&)`: the first record with the same outpoint. -/
def findIn (l : List CEnode) (vin : CTxIn) : Option CEnode :=
  match l with
  | [] => none
  | mn :: rest => if mn.vin.prevout = vin.prevout then some mn else findIn rest vin

/-- The method `CEnodeMan::Find(const CTxIn&)`. -/
def Find (man : CEnodeMan) (vin : CTxIn) : Option CEnode := findIn man.vEnodes vin

/-- The method `CEnodeMan::Has`. -/
def Has (man : CEnodeMan) (vin : CTxIn) : Bool := (man.Find vin).isSome

/-- The method `CEnodeMan::Add`: the returned flag and the registry afterwards. -/
def Add (man : CEnodeMan) (mn : CEnode) : Bool × CEnodeMan :=
  match man.Find mn.vin with
  | none =>
    (true, { man with vEnodes := man.vEnodes ++ [mn]
                      indexEnodes := man.indexEnodes.AddEnodeVIN mn.vin
                      fEnodesAdded := true })
  | some _ => (false, man)

/-- The method `CEnodeMan::Clear`. -/
def Clear (man : CEnodeMan) : CEnodeMan :=
  { man with vEnodes := []
             mAskedUsForEnodeList := []
             mWeAskedForEnodeList := []
             mWeAskedForEnodeListEntry := []
             mapSeenEnodeBroadcast := []
             mapSeenEnodePing := []
             nDsqCount := 0
             nLastWatchdogVoteTime := 0
             indexEnodes := man.indexEnodes.Clear
             indexEnodesOld := man.indexEnodesOld.Clear }

/-- The method `CEnodeMan::IsWatchdogActive`. -/
def IsWatchdogActive (man : CEnodeMan) (GetTime : Int) : Bool :=
  decide (GetTime - man.nLastWatchdogVoteTime ≤ ENODE_WATCHDOG_MAX_SECONDS)

end CEnodeMan

/-! ## Peers and the constants of the active enode (`net.h`, `activeznode.h`) -/

/-- A peer connection `CNode`, reduced to what the enode code reads: its id and address. -/
structure CNode where
  id : Int
  addr : CService
deriving DecidableEq, Repr

def ACTIVE_ENODE_INITIAL : Int := 0
def ACTIVE_ENODE_SYNC_IN_PROCESS : Int := 1
def ACTIVE_ENODE_INPUT_TOO_NEW : Int := 2
def ACTIVE_ENODE_NOT_CAPABLE : Int := 3
def ACTIVE_ENODE_STARTED : Int := 4

/-- The enumeration `CActiveEnode::znode_type_enum_t`. -/
def ENODE_UNKNOWN : Int := 0
def ENODE_REMOTE : Int := 1
def ENODE_LOCAL : Int := 2

/-! ## The environment: collaborators that live outside the translated files -/

/-- Everything the enode code reads from the rest of the node: the clock, the chain, the
UTXO set, sporks, the sync state, the local activation state, and the hashing,
serialization and signature primitives. -/
structure Env where
  /-- The wall clock `GetTime()`. -/
  GetTime : Int
  /-- The network adjusted clock `GetAdjustedTime()`. -/
  GetAdjustedTime : Int
  ShutdownRequested : Bool
  /-- Whether `TRY_LOCK(cs_main, lockMain)` obtains the lock. -/
  lockMain : Bool
  /-- Whether `chainActive.Tip()` is non-null. -/
  hasTip : Bool
  /-- The height `chainActive.Height()`. -/
  chainHeight : Int
  /-- The function `GetBlockHash(hash, nHeight)`, `none` when it fails. -/
  GetBlockHash : Int → Option uint256
  /-- The lookup `mapBlockIndex.find(hash)`: `none` when absent, otherwise the height of the
  stored block index (`none` for a null index pointer). -/
  mapBlockIndex : uint256 → Option (Option Int)
  /-- Whether the UTXO set still holds a non-null output at the outpoint. -/
  hasUTXO : COutPoint → Bool
  /-- The function `GetInputAge(vin)`. -/
  GetInputAge : CTxIn → Int
  /-- The flag `fZNode`. -/
  fZNode : Bool
  /-- The key `activeEnode.pubKeyEnode`. -/
  activePubKeyEnode : CPubKey
  PROTOCOL_VERSION : Int
  /-- Whether `SPORK_10_ENODE_PAY_UPDATED_NODES` is active. -/
  sporkPayUpdatedNodes : Bool
  /-- The test `znodeSync.IsEnodeListSynced()`. -/
  IsEnodeListSynced : Bool
  /-- The test `znodeSync.IsSynced()`. -/
  IsSynced : Bool
  /-- The test `znodeSync.IsBlockchainSynced()`. -/
  IsBlockchainSynced : Bool
  /-- The hash `chainActive[nHeight]->GetBlockHash()` of the active chain. -/
  chainActiveHash : Int → uint256
  /-- The draw `GetRandInt(nMax)`; the first argument counts the draws made so far. -/
  GetRandInt : Nat → Int → Int
  /-- The ordering `operator<` of `uint256`, by which a `std::map` keyed by hashes iterates. -/
  uint256Less : uint256 → uint256 → Bool
  /-- The check `darkSendSigner.VerifyMessage(pubkey, vchSig, strMessage, strError)`. -/
  VerifyMessage : CPubKey → List Nat → String → Bool
  /-- The script `GetScriptForDestination(pubkey.GetID())`. -/
  GetScriptForDestination : CPubKey → CScript
  /-- The digest `CHashWriter::GetHash()` (double SHA-256) of the bytes written so far. -/
  sha256d : List Nat → uint256
  serUint256 : uint256 → List Nat
  serOutPoint : COutPoint → List Nat
  serTxIn : CTxIn → List Nat
  serPubKey : CPubKey → List Nat
  serScript : CScript → List Nat
  serInt : Int → List Nat
  serInt64 : Int → List Nat
  /-- The rendering `uint256::ToString()`. -/
  hashToString : uint256 → String
  /-- The rendering `CTxIn::ToString()`. -/
  vinToString : CTxIn → String
  /-- The compact form `arith_uint256::GetCompact(false)` of a score. -/
  GetCompact : Nat → Int
  /-- The function `GetEnodePayment(nHeight, blockValue)`. -/
  GetEnodePayment : Int → Int → Int
  /-- The method `CTransaction::GetValueOut()`. -/
  GetValueOut : CTransaction → Int
  /-- The rendering `CService::ToString()`. -/
  addrToString : CService → String
  /-- The rendering `pubkey.GetID().ToString()`. -/
  keyIdToString : CPubKey → String
  /-- The consensus parameter `nEnodePaymentsStartBlock`. -/
  nEnodePaymentsStartBlock : Int
  /-- Whether `SPORK_8_ENODE_PAYMENT_ENFORCEMENT` is active. -/
  sporkPaymentEnforcement : Bool
  /-- The flag `fLiteMode`. -/
  fLiteMode : Bool
  /-- The input `activeEnode.vin`. -/
  activeVin : CTxIn
  /-- The call `darkSendSigner.SignMessage(strMessage, vchSig, activeEnode.keyEnode)`: the
  signature, `none` when signing fails. -/
  SignMessage : String → Option (List Nat)
  /-- The rendering `COutPoint::ToStringShort()`. -/
  outPointToStringShort : COutPoint → String
  /-- The rendering `ScriptToAsmStr(script)`. -/
  ScriptToAsmStr : CScript → String
  /-- Whether `Params().NetworkIDString()` is the main network. -/
  isMainNet : Bool
  /-- Whether `Params().NetworkIDString()` is the regression-test network. -/
  isRegTest : Bool
  /-- The port `Params(CBaseChainParams::MAIN).GetDefaultPort()`. -/
  mainnetDefaultPort : Nat
  /-- The test `CNetAddr::IsIPv4()`. -/
  IsIPv4 : CService → Bool
  /-- The test `IsReachable(addr)`. -/
  IsReachable : CService → Bool
  /-- The test `CNetAddr::IsRoutable()`. -/
  IsRoutable : CService → Bool
  /-- The amount `coins.vout[n].nValue` of an unspent outpoint. -/
  utxoValue : COutPoint → Int
  /-- The height `coins.nHeight` of the transaction of an unspent outpoint. -/
  utxoHeight : COutPoint → Int
  /-- The amount `ENODE_COIN_REQUIRED * COIN`. -/
  nEnodeCollateral : Int
  /-- The consensus parameter `nEnodeMinimumConfirmations`. -/
  nEnodeMinimumConfirmations : Int
  /-- The check `darkSendSigner.IsVinAssociatedWithPubkey(vin, pubkey)`. -/
  IsVinAssociatedWithPubkey : CTxIn → CPubKey → Bool
  /-- The time of the block in which the transaction of an input reached the required
  confirmations, `none` when the block of that transaction is not in the block index. -/
  collateralConfBlockTime : CTxIn → Option Int
  serService : CService → List Nat
  /-- The type tag `activeEnode.eType`. -/
  activeType : Int
  /-- The flag `activeEnode.fPingerEnabled`. -/
  activePingerEnabled : Bool
  /-- The address `activeEnode.service`. -/
  activeService : CService
  /-- The status `activeEnode.nState`. -/
  activeState : Int
  /-- The text `activeEnode.strNotCapableReason`. -/
  activeNotCapableReason : String
  /-- The flag `fListen`. -/
  fListen : Bool
  /-- The function `GetLocal(addr, paddrPeer)`: the local address found, `none` when it returns
  false; the argument is the peer address, `none` for a null pointer. -/
  GetLocal : Option CService → Option CService
  /-- The peers `vNodes`. -/
  vNodes : List CNode
  /-- The flag `pnode->fSuccessfullyConnected`. -/
  fSuccessfullyConnected : CNode → Bool
  /-- Whether `ConnectNode(CAddress(service, NODE_NETWORK), NULL, false, true)` returns a peer. -/
  ConnectNode : CService → Bool
  /-- Whether `pwalletMain` is not null. -/
  hasWallet : Bool
  /-- The test `pwalletMain->IsLocked()`. -/
  walletIsLocked : Bool
  /-- The amount `pwalletMain->GetBalance()`. -/
  walletBalance : Int
  /-- The call `pwalletMain->GetEnodeVinAndKeys(vin, pubKeyCollateral, keyCollateral)`: the
  input and the public key of the collateral, `none` when it returns false. -/
  walletEnodeVinAndKeys : Option (CTxIn × CPubKey)
  /-- The call `darkSendSigner.SignMessage(strMessage, vchSig, keyCollateral)` with the key of
  the collateral the wallet returned: the signature, `none` when signing fails. -/
  SignMessageCollateral : String → Option (List Nat)
  /-- The flag `fImporting`. -/
  fImporting : Bool
  /-- The flag `fReindex`. -/
  fReindex : Bool

/-- The protocol floors of `znode-payments.h`. -/
def MIN_ENODE_PAYMENT_PROTO_VERSION_1 : Int := 90023
def MIN_ENODE_PAYMENT_PROTO_VERSION_2 : Int := 90024

/-- The method `CEnodePayments::GetMinEnodePaymentsProto`. -/
def GetMinEnodePaymentsProto (env : Env) : Int :=
  if env.sporkPayUpdatedNodes then MIN_ENODE_PAYMENT_PROTO_VERSION_2
  else MIN_ENODE_PAYMENT_PROTO_VERSION_1

/-- The method `CEnodePing::GetHash`: the digest of the input and the signature time. -/
def CEnodePing.GetHash (env : Env) (p : CEnodePing) : uint256 :=
  env.sha256d (env.serTxIn p.vin ++ env.serInt64 p.sigTime)

/-- The method `CEnodeBroadcast::GetHash`: input, collateral key and signature time. -/
def CEnodeBroadcast.GetHash (env : Env) (mnb : CEnodeBroadcast) : uint256 :=
  env.sha256d (env.serTxIn mnb.mn.vin ++ env.serPubKey mnb.mn.pubKeyCollateralAddress
    ++ env.serInt64 mnb.mn.sigTime)

/-- The constructor `CEnode()`. -/
def CEnode.default (env : Env) : CEnode :=
  { vin := CTxIn.default
    addr := CService.default
    pubKeyCollateralAddress := []
    pubKeyEnode := []
    lastPing := CEnodePing.default
    vchSig := []
    sigTime := env.GetAdjustedTime
    nLastDsq := 0
    nTimeLastChecked := 0
    nTimeLastPaid := 0
    nTimeLastWatchdogVote := 0
    nActiveState := state.ENODE_ENABLED
    nCacheCollateralBlock := 0
    nBlockLastPaid := 0
    nProtocolVersion := env.PROTOCOL_VERSION
    nPoSeBanScore := 0
    nPoSeBanHeight := 0
    fAllowMixingTx := true
    fUnitTest := false }

/-- The constructor `CEnodeBroadcast()`. -/
def CEnodeBroadcast.default (env : Env) : CEnodeBroadcast :=
  { mn := CEnode.default env, fRecovery := false }

/-- The method `CEnode::IsPingedWithin(nSeconds, nTimeToCheckAt)`; the time `-1` (the default
argument) stands for the adjusted clock.  The age of the ping is the `int64_t` difference
the code computes. -/
def CEnode.IsPingedWithin (env : Env) (mn : CEnode) (nSeconds : Int) (nTimeToCheckAt : Int) :
    Bool :=
  if CEnodePing.eq mn.lastPing CEnodePing.default then false
  else
    let t := if nTimeToCheckAt = -1 then env.GetAdjustedTime else nTimeToCheckAt
    decide (int64 (t - mn.lastPing.sigTime) < nSeconds)

/-- The method `CEnode::IsBroadcastedWithin`; the age is an `int64_t` difference. -/
def CEnode.IsBroadcastedWithin (env : Env) (mn : CEnode) (nSeconds : Int) : Bool :=
  decide (int64 (env.GetAdjustedTime - mn.sigTime) < nSeconds)

/-! ## The periodic check of a record (`CEnode::Check`) -/

/-- The part of `CEnode::Check` after the ban handling: protocol, ping ages, watchdog and
the pre-enabled delay decide the state.  The differences of times that come from a peer
(`sigTime`, `lastPing.sigTime`, `nTimeLastWatchdogVote`) are `int64_t` differences. -/
def CEnode.checkLifecycle (env : Env) (man : CEnodeMan) (mn : CEnode) : CEnode :=
  let fOurEnode := env.fZNode && decide (env.activePubKeyEnode = mn.pubKeyEnode)
  let fRequireUpdate := decide (mn.nProtocolVersion < GetMinEnodePaymentsProto env) ||
    (fOurEnode && decide (mn.nProtocolVersion < env.PROTOCOL_VERSION))
  if fRequireUpdate then { mn with nActiveState := state.ENODE_UPDATE_REQUIRED }
  else
    let fWaitForPing := !env.IsEnodeListSynced &&
      !mn.IsPingedWithin env ENODE_MIN_MNP_SECONDS (-1)
    if fWaitForPing && !fOurEnode &&
        (mn.IsExpired || mn.IsWatchdogExpired || mn.IsNewStartRequired) then mn
    else if (!fWaitForPing || fOurEnode) &&
        !mn.IsPingedWithin env ENODE_NEW_START_REQUIRED_SECONDS (-1) then
      { mn with nActiveState := state.ENODE_NEW_START_REQUIRED }
    else if (!fWaitForPing || fOurEnode) &&
        (env.IsSynced && man.IsWatchdogActive env.GetTime) &&
        decide (int64 (env.GetTime - mn.nTimeLastWatchdogVote) > ENODE_WATCHDOG_MAX_SECONDS) then
      { mn with nActiveState := state.ENODE_WATCHDOG_EXPIRED }
    else if (!fWaitForPing || fOurEnode) &&
        !mn.IsPingedWithin env ENODE_EXPIRATION_SECONDS (-1) then
      { mn with nActiveState := state.ENODE_EXPIRED }
    else if int64 (mn.lastPing.sigTime - mn.sigTime) < ENODE_MIN_MNP_SECONDS then
      { mn with nActiveState := state.ENODE_PRE_ENABLED }
    else { mn with nActiveState := state.ENODE_ENABLED }

/-- The part of `CEnode::Check` that handles the PoSe ban, given the height to use. -/
def CEnode.checkBan (env : Env) (man : CEnodeMan) (mn : CEnode) (nHeight : Int) : CEnode :=
  if mn.IsPoSeBanned then
    if nHeight < mn.nPoSeBanHeight then mn
    else CEnode.checkLifecycle env man mn.DecreasePoSeBanScore
  else if mn.nPoSeBanScore ≥ ENODE_POSE_BAN_MAX_SCORE then
    { mn with nActiveState := state.ENODE_POSE_BAN, nPoSeBanHeight := nHeight + man.size }
  else CEnode.checkLifecycle env man mn

/-- The method `CEnode::Check(fForce)`. -/
def CEnode.Check (env : Env) (man : CEnodeMan) (mn : CEnode) (fForce : Bool) : CEnode :=
  if env.ShutdownRequested then mn
  else if !fForce && decide (env.GetTime - mn.nTimeLastChecked < ENODE_CHECK_SECONDS) then mn
  else
    let mn1 := { mn with nTimeLastChecked := env.GetTime }
    if mn1.IsOutpointSpent then mn1
    else if !mn1.fUnitTest then
      if !env.lockMain then mn1
      else if !env.hasUTXO mn1.vin.prevout then
        { mn1 with nActiveState := state.ENODE_OUTPOINT_SPENT }
      else CEnode.checkBan env man mn1 env.chainHeight
    else CEnode.checkBan env man mn1 0

/-! ## Pings (`CEnodePing`, `znode.cpp`) -/

/-- The method `CEnodePing::SimpleCheck`: the verdict and the DoS score. -/
def CEnodePing.SimpleCheck (env : Env) (p : CEnodePing) : Bool × Int :=
  if p.sigTime > env.GetAdjustedTime + 60 * 60 then (false, 1)
  else
    match env.mapBlockIndex p.blockHash with
    | none => (false, 0)
    | some _ => (true, 0)

/-- The message a ping signature covers. -/
def CEnodePing.strMessage (env : Env) (p : CEnodePing) : String :=
  env.vinToString p.vin ++ env.hashToString p.blockHash ++ toString p.sigTime

/-- The method `CEnodePing::CheckSignature`: the verdict and the DoS score. -/
def CEnodePing.CheckSignature (env : Env) (p : CEnodePing) (pubKeyEnode : CPubKey) :
    Bool × Int :=
  if !env.VerifyMessage pubKeyEnode p.vchSig (p.strMessage env) then (false, 33)
  else (true, 0)

/-- The result of a validation step that may touch a record and the registry tables. -/
structure Outcome where
  ok : Bool
  nDos : Int
  mn : CEnode
  man : CEnodeMan

/-- The method `CEnodePing::CheckAndUpdate` for a record that exists (`pmn != NULL`). -/
def CEnodePing.CheckAndUpdate (env : Env) (man : CEnodeMan) (p : CEnodePing) (pmn : CEnode)
    (fFromNewBroadcast : Bool) : Outcome :=
  let sc := p.SimpleCheck env
  if !sc.1 then { ok := false, nDos := sc.2, mn := pmn, man := man }
  else if !fFromNewBroadcast && (pmn.IsUpdateRequired || pmn.IsNewStartRequired) then
    { ok := false, nDos := 0, mn := pmn, man := man }
  else
    let tooOld : Bool :=
      match env.mapBlockIndex p.blockHash with
      | some (some h) => decide (h < env.chainHeight - 24)
      | _ => false
    if tooOld then { ok := false, nDos := 0, mn := pmn, man := man }
    else if pmn.IsPingedWithin env (ENODE_MIN_MNP_SECONDS - 60) p.sigTime then
      { ok := false, nDos := 0, mn := pmn, man := man }
    else
      let cs := p.CheckSignature env pmn.pubKeyEnode
      if !cs.1 then { ok := false, nDos := cs.2, mn := pmn, man := man }
      else
        let mn1 := { pmn with lastPing := p }
        let hash := (CEnodeBroadcast.ofEnode mn1).GetHash env
        let seen :=
          match man.mapSeenEnodeBroadcast.find hash with
          | some e =>
            man.mapSeenEnodeBroadcast.set hash
              (e.1, { e.2 with mn := { e.2.mn with lastPing := p } })
          | none => man.mapSeenEnodeBroadcast
        let man1 := { man with mapSeenEnodeBroadcast := seen }
        let mn2 := CEnode.Check env man1 mn1 true
        { ok := mn2.IsEnabled, nDos := cs.2, mn := mn2, man := man1 }

namespace CEnodeMan

/-- Writing a record back through the pointer `Find` returned: the first entry with that
outpoint is replaced. -/
def storeIn (l : List CEnode) (mn : CEnode) : List CEnode :=
  match l with
  | [] => []
  | x :: rest => if x.vin.prevout = mn.vin.prevout then mn :: rest else x :: storeIn rest mn

/-- The removal branch of the first loop of `CEnodeMan::CheckAndRemove`: every record whose
collateral is spent is erased together with its seen announcement and its ask entry.  (The
other branch of that loop schedules recovery requests and leaves the vector alone.) -/
def removeSpent (env : Env) (man : CEnodeMan) : List CEnode → CEnodeMan
  | [] => man
  | mn :: rest =>
    if mn.IsOutpointSpent then
      let man1 := { man with
        mapSeenEnodeBroadcast :=
          man.mapSeenEnodeBroadcast.erase ((CEnodeBroadcast.ofEnode mn).GetHash env)
        mWeAskedForEnodeListEntry := man.mWeAskedForEnodeListEntry.erase mn.vin.prevout
        fEnodesRemoved := true }
      removeSpent env man1 rest
    else
      let r := removeSpent env man rest
      { r with vEnodes := mn :: r.vEnodes }

/-- The spent-enode removal of `CEnodeMan::CheckAndRemove`, run over the whole vector. -/
def CheckAndRemoveSpent (env : Env) (man : CEnodeMan) : CEnodeMan :=
  removeSpent env { man with vEnodes := [] } man.vEnodes

/-- No two entries of the vector share a collateral outpoint. -/
def Unique (man : CEnodeMan) : Prop :=
  man.vEnodes.Pairwise (fun a b => a.vin.prevout ≠ b.vin.prevout)

end CEnodeMan

/-! ## Payment votes (`znode-payments.h`, `znode-payments.cpp`) -/

def MNPAYMENTS_SIGNATURES_REQUIRED : Int := 6
def MNPAYMENTS_SIGNATURES_TOTAL : Int := 10

/-- The class `CEnodePayee`: a payee script and the hashes of the votes naming it. -/
structure CEnodePayee where
  scriptPubKey : CScript
  vecVoteHashes : List uint256
deriving DecidableEq, Repr

namespace CEnodePayee

def GetPayee (p : CEnodePayee) : CScript := p.scriptPubKey

def AddVoteHash (p : CEnodePayee) (hashIn : uint256) : CEnodePayee :=
  { p with vecVoteHashes := p.vecVoteHashes ++ [hashIn] }

def GetVoteCount (p : CEnodePayee) : Int := p.vecVoteHashes.length

end CEnodePayee

/-- The class `CEnodePaymentVote`. -/
structure CEnodePaymentVote where
  vinEnode : CTxIn
  nBlockHeight : Int
  payee : CScript
  vchSig : List Nat
deriving DecidableEq, Repr

namespace CEnodePaymentVote

/-- The method `CEnodePaymentVote::GetHash`: payee, height and voter outpoint (the
signature is not hashed). -/
def GetHash (env : Env) (v : CEnodePaymentVote) : uint256 :=
  env.sha256d (env.serScript v.payee ++ env.serInt v.nBlockHeight
    ++ env.serOutPoint v.vinEnode.prevout)

def IsVerified (v : CEnodePaymentVote) : Bool := !v.vchSig.isEmpty

def MarkAsNotVerified (v : CEnodePaymentVote) : CEnodePaymentVote := { v with vchSig := [] }

end CEnodePaymentVote

/-- The class `CEnodeBlockPayees`: the payees voted for at one height. -/
structure CEnodeBlockPayees where
  nBlockHeight : Int
  vecPayees : List CEnodePayee
deriving DecidableEq, Repr

namespace CEnodeBlockPayees

/-- The loop of `AddPayee`: the hash joins the first entry with the same script, or a new
single-vote entry is appended. -/
def addPayeeTo (l : List CEnodePayee) (payee : CScript) (hash : uint256) : List CEnodePayee :=
  match l with
  | [] => [{ scriptPubKey := payee, vecVoteHashes := [hash] }]
  | p :: rest =>
    if p.GetPayee = payee then p.AddVoteHash hash :: rest
    else p :: addPayeeTo rest payee hash

/-- The method `CEnodeBlockPayees::AddPayee`. -/
def AddPayee (env : Env) (bp : CEnodeBlockPayees) (vote : CEnodePaymentVote) :
    CEnodeBlockPayees :=
  { bp with vecPayees := addPayeeTo bp.vecPayees vote.payee (vote.GetHash env) }

/-- The loop of `GetBestPayee`, carrying `payeeRet` and `nVotes`. -/
def bestLoop (l : List CEnodePayee) (payeeRet : CScript) (nVotes : Int) : CScript × Int :=
  match l with
  | [] => (payeeRet, nVotes)
  | p :: rest =>
    if p.GetVoteCount > nVotes then bestLoop rest p.GetPayee p.GetVoteCount
    else bestLoop rest payeeRet nVotes

/-- The method `CEnodeBlockPayees::GetBestPayee`: the returned flag and `payeeRet` afterwards. -/
def GetBestPayee (bp : CEnodeBlockPayees) (payeeRet : CScript) : Bool × CScript :=
  if bp.vecPayees.length = 0 then (false, payeeRet)
  else
    let r := bestLoop bp.vecPayees payeeRet (-1)
    (decide (r.2 > -1), r.1)

/-- The method `CEnodeBlockPayees::HasPayeeWithVotes`. -/
def HasPayeeWithVotes (bp : CEnodeBlockPayees) (payeeIn : CScript) (nVotesReq : Int) : Bool :=
  bp.vecPayees.any (fun p => decide (p.GetVoteCount ≥ nVotesReq) && decide (p.GetPayee = payeeIn))

/-- The first loop of `IsTransactionValid`: the largest vote count. -/
def maxSignatures (l : List CEnodePayee) (nMaxSignatures : Int) : Int :=
  match l with
  | [] => nMaxSignatures
  | p :: rest =>
    if p.GetVoteCount ≥ nMaxSignatures then maxSignatures rest p.GetVoteCount
    else maxSignatures rest nMaxSignatures

/-- The inner loop of `IsTransactionValid`: some output pays the script the given amount. -/
def paysTo (vout : List CTxOut) (payee : CScript) (nEnodePayment : Int) : Bool :=
  match vout with
  | [] => false
  | txout :: rest =>
    if payee = txout.scriptPubKey ∧ nEnodePayment = txout.nValue then true
    else paysTo rest payee nEnodePayment

/-- The second loop of `IsTransactionValid`, carrying `hasValidPayee`: the first component
tells whether the loop returned true early, the second is `hasValidPayee` afterwards. -/
def validLoop (l : List CEnodePayee) (vout : List CTxOut) (nEnodePayment : Int)
    (hasValidPayee : Bool) : Bool × Bool :=
  match l with
  | [] => (false, hasValidPayee)
  | p :: rest =>
    if p.GetVoteCount ≥ MNPAYMENTS_SIGNATURES_REQUIRED then
      if paysTo vout p.GetPayee nEnodePayment then (true, true)
      else validLoop rest vout nEnodePayment true
    else validLoop rest vout nEnodePayment hasValidPayee

/-- The method `CEnodeBlockPayees::IsTransactionValid`. -/
def IsTransactionValid (env : Env) (bp : CEnodeBlockPayees) (txNew : CTransaction) : Bool :=
  let nEnodePayment := env.GetEnodePayment bp.nBlockHeight (env.GetValueOut txNew)
  let nMaxSignatures := maxSignatures bp.vecPayees 0
  if nMaxSignatures < MNPAYMENTS_SIGNATURES_REQUIRED then true
  else
    let r := validLoop bp.vecPayees txNew.vout nEnodePayment false
    if r.1 then true
    else if !r.2 then true
    else false

end CEnodeBlockPayees

/-- The class `CEnodePayments`: votes by hash, payees by height, last vote height by voter,
and the height of the current tip (`none` while `pCurrentBlockIndex` is null). -/
structure CEnodePayments where
  mapEnodePaymentVotes : StdMap uint256 CEnodePaymentVote
  mapEnodeBlocks : StdMap Int CEnodeBlockPayees
  mapEnodesLastVote : StdMap COutPoint Int
  pCurrentBlockIndex : Option Int
deriving DecidableEq, Repr

namespace CEnodePayments

/-- The store of a freshly started node. -/
def empty : CEnodePayments :=
  { mapEnodePaymentVotes := [], mapEnodeBlocks := [], mapEnodesLastVote := [],
    pCurrentBlockIndex := none }

/-- The method `CEnodePayments::HasVerifiedPaymentVote`. -/
def HasVerifiedPaymentVote (s : CEnodePayments) (hashIn : uint256) : Bool :=
  match s.mapEnodePaymentVotes.find hashIn with
  | some v => v.IsVerified
  | none => false

/-- The method `CEnodePayments::AddPaymentVote`: the returned flag and the store afterwards. -/
def AddPaymentVote (env : Env) (s : CEnodePayments) (vote : CEnodePaymentVote) :
    Bool × CEnodePayments :=
  match env.GetBlockHash (vote.nBlockHeight - 101) with
  | none => (false, s)
  | some _ =>
    if s.HasVerifiedPaymentVote (vote.GetHash env) then (false, s)
    else
      let votes := s.mapEnodePaymentVotes.set (vote.GetHash env) vote
      let blocks :=
        if !s.mapEnodeBlocks.count vote.nBlockHeight then
          s.mapEnodeBlocks.set vote.nBlockHeight
            { nBlockHeight := vote.nBlockHeight, vecPayees := [] }
        else s.mapEnodeBlocks
      let blocks2 :=
        match blocks.find vote.nBlockHeight with
        | some bp => blocks.set vote.nBlockHeight (bp.AddPayee env vote)
        | none => blocks
      (true, { s with mapEnodePaymentVotes := votes, mapEnodeBlocks := blocks2 })

/-- The method `CEnodePayments::GetBlockPayee`. -/
def GetBlockPayee (s : CEnodePayments) (nBlockHeight : Int) (payee : CScript) : Bool × CScript :=
  match s.mapEnodeBlocks.find nBlockHeight with
  | some bp => bp.GetBestPayee payee
  | none => (false, payee)

/-- The method `CEnodePayments::IsTransactionValid`. -/
def IsTransactionValid (env : Env) (s : CEnodePayments) (txNew : CTransaction)
    (nBlockHeight : Int) : Bool :=
  match s.mapEnodeBlocks.find nBlockHeight with
  | some bp => bp.IsTransactionValid env txNew
  | none => true

/-- The loop of `IsScheduled` over the heights `h, h+1, ...` (`fuel` of them), carrying the
local `payee`. -/
def scheduledLoop (s : CEnodePayments) (mnpayee : CScript) (nNotBlockHeight : Int)
    (h : Int) (fuel : Nat) (payee : CScript) : Bool :=
  match fuel with
  | 0 => false
  | fuel + 1 =>
    if h = nNotBlockHeight then scheduledLoop s mnpayee nNotBlockHeight (h + 1) fuel payee
    else
      match s.mapEnodeBlocks.find h with
      | none => scheduledLoop s mnpayee nNotBlockHeight (h + 1) fuel payee
      | some bp =>
        let r := bp.GetBestPayee payee
        if r.1 && decide (mnpayee = r.2) then true
        else scheduledLoop s mnpayee nNotBlockHeight (h + 1) fuel r.2

/-- The method `CEnodePayments::IsScheduled`: the heights from the tip to the tip plus
eight are examined, `nNotBlockHeight` excepted. -/
def IsScheduled (env : Env) (s : CEnodePayments) (mn : CEnode) (nNotBlockHeight : Int) : Bool :=
  match s.pCurrentBlockIndex with
  | none => false
  | some tip =>
    scheduledLoop s (env.GetScriptForDestination mn.pubKeyCollateralAddress) nNotBlockHeight
      tip 9 []

/-- Processing the same vote `n` times with `AddPaymentVote`: the flags returned, in order,
and the store afterwards. -/
def AddPaymentVoteTimes (env : Env) (s : CEnodePayments) (vote : CEnodePaymentVote) :
    Nat → List Bool × CEnodePayments
  | 0 => ([], s)
  | n + 1 =>
    let r := AddPaymentVote env s vote
    let rest := AddPaymentVoteTimes env r.2 vote n
    (r.1 :: rest.1, rest.2)

/-- How many times a vote hash is recorded under a payee script at a height. -/
def hashCount (s : CEnodePayments) (nBlockHeight : Int) (payee : CScript) (hash : uint256) :
    Nat :=
  match s.mapEnodeBlocks.find nBlockHeight with
  | none => 0
  | some bp =>
    ((bp.vecPayees.filter (fun p => decide (p.scriptPubKey = payee))).map
      (fun p => p.vecVoteHashes.count hash)).sum

/-- How many entries the votes-by-hash map holds under a hash. -/
def voteEntries (s : CEnodePayments) (hash : uint256) : Nat :=
  (s.mapEnodePaymentVotes.map Prod.fst).count hash

end CEnodePayments

/-! ## Scores and orderings (`znode.cpp`, `znodeman.cpp`) -/

/-- The conversion `UintToArith256`: the value as a 256-bit unsigned integer. -/
def UintToArith256 (x : uint256) : Nat := x % 2 ^ 256

/-- The method `CEnode::CalculateScore`.  `aux` is the outpoint hash plus the output index
in 256-bit arithmetic; the two digests are taken over the serialized block hash and over
the serialized block hash followed by `aux`. -/
def CEnode.CalculateScore (env : Env) (mn : CEnode) (blockHash : uint256) : Nat :=
  let aux := (UintToArith256 mn.vin.prevout.hash + mn.vin.prevout.n) % 2 ^ 256
  let hash2 := UintToArith256 (env.sha256d (env.serUint256 blockHash))
  let hash3 := UintToArith256 (env.sha256d (env.serUint256 blockHash ++ env.serUint256 aux))
  if hash3 > hash2 then hash3 - hash2 else hash2 - hash3

/-- Modelled from the spec: the ordering `operator<` of `COutPoint`, which `CTxIn` compares
by (declared outside src; the spec orders outpoints lexicographically): transaction hash
first, output index second. -/
def COutPoint.lt (a b : COutPoint) : Bool :=
  decide (a.hash < b.hash) || (decide (a.hash = b.hash) && decide (a.n < b.n))

/-- Modelled from the spec: the ordering `operator<` of `CTxIn` (declared outside src; the
spec identifies an enode by its collateral outpoint): the outpoints are compared. -/
def CTxIn.lt (a b : CTxIn) : Bool := COutPoint.lt a.prevout b.prevout

/-- The comparator `CompareLastPaidBlock`: last paid block first, input as tiebreak. -/
def CompareLastPaidBlock (t1 t2 : Int × CEnode) : Bool :=
  if t1.1 ≠ t2.1 then decide (t1.1 < t2.1) else CTxIn.lt t1.2.vin t2.2.vin

/-- The comparator `CompareScoreMN`: score first, input as tiebreak. -/
def CompareScoreMN (t1 t2 : Int × CEnode) : Bool :=
  if t1.1 ≠ t2.1 then decide (t1.1 < t2.1) else CTxIn.lt t1.2.vin t2.2.vin

/-- The relation "not after" of a comparator, by which `sort` arranges a vector. -/
def notAfter (cmp : Int × CEnode → Int × CEnode → Bool) (a b : Int × CEnode) : Prop :=
  cmp b a = false

instance notAfter.decidableRel (cmp : Int × CEnode → Int × CEnode → Bool) :
    DecidableRel (notAfter cmp) :=
  fun a b => inferInstanceAs (Decidable (cmp b a = false))

/-- The call `sort(v.begin(), v.end(), cmp)`: the vector in ascending order of `cmp`.
Both comparators order entries with different outpoints strictly, so for a registry
without duplicate outpoints the sorted vector is determined; entries that compare
equivalent keep their relative order here. -/
def sortAscending (cmp : Int × CEnode → Int × CEnode → Bool) (v : List (Int × CEnode)) :
    List (Int × CEnode) :=
  List.insertionSort (notAfter cmp) v

/-- The call `sort(v.rbegin(), v.rend(), cmp)`: the vector in descending order of `cmp`. -/
def sortDescending (cmp : Int × CEnode → Int × CEnode → Bool) (v : List (Int × CEnode)) :
    List (Int × CEnode) :=
  (List.insertionSort (notAfter cmp) v).reverse

/-! ## Payment eligibility (`CEnodeMan::GetNotQualifyReason`) -/

/-- The method `CEnode::GetCollateralAge`: the age and the record with its cached
collateral block. -/
def CEnode.GetCollateralAge (env : Env) (mn : CEnode) : Int × CEnode :=
  if !env.lockMain || !env.hasTip then (-1, mn)
  else
    let nHeight := env.chainHeight
    if mn.nCacheCollateralBlock = 0 then
      let nInputAge := env.GetInputAge mn.vin
      if nInputAge > 0 then
        (nHeight - (nHeight - nInputAge), { mn with nCacheCollateralBlock := nHeight - nInputAge })
      else (nInputAge, mn)
    else (nHeight - mn.nCacheCollateralBlock, mn)

/-- Halving `n` until it drops below 2, at most `fuel` times. -/
def log2Fuel : Nat → Nat → Nat
  | 0, _ => 0
  | fuel + 1, n => if n < 2 then 0 else log2Fuel fuel (n / 2) + 1

/-- The position of the leading bit of `n`. -/
def floorLog2 (n : Nat) : Nat := log2Fuel n n

/-- Rounding of a real number given in units of `2^-51` to the nearest `double` (53
significant bits, ties to even), the result again in units of `2^-51`.  Every quantity of
the "too new" test is a multiple of `2^-51` well inside the normal range. -/
def roundToDouble (k : Int) : Int :=
  let a := k.natAbs
  if a < 2 ^ 53 then k
  else
    let e := floorLog2 a - 52
    let q := a / 2 ^ e
    let r := a % 2 ^ e
    let half := 2 ^ (e - 1)
    let q1 := if r > half ∨ (r = half ∧ q % 2 = 1) then q + 1 else q
    k.sign * ((q1 * 2 ^ e : Nat) : Int)

/-- The literal `2.6` as a `double`, in units of `2^-51` (bit pattern `0x4004CCCCCCCCCCCD`). -/
def double_2_6 : Int := 5854679515581645

/-- An integer converted to `double`, in units of `2^-51`. -/
def intToDouble (x : Int) : Int := roundToDouble (x * 2 ^ 51)

/-- The test `mn.sigTime + (nMnCount * 2.6 * 60) > GetAdjustedTime()`, evaluated as the
compiler does: the count is converted to `double`, each product and the sum are rounded to
`double`, and both sides of the comparison are `double`. -/
def tooNew (sigTime nMnCount now : Int) : Bool :=
  let p1 := roundToDouble (nMnCount * double_2_6)
  let p2 := roundToDouble (p1 * 60)
  let sum := roundToDouble (intToDouble sigTime + p2)
  decide (sum > intToDouble now)

/-- The reasons `GetNotQualifyReason` reports, in the order it tests them. -/
inductive NotQualifyReason where
  | notValidForPayment
  | invalidProtocolVersion
  | isScheduled
  | tooNew
  | collateralAge
deriving DecidableEq, Repr

/-- The method `CEnodeMan::GetNotQualifyReason`: the reason (`none` for the `NULL` of an
eligible enode) and the record, whose collateral cache the age test may fill. -/
def CEnodeMan.GetNotQualifyReason (env : Env) (pay : CEnodePayments) (mn : CEnode)
    (nBlockHeight : Int) (fFilterSigTime : Bool) (nMnCount : Int) :
    Option NotQualifyReason × CEnode :=
  if !mn.IsValidForPayment then (some NotQualifyReason.notValidForPayment, mn)
  else if mn.nProtocolVersion < GetMinEnodePaymentsProto env then
    (some NotQualifyReason.invalidProtocolVersion, mn)
  else if pay.IsScheduled env mn nBlockHeight then (some NotQualifyReason.isScheduled, mn)
  else if fFilterSigTime && tooNew mn.sigTime nMnCount env.GetAdjustedTime then
    (some NotQualifyReason.tooNew, mn)
  else
    let age := mn.GetCollateralAge env
    if age.1 < nMnCount then (some NotQualifyReason.collateralAge, age.2)
    else (none, age.2)

/-! ## The payment queue (`CEnodeMan::GetNextEnodeInQueueForPayment`) -/

namespace CEnodeMan

/-- The method `CEnodeMan::CountEnabled`; the protocol `-1` stands for the payment floor. -/
def CountEnabled (env : Env) (man : CEnodeMan) (nProtocolVersion : Int) : Int :=
  let proto := if nProtocolVersion = -1 then GetMinEnodePaymentsProto env else nProtocolVersion
  ((man.vEnodes.filter
    (fun mn => !(decide (mn.nProtocolVersion < proto) || !mn.IsEnabled))).length : Int)

/-- The first loop of `GetNextEnodeInQueueForPayment`: every record is tested for
eligibility; the records after the test and the vector `vecEnodeLastPaid`. -/
def qualifyLoop (env : Env) (pay : CEnodePayments) (nBlockHeight : Int)
    (fFilterSigTime : Bool) (nMnCount : Int) :
    List CEnode → List CEnode × List (Int × CEnode)
  | [] => ([], [])
  | mn :: rest =>
    let r := GetNotQualifyReason env pay mn nBlockHeight fFilterSigTime nMnCount
    let t := qualifyLoop env pay nBlockHeight fFilterSigTime nMnCount rest
    match r.1 with
    | some _ => (r.2 :: t.1, t.2)
    | none => (r.2 :: t.1, (r.2.GetLastPaidBlock, r.2) :: t.2)

/-- The last loop of `GetNextEnodeInQueueForPayment`: the scores of the leading entries are
compared until `nCountTenth` reaches `nTenthNetwork`. -/
def scoreLoop (env : Env) (blockHash : uint256) (nTenthNetwork : Int) :
    List (Int × CEnode) → Int → Nat → Option CEnode → Option CEnode
  | [], _, _, pBestEnode => pBestEnode
  | s :: rest, nCountTenth, nHighest, pBestEnode =>
    let nScore := s.2.CalculateScore env blockHash
    let nHighest1 := if nScore > nHighest then nScore else nHighest
    let pBest1 := if nScore > nHighest then some s.2 else pBestEnode
    if nCountTenth + 1 ≥ nTenthNetwork then pBest1
    else scoreLoop env blockHash nTenthNetwork rest (nCountTenth + 1) nHighest1 pBest1

/-- The result of `GetNextEnodeInQueueForPayment`: the enode returned (`none` for `NULL`),
the out parameter `nCount`, and the registry with the collateral caches filled. -/
structure QueueResult where
  pBestEnode : Option CEnode
  nCount : Int
  man : CEnodeMan

/-- The body of `GetNextEnodeInQueueForPayment` after the retry test: sort, block hash,
and the score loop over the oldest entries. -/
def selectFromQueue (env : Env) (man : CEnodeMan) (nBlockHeight : Int) (nMnCount : Int)
    (vecEnodeLastPaid : List (Int × CEnode)) : QueueResult :=
  let sorted := sortAscending CompareLastPaidBlock vecEnodeLastPaid
  match env.GetBlockHash (nBlockHeight - 101) with
  | none => { pBestEnode := none, nCount := vecEnodeLastPaid.length, man := man }
  | some blockHash =>
    let nTenthNetwork := Int.tdiv nMnCount 10
    { pBestEnode := scoreLoop env blockHash nTenthNetwork sorted 0 0 none
      nCount := vecEnodeLastPaid.length
      man := man }

/-- The method `GetNextEnodeInQueueForPayment(nBlockHeight, false, nCount)`. -/
def GetNextEnodeInQueueForPaymentNoFilter (env : Env) (pay : CEnodePayments) (man : CEnodeMan)
    (nBlockHeight : Int) : QueueResult :=
  let nMnCount := man.CountEnabled env (-1)
  let q := qualifyLoop env pay nBlockHeight false nMnCount man.vEnodes
  selectFromQueue env { man with vEnodes := q.1 } nBlockHeight nMnCount q.2

/-- The method `CEnodeMan::GetNextEnodeInQueueForPayment(nBlockHeight, fFilterSigTime,
nCount)`.  The recursive call is made with the filter off, where the retry test is false,
so it is the function above. -/
def GetNextEnodeInQueueForPayment (env : Env) (pay : CEnodePayments) (man : CEnodeMan)
    (nBlockHeight : Int) (fFilterSigTime : Bool) : QueueResult :=
  let nMnCount := man.CountEnabled env (-1)
  let q := qualifyLoop env pay nBlockHeight fFilterSigTime nMnCount man.vEnodes
  let man1 := { man with vEnodes := q.1 }
  if fFilterSigTime && decide ((q.2.length : Int) < Int.tdiv nMnCount 3) then
    GetNextEnodeInQueueForPaymentNoFilter env pay man1 nBlockHeight
  else selectFromQueue env man1 nBlockHeight nMnCount q.2

/-! ## Ranks (`CEnodeMan::GetEnodeRank`) -/

/-- The scan of `GetEnodeRank`: the enodes that pass the protocol and state filters, each
with its compact score. -/
def rankCandidates (env : Env) (man : CEnodeMan) (blockHash : uint256) (nMinProtocol : Int)
    (fOnlyActive : Bool) : List (Int × CEnode) :=
  (man.vEnodes.filter (fun mn =>
      !decide (mn.nProtocolVersion < nMinProtocol) &&
      (if fOnlyActive then mn.IsEnabled else mn.IsValidForPayment))).map
    (fun mn => (env.GetCompact (mn.CalculateScore env blockHash), mn))

/-- The last loop of `GetEnodeRank`: the position of the first entry with the outpoint. -/
def rankLoop (vin : CTxIn) : List (Int × CEnode) → Int → Int
  | [], _ => -1
  | s :: rest, nRank =>
    if s.2.vin.prevout = vin.prevout then nRank + 1 else rankLoop vin rest (nRank + 1)

/-- The method `CEnodeMan::GetEnodeRank`. -/
def GetEnodeRank (env : Env) (man : CEnodeMan) (vin : CTxIn) (nBlockHeight : Int)
    (nMinProtocol : Int) (fOnlyActive : Bool) : Int :=
  match env.GetBlockHash nBlockHeight with
  | none => -1
  | some blockHash =>
    rankLoop vin
      (sortDescending CompareScoreMN (rankCandidates env man blockHash nMinProtocol fOnlyActive))
      0

end CEnodeMan

/-! ## Constructing records and the operations on one record -/

/-- The constructor `CEnode(addr, vin, pubKeyCollateralAddress, pubKeyEnode, nProtocolVersion)`. -/
def CEnode.ofService (env : Env) (addrNew : CService) (vinNew : CTxIn)
    (pubKeyCollateralAddressNew pubKeyEnodeNew : CPubKey) (nProtocolVersionIn : Int) : CEnode :=
  { vin := vinNew
    addr := addrNew
    pubKeyCollateralAddress := pubKeyCollateralAddressNew
    pubKeyEnode := pubKeyEnodeNew
    lastPing := CEnodePing.default
    vchSig := []
    sigTime := env.GetAdjustedTime
    nLastDsq := 0
    nTimeLastChecked := 0
    nTimeLastPaid := 0
    nTimeLastWatchdogVote := 0
    nActiveState := state.ENODE_ENABLED
    nCacheCollateralBlock := 0
    nBlockLastPaid := 0
    nProtocolVersion := nProtocolVersionIn
    nPoSeBanScore := 0
    nPoSeBanHeight := 0
    fAllowMixingTx := true
    fUnitTest := false }

/-- The copy constructor `CEnode(const CEnode&)`: every field is taken from the other record. -/
def CEnode.copy (other : CEnode) : CEnode :=
  { vin := other.vin
    addr := other.addr
    pubKeyCollateralAddress := other.pubKeyCollateralAddress
    pubKeyEnode := other.pubKeyEnode
    lastPing := other.lastPing
    vchSig := other.vchSig
    sigTime := other.sigTime
    nLastDsq := other.nLastDsq
    nTimeLastChecked := other.nTimeLastChecked
    nTimeLastPaid := other.nTimeLastPaid
    nTimeLastWatchdogVote := other.nTimeLastWatchdogVote
    nActiveState := other.nActiveState
    nCacheCollateralBlock := other.nCacheCollateralBlock
    nBlockLastPaid := other.nBlockLastPaid
    nProtocolVersion := other.nProtocolVersion
    nPoSeBanScore := other.nPoSeBanScore
    nPoSeBanHeight := other.nPoSeBanHeight
    fAllowMixingTx := other.fAllowMixingTx
    fUnitTest := other.fUnitTest }

/-- The ways a record is built afresh: the three constructors of `CEnode` that do not copy
another record. -/
inductive Construction where
  | default (env : Env)
  | ofService (env : Env) (addrNew : CService) (vinNew : CTxIn)
      (pubKeyCollateralAddressNew pubKeyEnodeNew : CPubKey) (nProtocolVersionIn : Int)
  | ofBroadcast (mnb : CEnodeBroadcast)

/-- The record a construction yields. -/
def Construction.build : Construction → CEnode
  | Construction.default env => CEnode.default env
  | Construction.ofService env a v k1 k2 p => CEnode.ofService env a v k1 k2 p
  | Construction.ofBroadcast mnb => CEnode.ofBroadcast mnb

/-! ## The signature of an announcement -/

/-- The message an announcement signature covers. -/
def CEnodeBroadcast.strMessage (env : Env) (mnb : CEnodeBroadcast) : String :=
  env.addrToString mnb.mn.addr ++ toString mnb.mn.sigTime ++
    env.keyIdToString mnb.mn.pubKeyCollateralAddress ++ env.keyIdToString mnb.mn.pubKeyEnode ++
    toString mnb.mn.nProtocolVersion

/-- The method `CEnodeBroadcast::CheckSignature`: the verdict and the DoS score. -/
def CEnodeBroadcast.CheckSignature (env : Env) (mnb : CEnodeBroadcast) : Bool × Int :=
  if !env.VerifyMessage mnb.mn.pubKeyCollateralAddress mnb.mn.vchSig (mnb.strMessage env) then
    (false, 100)
  else (true, 0)

/-! ## The vote limit and the block payee check (`znode-payments.cpp`) -/

/-- The method `CEnodePayments::CanVote`: the returned flag and the store afterwards. -/
def CEnodePayments.CanVote (s : CEnodePayments) (outEnode : COutPoint) (nBlockHeight : Int) :
    Bool × CEnodePayments :=
  if s.mapEnodesLastVote.count outEnode &&
      decide (s.mapEnodesLastVote.find outEnode = some nBlockHeight) then (false, s)
  else (true, { s with mapEnodesLastVote := s.mapEnodesLastVote.set outEnode nBlockHeight })

/-- A sequence of `CanVote` calls: the flags returned, in order, and the store afterwards. -/
def CEnodePayments.CanVoteAll (s : CEnodePayments) :
    List (COutPoint × Int) → List Bool × CEnodePayments
  | [] => ([], s)
  | c :: rest =>
    let r := s.CanVote c.1 c.2
    let t := CEnodePayments.CanVoteAll r.2 rest
    (r.1 :: t.1, t.2)

/-- The function `IsBlockPayeeValid`; the block reward argument is not read. -/
def IsBlockPayeeValid (env : Env) (mnpayments : CEnodePayments) (txNew : CTransaction)
    (nBlockHeight : Int) (_blockReward : Int) : Bool :=
  if nBlockHeight < env.nEnodePaymentsStartBlock then true
  else if !env.IsSynced then true
  else if mnpayments.IsTransactionValid env txNew nBlockHeight then true
  else if env.sporkPaymentEnforcement then false
  else true

/-! ## Asking a peer for a missing entry (`CEnodeMan::AskForMN`) -/

def DSEG_UPDATE_SECONDS : Int := 3 * 60 * 60

/-- The method `CEnodeMan::AskForMN` at clock reading `GetTime`: whether a `DSEG` request was
pushed to the peer, and the registry afterwards.  The inner map is keyed by `CNetAddr`, the
address of the peer without its port. -/
def CEnodeMan.AskForMN (GetTime : Int) (man : CEnodeMan) (pnode : Option CNode) (vin : CTxIn) :
    Bool × CEnodeMan :=
  match pnode with
  | none => (false, man)
  | some node =>
    let fAskedRecently : Bool :=
      match man.mWeAskedForEnodeListEntry.find vin.prevout with
      | some m =>
        match m.find node.addr.ip with
        | some t => decide (GetTime < t)
        | none => false
      | none => false
    if fAskedRecently then (false, man)
    else
      let inner : StdMap Nat Int :=
        match man.mWeAskedForEnodeListEntry.find vin.prevout with
        | some m => m
        | none => []
      let asked := man.mWeAskedForEnodeListEntry.set vin.prevout
        (inner.set node.addr.ip (GetTime + DSEG_UPDATE_SECONDS))
      (true, { man with mWeAskedForEnodeListEntry := asked })

/-- Rounding of a non-negative integer to the nearest `float` (24 significant bits, ties to
even). -/
def roundToFloat (a : Nat) : Nat :=
  if a < 2 ^ 24 then a
  else
    let e := floorLog2 a - 23
    let q := a / 2 ^ e
    let r := a % 2 ^ e
    let half := 2 ^ (e - 1)
    let q1 := if r > half ∨ (r = half ∧ q % 2 = 1) then q + 1 else q
    q1 * 2 ^ e

/-- The member `nMinBlocksToStore`. -/
def nMinBlocksToStore : Int := 5000

/-- The method `CEnodePayments::GetStorageLimit`: `int(mnodeman.size() * nStorageCoeff)`
with the `float` member `nStorageCoeff = 1.25`.  The size is converted to `float`, the
product is rounded to `float` (in quarters: five times the converted size, rounded to 24
significant bits), and the conversion to `int` drops the fraction. -/
def CEnodePayments.GetStorageLimit (man : CEnodeMan) : Int :=
  max ((roundToFloat (5 * roundToFloat man.size.toNat) / 4 : Nat) : Int) nMinBlocksToStore

/-- The loop of `CEnodePayments::CheckAndRemove` over the stored votes: a vote further than
`nLimit` blocks behind the tip is erased together with the payees of its height.  The
difference `pCurrentBlockIndex->nHeight - vote.nBlockHeight` is an `int`. -/
def CEnodePayments.pruneLoop (tip nLimit : Int) :
    List (uint256 × CEnodePaymentVote) → CEnodePayments → CEnodePayments
  | [], s => s
  | (hash, vote) :: rest, s =>
    if int32 (tip - vote.nBlockHeight) > nLimit then
      CEnodePayments.pruneLoop tip nLimit rest
        { s with mapEnodePaymentVotes := s.mapEnodePaymentVotes.erase hash
                 mapEnodeBlocks := s.mapEnodeBlocks.erase vote.nBlockHeight }
    else CEnodePayments.pruneLoop tip nLimit rest s

/-- The method `CEnodePayments::CheckAndRemove`. -/
def CEnodePayments.CheckAndRemove (man : CEnodeMan) (s : CEnodePayments) : CEnodePayments :=
  match s.pCurrentBlockIndex with
  | none => s
  | some tip =>
    CEnodePayments.pruneLoop tip (CEnodePayments.GetStorageLimit man) s.mapEnodePaymentVotes s

/-! ## Checking and casting payment votes (`znode-payments.cpp`) -/

/-- The outcome of `CEnodePaymentVote::IsValid`: the verdict, the score passed to
`Misbehaving` for the sending peer (0 when it is not called), and the registry, whose ask
table `AskForMN` may touch. -/
structure VoteCheck where
  ok : Bool
  nMisbehaving : Int
  man : CEnodeMan

/-- The method `CEnodePaymentVote::IsValid` for a peer `pnode` that is not null: the method
dereferences the pointer (`Misbehaving(pnode->GetId(), 20)`), and its one caller, the vote
handler, passes the peer the message came from. -/
def CEnodePaymentVote.IsValid (env : Env) (man : CEnodeMan) (vote : CEnodePaymentVote)
    (pnode : CNode) (nValidationHeight : Int) : VoteCheck :=
  match man.Find vote.vinEnode with
  | none =>
    if env.IsEnodeListSynced then
      { ok := false, nMisbehaving := 0,
        man := (CEnodeMan.AskForMN env.GetTime man (some pnode) vote.vinEnode).2 }
    else { ok := false, nMisbehaving := 0, man := man }
  | some pmn =>
    let nMinRequiredProtocol :=
      if vote.nBlockHeight ≥ nValidationHeight then GetMinEnodePaymentsProto env
      else MIN_ENODE_PAYMENT_PROTO_VERSION_1
    if pmn.nProtocolVersion < nMinRequiredProtocol then
      { ok := false, nMisbehaving := 0, man := man }
    else if !env.fZNode && decide (vote.nBlockHeight < nValidationHeight) then
      { ok := true, nMisbehaving := 0, man := man }
    else
      let nRank := man.GetEnodeRank env vote.vinEnode (vote.nBlockHeight - 101)
        nMinRequiredProtocol false
      if nRank = -1 then { ok := false, nMisbehaving := 0, man := man }
      else if nRank > MNPAYMENTS_SIGNATURES_TOTAL then
        if nRank > MNPAYMENTS_SIGNATURES_TOTAL * 2 ∧ vote.nBlockHeight > nValidationHeight then
          { ok := false, nMisbehaving := 20, man := man }
        else { ok := false, nMisbehaving := 0, man := man }
      else { ok := true, nMisbehaving := 0, man := man }

/-- The message a payment vote signature covers. -/
def CEnodePaymentVote.strMessage (env : Env) (vote : CEnodePaymentVote) : String :=
  env.outPointToStringShort vote.vinEnode.prevout ++ toString vote.nBlockHeight ++
    env.ScriptToAsmStr vote.payee

/-- The method `CEnodePaymentVote::Sign`: the flag and the vote with its signature. -/
def CEnodePaymentVote.Sign (env : Env) (vote : CEnodePaymentVote) : Bool × CEnodePaymentVote :=
  match env.SignMessage (vote.strMessage env) with
  | none => (false, vote)
  | some sig =>
    let signed := { vote with vchSig := sig }
    if !env.VerifyMessage env.activePubKeyEnode sig (signed.strMessage env) then (false, signed)
    else (true, signed)

/-- The result of `CEnodePayments::ProcessBlock`: the returned flag, the vote that was
stored and relayed (if any), the vote store and the registry afterwards. -/
structure ProcessBlockResult where
  ok : Bool
  vote : Option CEnodePaymentVote
  pay : CEnodePayments
  man : CEnodeMan

/-- The method `CEnodePayments::ProcessBlock`. -/
def CEnodePayments.ProcessBlock (env : Env) (man : CEnodeMan) (pay : CEnodePayments)
    (nBlockHeight : Int) : ProcessBlockResult :=
  if env.fLiteMode || !env.fZNode then { ok := false, vote := none, pay := pay, man := man }
  else if !env.IsEnodeListSynced then { ok := false, vote := none, pay := pay, man := man }
  else
    let nRank := man.GetEnodeRank env env.activeVin (nBlockHeight - 101)
      (GetMinEnodePaymentsProto env) false
    if nRank = -1 then { ok := false, vote := none, pay := pay, man := man }
    else if nRank > MNPAYMENTS_SIGNATURES_TOTAL then
      { ok := false, vote := none, pay := pay, man := man }
    else
      let q := man.GetNextEnodeInQueueForPayment env pay nBlockHeight true
      match q.pBestEnode with
      | none => { ok := false, vote := none, pay := pay, man := q.man }
      | some pmn =>
        let payee := env.GetScriptForDestination pmn.pubKeyCollateralAddress
        let voteNew : CEnodePaymentVote :=
          { vinEnode := env.activeVin, nBlockHeight := nBlockHeight, payee := payee, vchSig := [] }
        let sg := voteNew.Sign env
        if sg.1 then
          let r := pay.AddPaymentVote env sg.2
          if r.1 then { ok := true, vote := some sg.2, pay := r.2, man := q.man }
          else { ok := false, vote := none, pay := r.2, man := q.man }
        else { ok := false, vote := none, pay := pay, man := q.man }

/-- The method `CEnodePayments::UpdatedBlockTip` for a tip of height `nHeight`. -/
def CEnodePayments.UpdatedBlockTip (env : Env) (man : CEnodeMan) (pay : CEnodePayments)
    (nHeight : Int) : ProcessBlockResult :=
  CEnodePayments.ProcessBlock env man { pay with pCurrentBlockIndex := some nHeight }
    (nHeight + 5)

/-! ## The stateless checks of an announcement (`CEnodeBroadcast`, `znode.cpp`) -/

/-- The method `CEnode::IsValidNetAddr(addrIn)`. -/
def CEnode.IsValidNetAddr (env : Env) (addrIn : CService) : Bool :=
  env.isRegTest || (env.IsIPv4 addrIn && env.IsReachable addrIn && env.IsRoutable addrIn)

/-- The result of `CEnodeBroadcast::SimpleCheck`: the verdict, the DoS score and the
announcement, whose state the check may set. -/
structure SimpleCheckResult where
  ok : Bool
  nDos : Int
  mnb : CEnodeBroadcast
deriving DecidableEq, Repr

/-- The method `CEnodeBroadcast::SimpleCheck`.  The embedded ping is checked with the same
`nDos`, and only when it is not the empty ping. -/
def CEnodeBroadcast.SimpleCheck (env : Env) (mnb : CEnodeBroadcast) : SimpleCheckResult :=
  if !CEnode.IsValidNetAddr env mnb.mn.addr then { ok := false, nDos := 0, mnb := mnb }
  else if mnb.mn.sigTime > env.GetAdjustedTime + 60 * 60 then
    { ok := false, nDos := 1, mnb := mnb }
  else
    let fEmpty := CEnodePing.eq mnb.mn.lastPing CEnodePing.default
    let sc := mnb.mn.lastPing.SimpleCheck env
    let nDos1 : Int := if fEmpty then 0 else sc.2
    let mnb1 : CEnodeBroadcast :=
      if fEmpty || !sc.1 then
        { mnb with mn := { mnb.mn with nActiveState := state.ENODE_EXPIRED } }
      else mnb
    if mnb1.mn.nProtocolVersion < GetMinEnodePaymentsProto env then
      { ok := false, nDos := nDos1, mnb := mnb1 }
    else if (env.GetScriptForDestination mnb1.mn.pubKeyCollateralAddress).length ≠ 25 then
      { ok := false, nDos := 100, mnb := mnb1 }
    else if (env.GetScriptForDestination mnb1.mn.pubKeyEnode).length ≠ 25 then
      { ok := false, nDos := 100, mnb := mnb1 }
    else if !mnb1.mn.vin.scriptSig.isEmpty then { ok := false, nDos := 100, mnb := mnb1 }
    else if env.isMainNet then
      if mnb1.mn.addr.port ≠ env.mainnetDefaultPort then
        { ok := false, nDos := nDos1, mnb := mnb1 }
      else { ok := true, nDos := nDos1, mnb := mnb1 }
    else if mnb1.mn.addr.port = env.mainnetDefaultPort then
      { ok := false, nDos := nDos1, mnb := mnb1 }
    else { ok := true, nDos := nDos1, mnb := mnb1 }

/-- The result of `CEnodeBroadcast::CheckOutpoint`: the verdict, the DoS score and the
registry, from whose seen-announcements table the check may erase. -/
structure CheckOutpointResult where
  ok : Bool
  nDos : Int
  man : CEnodeMan
deriving DecidableEq, Repr

/-- The method `CEnodeBroadcast::CheckOutpoint`; `nDos` is the value the caller's variable
holds on entry. -/
def CEnodeBroadcast.CheckOutpoint (env : Env) (man : CEnodeMan) (mnb : CEnodeBroadcast)
    (nDos : Int) : CheckOutpointResult :=
  if env.fZNode && decide (mnb.mn.vin.prevout = env.activeVin.prevout) &&
      decide (mnb.mn.pubKeyEnode = env.activePubKeyEnode) then
    { ok := false, nDos := nDos, man := man }
  else
    let cs := mnb.CheckSignature env
    if !cs.1 then { ok := false, nDos := cs.2, man := man }
    else if !env.lockMain then
      { ok := false, nDos := cs.2
        man := { man with
          mapSeenEnodeBroadcast := man.mapSeenEnodeBroadcast.erase (mnb.GetHash env) } }
    else if !env.hasUTXO mnb.mn.vin.prevout then { ok := false, nDos := cs.2, man := man }
    else if env.utxoValue mnb.mn.vin.prevout ≠ env.nEnodeCollateral then
      { ok := false, nDos := cs.2, man := man }
    else if env.chainHeight - env.utxoHeight mnb.mn.vin.prevout + 1
        < env.nEnodeMinimumConfirmations then
      { ok := false, nDos := cs.2
        man := { man with
          mapSeenEnodeBroadcast := man.mapSeenEnodeBroadcast.erase (mnb.GetHash env) } }
    else if !env.IsVinAssociatedWithPubkey mnb.mn.vin mnb.mn.pubKeyCollateralAddress then
      { ok := false, nDos := 33, man := man }
    else
      match env.collateralConfBlockTime mnb.mn.vin with
      | some t =>
        if t > mnb.mn.sigTime then { ok := false, nDos := cs.2, man := man }
        else { ok := true, nDos := cs.2, man := man }
      | none => { ok := true, nDos := cs.2, man := man }

/-! ## A concrete environment for examples -/

/-- A small concrete environment on which the definitions can be evaluated: blocks 0 to 200
are known, every outpoint is unspent, a signature verifies when it is non-empty, and the
digest is a positional encoding of the bytes. -/
def sampleEnv : Env :=
  { GetTime := 1000000
    GetAdjustedTime := 1000000
    ShutdownRequested := false
    lockMain := true
    hasTip := true
    chainHeight := 200
    GetBlockHash := fun h => if 0 ≤ h ∧ h ≤ 200 then some (h.toNat + 1000) else none
    mapBlockIndex := fun x => if 1000 ≤ x ∧ x ≤ 1200 then some (some (x - 1000)) else none
    hasUTXO := fun _ => true
    GetInputAge := fun _ => 150
    fZNode := false
    activePubKeyEnode := []
    PROTOCOL_VERSION := 90024
    sporkPayUpdatedNodes := false
    IsEnodeListSynced := true
    IsSynced := true
    IsBlockchainSynced := true
    chainActiveHash := fun h => h.toNat + 1000
    GetRandInt := fun k n => if n ≤ 0 then 0 else (7 * ((k : Int) + 1)) % n
    uint256Less := fun a b => decide (a < b)
    VerifyMessage := fun _ sig _ => !sig.isEmpty
    GetScriptForDestination := fun pk => pk
    sha256d := fun bytes => bytes.foldl (fun acc b => acc * 1000 + b + 1) 0
    serUint256 := fun x => [x]
    serOutPoint := fun o => [o.hash, o.n]
    serTxIn := fun i => [i.prevout.hash, i.prevout.n]
    serPubKey := fun k => k
    serScript := fun sc => sc
    serInt := fun i => [i.toNat]
    serInt64 := fun i => [i.toNat]
    hashToString := fun _ => ""
    vinToString := fun _ => ""
    GetCompact := fun x => x
    GetEnodePayment := fun _ v => v / 5
    GetValueOut := fun tx => (tx.vout.map (fun o => o.nValue)).sum
    addrToString := fun _ => ""
    keyIdToString := fun _ => ""
    nEnodePaymentsStartBlock := 100
    sporkPaymentEnforcement := true
    fLiteMode := false
    activeVin := CTxIn.default
    SignMessage := fun _ => some [1]
    outPointToStringShort := fun _ => ""
    ScriptToAsmStr := fun _ => ""
    isMainNet := true
    isRegTest := false
    mainnetDefaultPort := 8168
    IsIPv4 := fun _ => true
    IsReachable := fun _ => true
    IsRoutable := fun a => decide (a.ip ≠ 0)
    utxoValue := fun _ => 100000000000
    utxoHeight := fun _ => 50
    nEnodeCollateral := 100000000000
    nEnodeMinimumConfirmations := 15
    IsVinAssociatedWithPubkey := fun vin pk => decide (pk = [vin.prevout.hash])
    collateralConfBlockTime := fun _ => some 0
    serService := fun a => [a.ip, a.port]
    activeType := ENODE_REMOTE
    activePingerEnabled := false
    activeService := CService.default
    activeState := ACTIVE_ENODE_INITIAL
    activeNotCapableReason := ""
    fListen := true
    GetLocal := fun _ => none
    vNodes := []
    fSuccessfullyConnected := fun _ => true
    ConnectNode := fun _ => true
    hasWallet := false
    walletIsLocked := false
    walletBalance := 0
    walletEnodeVinAndKeys := none
    SignMessageCollateral := fun _ => some [1]
    fImporting := false
    fReindex := false }

/-- An enabled enode with outpoint `(hash, 0)`, collateral key `[hash]`, the current payment
protocol, announced at time 0 and last paid at the given block. -/
def sampleEnode (hash : Nat) (nBlockLastPaid : Int) : CEnode :=
  { vin := { prevout := { hash := hash, n := 0 }, scriptSig := [], nSequence := 4294967295 }
    addr := { ip := hash, port := 8168 }
    pubKeyCollateralAddress := [hash]
    pubKeyEnode := [hash, 1]
    lastPing := CEnodePing.default
    vchSig := [1]
    sigTime := 0
    nLastDsq := 0
    nTimeLastChecked := 0
    nTimeLastPaid := 0
    nTimeLastWatchdogVote := 0
    nActiveState := state.ENODE_ENABLED
    nCacheCollateralBlock := 0
    nBlockLastPaid := nBlockLastPaid
    nProtocolVersion := 90024
    nPoSeBanScore := 0
    nPoSeBanHeight := 0
    fAllowMixingTx := true
    fUnitTest := false }

/-- A vote for payee script `[7]` at height 210 by the voter with outpoint `(voter, 0)`. -/
def sampleVote (voter : Nat) (sig : List Nat) : CEnodePaymentVote :=
  { vinEnode := { prevout := { hash := voter, n := 0 }, scriptSig := [], nSequence := 0 }
    nBlockHeight := 210
    payee := [7]
    vchSig := sig }

/-- A ping for the sample enode with the given outpoint hash, signed at the given time over
the block with hash 1190. -/
def samplePing (hash : Nat) (sigTime : Int) : CEnodePing :=
  { vin := (sampleEnode hash 100).vin, blockHash := 1190, sigTime := sigTime, vchSig := [1] }

/-- The sample enode 17 with its last ping signed at the given time. -/
def samplePinged (sigTime : Int) : CEnode :=
  { sampleEnode 17 100 with lastPing := samplePing 17 sigTime }

/-- The sample environment on a node that runs its own enode with the key of the sample
enode 17. -/
def sampleOwnEnv : Env :=
  { sampleEnv with fZNode := true, activePubKeyEnode := [17, 1] }

/-- An announcement for the sample enode 17 that is 500 seconds newer than the record. -/
def sampleBroadcast : CEnodeBroadcast :=
  { mn := { sampleEnode 17 100 with sigTime := 500 }, fRecovery := false }

/-- The sample environment while the enode list is still being synced. -/
def sampleSyncingEnv : Env := { sampleEnv with IsEnodeListSynced := false }

/-- The sample environment in which the collateral of the sample enode 17 is the only unspent
output. -/
def sampleUtxoEnv : Env :=
  { sampleEnv with hasUTXO := fun o => decide (o.hash = 17 ∧ o.n = 0) }

/-- The sample environment after every collateral has been spent. -/
def sampleSpentEnv : Env := { sampleEnv with hasUTXO := fun _ => false }

/-- A registry holding the sample enodes 17 and 34. -/
def sampleRegistry : CEnodeMan :=
  { CEnodeMan.empty with vEnodes := [sampleEnode 17 100, sampleEnode 34 100] }

/-- The sample enode 17 with the given PoSe score. -/
def sampleScored (nPoSeBanScore : Int) : CEnode :=
  { sampleEnode 17 100 with nPoSeBanScore := nPoSeBanScore }

/-- The sample enode 17 banned with score 5 until the given height. -/
def sampleBanned (nPoSeBanHeight : Int) : CEnode :=
  { sampleEnode 17 100 with nActiveState := state.ENODE_POSE_BAN, nPoSeBanScore := 5,
                            nPoSeBanHeight := nPoSeBanHeight }

/-- A signed vote for the given payee script at height 210 by the voter `(voter, 0)`. -/
def sampleVoteFor (voter : Nat) (payee : CScript) : CEnodePaymentVote :=
  { sampleVote voter [1] with payee := payee }

/-- Processing votes in order with `AddPaymentVote`: the store afterwards. -/
def CEnodePayments.AddPaymentVotes (env : Env) (s : CEnodePayments)
    (votes : List CEnodePaymentVote) : CEnodePayments :=
  votes.foldl (fun acc v => (acc.AddPaymentVote env v).2) s

/-- The store after five votes for the payee script `[7]` and one for `[8]` at height 210. -/
def sampleVotedStore : CEnodePayments :=
  CEnodePayments.empty.AddPaymentVotes sampleEnv
    [sampleVoteFor 1 [7], sampleVoteFor 2 [7], sampleVoteFor 3 [7], sampleVoteFor 4 [7],
      sampleVoteFor 5 [7], sampleVoteFor 6 [8]]

/-- The payees of height 210 in the sample store. -/
def sampleBlockPayees : CEnodeBlockPayees :=
  match sampleVotedStore.mapEnodeBlocks.find 210 with
  | some bp => bp
  | none => { nBlockHeight := 210, vecPayees := [] }

/-- The entry of the payee `[7]` with the hashes of its five votes. -/
def samplePayeeP : CEnodePayee :=
  { scriptPubKey := [7]
    vecVoteHashes :=
      [(sampleVoteFor 1 [7]).GetHash sampleEnv, (sampleVoteFor 2 [7]).GetHash sampleEnv,
        (sampleVoteFor 3 [7]).GetHash sampleEnv, (sampleVoteFor 4 [7]).GetHash sampleEnv,
        (sampleVoteFor 5 [7]).GetHash sampleEnv] }

/-- The entry of the payee `[8]` with the hash of its one vote. -/
def samplePayeeQ : CEnodePayee :=
  { scriptPubKey := [8], vecVoteHashes := [(sampleVoteFor 6 [8]).GetHash sampleEnv] }

/-- A coinbase of value 100 whose enode payment of 20 goes to the given script. -/
def sampleCoinbase (payee : CScript) : CTransaction :=
  { vout := [{ nValue := 80, scriptPubKey := [1] }, { nValue := 20, scriptPubKey := payee }] }

/-- A vote by the voter `(voter, 0)` for the payee script `[7]` at the given height. -/
def sampleVoteAt (voter : Nat) (nBlockHeight : Int) : CEnodePaymentVote :=
  { sampleVote voter [1] with nBlockHeight := nBlockHeight }

/-- A store with its tip at height 6000 that holds one vote for height 210 and one for height
5990, each with the payees entry of its height. -/
def samplePruneStore : CEnodePayments :=
  { mapEnodePaymentVotes :=
      [((sampleVoteAt 1 210).GetHash sampleEnv, sampleVoteAt 1 210),
        ((sampleVoteAt 2 5990).GetHash sampleEnv, sampleVoteAt 2 5990)]
    mapEnodeBlocks :=
      [(210, { nBlockHeight := 210, vecPayees :=
          [{ scriptPubKey := [7], vecVoteHashes := [(sampleVoteAt 1 210).GetHash sampleEnv] }] }),
        (5990, { nBlockHeight := 5990, vecPayees :=
          [{ scriptPubKey := [7], vecVoteHashes := [(sampleVoteAt 2 5990).GetHash sampleEnv] }] })]
    mapEnodesLastVote := []
    pCurrentBlockIndex := some 6000 }

/-- A registry of 25 sample enodes with the outpoints `(1, 0)` to `(25, 0)`. -/
def sampleLargeRegistry : CEnodeMan :=
  { CEnodeMan.empty with vEnodes := (List.range 25).map (fun i => sampleEnode (i + 1) 100) }

/-- The sample environment on a node that runs an enode. -/
def sampleEnodeEnv : Env := { sampleEnv with fZNode := true }

/-- The sample environment on a node that runs the enode with outpoint `(k, 0)`, with a
digest under which the order of the scores changes from block to block. -/
def sampleVotingEnv (k : Nat) : Env :=
  { sampleEnv with
    fZNode := true
    activeVin := (sampleVoteAt k 0).vinEnode
    sha256d := fun bytes => (bytes.foldl (fun acc b => acc * 31 + b + 1) 7) ^ 2 % 1009 }

/-- The sample environment with pay-to-pubkey-hash scripts of 25 bytes. -/
def sampleAnnounceEnv : Env :=
  { sampleEnv with GetScriptForDestination := fun pk => (pk ++ List.replicate 25 0).take 25 }

/-- The announce environment on the regression-test network, where no address is IPv4. -/
def sampleRegTestEnv : Env :=
  { sampleAnnounceEnv with isMainNet := false, isRegTest := true, IsIPv4 := fun _ => false }

/-- An announcement for the sample enode 17 with the recovery flag set, signed at the given
time. -/
def sampleRecoveryBroadcast (sigTime : Int) : CEnodeBroadcast :=
  { mn := { sampleEnode 17 100 with sigTime := sigTime }, fRecovery := true }

/-- The sample enode 17 in the PoSe-banned state with a ban that ended at height 100. -/
def sampleBanEnded : CEnode :=
  { sampleEnode 17 100 with
    nActiveState := state.ENODE_POSE_BAN, nPoSeBanScore := 5, nPoSeBanHeight := 100 }

/-- An announcement for the sample enode 17 with an outdated protocol version, signed in the
past, whose embedded ping is signed more than one hour in the future. -/
def sampleOutdatedBroadcast : CEnodeBroadcast :=
  CEnodeBroadcast.ofEnode
    { sampleEnode 17 100 with nProtocolVersion := 90000, lastPing := samplePing 17 2000000 }

/-- An announcement for the sample enode 17 on a port other than the mainnet default, signed
in the past, whose embedded ping is signed more than one hour in the future. -/
def sampleWrongPortBroadcast : CEnodeBroadcast :=
  CEnodeBroadcast.ofEnode
    { sampleEnode 17 100 with
      addr := { ip := 17, port := 9999 }, lastPing := samplePing 17 2000000 }

/-- The announce environment on the node that runs the sample enode 17. -/
def sampleOwnAnnounceEnv : Env :=
  { sampleAnnounceEnv with
    fZNode := true, activeVin := (sampleEnode 17 100).vin, activePubKeyEnode := [17, 1] }

/-- A well-formed announcement for the sample enode 17 whose embedded ping is signed more
than one hour in the future. -/
def sampleFuturePingBroadcast : CEnodeBroadcast :=
  CEnodeBroadcast.ofEnode { sampleEnode 17 100 with lastPing := samplePing 17 2000000 }

/-! ## The active enode (`activeznode.h`, `activeznode.cpp`) -/

/-- The class `CActiveEnode`, without the private key: signing with it is a collaborator of
the environment. -/
structure CActiveEnode where
  eType : Int
  fPingerEnabled : Bool
  pubKeyEnode : CPubKey
  vin : CTxIn
  service : CService
  nState : Int
  strNotCapableReason : String
deriving DecidableEq, Repr

/-- The struct `znode_info_t`. -/
structure znode_info_t where
  vin : CTxIn
  addr : CService
  pubKeyCollateralAddress : CPubKey
  pubKeyEnode : CPubKey
  sigTime : Int
  nLastDsq : Int
  nTimeLastChecked : Int
  nTimeLastPaid : Int
  nTimeLastWatchdogVote : Int
  nTimeLastPing : Int
  nActiveState : state
  nProtocolVersion : Int
  fInfoValid : Bool
deriving DecidableEq, Repr

/-- The constructor `znode_info_t()`; state `0` is the first of the enumeration. -/
def znode_info_t.default : znode_info_t :=
  { vin := CTxIn.default
    addr := CService.default
    pubKeyCollateralAddress := []
    pubKeyEnode := []
    sigTime := 0
    nLastDsq := 0
    nTimeLastChecked := 0
    nTimeLastPaid := 0
    nTimeLastWatchdogVote := 0
    nTimeLastPing := 0
    nActiveState := state.ENODE_PRE_ENABLED
    nProtocolVersion := 0
    fInfoValid := false }

/-- The method `CEnode::GetInfo`. -/
def CEnode.GetInfo (mn : CEnode) : znode_info_t :=
  { vin := mn.vin
    addr := mn.addr
    pubKeyCollateralAddress := mn.pubKeyCollateralAddress
    pubKeyEnode := mn.pubKeyEnode
    sigTime := mn.sigTime
    nLastDsq := mn.nLastDsq
    nTimeLastChecked := mn.nTimeLastChecked
    nTimeLastPaid := mn.nTimeLastPaid
    nTimeLastWatchdogVote := mn.nTimeLastWatchdogVote
    nTimeLastPing := mn.lastPing.sigTime
    nActiveState := mn.nActiveState
    nProtocolVersion := mn.nProtocolVersion
    fInfoValid := true }

/-- The function `CEnode::StateToString`. -/
def CEnode.StateToString (nStateIn : state) : String :=
  match nStateIn with
  | state.ENODE_PRE_ENABLED => "PRE_ENABLED"
  | state.ENODE_ENABLED => "ENABLED"
  | state.ENODE_EXPIRED => "EXPIRED"
  | state.ENODE_OUTPOINT_SPENT => "OUTPOINT_SPENT"
  | state.ENODE_UPDATE_REQUIRED => "UPDATE_REQUIRED"
  | state.ENODE_WATCHDOG_EXPIRED => "WATCHDOG_EXPIRED"
  | state.ENODE_NEW_START_REQUIRED => "NEW_START_REQUIRED"
  | state.ENODE_POSE_BAN => "POSE_BAN"

/-- The function `CEnode::IsValidStateForAutoStart`. -/
def CEnode.IsValidStateForAutoStart (nActiveStateIn : state) : Bool :=
  decide (nActiveStateIn = state.ENODE_ENABLED) ||
  decide (nActiveStateIn = state.ENODE_PRE_ENABLED) ||
  decide (nActiveStateIn = state.ENODE_EXPIRED) ||
  decide (nActiveStateIn = state.ENODE_WATCHDOG_EXPIRED)

/-- The loop of `CEnodeMan::Find(const CPubKey&)`: the first record with the enode key. -/
def CEnodeMan.findKeyIn (l : List CEnode) (pubKeyEnode : CPubKey) : Option CEnode :=
  match l with
  | [] => none
  | mn :: rest =>
    if mn.pubKeyEnode = pubKeyEnode then some mn else CEnodeMan.findKeyIn rest pubKeyEnode

/-- The method `CEnodeMan::Find(const CPubKey&)`. -/
def CEnodeMan.FindByPubKey (man : CEnodeMan) (pubKeyEnode : CPubKey) : Option CEnode :=
  CEnodeMan.findKeyIn man.vEnodes pubKeyEnode

/-- Writing a record back through the pointer `Find(const CPubKey&)` returned: the first
entry with that enode key is replaced. -/
def CEnodeMan.storeKeyIn (l : List CEnode) (pubKeyEnode : CPubKey) (mn : CEnode) :
    List CEnode :=
  match l with
  | [] => []
  | x :: rest =>
    if x.pubKeyEnode = pubKeyEnode then mn :: rest
    else x :: CEnodeMan.storeKeyIn rest pubKeyEnode mn

/-- The method `CEnodeMan::CheckEnode(const CPubKey&, fForce)`. -/
def CEnodeMan.CheckEnodeByPubKey (env : Env) (man : CEnodeMan) (pubKeyEnode : CPubKey)
    (fForce : Bool) : CEnodeMan :=
  match man.FindByPubKey pubKeyEnode with
  | none => man
  | some pMN =>
    { man with
      vEnodes := CEnodeMan.storeKeyIn man.vEnodes pubKeyEnode (CEnode.Check env man pMN fForce) }

/-- The method `CEnodeMan::GetEnodeInfo(const CPubKey&)`. -/
def CEnodeMan.GetEnodeInfoByPubKey (man : CEnodeMan) (pubKeyEnode : CPubKey) : znode_info_t :=
  match man.FindByPubKey pubKeyEnode with
  | none => znode_info_t.default
  | some pMN => pMN.GetInfo

/-- The method `CActiveEnode::ManageStateRemote`: the active enode and the registry
afterwards.  The check of the record reads the key of this active enode. -/
def CActiveEnode.ManageStateRemote (env : Env) (man : CEnodeMan) (active : CActiveEnode) :
    CActiveEnode × CEnodeMan :=
  let man1 := man.CheckEnodeByPubKey { env with activePubKeyEnode := active.pubKeyEnode }
    active.pubKeyEnode false
  let infoMn := man1.GetEnodeInfoByPubKey active.pubKeyEnode
  if infoMn.fInfoValid then
    if infoMn.nProtocolVersion ≠ env.PROTOCOL_VERSION then
      ({ active with nState := ACTIVE_ENODE_NOT_CAPABLE
                     strNotCapableReason := "Invalid protocol version" }, man1)
    else if active.service ≠ infoMn.addr then
      ({ active with
          nState := ACTIVE_ENODE_NOT_CAPABLE
          strNotCapableReason :=
            "Broadcasted IP doesn\x27t match our external address. Make sure you issued a new broadcast if IP of this znode changed recently." },
        man1)
    else if !CEnode.IsValidStateForAutoStart infoMn.nActiveState then
      ({ active with
          nState := ACTIVE_ENODE_NOT_CAPABLE
          strNotCapableReason :=
            "Enode in " ++ CEnode.StateToString infoMn.nActiveState ++ " state" }, man1)
    else if active.nState ≠ ACTIVE_ENODE_STARTED then
      ({ active with vin := infoMn.vin, service := infoMn.addr, fPingerEnabled := true
                     nState := ACTIVE_ENODE_STARTED }, man1)
    else (active, man1)
  else
    ({ active with nState := ACTIVE_ENODE_NOT_CAPABLE
                   strNotCapableReason := "Enode not in znode list" }, man1)

/-- An active enode with the key of the sample enode 17 that expects to serve at the address
of the sample enode 34 and has not been started. -/
def sampleActive : CActiveEnode :=
  { eType := ENODE_REMOTE
    fPingerEnabled := false
    pubKeyEnode := [17, 1]
    vin := CTxIn.default
    service := { ip := 34, port := 8168 }
    nState := ACTIVE_ENODE_INITIAL
    strNotCapableReason := "" }

/-- A registry with two records that carry the enode key `[17, 1]`: the first with an older
protocol version, the second with the current one at the address of the sample enode 34. -/
def sampleSharedKeyRegistry : CEnodeMan :=
  { CEnodeMan.empty with
    vEnodes := [{ sampleEnode 17 100 with nProtocolVersion := 90023 },
                { sampleEnode 34 100 with pubKeyEnode := [17, 1] }] }

/-! ## Verification broadcasts (`CEnodeMan::ProcessVerifyBroadcast`, `znodeman.cpp`) -/

def MIN_POSE_PROTO_VERSION : Int := 70203
def MAX_POSE_RANK : Int := 10
def MAX_POSE_BLOCKS : Int := 10

/-- The method `CEnodeVerification::GetHash`: both inputs, the address, the nonce and the
block height. -/
def CEnodeVerification.GetHash (env : Env) (mnv : CEnodeVerification) : uint256 :=
  env.sha256d (env.serTxIn mnv.vin1 ++ env.serTxIn mnv.vin2 ++ env.serService mnv.addr ++
    env.serInt mnv.nonce ++ env.serInt mnv.nBlockHeight)

/-- What `CEnodeMan::ProcessVerifyBroadcast` did: the score it passed to `Misbehaving` for
the sending peer (`0` when it did not call it), whether it relayed the message, and the
registry afterwards. -/
structure VerifyBroadcastResult where
  nMisbehaving : Int
  fRelayed : Bool
  man : CEnodeMan
deriving DecidableEq, Repr

/-- The method `CEnodeMan::ProcessVerifyBroadcast`; `none` stands for the dereference of a
null `pCurrentBlockIndex`.  Both signature tests return when `VerifyMessage` succeeds, as in
the source. -/
def CEnodeMan.ProcessVerifyBroadcast (env : Env) (man : CEnodeMan) (mnv : CEnodeVerification) :
    Option VerifyBroadcastResult :=
  if (man.mapSeenEnodeVerification.find (mnv.GetHash env)).isSome then
    some { nMisbehaving := 0, fRelayed := false, man := man }
  else
    let man1 := { man with
      mapSeenEnodeVerification := man.mapSeenEnodeVerification.set (mnv.GetHash env) mnv }
    match man1.pCurrentBlockIndex with
    | none => none
    | some nHeight =>
      if mnv.nBlockHeight < nHeight - MAX_POSE_BLOCKS then
        some { nMisbehaving := 0, fRelayed := false, man := man1 }
      else if mnv.vin1.prevout = mnv.vin2.prevout then
        some { nMisbehaving := 100, fRelayed := false, man := man1 }
      else
        match env.GetBlockHash mnv.nBlockHeight with
        | none => some { nMisbehaving := 0, fRelayed := false, man := man1 }
        | some blockHash =>
          let nRank := man1.GetEnodeRank env mnv.vin2 mnv.nBlockHeight MIN_POSE_PROTO_VERSION
            true
          if nRank = -1 then some { nMisbehaving := 0, fRelayed := false, man := man1 }
          else if nRank > MAX_POSE_RANK then
            some { nMisbehaving := 0, fRelayed := false, man := man1 }
          else
            let strMessage1 := env.addrToString mnv.addr ++ toString mnv.nonce ++
              env.hashToString blockHash
            let strMessage2 := env.addrToString mnv.addr ++ toString mnv.nonce ++
              env.hashToString blockHash ++ env.outPointToStringShort mnv.vin1.prevout ++
              env.outPointToStringShort mnv.vin2.prevout
            match man1.Find mnv.vin1 with
            | none => some { nMisbehaving := 0, fRelayed := false, man := man1 }
            | some pmn1 =>
              match man1.Find mnv.vin2 with
              | none => some { nMisbehaving := 0, fRelayed := false, man := man1 }
              | some pmn2 =>
                if pmn1.addr ≠ mnv.addr then
                  some { nMisbehaving := 0, fRelayed := false, man := man1 }
                else if env.VerifyMessage pmn1.pubKeyEnode mnv.vchSig1 strMessage1 then
                  some { nMisbehaving := 0, fRelayed := false, man := man1 }
                else if env.VerifyMessage pmn2.pubKeyEnode mnv.vchSig2 strMessage2 then
                  some { nMisbehaving := 0, fRelayed := false, man := man1 }
                else
                  let pmn1a := if !pmn1.IsPoSeVerified then pmn1.DecreasePoSeBanScore else pmn1
                  let v1 := CEnodeMan.storeIn man1.vEnodes pmn1a
                  let v2 := v1.map (fun mn =>
                    if mn.addr ≠ mnv.addr || decide (mn.vin.prevout = mnv.vin1.prevout) then mn
                    else mn.IncreasePoSeBanScore)
                  some { nMisbehaving := 0, fRelayed := true, man := { man1 with vEnodes := v2 } }

/-- A registry with its tip at height 200 that holds the sample enodes 17 and 34 and a third
enode that advertises the address of enode 17. -/
def sampleVerifyRegistry : CEnodeMan :=
  { CEnodeMan.empty with
    pCurrentBlockIndex := some 200
    vEnodes := [sampleEnode 17 100, sampleEnode 34 100,
                { sampleEnode 51 100 with addr := { ip := 17, port := 8168 } }] }

/-- A verification message for height 195 in which enode 34 verifies enode 17 at the address
of enode 17, with the given signatures. -/
def sampleVerification (vchSig1 vchSig2 : List Nat) : CEnodeVerification :=
  { vin1 := (sampleEnode 17 100).vin
    vin2 := (sampleEnode 34 100).vin
    addr := { ip := 17, port := 8168 }
    nonce := 5
    nBlockHeight := 195
    vchSig1 := vchSig1
    vchSig2 := vchSig2 }

/-! ## Enodes that share an address (`CEnodeMan::CheckSameAddr`, `znodeman.cpp`) -/

/-- Modelled from the spec: the ordering `operator<` of `CService`, by which `CompareByAddr`
sorts (declared outside src; the spec sorts the registry by address): network address first,
port second. -/
def CService.lt (a b : CService) : Bool :=
  decide (a.ip < b.ip) || (decide (a.ip = b.ip) && decide (a.port < b.port))

/-- The comparator `CompareByAddr` on pointers into the enode vector.  A pointer is the
position of the record in the vector, kept together with the record it points to. -/
def CompareByAddr (t1 t2 : Nat × CEnode) : Bool := CService.lt t1.2.addr t2.2.addr

/-- The relation "not after" of `CompareByAddr`, by which `sort` arranges the pointers. -/
def addrNotAfter (a b : Nat × CEnode) : Prop := CompareByAddr b a = false

instance addrNotAfter.decidableRel : DecidableRel addrNotAfter :=
  fun a b => inferInstanceAs (Decidable (CompareByAddr b a = false))

/-- The locals of the scan in `CheckSameAddr`: the previous and the verified pointer and the
pointers collected for banning. -/
structure SameAddrScan where
  pprevEnode : Option (Nat × CEnode)
  pverifiedEnode : Option (Nat × CEnode)
  vBan : List Nat
deriving DecidableEq, Repr

namespace CEnodeMan

/-- One pass of the loop body of `CheckSameAddr` for the pointer `pmn`. -/
def sameAddrStep (s : SameAddrScan) (pmn : Nat × CEnode) : SameAddrScan :=
  if !pmn.2.IsEnabled && !pmn.2.IsPreEnabled then s
  else
    match s.pprevEnode with
    | none =>
      { pprevEnode := some pmn
        pverifiedEnode := if pmn.2.IsPoSeVerified then some pmn else none
        vBan := s.vBan }
    | some pprev =>
      if pmn.2.addr = pprev.2.addr then
        match s.pverifiedEnode with
        | some pverified =>
          { pprevEnode := some pmn, pverifiedEnode := some pverified, vBan := s.vBan ++ [pmn.1] }
        | none =>
          if pmn.2.IsPoSeVerified then
            { pprevEnode := some pmn, pverifiedEnode := some pmn, vBan := s.vBan ++ [pprev.1] }
          else { pprevEnode := some pmn, pverifiedEnode := none, vBan := s.vBan }
      else
        { pprevEnode := some pmn
          pverifiedEnode := if pmn.2.IsPoSeVerified then some pmn else none
          vBan := s.vBan }

/-- The call `pmn->IncreasePoSeBanScore()` through the pointer at position `i`. -/
def increaseAt : List CEnode → Nat → List CEnode
  | [], _ => []
  | mn :: rest, 0 => mn.IncreasePoSeBanScore :: rest
  | mn :: rest, i + 1 => mn :: increaseAt rest i

/-- What the call `sort(vSortedByAddr.begin(), vSortedByAddr.end(), CompareByAddr())` can
leave of the pointers to the records of the vector: an arrangement of these pointers in which
no pointer stands before a pointer it compares greater than.  Which of these arrangements the
library leaves when records share an address is not fixed by the comparator. -/
def IsSortedByAddr (man : CEnodeMan) (vSortedByAddr : List (Nat × CEnode)) : Prop :=
  vSortedByAddr.Perm man.vEnodes.enum ∧ vSortedByAddr.Pairwise addrNotAfter

instance IsSortedByAddr.decidable (man : CEnodeMan) (vSortedByAddr : List (Nat × CEnode)) :
    Decidable (man.IsSortedByAddr vSortedByAddr) := by
  unfold IsSortedByAddr
  exact inferInstance

/-- The method `CEnodeMan::CheckSameAddr`, given the arrangement `vSortedByAddr` that its
call of `sort` leaves. -/
def CheckSameAddr (env : Env) (man : CEnodeMan) (vSortedByAddr : List (Nat × CEnode)) :
    CEnodeMan :=
  if !env.IsSynced || man.vEnodes.isEmpty then man
  else
    let s := vSortedByAddr.foldl sameAddrStep
      { pprevEnode := none, pverifiedEnode := none, vBan := [] }
    { man with vEnodes := s.vBan.foldl increaseAt man.vEnodes }

end CEnodeMan

/-- The sample enode with outpoint `(hash, 0)` at the address `1.2.3.4` with the given PoSe
score. -/
def sampleAt1234 (hash : Nat) (nPoSeBanScore : Int) : CEnode :=
  { sampleEnode hash 100 with
    addr := { ip := 16909060, port := 8168 }, nPoSeBanScore := nPoSeBanScore }

/-- A registry of four enodes at `1.2.3.4`, the last of them PoSe-verified. -/
def sampleSameAddrRegistry : CEnodeMan :=
  { CEnodeMan.empty with
    vEnodes := [sampleAt1234 1 0, sampleAt1234 2 0, sampleAt1234 3 0, sampleAt1234 4 (-5)] }

/-- A registry of two enodes at `1.2.3.4`: one PoSe-verified, the other with the score 5. -/
def sampleCappedRegistry : CEnodeMan :=
  { CEnodeMan.empty with vEnodes := [sampleAt1234 1 (-5), sampleAt1234 2 5] }

/-- Whether the scan of `CheckSameAddr` looks at the record behind a pointer: only enabled
and pre-enabled records are. -/
def SameAddrScan.scanned (p : Nat × CEnode) : Bool := p.2.IsEnabled || p.2.IsPreEnabled

/-- The cluster at the address `a`: the pointers to the enabled and pre-enabled records with
that address, in the order they have in the sorted vector `vSortedByAddr` of
`CheckSameAddr`. -/
def CEnodeMan.sameAddrCluster (vSortedByAddr : List (Nat × CEnode)) (a : CService) :
    List (Nat × CEnode) :=
  (vSortedByAddr.filter SameAddrScan.scanned).filter (fun p => decide (p.2.addr = a))

/-- A registry of four enodes at `1.2.3.4`, the first of them PoSe-verified. -/
def sampleVerifiedFirstRegistry : CEnodeMan :=
  { CEnodeMan.empty with
    vEnodes := [sampleAt1234 4 (-5), sampleAt1234 1 0, sampleAt1234 2 0, sampleAt1234 3 0] }

/-! ## Sequences of operations on the dense index -/

/-- An operation on a `CEnodeIndex`. -/
inductive IndexOp where
  | AddEnodeVIN (vinEnode : CTxIn)
  | Clear
deriving DecidableEq, Repr

/-- One index operation applied to an index. -/
def IndexOp.apply (ix : CEnodeIndex) : IndexOp → CEnodeIndex
  | IndexOp.AddEnodeVIN vinEnode => ix.AddEnodeVIN vinEnode
  | IndexOp.Clear => ix.Clear

/-- A sequence of index operations applied to an index, first to last. -/
def CEnodeIndex.runOps (ix : CEnodeIndex) (ops : List IndexOp) : CEnodeIndex :=
  ops.foldl IndexOp.apply ix

/-- The inputs passed to `AddEnodeVIN` since the last `Clear`, in the order of the calls,
after the inputs `added` passed before. -/
def IndexOp.addedAfter (added : List CTxIn) (ops : List IndexOp) : List CTxIn :=
  ops.foldl (fun acc op =>
    match op with
    | IndexOp.AddEnodeVIN vinEnode => acc ++ [vinEnode]
    | IndexOp.Clear => []) added

/-- The inputs passed to `AddEnodeVIN` since the last `Clear`, in the order of the calls. -/
def IndexOp.added (ops : List IndexOp) : List CTxIn := IndexOp.addedAfter [] ops

/-- The forward map that gives the inputs of a list the indices `n`, `n + 1`, ... -/
def CEnodeIndex.forwardFrom (n : Nat) : List CTxIn → StdMap COutPoint (CTxIn × Int)
  | [] => []
  | v :: rest => (v.prevout, (v, (n : Int))) :: CEnodeIndex.forwardFrom (n + 1) rest

/-- The reverse map that stores the inputs of a list under the indices `n`, `n + 1`, ... -/
def CEnodeIndex.reverseFrom (n : Nat) : List CTxIn → StdMap Int CTxIn
  | [] => []
  | v :: rest => ((n : Int), v) :: CEnodeIndex.reverseFrom (n + 1) rest

/-- The index that holds the inputs of a list under `0`, `1`, ... in this order. -/
def CEnodeIndex.ofList (l : List CTxIn) : CEnodeIndex :=
  { nSize := l.length
    mapIndex := CEnodeIndex.forwardFrom 0 l
    mapReverseIndex := CEnodeIndex.reverseFrom 0 l }

/-- Two inputs with the outpoint `(5, 0)` that differ in their sequence number. -/
def sampleVinA : CTxIn := { prevout := { hash := 5, n := 0 }, scriptSig := [], nSequence := 1 }

def sampleVinB : CTxIn := { prevout := { hash := 5, n := 0 }, scriptSig := [], nSequence := 2 }

/-! ## Reading the registry from disk (`CEnodeMan::SerializationOp`, `znodeman.h`) -/

def SERIALIZATION_VERSION_STRING : String := "CEnodeMan-Version-4"

/-- The relation "not after" of the key order of the forward map of the index. -/
def indexKeyNotAfter (a b : COutPoint × (CTxIn × Int)) : Prop := COutPoint.lt b.1 a.1 = false

instance indexKeyNotAfter.decidableRel : DecidableRel indexKeyNotAfter :=
  fun a b => inferInstanceAs (Decidable (COutPoint.lt b.1 a.1 = false))

/-- The method `CEnodeIndex::RebuildIndex`: the size is taken from the forward map and every
entry of the forward map, in key order, is written into the reverse map. -/
def CEnodeIndex.RebuildIndex (ix : CEnodeIndex) : CEnodeIndex :=
  { ix with
    nSize := ix.mapIndex.length
    mapReverseIndex :=
      (List.insertionSort indexKeyNotAfter ix.mapIndex).foldl
        (fun r e => r.set e.2.2 e.2.1) ix.mapReverseIndex }

/-- The method `CEnodeIndex::SerializationOp` when reading: the forward map is replaced by
the stored one and the index is rebuilt. -/
def CEnodeIndex.SerializationOp (ix : CEnodeIndex)
    (mapIndex : StdMap COutPoint (CTxIn × Int)) : CEnodeIndex :=
  CEnodeIndex.RebuildIndex { ix with mapIndex := mapIndex }

/-- What a stored registry holds, in the order in which `CEnodeMan::SerializationOp` reads
it. -/
structure CEnodeManStored where
  strVersion : String
  vEnodes : List CEnode
  mAskedUsForEnodeList : StdMap Nat Int
  mWeAskedForEnodeList : StdMap Nat Int
  mWeAskedForEnodeListEntry : StdMap COutPoint (StdMap Nat Int)
  mMnbRecoveryRequests : StdMap uint256 (Int × List Nat)
  mMnbRecoveryGoodReplies : StdMap uint256 (List CEnodeBroadcast)
  nLastWatchdogVoteTime : Int
  nDsqCount : Int
  mapSeenEnodeBroadcast : StdMap uint256 (Int × CEnodeBroadcast)
  mapSeenEnodePing : StdMap uint256 CEnodePing
  indexEnodes : StdMap COutPoint (CTxIn × Int)

/-- The method `CEnodeMan::SerializationOp` when reading: every stored member replaces the
member of the registry, then `Clear` is called when the version string is not the current
one. -/
def CEnodeMan.SerializationOp (man : CEnodeMan) (stored : CEnodeManStored) : CEnodeMan :=
  let man1 : CEnodeMan :=
    { man with
      vEnodes := stored.vEnodes
      mAskedUsForEnodeList := stored.mAskedUsForEnodeList
      mWeAskedForEnodeList := stored.mWeAskedForEnodeList
      mWeAskedForEnodeListEntry := stored.mWeAskedForEnodeListEntry
      mMnbRecoveryRequests := stored.mMnbRecoveryRequests
      mMnbRecoveryGoodReplies := stored.mMnbRecoveryGoodReplies
      nLastWatchdogVoteTime := stored.nLastWatchdogVoteTime
      nDsqCount := stored.nDsqCount
      mapSeenEnodeBroadcast := stored.mapSeenEnodeBroadcast
      mapSeenEnodePing := stored.mapSeenEnodePing
      indexEnodes := man.indexEnodes.SerializationOp stored.indexEnodes }
  if stored.strVersion ≠ SERIALIZATION_VERSION_STRING then man1.Clear else man1

/-- A stored registry with the given version string that holds the sample enode 17, one
entry in each ask map, one recovery request, one recovery reply, one seen announcement, one
seen ping and one index entry. -/
def sampleStored (strVersion : String) : CEnodeManStored :=
  { strVersion := strVersion
    vEnodes := [sampleEnode 17 100]
    mAskedUsForEnodeList := [(1, 10)]
    mWeAskedForEnodeList := [(2, 20)]
    mWeAskedForEnodeListEntry := [((sampleEnode 17 100).vin.prevout, [(3, 30)])]
    mMnbRecoveryRequests := [(77, (40, [4]))]
    mMnbRecoveryGoodReplies := [(77, [sampleBroadcast])]
    nLastWatchdogVoteTime := 50
    nDsqCount := 6
    mapSeenEnodeBroadcast := [(77, (60, sampleBroadcast))]
    mapSeenEnodePing := [(88, samplePing 17 900)]
    indexEnodes := [((sampleEnode 17 100).vin.prevout, ((sampleEnode 17 100).vin, 0))] }

/-! ## The payment queue as the source writes it, with its recursive call -/

/-- The method `CEnodeMan::GetNextEnodeInQueueForPayment(nBlockHeight, fFilterSigTime,
nCount)` with the recursive call of the source in place.  `fuel` bounds the depth of the
recursion (`none` when it runs out), and the number next to the result counts the nested
calls that were made. -/
def CEnodeMan.GetNextEnodeInQueueForPaymentRec (env : Env) (pay : CEnodePayments) :
    Nat → CEnodeMan → Int → Bool → Option (CEnodeMan.QueueResult × Nat)
  | 0, _, _, _ => none
  | fuel + 1, man, nBlockHeight, fFilterSigTime =>
    let nMnCount := man.CountEnabled env (-1)
    let q := CEnodeMan.qualifyLoop env pay nBlockHeight fFilterSigTime nMnCount man.vEnodes
    let man1 := { man with vEnodes := q.1 }
    if fFilterSigTime && decide ((q.2.length : Int) < Int.tdiv nMnCount 3) then
      match CEnodeMan.GetNextEnodeInQueueForPaymentRec env pay fuel man1 nBlockHeight false with
      | none => none
      | some r => some (r.1, r.2 + 1)
    else some (CEnodeMan.selectFromQueue env man1 nBlockHeight nMnCount q.2, 0)

/-- A registry of five enabled enodes: enode 1 announced long ago, enodes 2 to 5 announced
one hundred seconds before the clock of the sample environment. -/
def sampleFreshRegistry : CEnodeMan :=
  { CEnodeMan.empty with
    vEnodes := [sampleEnode 1 100,
                { sampleEnode 2 100 with sigTime := 999900 },
                { sampleEnode 3 100 with sigTime := 999900 },
                { sampleEnode 4 100 with sigTime := 999900 },
                { sampleEnode 5 100 with sigTime := 999900 }] }

/-- A registry of six enabled enodes: enode 1 announced long ago, enodes 2 to 6 announced
one hundred seconds before the clock of the sample environment. -/
def sampleFreshRegistry6 : CEnodeMan :=
  { CEnodeMan.empty with
    vEnodes := sampleFreshRegistry.vEnodes ++ [{ sampleEnode 6 100 with sigTime := 999900 }] }

/-! ## The rank list and the lookup by rank (`GetEnodeRanks`, `GetEnodeByRank`) -/

/-- The last loop of `GetEnodeRanks`: every entry, copied, with its 1-based position. -/
def CEnodeMan.ranksLoop : List (Int × CEnode) → Int → List (Int × CEnode)
  | [], _ => []
  | s :: rest, nRank => (nRank + 1, CEnode.copy s.2) :: CEnodeMan.ranksLoop rest (nRank + 1)

/-- The method `CEnodeMan::GetEnodeRanks`. -/
def CEnodeMan.GetEnodeRanks (env : Env) (man : CEnodeMan) (nBlockHeight : Int)
    (nMinProtocol : Int) : List (Int × CEnode) :=
  match env.GetBlockHash nBlockHeight with
  | none => []
  | some blockHash =>
    let vecEnodeScores :=
      (man.vEnodes.filter (fun mn =>
        !(decide (mn.nProtocolVersion < nMinProtocol) || !mn.IsEnabled))).map
        (fun mn => (env.GetCompact (mn.CalculateScore env blockHash), mn))
    CEnodeMan.ranksLoop (sortDescending CompareScoreMN vecEnodeScores) 0

/-- The last loop of `GetEnodeByRank`: the entry at the 1-based position `nRank`. -/
def CEnodeMan.byRankLoop (nRank : Int) : List (Int × CEnode) → Int → Option CEnode
  | [], _ => none
  | s :: rest, rank =>
    if rank + 1 = nRank then some s.2 else CEnodeMan.byRankLoop nRank rest (rank + 1)

/-- The method `CEnodeMan::GetEnodeByRank`; `none` stands for `NULL`. -/
def CEnodeMan.GetEnodeByRank (env : Env) (man : CEnodeMan) (nRank : Int) (nBlockHeight : Int)
    (nMinProtocol : Int) (fOnlyActive : Bool) : Option CEnode :=
  match env.GetBlockHash nBlockHeight with
  | none => none
  | some blockHash =>
    let vecEnodeScores :=
      (man.vEnodes.filter (fun mn =>
        !decide (mn.nProtocolVersion < nMinProtocol) &&
        !(fOnlyActive && !mn.IsEnabled))).map
        (fun mn => (env.GetCompact (mn.CalculateScore env blockHash), mn))
    CEnodeMan.byRankLoop nRank (sortDescending CompareScoreMN vecEnodeScores) 0

/-! ## The pinger of the active enode (`CActiveEnode::SendEnodePing`) -/

/-- The constructor `CEnodePing(vinNew)`: without a tip or below height 12 the ping stays
empty.  The signature time is written again by `Sign` before anything reads it. -/
def CEnodePing.ofVin (env : Env) (vinNew : CTxIn) : CEnodePing :=
  if !env.hasTip || decide (env.chainHeight < 12) then CEnodePing.default
  else
    { vin := vinNew
      blockHash := env.chainActiveHash (env.chainHeight - 12)
      sigTime := env.GetAdjustedTime
      vchSig := [] }

/-- The method `CEnodePing::Sign`: the returned flag and the ping afterwards. -/
def CEnodePing.Sign (env : Env) (p : CEnodePing) (pubKeyEnode : CPubKey) :
    Bool × CEnodePing :=
  let p1 := { p with sigTime := env.GetAdjustedTime }
  match env.SignMessage (p1.strMessage env) with
  | none => (false, p1)
  | some sig =>
    let p2 := { p1 with vchSig := sig }
    if !env.VerifyMessage pubKeyEnode p2.vchSig (p1.strMessage env) then (false, p2)
    else (true, p2)

/-- The method `CEnodeMan::IsEnodePingedWithin`. -/
def CEnodeMan.IsEnodePingedWithin (env : Env) (man : CEnodeMan) (vin : CTxIn) (nSeconds : Int)
    (nTimeToCheckAt : Int) : Bool :=
  match man.Find vin with
  | none => false
  | some pMN => pMN.IsPingedWithin env nSeconds nTimeToCheckAt

/-- The method `CEnodeMan::SetEnodeLastPing`. -/
def CEnodeMan.SetEnodeLastPing (env : Env) (man : CEnodeMan) (vin : CTxIn) (mnp : CEnodePing) :
    CEnodeMan :=
  match man.Find vin with
  | none => man
  | some pMN =>
    let mn1 := { pMN with lastPing := mnp }
    let hash := (CEnodeBroadcast.ofEnode mn1).GetHash env
    { man with
      vEnodes := CEnodeMan.storeIn man.vEnodes mn1
      mapSeenEnodePing := man.mapSeenEnodePing.insert (mnp.GetHash env) mnp
      mapSeenEnodeBroadcast :=
        match man.mapSeenEnodeBroadcast.find hash with
        | some e =>
          man.mapSeenEnodeBroadcast.set hash
            (e.1, { e.2 with mn := { e.2.mn with lastPing := mnp } })
        | none => man.mapSeenEnodeBroadcast }

/-- What `SendEnodePing` does to the rest of the node, in the order it does it. -/
inductive PingerEvent where
  | SetEnodeLastPing (vin : CTxIn) (mnp : CEnodePing)
  | Relay (hash : uint256)
deriving DecidableEq, Repr

/-- The result of `CActiveEnode::SendEnodePing`: the returned flag, the active enode and the
registry afterwards, and the calls that changed the registry or reached the network. -/
structure SendEnodePingResult where
  ok : Bool
  active : CActiveEnode
  man : CEnodeMan
  events : List PingerEvent
deriving DecidableEq, Repr

/-- The method `CActiveEnode::SendEnodePing`. -/
def CActiveEnode.SendEnodePing (env : Env) (man : CEnodeMan) (active : CActiveEnode) :
    SendEnodePingResult :=
  if !active.fPingerEnabled then { ok := false, active := active, man := man, events := [] }
  else if !man.Has active.vin then
    { ok := false
      active := { active with strNotCapableReason := "Enode not in znode list"
                              nState := ACTIVE_ENODE_NOT_CAPABLE }
      man := man
      events := [] }
  else
    let signed := (CEnodePing.ofVin env active.vin).Sign env active.pubKeyEnode
    if !signed.1 then { ok := false, active := active, man := man, events := [] }
    else
      let mnp := signed.2
      if man.IsEnodePingedWithin env active.vin ENODE_MIN_MNP_SECONDS mnp.sigTime then
        { ok := false, active := active, man := man, events := [] }
      else
        { ok := true
          active := active
          man := man.SetEnodeLastPing env active.vin mnp
          events := [PingerEvent.SetEnodeLastPing active.vin mnp,
                     PingerEvent.Relay (mnp.GetHash env)] }

/-! ## Activating the enode (`CActiveEnode::ManageState`, `activeznode.cpp`) -/

/-- The global `activeEnode` as the environment holds it when a method of a record or of the
registry is entered. -/
def CActiveEnode.ofEnv (env : Env) : CActiveEnode :=
  { eType := env.activeType
    fPingerEnabled := env.activePingerEnabled
    pubKeyEnode := env.activePubKeyEnode
    vin := env.activeVin
    service := env.activeService
    nState := env.activeState
    strNotCapableReason := env.activeNotCapableReason }

/-- The method `CActiveEnode::GetStatus`. -/
def CActiveEnode.GetStatus (env : Env) (active : CActiveEnode) : String :=
  if active.nState = ACTIVE_ENODE_INITIAL then "Node just started, not yet activated"
  else if active.nState = ACTIVE_ENODE_SYNC_IN_PROCESS then
    "Sync in progress. Must wait until sync is complete to start Enode"
  else if active.nState = ACTIVE_ENODE_INPUT_TOO_NEW then
    "Enode input must have at least " ++ toString env.nEnodeMinimumConfirmations ++
      " confirmations"
  else if active.nState = ACTIVE_ENODE_NOT_CAPABLE then
    "Not capable znode: " ++ active.strNotCapableReason
  else if active.nState = ACTIVE_ENODE_STARTED then "Enode successfully started"
  else "Unknown"

/-- The loop of `ManageStateInitial` over the connected peers: the first peer that is
successfully connected over IPv4 and through which `GetLocal` finds a valid address ends the
search.  An address `GetLocal` found is kept in `service` also when it is not valid. -/
def CActiveEnode.findLocalLoop (env : Env) : List CNode → CService → Bool × CService
  | [], service => (false, service)
  | pnode :: rest, service =>
    if env.fSuccessfullyConnected pnode && env.IsIPv4 pnode.addr then
      match env.GetLocal (some pnode.addr) with
      | some s =>
        if CEnode.IsValidNetAddr env s then (true, s)
        else CActiveEnode.findLocalLoop env rest s
      | none => CActiveEnode.findLocalLoop env rest service
    else CActiveEnode.findLocalLoop env rest service

/-- The method `CActiveEnode::ManageStateInitial`. -/
def CActiveEnode.ManageStateInitial (env : Env) (active : CActiveEnode) : CActiveEnode :=
  if !env.fListen then
    { active with
      nState := ACTIVE_ENODE_NOT_CAPABLE
      strNotCapableReason :=
        "Enode must accept connections from outside. Make sure listen configuration option is not overwritten by some another parameter." }
  else
    let first : Bool × CService :=
      match env.GetLocal none with
      | some s => (CEnode.IsValidNetAddr env s, s)
      | none => (false, active.service)
    if !first.1 && env.vNodes.isEmpty then
      { active with
        service := first.2
        nState := ACTIVE_ENODE_NOT_CAPABLE
        strNotCapableReason :=
          "Can\x27t detect valid external address. Will retry when there are some connections available." }
    else
      let found : Bool × CService :=
        if first.1 then first else CActiveEnode.findLocalLoop env env.vNodes first.2
      let active1 := { active with service := found.2 }
      if !found.1 then
        { active1 with
          nState := ACTIVE_ENODE_NOT_CAPABLE
          strNotCapableReason :=
            "Can\x27t detect valid external address. Please consider using the externalip configuration option if problem persists. Make sure to use IPv4 address only." }
      else if env.isMainNet && decide (active1.service.port ≠ env.mainnetDefaultPort) then
        { active1 with
          nState := ACTIVE_ENODE_NOT_CAPABLE
          strNotCapableReason :=
            "Invalid port: " ++ toString active1.service.port ++ " - only " ++
              toString env.mainnetDefaultPort ++ " is supported on mainnet." }
      else if !env.isMainNet && decide (active1.service.port = env.mainnetDefaultPort) then
        { active1 with
          nState := ACTIVE_ENODE_NOT_CAPABLE
          strNotCapableReason :=
            "Invalid port: " ++ toString active1.service.port ++ " - " ++
              toString env.mainnetDefaultPort ++ " is only supported on mainnet." }
      else if !env.ConnectNode active1.service then
        { active1 with
          nState := ACTIVE_ENODE_NOT_CAPABLE
          strNotCapableReason := "Could not connect to " ++ env.addrToString active1.service }
      else
        let active2 := { active1 with eType := ENODE_REMOTE }
        if !env.hasWallet then active2
        else if env.walletIsLocked then active2
        else if env.walletBalance < env.nEnodeCollateral then active2
        else
          match env.walletEnodeVinAndKeys with
          | some w => { active2 with vin := w.1, eType := ENODE_LOCAL }
          | none => active2

/-- The method `CEnodeBroadcast::Sign`: the returned flag and the announcement afterwards. -/
def CEnodeBroadcast.Sign (env : Env) (mnb : CEnodeBroadcast) : Bool × CEnodeBroadcast :=
  let mnb1 : CEnodeBroadcast := { mnb with mn := { mnb.mn with sigTime := env.GetAdjustedTime } }
  match env.SignMessageCollateral (mnb1.strMessage env) with
  | none => (false, mnb1)
  | some sig =>
    let mnb2 : CEnodeBroadcast := { mnb1 with mn := { mnb1.mn with vchSig := sig } }
    if !env.VerifyMessage mnb2.mn.pubKeyCollateralAddress mnb2.mn.vchSig (mnb1.strMessage env)
    then (false, mnb2)
    else (true, mnb2)

/-- The result of `CEnodeBroadcast::Create`: the returned flag, the error text and the
announcement handed back. -/
structure CreateResult where
  ok : Bool
  strErrorRet : String
  mnbRet : CEnodeBroadcast
deriving DecidableEq, Repr

/-- The function `CEnodeBroadcast::Create(txin, service, keyCollateralAddressNew,
pubKeyCollateralAddressNew, keyEnodeNew, pubKeyEnodeNew, strErrorRet, mnbRet)` as
`ManageStateLocal` calls it: with the keys of the wallet and of the active enode, an empty
error text and a default announcement, which are returned as they are while the node is
importing or reindexing. -/
def CEnodeBroadcast.Create (env : Env) (txin : CTxIn) (service : CService)
    (pubKeyCollateralAddressNew pubKeyEnodeNew : CPubKey) : CreateResult :=
  if env.fImporting || env.fReindex then
    { ok := false, strErrorRet := "", mnbRet := CEnodeBroadcast.default env }
  else
    let mnp := (CEnodePing.ofVin env txin).Sign env pubKeyEnodeNew
    if !mnp.1 then
      { ok := false
        strErrorRet := "Failed to sign ping, znode=" ++ env.outPointToStringShort txin.prevout
        mnbRet := CEnodeBroadcast.default env }
    else
      let mnb1 : CEnodeBroadcast :=
        { mn := CEnode.ofService env service txin pubKeyCollateralAddressNew pubKeyEnodeNew
            env.PROTOCOL_VERSION
          fRecovery := false }
      if !CEnode.IsValidNetAddr env mnb1.mn.addr then
        { ok := false
          strErrorRet := "Invalid IP address, znode=" ++ env.outPointToStringShort txin.prevout
          mnbRet := CEnodeBroadcast.default env }
      else
        let signed := CEnodeBroadcast.Sign env { mnb1 with mn := { mnb1.mn with lastPing := mnp.2 } }
        if !signed.1 then
          { ok := false
            strErrorRet :=
              "Failed to sign broadcast, znode=" ++ env.outPointToStringShort txin.prevout
            mnbRet := CEnodeBroadcast.default env }
        else { ok := true, strErrorRet := "", mnbRet := signed.2 }

/-- The method `CEnodeMan::NotifyEnodeUpdates`: both flags are cleared. -/
def CEnodeMan.NotifyEnodeUpdates (man : CEnodeMan) : CEnodeMan :=
  { man with fEnodesAdded := false, fEnodesRemoved := false }

/-- What the call `activeEnode.ManageState()` does when a method of a record or of the
registry makes it: the active enode and the registry afterwards. -/
abbrev ManageFn := Env → CEnodeMan → CActiveEnode → CActiveEnode × CEnodeMan

/-! ## Updating a record from a newer announcement -/

/-- The part of `CEnode::UpdateFromNewBroadcast` between its first test and the test for the
node's own key: the announced fields are taken over, the embedded ping is checked and, when
it is empty or passes, becomes the last ping and is entered in the table of seen pings.  The
record and the registry afterwards. -/
def CEnode.updateFields (env : Env) (man : CEnodeMan) (mn : CEnode) (mnb : CEnodeBroadcast) :
    CEnode × CEnodeMan :=
  let mn1 := { mn with pubKeyEnode := mnb.mn.pubKeyEnode
                       sigTime := mnb.mn.sigTime
                       vchSig := mnb.mn.vchSig
                       nProtocolVersion := mnb.mn.nProtocolVersion
                       addr := mnb.mn.addr
                       nPoSeBanScore := 0
                       nPoSeBanHeight := 0
                       nTimeLastChecked := 0 }
  let r : Outcome :=
    if CEnodePing.eq mnb.mn.lastPing CEnodePing.default then
      { ok := true, nDos := 0, mn := mn1, man := man }
    else mnb.mn.lastPing.CheckAndUpdate env man mn1 true
  if r.ok then
    ({ r.mn with lastPing := mnb.mn.lastPing },
      { r.man with mapSeenEnodePing :=
          r.man.mapSeenEnodePing.insert (mnb.mn.lastPing.GetHash env) mnb.mn.lastPing })
  else (r.mn, r.man)

/-- The method `CEnode::UpdateFromNewBroadcast`, with what the call `activeEnode.ManageState()`
does passed in as `manage`.  The record `this` is the registry record of its outpoint when the
registry has one (the callers hand over the pointer `Find` returned): it is then written to the
vector before `ManageState` runs and read again afterwards.  The DoS score of the embedded
ping check is local to the method, so the outcome carries `0`. -/
def CEnode.UpdateFromNewBroadcastWith (manage : ManageFn) (env : Env) (man : CEnodeMan)
    (active : CActiveEnode) (mn : CEnode) (mnb : CEnodeBroadcast) : Outcome × CActiveEnode :=
  if mnb.mn.sigTime ≤ mn.sigTime && !mnb.fRecovery then
    ({ ok := false, nDos := 0, mn := mn, man := man }, active)
  else
    let l := mn.updateFields env man mnb
    if env.fZNode && decide (l.1.pubKeyEnode = env.activePubKeyEnode) then
      let mn3 := { l.1 with nPoSeBanScore := -ENODE_POSE_BAN_MAX_SCORE }
      if mn3.nProtocolVersion = env.PROTOCOL_VERSION then
        if l.2.Has mn3.vin then
          let m := manage env { l.2 with vEnodes := CEnodeMan.storeIn l.2.vEnodes mn3 } active
          ({ ok := true, nDos := 0
             mn := match m.2.Find mn3.vin with
               | some mn4 => mn4
               | none => mn3
             man := m.2 }, m.1)
        else
          let m := manage env l.2 active
          ({ ok := true, nDos := 0, mn := mn3, man := m.2 }, m.1)
      else ({ ok := false, nDos := 0, mn := mn3, man := l.2 }, active)
    else ({ ok := true, nDos := 0, mn := l.1, man := l.2 }, active)

/-- The method `CEnodeMan::UpdateEnodeList`, with what the call `activeEnode.ManageState()`
does passed in as `manage`: the active enode and the registry afterwards. -/
def CEnodeMan.UpdateEnodeListWith (manage : ManageFn) (env : Env) (man : CEnodeMan)
    (active : CActiveEnode) (mnb : CEnodeBroadcast) : CActiveEnode × CEnodeMan :=
  let man1 := { man with
    mapSeenEnodePing := man.mapSeenEnodePing.insert (mnb.mn.lastPing.GetHash env) mnb.mn.lastPing
    mapSeenEnodeBroadcast :=
      man.mapSeenEnodeBroadcast.insert (mnb.GetHash env) (env.GetTime, mnb) }
  match man1.Find mnb.mn.vin with
  | none => (active, (man1.Add (CEnode.ofBroadcast mnb)).2)
  | some pmn =>
    let hOld := (CEnodeBroadcast.ofEnode pmn).GetHash env
    let man2 := { man1 with mapSeenEnodeBroadcast :=
      man1.mapSeenEnodeBroadcast.insert hOld (0, CEnodeBroadcast.default env) }
    let mnbOld : CEnodeBroadcast :=
      match man2.mapSeenEnodeBroadcast.find hOld with
      | some e => e.2
      | none => CEnodeBroadcast.default env
    let r := pmn.UpdateFromNewBroadcastWith manage env man2 active mnb
    let man3 := { r.1.man with vEnodes := CEnodeMan.storeIn r.1.man.vEnodes r.1.mn }
    if r.1.ok then
      (r.2, { man3 with
        mapSeenEnodeBroadcast := man3.mapSeenEnodeBroadcast.erase (mnbOld.GetHash env) })
    else (r.2, man3)

/-- The method `CActiveEnode::ManageStateLocal`, with what a nested call of `ManageState`
does passed in as `manage`.  The registry code reads the key of this active enode.  Locking
the coin in the wallet and relaying the announcement act outside the registry.  The wallet
pointer, which the method does not test, is taken not to be null: the type is `ENODE_LOCAL`
only after `ManageStateInitial` found a wallet. -/
def CActiveEnode.ManageStateLocalWith (manage : ManageFn) (env : Env) (man : CEnodeMan)
    (active : CActiveEnode) : CActiveEnode × CEnodeMan :=
  if active.nState = ACTIVE_ENODE_STARTED then (active, man)
  else
    match env.walletEnodeVinAndKeys with
    | none => (active, man)
    | some w =>
      let active1 := { active with vin := w.1 }
      let nInputAge := env.GetInputAge active1.vin
      if nInputAge < env.nEnodeMinimumConfirmations then
        let active2 := { active1 with nState := ACTIVE_ENODE_INPUT_TOO_NEW }
        ({ active2 with
            strNotCapableReason :=
              active2.GetStatus env ++ " - " ++ toString nInputAge ++ " confirmations" }, man)
      else
        let c := CEnodeBroadcast.Create env active1.vin active1.service w.2 active1.pubKeyEnode
        if !c.ok then
          ({ active1 with
              nState := ACTIVE_ENODE_NOT_CAPABLE
              strNotCapableReason := "Error creating mastznode broadcast: " ++ c.strErrorRet },
            man)
        else
          let active2 := { active1 with fPingerEnabled := true, nState := ACTIVE_ENODE_STARTED }
          let r := CEnodeMan.UpdateEnodeListWith manage
            { env with activePubKeyEnode := active2.pubKeyEnode } man active2 c.mnbRet
          (r.1, r.2.NotifyEnodeUpdates)

/-- The method `CActiveEnode::ManageState`, with what a nested call of it does passed in as
`manage`.  The result is that of the final `SendEnodePing`. -/
def CActiveEnode.ManageStateWith (manage : ManageFn) (env : Env) (man : CEnodeMan)
    (active : CActiveEnode) : SendEnodePingResult :=
  if !env.fZNode then { ok := false, active := active, man := man, events := [] }
  else if !env.isRegTest && !env.IsBlockchainSynced then
    { ok := false
      active := { active with nState := ACTIVE_ENODE_SYNC_IN_PROCESS }
      man := man
      events := [] }
  else
    let active1 :=
      if active.nState = ACTIVE_ENODE_SYNC_IN_PROCESS then
        { active with nState := ACTIVE_ENODE_INITIAL }
      else active
    let active2 :=
      if active1.eType = ENODE_UNKNOWN then active1.ManageStateInitial env else active1
    let r : CActiveEnode × CEnodeMan :=
      if active2.eType = ENODE_REMOTE then active2.ManageStateRemote env man
      else if active2.eType = ENODE_LOCAL then
        let r1 := active2.ManageStateRemote env man
        if r1.1.nState ≠ ACTIVE_ENODE_STARTED then
          r1.1.ManageStateLocalWith manage env r1.2
        else r1
      else (active2, man)
    r.1.SendEnodePing env r.2

/-- The call `activeEnode.ManageState()` unfolded to a given depth of nested calls: a call
made from `UpdateFromNewBroadcast` inside `ManageStateLocal` is run with one level less, and
at depth `0` it is not run. -/
def CActiveEnode.manageFuel : Nat → ManageFn
  | 0 => fun _ man active => (active, man)
  | n + 1 => fun env man active =>
    let r := CActiveEnode.ManageStateWith (CActiveEnode.manageFuel n) env man active
    (r.active, r.man)

/-- The method `CActiveEnode::ManageState`.  The announcement `ManageStateLocal` creates
carries the adjusted clock as its signature time, so a call of `ManageState` nested two levels
deep is never reached: the record it would come from already has that signature time and
`UpdateFromNewBroadcast` returns at its first test. -/
def CActiveEnode.ManageState (env : Env) (man : CEnodeMan) (active : CActiveEnode) :
    SendEnodePingResult :=
  CActiveEnode.ManageStateWith (CActiveEnode.manageFuel 1) env man active

/-- The method `CEnode::UpdateFromNewBroadcast` with the active enode passed along: the
outcome and the active enode afterwards. -/
def CEnode.UpdateFromNewBroadcastActive (env : Env) (man : CEnodeMan) (active : CActiveEnode)
    (mn : CEnode) (mnb : CEnodeBroadcast) : Outcome × CActiveEnode :=
  mn.UpdateFromNewBroadcastWith (CActiveEnode.manageFuel 2) env man active mnb

/-- The method `CEnode::UpdateFromNewBroadcast`; the active enode is the one the environment
holds. -/
def CEnode.UpdateFromNewBroadcast (env : Env) (man : CEnodeMan) (mn : CEnode)
    (mnb : CEnodeBroadcast) : Outcome :=
  (mn.UpdateFromNewBroadcastActive env man (CActiveEnode.ofEnv env) mnb).1

/-- The method `CEnodeMan::UpdateEnodeList`; the active enode is the one the environment
holds. -/
def CEnodeMan.UpdateEnodeList (env : Env) (man : CEnodeMan) (mnb : CEnodeBroadcast) :
    CEnodeMan :=
  (CEnodeMan.UpdateEnodeListWith (CActiveEnode.manageFuel 2) env man (CActiveEnode.ofEnv env)
    mnb).2

/-- The registry operations that change the enode vector. -/
inductive RegistryOp where
  | add (mn : CEnode)
  | updateEnodeList (env : Env) (mnb : CEnodeBroadcast)
  | removeSpent (env : Env)
  | clear

/-- One registry operation applied to a registry. -/
def RegistryOp.apply (man : CEnodeMan) : RegistryOp → CEnodeMan
  | RegistryOp.add mn => (man.Add mn).2
  | RegistryOp.updateEnodeList env mnb => man.UpdateEnodeList env mnb
  | RegistryOp.removeSpent env => man.CheckAndRemoveSpent env
  | RegistryOp.clear => man.Clear

/-- The registry reached from the empty one by a sequence of operations. -/
def CEnodeMan.run (ops : List RegistryOp) : CEnodeMan :=
  ops.foldl RegistryOp.apply CEnodeMan.empty

/-! ## The operations on one record -/

/-- The operations of a record that touch its state or its PoSe score. -/
inductive RecordOp where
  | IncreasePoSeBanScore
  | DecreasePoSeBanScore
  | Check (env : Env) (man : CEnodeMan) (fForce : Bool)
  | UpdateFromNewBroadcast (env : Env) (man : CEnodeMan) (mnb : CEnodeBroadcast)

/-- One operation applied to a record. -/
def RecordOp.apply (mn : CEnode) : RecordOp → CEnode
  | RecordOp.IncreasePoSeBanScore => mn.IncreasePoSeBanScore
  | RecordOp.DecreasePoSeBanScore => mn.DecreasePoSeBanScore
  | RecordOp.Check env man fForce => CEnode.Check env man mn fForce
  | RecordOp.UpdateFromNewBroadcast env man mnb => (mn.UpdateFromNewBroadcast env man mnb).mn

/-- The record after a sequence of operations. -/
def CEnode.runOps (mn : CEnode) (ops : List RecordOp) : CEnode :=
  ops.foldl RecordOp.apply mn

/-! ## Processing an announcement for a known record (`CEnodeBroadcast::Update`) -/

/-- The method `CEnodeBroadcast::Update` for the record `pmn`, with the active enode passed
along.  Relaying the announcement and the sync counter `znodeSync.AddedEnodeList()` act
outside the record and the tables. -/
def CEnodeBroadcast.UpdateActive (env : Env) (man : CEnodeMan) (active : CActiveEnode)
    (mnb : CEnodeBroadcast) (pmn : CEnode) : Outcome × CActiveEnode :=
  if decide (pmn.sigTime = mnb.mn.sigTime) && !mnb.fRecovery then
    ({ ok := false, nDos := 0, mn := pmn, man := man }, active)
  else if pmn.sigTime > mnb.mn.sigTime then
    ({ ok := false, nDos := 0, mn := pmn, man := man }, active)
  else
    let mn1 := CEnode.Check env man pmn false
    if mn1.IsPoSeBanned then ({ ok := false, nDos := 0, mn := mn1, man := man }, active)
    else if mn1.pubKeyCollateralAddress ≠ mnb.mn.pubKeyCollateralAddress then
      ({ ok := false, nDos := 33, mn := mn1, man := man }, active)
    else
      let cs := mnb.CheckSignature env
      if !cs.1 then ({ ok := false, nDos := cs.2, mn := mn1, man := man }, active)
      else if !mn1.IsBroadcastedWithin env ENODE_MIN_MNB_SECONDS ||
          (env.fZNode && decide (mnb.mn.pubKeyEnode = env.activePubKeyEnode)) then
        let r := mn1.UpdateFromNewBroadcastActive env man active mnb
        if r.1.ok then
          ({ ok := true, nDos := cs.2, mn := CEnode.Check env r.1.man r.1.mn false
             man := r.1.man }, r.2)
        else ({ ok := true, nDos := cs.2, mn := r.1.mn, man := r.1.man }, r.2)
      else ({ ok := true, nDos := cs.2, mn := mn1, man := man }, active)

/-- The method `CEnodeBroadcast::Update` for the record `pmn`; the active enode is the one
the environment holds. -/
def CEnodeBroadcast.Update (env : Env) (man : CEnodeMan) (mnb : CEnodeBroadcast)
    (pmn : CEnode) : Outcome :=
  (mnb.UpdateActive env man (CActiveEnode.ofEnv env) pmn).1

/-- An active enode that was started for the sample enode 17 and has its pinger enabled. -/
def sampleStartedActive : CActiveEnode :=
  { eType := ENODE_REMOTE
    fPingerEnabled := true
    pubKeyEnode := [17, 1]
    vin := (sampleEnode 17 100).vin
    service := { ip := 17, port := 8168 }
    nState := ACTIVE_ENODE_STARTED
    strNotCapableReason := "" }

/-! ## Registry housekeeping (`CEnodeMan::CheckAndRemove`) -/

def MNB_RECOVERY_QUORUM_TOTAL : Int := 10
def MNB_RECOVERY_QUORUM_REQUIRED : Int := 6
def MNB_RECOVERY_MAX_ASK_ENTRIES : Int := 10
def MNB_RECOVERY_WAIT_SECONDS : Int := 60
def MNB_RECOVERY_RETRY_SECONDS : Int := 3 * 60 * 60

/-- The method `CEnodeMan::Check`: every record is checked, unforced. -/
def CEnodeMan.Check (env : Env) (man : CEnodeMan) : CEnodeMan :=
  { man with vEnodes := man.vEnodes.map (fun mn => CEnode.Check env man mn false) }

/-- The method `CEnodeMan::IsMnbRecoveryRequested`. -/
def CEnodeMan.IsMnbRecoveryRequested (man : CEnodeMan) (hash : uint256) : Bool :=
  man.mMnbRecoveryRequests.count hash

/-- The result of `CEnodeMan::CheckMnbAndUpdateEnodeList`: the returned flag, the DoS score
and the registry afterwards. -/
structure CheckMnbResult where
  ok : Bool
  nDos : Int
  man : CEnodeMan
  active : CActiveEnode
deriving DecidableEq, Repr

/-- The branch of `CheckMnbAndUpdateEnodeList` for an announcement that was seen before: the
seen time is bumped, and a reply to a recovery request is counted. -/
def CEnodeMan.seenMnb (env : Env) (man : CEnodeMan) (pfrom : Option CNode)
    (mnb : CEnodeBroadcast) (hash : uint256) : CEnodeMan :=
  let man1 :=
    match man.mapSeenEnodeBroadcast.find hash with
    | some e =>
      if env.GetTime - e.1 > ENODE_NEW_START_REQUIRED_SECONDS - ENODE_MIN_MNP_SECONDS * 2 then
        { man with mapSeenEnodeBroadcast := man.mapSeenEnodeBroadcast.set hash (env.GetTime, e.2) }
      else man
    | none => man
  match pfrom with
  | none => man1
  | some node =>
    match man1.mMnbRecoveryRequests.find hash with
    | none => man1
    | some req =>
      if env.GetTime < req.1 then
        if req.2.contains node.addr.ip then
          let man2 := { man1 with
            mMnbRecoveryRequests :=
              man1.mMnbRecoveryRequests.set hash (req.1, req.2.erase node.addr.ip) }
          match man2.mapSeenEnodeBroadcast.find hash with
          | some e =>
            if mnb.mn.lastPing.sigTime > e.2.mn.lastPing.sigTime then
              let mnTemp := CEnode.Check env man2 (CEnode.ofBroadcast mnb) false
              if CEnode.IsValidStateForAutoStart mnTemp.nActiveState then
                let replies : List CEnodeBroadcast :=
                  match man2.mMnbRecoveryGoodReplies.find hash with
                  | some l => l
                  | none => []
                { man2 with
                  mMnbRecoveryGoodReplies :=
                    man2.mMnbRecoveryGoodReplies.set hash (replies ++ [mnb]) }
              else man2
            else man2
          | none => man2
        else man1
      else man1

/-- The method `CEnodeMan::CheckMnbAndUpdateEnodeList(pfrom, mnb, nDos)` with the active enode
passed along; `none` stands for a null `pfrom`.  `CheckOutpoint` reads the input of the active
enode as it is after `Update`.  Relaying and the sync counter act outside the registry. -/
def CEnodeMan.CheckMnbAndUpdateEnodeList (env : Env) (man : CEnodeMan) (active : CActiveEnode)
    (pfrom : Option CNode) (mnb : CEnodeBroadcast) : CheckMnbResult :=
  let hash := mnb.GetHash env
  if man.mapSeenEnodeBroadcast.count hash && !mnb.fRecovery then
    { ok := true, nDos := 0, man := CEnodeMan.seenMnb env man pfrom mnb hash, active := active }
  else
    let man1 := { man with
      mapSeenEnodeBroadcast := man.mapSeenEnodeBroadcast.insert hash (env.GetTime, mnb) }
    let sc := mnb.SimpleCheck env
    if !sc.ok then { ok := false, nDos := sc.nDos, man := man1, active := active }
    else
      let mnb1 := sc.mnb
      let afterUpdate : CheckMnbResult :=
        match man1.Find mnb1.mn.vin with
        | none => { ok := true, nDos := sc.nDos, man := man1, active := active }
        | some pmn =>
          let hOld := (CEnodeBroadcast.ofEnode pmn).GetHash env
          let man2 := { man1 with mapSeenEnodeBroadcast :=
            man1.mapSeenEnodeBroadcast.insert hOld (0, CEnodeBroadcast.default env) }
          let mnbOld : CEnodeBroadcast :=
            match man2.mapSeenEnodeBroadcast.find hOld with
            | some e => e.2
            | none => CEnodeBroadcast.default env
          let r := mnb1.UpdateActive env man2 active pmn
          let man3 := { r.1.man with vEnodes := CEnodeMan.storeIn r.1.man.vEnodes r.1.mn }
          if !r.1.ok then { ok := false, nDos := r.1.nDos, man := man3, active := r.2 }
          else if hash ≠ mnbOld.GetHash env then
            { ok := true, nDos := r.1.nDos
              man := { man3 with
                mapSeenEnodeBroadcast := man3.mapSeenEnodeBroadcast.erase (mnbOld.GetHash env) }
              active := r.2 }
          else { ok := true, nDos := r.1.nDos, man := man3, active := r.2 }
      if !afterUpdate.ok then afterUpdate
      else
        let co := mnb1.CheckOutpoint { env with activeVin := afterUpdate.active.vin }
          afterUpdate.man afterUpdate.nDos
        if co.ok then
          let man4 := (co.man.Add mnb1.mn).2
          if env.fZNode && decide (mnb1.mn.pubKeyEnode = env.activePubKeyEnode) then
            if mnb1.mn.nProtocolVersion = env.PROTOCOL_VERSION then
              let m := afterUpdate.active.ManageState env man4
              { ok := true, nDos := co.nDos, man := m.man, active := m.active }
            else { ok := false, nDos := co.nDos, man := man4, active := afterUpdate.active }
          else { ok := true, nDos := co.nDos, man := man4, active := afterUpdate.active }
        else { ok := false, nDos := co.nDos, man := co.man, active := afterUpdate.active }

/-- The inner loop of a recovery request: the first ranked enodes that were not asked about
this outpoint are put into the set of requested addresses and scheduled for a connection,
until the set holds `MNB_RECOVERY_QUORUM_TOTAL` addresses. -/
def CEnodeMan.askLoop (asked : StdMap Nat Int) (hash : uint256) :
    List (Int × CEnode) → List Nat → List (CService × uint256) → Bool →
      List Nat × List (CService × uint256) × Bool
  | [], setRequested, scheduled, fAsked => (setRequested, scheduled, fAsked)
  | r :: rest, setRequested, scheduled, fAsked =>
    if ¬ ((setRequested.length : Int) < MNB_RECOVERY_QUORUM_TOTAL) then
      (setRequested, scheduled, fAsked)
    else if asked.count r.2.addr.ip then
      CEnodeMan.askLoop asked hash rest setRequested scheduled fAsked
    else
      CEnodeMan.askLoop asked hash rest
        (if setRequested.contains r.2.addr.ip then setRequested
          else setRequested ++ [r.2.addr.ip])
        (scheduled ++ [(r.2.addr, hash)]) true

/-- The state of the first loop of `CheckAndRemove`: the registry, whose vector holds the
records the loop has passed and kept, the rank list once it is computed, the number of
recovery requests still allowed, and the number of random draws made. -/
structure RemoveLoopState where
  man : CEnodeMan
  vecEnodeRanks : List (Int × CEnode)
  nAskForMnbRecovery : Int
  nDraws : Nat
deriving DecidableEq, Repr

/-- The recovery request of the first loop of `CheckAndRemove` for the record `mn`, with the
records `rest` still behind it in the vector. -/
def CEnodeMan.askForRecovery (env : Env) (mn : CEnode) (rest : List CEnode) (hash : uint256)
    (nHeight : Int) (s : RemoveLoopState) : RemoveLoopState :=
  let s1 : RemoveLoopState :=
    if s.vecEnodeRanks.isEmpty then
      let nRandomBlockHeight := env.GetRandInt s.nDraws nHeight
      { s with
        vecEnodeRanks :=
          CEnodeMan.GetEnodeRanks env { s.man with vEnodes := s.man.vEnodes ++ mn :: rest }
            nRandomBlockHeight 0
        nDraws := s.nDraws + 1 }
    else s
  let asked : StdMap Nat Int :=
    match s1.man.mWeAskedForEnodeListEntry.find mn.vin.prevout with
    | some m => m
    | none => []
  let a := CEnodeMan.askLoop asked hash s1.vecEnodeRanks []
    s1.man.listScheduledMnbRequestConnections false
  { s1 with
    nAskForMnbRecovery := if a.2.2 then s1.nAskForMnbRecovery - 1 else s1.nAskForMnbRecovery
    man := { s1.man with
      listScheduledMnbRequestConnections := a.2.1
      mMnbRecoveryRequests :=
        s1.man.mMnbRecoveryRequests.set hash (env.GetTime + MNB_RECOVERY_WAIT_SECONDS, a.1) } }

/-- The first loop of `CheckAndRemove` over the records still ahead: a record whose
collateral is spent is erased with its seen announcement and its ask entry; for a record that
needs a new start a recovery request may be opened. -/
def CEnodeMan.checkAndRemoveLoop (env : Env) : List CEnode → RemoveLoopState → RemoveLoopState
  | [], s => s
  | mn :: rest, s =>
    let hash := (CEnodeBroadcast.ofEnode mn).GetHash env
    if mn.IsOutpointSpent then
      CEnodeMan.checkAndRemoveLoop env rest
        { s with man := { s.man with
            mapSeenEnodeBroadcast := s.man.mapSeenEnodeBroadcast.erase hash
            mWeAskedForEnodeListEntry := s.man.mWeAskedForEnodeListEntry.erase mn.vin.prevout
            fEnodesRemoved := true } }
    else
      let s1 : RemoveLoopState :=
        match s.man.pCurrentBlockIndex with
        | none => s
        | some nHeight =>
          if decide (s.nAskForMnbRecovery > 0) && env.IsSynced && mn.IsNewStartRequired &&
              !s.man.IsMnbRecoveryRequested hash then
            CEnodeMan.askForRecovery env mn rest hash nHeight s
          else s
      CEnodeMan.checkAndRemoveLoop env rest
        { s1 with man := { s1.man with vEnodes := s1.man.vEnodes ++ [mn] } }

/-- The entries of a map keyed by hashes in the order the map iterates them. -/
def hashOrder (env : Env) {V : Type} (m : StdMap uint256 V) : List (uint256 × V) :=
  List.insertionSort (fun a b => env.uint256Less b.1 a.1 = false) m

/-- The second loop of `CheckAndRemove` over the recovery replies still ahead: when the wait
for the replies is over, an announcement with enough good replies is processed again with
its recovery flag set, and the entry is erased.  The active enode is passed from one
announcement to the next. -/
def CEnodeMan.processRecoveryReplies (env : Env) :
    List (uint256 × List CEnodeBroadcast) → CActiveEnode → CEnodeMan → CEnodeMan
  | [], _, man => man
  | (hash, replies) :: rest, active, man =>
    let man1 := { man with
      mMnbRecoveryRequests := man.mMnbRecoveryRequests.insert hash (0, []) }
    let nTime : Int :=
      match man1.mMnbRecoveryRequests.find hash with
      | some req => req.1
      | none => 0
    if nTime < env.GetTime then
      let r : CActiveEnode × CEnodeMan :=
        if (replies.length : Int) ≥ MNB_RECOVERY_QUORUM_REQUIRED then
          match replies with
          | mnb :: _ =>
            let c := CEnodeMan.CheckMnbAndUpdateEnodeList env man1 active none
              { mnb with fRecovery := true }
            (c.active, c.man)
          | [] => (active, man1)
        else (active, man1)
      CEnodeMan.processRecoveryReplies env rest r.1
        { r.2 with mMnbRecoveryGoodReplies := r.2.mMnbRecoveryGoodReplies.erase hash }
    else CEnodeMan.processRecoveryReplies env rest active man1

/-- The registry after the first loop of `CheckAndRemove`, which follows the check of every
record. -/
def CEnodeMan.CheckAndRemoveFirstLoop (env : Env) (man : CEnodeMan) : CEnodeMan :=
  (CEnodeMan.checkAndRemoveLoop env (man.Check env).vEnodes
    { man := { man.Check env with vEnodes := [] }
      vecEnodeRanks := []
      nAskForMnbRecovery := MNB_RECOVERY_MAX_ASK_ENTRIES
      nDraws := 0 }).man

/-- The method `CEnodeMan::CheckAndRemove`, up to the end of its first block: the check of
every record, the removal loop and the processing of the recovery replies.  The second block
expires entries of the ask and seen tables and rebuilds the index; it does not write to the
vector and is left out. -/
def CEnodeMan.CheckAndRemove (env : Env) (man : CEnodeMan) : CEnodeMan :=
  if !env.IsEnodeListSynced then man
  else
    let man1 := man.CheckAndRemoveFirstLoop env
    CEnodeMan.processRecoveryReplies env (hashOrder env man1.mMnbRecoveryGoodReplies)
      (CActiveEnode.ofEnv env) man1

/-- The announce environment in which the collateral of the sample enode 17 has been spent. -/
def sampleSpentAnnounceEnv : Env :=
  { sampleAnnounceEnv with hasUTXO := fun o => decide (o.hash ≠ 17) }

/-- The sample enode 17 in need of a new start, checked two seconds before the clock of the
sample environment. -/
def sampleRecentlyChecked : CEnode :=
  { sampleEnode 17 100 with
    nActiveState := state.ENODE_NEW_START_REQUIRED
    nTimeLastChecked := 999998 }

/-- The announcement of the sample enode 17 with a ping signed ten seconds before the clock
of the sample environment. -/
def sampleRecoveryReply : CEnodeBroadcast :=
  { mn := { sampleEnode 17 100 with
      lastPing := { vin := (sampleEnode 17 100).vin, blockHash := 1190, sigTime := 999990
                    vchSig := [1] } }
    fRecovery := false }

/-- A registry that holds the recently checked enode 17 and six good recovery replies for
it, the wait for which is over. -/
def sampleRecoveryRegistry : CEnodeMan :=
  { CEnodeMan.empty with
    vEnodes := [sampleRecentlyChecked]
    mMnbRecoveryRequests := [(sampleRecoveryReply.GetHash sampleSpentAnnounceEnv, (999000, []))]
    mMnbRecoveryGoodReplies :=
      [(sampleRecoveryReply.GetHash sampleSpentAnnounceEnv, List.replicate 6 sampleRecoveryReply)] }

/-! ## The vote handler (`CEnodePayments::ProcessMessage`, command `ENODEPAYMENTVOTE`) -/

/-- The method `CEnodeMan::GetEnodeInfo(const CTxIn&)`. -/
def CEnodeMan.GetEnodeInfo (man : CEnodeMan) (vin : CTxIn) : znode_info_t :=
  match man.Find vin with
  | none => znode_info_t.default
  | some pMN => pMN.GetInfo

/-- The method `CEnodePaymentVote::CheckSignature`: the verdict and the DoS score. -/
def CEnodePaymentVote.CheckSignature (env : Env) (vote : CEnodePaymentVote)
    (pubKeyEnode : CPubKey) (nValidationHeight : Int) : Bool × Int :=
  if !env.VerifyMessage pubKeyEnode vote.vchSig (vote.strMessage env) then
    if env.IsEnodeListSynced && decide (vote.nBlockHeight > nValidationHeight) then (false, 20)
    else (false, 0)
  else (true, 0)

/-- The places at which the vote handler returns. -/
inductive VoteMessageOutcome where
  | notSynced
  | liteMode
  | oldPeer
  | noTip
  | seen
  | outOfRange
  | invalid
  | alreadyVoted
  | enodeMissing
  | badSignature
  | notAdded
  | relayed
deriving DecidableEq, Repr

/-- The result of the vote handler: where it returned, the score passed to `Misbehaving` for
the sending peer (0 when it is not called), the vote store and the registry afterwards. -/
structure VoteMessageResult where
  outcome : VoteMessageOutcome
  nMisbehaving : Int
  pay : CEnodePayments
  man : CEnodeMan
deriving DecidableEq, Repr

/-- The method `CEnodePayments::ProcessMessage` for the command `ENODEPAYMENTVOTE`, with the
vote read from the stream and the version `pfrom->nVersion` of the sending peer.  The set
`pfrom->setAskFor` belongs to the peer and is left out. -/
def CEnodePayments.ProcessMessage (env : Env) (man : CEnodeMan) (pay : CEnodePayments)
    (pfrom : CNode) (nVersion : Int) (vote : CEnodePaymentVote) : VoteMessageResult :=
  if !env.IsEnodeListSynced then
    { outcome := VoteMessageOutcome.notSynced, nMisbehaving := 0, pay := pay, man := man }
  else if env.fLiteMode then
    { outcome := VoteMessageOutcome.liteMode, nMisbehaving := 0, pay := pay, man := man }
  else if nVersion < GetMinEnodePaymentsProto env then
    { outcome := VoteMessageOutcome.oldPeer, nMisbehaving := 0, pay := pay, man := man }
  else
    match pay.pCurrentBlockIndex with
    | none => { outcome := VoteMessageOutcome.noTip, nMisbehaving := 0, pay := pay, man := man }
    | some nHeight =>
      let nHash := vote.GetHash env
      if pay.mapEnodePaymentVotes.count nHash then
        { outcome := VoteMessageOutcome.seen, nMisbehaving := 0, pay := pay, man := man }
      else
        let pay1 := { pay with
          mapEnodePaymentVotes := pay.mapEnodePaymentVotes.set nHash vote.MarkAsNotVerified }
        let nFirstBlock := nHeight - CEnodePayments.GetStorageLimit man
        if vote.nBlockHeight < nFirstBlock ∨ vote.nBlockHeight > nHeight + 20 then
          { outcome := VoteMessageOutcome.outOfRange, nMisbehaving := 0, pay := pay1, man := man }
        else
          let iv := vote.IsValid env man pfrom nHeight
          if !iv.ok then
            { outcome := VoteMessageOutcome.invalid, nMisbehaving := iv.nMisbehaving
              pay := pay1, man := iv.man }
          else
            let cv := pay1.CanVote vote.vinEnode.prevout vote.nBlockHeight
            if !cv.1 then
              { outcome := VoteMessageOutcome.alreadyVoted, nMisbehaving := iv.nMisbehaving
                pay := cv.2, man := iv.man }
            else
              let mnInfo := iv.man.GetEnodeInfo vote.vinEnode
              if !mnInfo.fInfoValid then
                { outcome := VoteMessageOutcome.enodeMissing, nMisbehaving := iv.nMisbehaving
                  pay := cv.2
                  man := (CEnodeMan.AskForMN env.GetTime iv.man (some pfrom) vote.vinEnode).2 }
              else
                let cs := vote.CheckSignature env mnInfo.pubKeyEnode nHeight
                if !cs.1 then
                  { outcome := VoteMessageOutcome.badSignature
                    nMisbehaving := if cs.2 ≠ 0 then cs.2 else iv.nMisbehaving
                    pay := cv.2
                    man := (CEnodeMan.AskForMN env.GetTime iv.man (some pfrom) vote.vinEnode).2 }
                else
                  let r := cv.2.AddPaymentVote env vote
                  if r.1 then
                    { outcome := VoteMessageOutcome.relayed, nMisbehaving := iv.nMisbehaving
                      pay := r.2, man := iv.man }
                  else
                    { outcome := VoteMessageOutcome.notAdded, nMisbehaving := iv.nMisbehaving
                      pay := r.2, man := iv.man }

/-- A sequence of vote messages from one peer handled in order: the vote store and the
registry afterwards. -/
def CEnodePayments.ProcessMessages (env : Env) (pfrom : CNode) (nVersion : Int) :
    List CEnodePaymentVote → CEnodeMan → CEnodePayments → CEnodeMan × CEnodePayments
  | [], man, pay => (man, pay)
  | vote :: rest, man, pay =>
    let r := pay.ProcessMessage env man pfrom nVersion vote
    CEnodePayments.ProcessMessages env pfrom nVersion rest r.man r.pay

/-- A peer at address 99 with id 1. -/
def samplePeer : CNode := { id := 1, addr := { ip := 99, port := 8168 } }

/-- An empty vote store with its tip at height 200. -/
def sampleTipStore : CEnodePayments := { CEnodePayments.empty with pCurrentBlockIndex := some 200 }

/-- The tests the vote handler makes before it looks at the hash of the vote: the enode list
is synced, the node is not in lite mode, the version of the peer is not below the payment
floor, and the store knows a tip. -/
def CEnodePayments.ReadsVotes (env : Env) (pay : CEnodePayments) (nVersion : Int) : Prop :=
  env.IsEnodeListSynced = true ∧ env.fLiteMode = false ∧
  ¬ (nVersion < GetMinEnodePaymentsProto env) ∧ pay.pCurrentBlockIndex ≠ none

instance CEnodePayments.ReadsVotes.decidable (env : Env) (pay : CEnodePayments)
    (nVersion : Int) : Decidable (CEnodePayments.ReadsVotes env pay nVersion) := by
  unfold CEnodePayments.ReadsVotes
  exact inferInstance

/-- The vote handler returned after the vote was stored and before it was added to the
payees: at the height window, the validity check, the vote limit, the missing enode or the
signature check. -/
def VoteMessageOutcome.failedCheck (o : VoteMessageOutcome) : Bool :=
  match o with
  | VoteMessageOutcome.outOfRange => true
  | VoteMessageOutcome.invalid => true
  | VoteMessageOutcome.alreadyVoted => true
  | VoteMessageOutcome.enodeMissing => true
  | VoteMessageOutcome.badSignature => true
  | _ => false

/-! ## Samples for the update of a record -/

/-- The announcement of the sample enode 17, 500 seconds newer than the record and signed
with another collateral key. -/
def sampleOtherKeyBroadcast : CEnodeBroadcast :=
  { mn := { sampleEnode 17 100 with sigTime := 500, pubKeyCollateralAddress := [99] }
    fRecovery := false }

/-- An announcement of the sample enode 17 signed 50 seconds before the clock of the sample
environment. -/
def sampleRecentBroadcast : CEnodeBroadcast :=
  { mn := { sampleEnode 17 100 with sigTime := 999950 }, fRecovery := false }

/-- A node that runs the sample enode 17 from its own wallet: the type of the active enode is
`ENODE_LOCAL`, it serves at the address of that enode, and the wallet returns the collateral
of the sample enode 17. -/
def sampleLocalEnv : Env :=
  { sampleEnv with
    fZNode := true
    activePubKeyEnode := [17, 1]
    activeType := ENODE_LOCAL
    activeService := { ip := 34, port := 8168 }
    hasWallet := true
    walletEnodeVinAndKeys := some ((sampleEnode 17 100).vin, [17]) }

/-! ## What the steps on a registry record keep -/

/-- What `Check`, a new last ping and an accepted announcement without the recovery flag keep
of a record: the input and the collateral key stay, the signature time does not go down, and
the PoSe score goes neither above the larger of its old value and `0` nor below the smaller
of its old value and `-5`. -/
def CEnode.Evolves (x y : CEnode) : Prop :=
  y.vin = x.vin ∧ y.pubKeyCollateralAddress = x.pubKeyCollateralAddress ∧
  x.sigTime ≤ y.sigTime ∧
  (y.nPoSeBanScore ≤ x.nPoSeBanScore ∨ y.nPoSeBanScore ≤ 0) ∧
  (x.nPoSeBanScore ≤ y.nPoSeBanScore ∨ -5 ≤ y.nPoSeBanScore)

/-- Every record the first vector holds under an outpoint is found under that outpoint in the
second vector, in the sense of `CEnode.Evolves`. -/
def CEnodeMan.RegEvolves (l k : List CEnode) : Prop :=
  ∀ (v : CTxIn) (x : CEnode), CEnodeMan.findIn l v = some x →
    ∃ y, CEnodeMan.findIn k v = some y ∧ x.Evolves y

/-- The second vector keeps the records of the first in the sense of `RegEvolves`, and holds
every outpoint at most once when the first does. -/
def CEnodeMan.Grows (l k : List CEnode) : Prop :=
  CEnodeMan.RegEvolves l k ∧
  (l.Pairwise (fun a b => a.vin.prevout ≠ b.vin.prevout) →
    k.Pairwise (fun a b => a.vin.prevout ≠ b.vin.prevout))

/-- A callback that keeps the registry in the sense of `CEnodeMan.Grows`. -/
def ManageFn.Good (cb : ManageFn) : Prop :=
  ∀ (env : Env) (man : CEnodeMan) (a : CActiveEnode),
    CEnodeMan.Grows man.vEnodes (cb env man a).2.vEnodes

/-- The registry record of the collateral the wallet returns, when there is one, carries a
signature time that is not before the adjusted clock: an announcement `ManageStateLocal`
creates now is not newer than it. -/
def CActiveEnode.Settled (env : Env) (man : CEnodeMan) : Prop :=
  ∀ w, env.walletEnodeVinAndKeys = some w →
    ∀ p, CEnodeMan.findIn man.vEnodes w.1 = some p → env.GetAdjustedTime ≤ p.sigTime

/-- The record `y` carries what was announced for the record `x`: the input, the enode key,
the signature time, the signature, the protocol version and the address are the same. -/
def CEnode.SameAnnounced (x y : CEnode) : Prop :=
  y.vin = x.vin ∧ y.pubKeyEnode = x.pubKeyEnode ∧ y.sigTime = x.sigTime ∧ y.vchSig = x.vchSig ∧
  y.nProtocolVersion = x.nProtocolVersion ∧ y.addr = x.addr

/-- Every record found under an outpoint in `l` is found under it in `k` with the same
announced fields. -/
def CEnodeMan.RegKeeps (l k : List CEnode) : Prop :=
  ∀ v x, CEnodeMan.findIn l v = some x →
    ∃ y, CEnodeMan.findIn k v = some y ∧ x.SameAnnounced y

/-! # Theorems -/

/-! ## Basic facts about lookups and checks -/

theorem CEnodeMan.findIn_eq_none {l : List CEnode} {vin : CTxIn} :
    CEnodeMan.findIn l vin = none ↔ ∀ x ∈ l, x.vin.prevout ≠ vin.prevout := by
  induction l with
  | nil => simp [CEnodeMan.findIn]
  | cons x rest ih =>
    by_cases h : x.vin.prevout = vin.prevout
    · simp [CEnodeMan.findIn, h]
    · simp [CEnodeMan.findIn, h, ih]

theorem CEnodeMan.findIn_some {l : List CEnode} {vin : CTxIn} {mn : CEnode}
    (h : CEnodeMan.findIn l vin = some mn) : mn ∈ l ∧ mn.vin.prevout = vin.prevout := by
  induction l with
  | nil => simp [CEnodeMan.findIn] at h
  | cons x rest ih =>
    by_cases hx : x.vin.prevout = vin.prevout
    · simp [CEnodeMan.findIn, hx] at h
      subst h
      exact ⟨List.mem_cons_self _ _, hx⟩
    · simp [CEnodeMan.findIn, hx] at h
      exact ⟨List.mem_cons_of_mem _ (ih h).1, (ih h).2⟩

theorem CEnode.checkLifecycle_vin (env : Env) (man : CEnodeMan) (mn : CEnode) :
    (CEnode.checkLifecycle env man mn).vin = mn.vin := by
  unfold CEnode.checkLifecycle
  simp only []
  split_ifs <;> rfl

theorem CEnode.checkBan_vin (env : Env) (man : CEnodeMan) (mn : CEnode) (h : Int) :
    (CEnode.checkBan env man mn h).vin = mn.vin := by
  unfold CEnode.checkBan
  split_ifs
  · rfl
  · rw [CEnode.checkLifecycle_vin]
    unfold CEnode.DecreasePoSeBanScore
    split_ifs <;> rfl
  · rfl
  · exact CEnode.checkLifecycle_vin env man mn

theorem CEnode.Check_vin (env : Env) (man : CEnodeMan) (mn : CEnode) (f : Bool) :
    (CEnode.Check env man mn f).vin = mn.vin := by
  unfold CEnode.Check
  simp only []
  split_ifs <;> first | rfl | (rw [CEnode.checkBan_vin])

theorem CEnodePing.CheckAndUpdate_vin (env : Env) (man : CEnodeMan) (p : CEnodePing)
    (pmn : CEnode) (f : Bool) :
    (p.CheckAndUpdate env man pmn f).mn.vin = pmn.vin ∧
      (p.CheckAndUpdate env man pmn f).man.vEnodes = man.vEnodes := by
  unfold CEnodePing.CheckAndUpdate
  simp only []
  split_ifs <;> first | exact ⟨rfl, rfl⟩ | exact ⟨CEnode.Check_vin _ _ _ _, rfl⟩

theorem CEnodeMan.storeIn_prevouts (l : List CEnode) (mn : CEnode) :
    (CEnodeMan.storeIn l mn).map (fun x => x.vin.prevout) = l.map (fun x => x.vin.prevout) := by
  induction l with
  | nil => rfl
  | cons x rest ih =>
    by_cases hx : x.vin.prevout = mn.vin.prevout
    · simp [CEnodeMan.storeIn, hx]
    · simp [CEnodeMan.storeIn, hx, ih]

theorem CEnodeMan.unique_iff (man : CEnodeMan) :
    man.Unique ↔ (man.vEnodes.map (fun x => x.vin.prevout)).Nodup := by
  unfold CEnodeMan.Unique List.Nodup
  rw [List.pairwise_map]

theorem CEnodeMan.Add_unique (man : CEnodeMan) (mn : CEnode) (h : man.Unique) :
    (man.Add mn).2.Unique := by
  unfold CEnodeMan.Add
  cases hf : man.Find mn.vin with
  | some x => simpa using h
  | none =>
    have hn := CEnodeMan.findIn_eq_none.mp hf
    simp only [CEnodeMan.Unique]
    rw [List.pairwise_append]
    refine ⟨h, List.pairwise_singleton _ _, ?_⟩
    intro a ha b hb
    simp only [List.mem_singleton] at hb
    subst hb
    exact hn a ha

theorem CEnode.checkLifecycle_frame (env : Env) (man : CEnodeMan) (mn : CEnode) :
    ∃ st, CEnode.checkLifecycle env man mn = { mn with nActiveState := st } := by
  unfold CEnode.checkLifecycle
  simp only []
  split_ifs <;> exact ⟨_, rfl⟩

theorem CEnode.checkBan_score (env : Env) (man : CEnodeMan) (mn : CEnode) (h : Int) :
    (CEnode.checkBan env man mn h).nPoSeBanScore = mn.nPoSeBanScore ∨
      (mn.nActiveState = state.ENODE_POSE_BAN ∧ mn.nPoSeBanHeight ≤ h ∧
        -ENODE_POSE_BAN_MAX_SCORE < mn.nPoSeBanScore ∧
        (CEnode.checkBan env man mn h).nPoSeBanScore = mn.nPoSeBanScore - 1) := by
  unfold CEnode.checkBan
  split_ifs with h1 h2 h3
  · exact Or.inl rfl
  · obtain ⟨st, hst⟩ := CEnode.checkLifecycle_frame env man mn.DecreasePoSeBanScore
    rw [hst]
    unfold CEnode.DecreasePoSeBanScore
    split_ifs with h4
    · right
      refine ⟨by simpa [CEnode.IsPoSeBanned] using h1, by omega, by simpa using h4, rfl⟩
    · exact Or.inl rfl
  · exact Or.inl rfl
  · obtain ⟨st, hst⟩ := CEnode.checkLifecycle_frame env man mn
    rw [hst]
    exact Or.inl rfl

theorem CEnode.Check_score (env : Env) (man : CEnodeMan) (mn : CEnode) (f : Bool) :
    (CEnode.Check env man mn f).nPoSeBanScore = mn.nPoSeBanScore ∨
      (mn.nActiveState = state.ENODE_POSE_BAN ∧ -ENODE_POSE_BAN_MAX_SCORE < mn.nPoSeBanScore ∧
        (CEnode.Check env man mn f).nPoSeBanScore = mn.nPoSeBanScore - 1) := by
  unfold CEnode.Check
  simp only []
  split_ifs
  all_goals first
    | exact Or.inl rfl
    | (rcases CEnode.checkBan_score env man { mn with nTimeLastChecked := env.GetTime }
          env.chainHeight with h | ⟨h1, _, h3, h4⟩
       · exact Or.inl h
       · exact Or.inr ⟨h1, h3, h4⟩)
    | (rcases CEnode.checkBan_score env man { mn with nTimeLastChecked := env.GetTime }
          0 with h | ⟨h1, _, h3, h4⟩
       · exact Or.inl h
       · exact Or.inr ⟨h1, h3, h4⟩)

theorem CEnode.Check_sigTime (env : Env) (man : CEnodeMan) (mn : CEnode) (f : Bool) :
    (CEnode.Check env man mn f).sigTime = mn.sigTime := by
  have hl : ∀ m : CEnode, (CEnode.checkLifecycle env man m).sigTime = m.sigTime := by
    intro m
    obtain ⟨st, hst⟩ := CEnode.checkLifecycle_frame env man m
    rw [hst]
  have hb : ∀ (m : CEnode) (h : Int), (CEnode.checkBan env man m h).sigTime = m.sigTime := by
    intro m h
    unfold CEnode.checkBan
    split_ifs
    · rfl
    · rw [hl]
      unfold CEnode.DecreasePoSeBanScore
      split_ifs <;> rfl
    · rfl
    · exact hl m
  unfold CEnode.Check
  simp only []
  split_ifs <;> first | rfl | (rw [hb])

theorem CEnodePing.CheckAndUpdate_record (env : Env) (man : CEnodeMan) (p : CEnodePing)
    (pmn : CEnode) (f : Bool) :
    (p.CheckAndUpdate env man pmn f).mn = pmn ∨
      ∃ man1, (p.CheckAndUpdate env man pmn f).mn =
        CEnode.Check env man1 { pmn with lastPing := p } true := by
  unfold CEnodePing.CheckAndUpdate
  simp only []
  split_ifs <;> first | exact Or.inl rfl | exact Or.inr ⟨_, rfl⟩

/-- Lowering the score changes no other field. -/
theorem CEnode.DecreasePoSeBanScore_frame (mn : CEnode) :
    ∃ sc, mn.DecreasePoSeBanScore = { mn with nPoSeBanScore := sc } ∧
      sc = (if mn.nPoSeBanScore > -ENODE_POSE_BAN_MAX_SCORE then mn.nPoSeBanScore - 1
        else mn.nPoSeBanScore) := by
  unfold CEnode.DecreasePoSeBanScore
  split_ifs with h
  · exact ⟨_, rfl, rfl⟩
  · exact ⟨mn.nPoSeBanScore, rfl, rfl⟩

/-- A check changes at most the time of the check, the state, the PoSe score and the ban
height of a record. -/
theorem CEnode.Check_frame (env : Env) (man : CEnodeMan) (mn : CEnode) (f : Bool) :
    ∃ t st sc h, CEnode.Check env man mn f =
      { mn with nTimeLastChecked := t, nActiveState := st, nPoSeBanScore := sc,
                nPoSeBanHeight := h } := by
  have hl : ∀ m : CEnode, ∃ st, CEnode.checkLifecycle env man m = { m with nActiveState := st } :=
    fun m => CEnode.checkLifecycle_frame env man m
  have hb : ∀ (m : CEnode) (hh : Int), ∃ st sc h, CEnode.checkBan env man m hh =
      { m with nActiveState := st, nPoSeBanScore := sc, nPoSeBanHeight := h } := by
    intro m hh
    unfold CEnode.checkBan
    split_ifs
    · exact ⟨_, _, _, rfl⟩
    · obtain ⟨sc, hsc, _⟩ := CEnode.DecreasePoSeBanScore_frame m
      obtain ⟨st, hst⟩ := hl m.DecreasePoSeBanScore
      rw [hst, hsc]
      exact ⟨_, _, _, rfl⟩
    · exact ⟨_, _, _, rfl⟩
    · obtain ⟨st, hst⟩ := hl m
      rw [hst]
      exact ⟨_, _, _, rfl⟩
  unfold CEnode.Check
  simp only []
  split_ifs
  all_goals first
    | exact ⟨_, _, _, _, rfl⟩
    | (obtain ⟨st, sc, h, hx⟩ := hb { mn with nTimeLastChecked := env.GetTime } env.chainHeight
       rw [hx]
       exact ⟨_, _, _, _, rfl⟩)
    | (obtain ⟨st, sc, h, hx⟩ := hb { mn with nTimeLastChecked := env.GetTime } 0
       rw [hx]
       exact ⟨_, _, _, _, rfl⟩)

theorem CEnodeMan.findKeyIn_storeKeyIn (l : List CEnode) (k : CPubKey) (mn : CEnode)
    (hk : mn.pubKeyEnode = k) :
    CEnodeMan.findKeyIn (CEnodeMan.storeKeyIn l k mn) k =
      (CEnodeMan.findKeyIn l k).map (fun _ => mn) := by
  induction l with
  | nil => rfl
  | cons x rest ih =>
    by_cases hx : x.pubKeyEnode = k
    · simp [CEnodeMan.storeKeyIn, CEnodeMan.findKeyIn, hx, hk]
    · simp [CEnodeMan.storeKeyIn, CEnodeMan.findKeyIn, hx, ih]

theorem CEnodeMan.findIn_storeIn {l : List CEnode} {vin : CTxIn} {pMN mn : CEnode}
    (hf : CEnodeMan.findIn l vin = some pMN) (hv : mn.vin.prevout = pMN.vin.prevout) :
    CEnodeMan.findIn (CEnodeMan.storeIn l mn) vin = some mn := by
  induction l with
  | nil => simp [CEnodeMan.findIn] at hf
  | cons x rest ih =>
    unfold CEnodeMan.findIn at hf
    unfold CEnodeMan.storeIn
    by_cases hx : x.vin.prevout = vin.prevout
    · rw [if_pos hx] at hf
      have hxp : x = pMN := Option.some.inj hf
      rw [if_pos (by rw [hv, ← hxp])]
      unfold CEnodeMan.findIn
      rw [if_pos (by rw [hv, ← hxp, hx])]
    · rw [if_neg hx] at hf
      have hp := (CEnodeMan.findIn_some hf).2
      rw [if_neg (by rw [hv, hp]; exact hx)]
      unfold CEnodeMan.findIn
      rw [if_neg hx]
      exact ih hf

/-- The ping `Sign` leaves carries the adjusted clock as its signature time. -/
theorem CEnodePing.Sign_sigTime (env : Env) (p : CEnodePing) (k : CPubKey) :
    (p.Sign env k).2.sigTime = env.GetAdjustedTime := by
  unfold CEnodePing.Sign
  simp only []
  split
  · rfl
  · split_ifs <;> rfl

/-! ## The activation callback: what it keeps of the registry -/

theorem CEnode.Evolves_refl (x : CEnode) : x.Evolves x :=
  ⟨rfl, rfl, le_refl _, Or.inl (le_refl _), Or.inl (le_refl _)⟩

theorem CEnode.Evolves_trans {x y z : CEnode} (h1 : x.Evolves y) (h2 : y.Evolves z) :
    x.Evolves z := by
  obtain ⟨a1, b1, c1, d1, e1⟩ := h1
  obtain ⟨a2, b2, c2, d2, e2⟩ := h2
  refine ⟨a2.trans a1, b2.trans b1, le_trans c1 c2, ?_, ?_⟩
  · omega
  · omega

theorem CEnode.Check_evolves (env : Env) (man : CEnodeMan) (mn : CEnode) (f : Bool) :
    mn.Evolves (CEnode.Check env man mn f) := by
  obtain ⟨t, st, sc, h, hfr⟩ := CEnode.Check_frame env man mn f
  have hs := CEnode.Check_score env man mn f
  refine ⟨CEnode.Check_vin env man mn f, by rw [hfr], by rw [CEnode.Check_sigTime], ?_, ?_⟩
  · rcases hs with hs | ⟨_, _, hs⟩
    · left; rw [hs]
    · left; rw [hs]; omega
  · rcases hs with hs | ⟨_, h2, hs⟩
    · left; rw [hs]
    · right; rw [hs]
      have : ENODE_POSE_BAN_MAX_SCORE = 5 := rfl
      omega

theorem CEnode.Evolves_setLastPing (x : CEnode) (p : CEnodePing) :
    x.Evolves { x with lastPing := p } :=
  ⟨rfl, rfl, le_refl _, Or.inl (le_refl _), Or.inl (le_refl _)⟩

/-! ### Lookups after a record is written back -/

theorem CEnodeMan.findIn_congr (l : List CEnode) {v w : CTxIn} (h : v.prevout = w.prevout) :
    CEnodeMan.findIn l v = CEnodeMan.findIn l w := by
  induction l with
  | nil => rfl
  | cons x rest ih =>
    unfold CEnodeMan.findIn
    rw [h, ih]

theorem CEnodeMan.findIn_storeIn_ne (l : List CEnode) (mn : CEnode) (v : CTxIn)
    (h : mn.vin.prevout ≠ v.prevout) :
    CEnodeMan.findIn (CEnodeMan.storeIn l mn) v = CEnodeMan.findIn l v := by
  induction l with
  | nil => rfl
  | cons x rest ih =>
    unfold CEnodeMan.storeIn
    by_cases hx : x.vin.prevout = mn.vin.prevout
    · rw [if_pos hx]
      unfold CEnodeMan.findIn
      rw [if_neg h, if_neg (by rw [hx]; exact h)]
    · rw [if_neg hx]
      unfold CEnodeMan.findIn
      rw [ih]

theorem CEnodeMan.storeIn_none (l : List CEnode) (mn : CEnode)
    (h : CEnodeMan.findIn l mn.vin = none) : CEnodeMan.storeIn l mn = l := by
  induction l with
  | nil => rfl
  | cons x rest ih =>
    unfold CEnodeMan.findIn at h
    unfold CEnodeMan.storeIn
    by_cases hx : x.vin.prevout = mn.vin.prevout
    · rw [if_pos hx] at h; cases h
    · rw [if_neg hx] at h
      rw [if_neg hx, ih h]

theorem CEnodeMan.RegEvolves_refl (l : List CEnode) : CEnodeMan.RegEvolves l l :=
  fun _ x h => ⟨x, h, CEnode.Evolves_refl x⟩

theorem CEnodeMan.RegEvolves_trans {l k m : List CEnode} (h1 : CEnodeMan.RegEvolves l k)
    (h2 : CEnodeMan.RegEvolves k m) : CEnodeMan.RegEvolves l m := by
  intro v x hx
  obtain ⟨y, hy, hxy⟩ := h1 v x hx
  obtain ⟨z, hz, hyz⟩ := h2 v y hy
  exact ⟨z, hz, CEnode.Evolves_trans hxy hyz⟩

theorem CEnodeMan.Grows_refl (l : List CEnode) : CEnodeMan.Grows l l :=
  ⟨CEnodeMan.RegEvolves_refl l, fun h => h⟩

theorem CEnodeMan.Grows_trans {l k m : List CEnode} (h1 : CEnodeMan.Grows l k)
    (h2 : CEnodeMan.Grows k m) : CEnodeMan.Grows l m :=
  ⟨CEnodeMan.RegEvolves_trans h1.1 h2.1, fun h => h2.2 (h1.2 h)⟩

theorem CEnodeMan.pairwise_of_prevouts {l k : List CEnode}
    (h : k.map (fun x => x.vin.prevout) = l.map (fun x => x.vin.prevout))
    (hl : l.Pairwise (fun a b => a.vin.prevout ≠ b.vin.prevout)) :
    k.Pairwise (fun a b => a.vin.prevout ≠ b.vin.prevout) := by
  have h1 : (l.map (fun x => x.vin.prevout)).Pairwise (fun a b => a ≠ b) :=
    List.pairwise_map.mpr hl
  rw [← h] at h1
  exact List.pairwise_map.mp h1

/-- Writing back a record that evolved from the one stored under its outpoint. -/
theorem CEnodeMan.Grows_storeIn (l : List CEnode) (mn : CEnode)
    (h : ∀ x, CEnodeMan.findIn l mn.vin = some x → x.Evolves mn) :
    CEnodeMan.Grows l (CEnodeMan.storeIn l mn) := by
  refine ⟨?_, CEnodeMan.pairwise_of_prevouts (CEnodeMan.storeIn_prevouts l mn)⟩
  intro v x hx
  by_cases hv : mn.vin.prevout = v.prevout
  · have hx2 : CEnodeMan.findIn l mn.vin = some x := by
      rw [CEnodeMan.findIn_congr l hv]; exact hx
    refine ⟨mn, ?_, h x hx2⟩
    exact CEnodeMan.findIn_storeIn hx (by rw [hv, (CEnodeMan.findIn_some hx).2])
  · exact ⟨x, by rw [CEnodeMan.findIn_storeIn_ne l mn v hv]; exact hx, CEnode.Evolves_refl x⟩

theorem CEnodeMan.findIn_append_of_some {l : List CEnode} {v : CTxIn} {x : CEnode}
    (h : CEnodeMan.findIn l v = some x) (k : List CEnode) :
    CEnodeMan.findIn (l ++ k) v = some x := by
  induction l with
  | nil => simp [CEnodeMan.findIn] at h
  | cons a rest ih =>
    unfold CEnodeMan.findIn at h
    show CEnodeMan.findIn (a :: (rest ++ k)) v = some x
    unfold CEnodeMan.findIn
    by_cases ha : a.vin.prevout = v.prevout
    · rw [if_pos ha] at h ⊢; exact h
    · rw [if_neg ha] at h ⊢; exact ih h

theorem CEnodeMan.Grows_Add (man : CEnodeMan) (mn : CEnode) :
    CEnodeMan.Grows man.vEnodes (man.Add mn).2.vEnodes := by
  refine ⟨?_, fun h => CEnodeMan.Add_unique man mn h⟩
  unfold CEnodeMan.Add
  cases hf : man.Find mn.vin with
  | some x => exact CEnodeMan.RegEvolves_refl _
  | none =>
    intro v x hx
    exact ⟨x, CEnodeMan.findIn_append_of_some hx _, CEnode.Evolves_refl x⟩

/-! ### Lookups after a record is written back under its enode key -/

theorem CEnodeMan.findKeyIn_some {l : List CEnode} {k : CPubKey} {x : CEnode}
    (h : CEnodeMan.findKeyIn l k = some x) : x ∈ l ∧ x.pubKeyEnode = k := by
  induction l with
  | nil => simp [CEnodeMan.findKeyIn] at h
  | cons a rest ih =>
    unfold CEnodeMan.findKeyIn at h
    by_cases ha : a.pubKeyEnode = k
    · rw [if_pos ha] at h
      cases h
      exact ⟨List.mem_cons_self _ _, ha⟩
    · rw [if_neg ha] at h
      exact ⟨List.mem_cons_of_mem _ (ih h).1, (ih h).2⟩

theorem CEnodeMan.storeKeyIn_prevouts (l : List CEnode) (k : CPubKey) (mn x : CEnode)
    (hf : CEnodeMan.findKeyIn l k = some x) (hv : mn.vin = x.vin) :
    (CEnodeMan.storeKeyIn l k mn).map (fun x => x.vin.prevout) =
      l.map (fun x => x.vin.prevout) := by
  induction l with
  | nil => rfl
  | cons a rest ih =>
    unfold CEnodeMan.findKeyIn at hf
    unfold CEnodeMan.storeKeyIn
    by_cases ha : a.pubKeyEnode = k
    · rw [if_pos ha] at hf
      have hax : a = x := Option.some.inj hf
      rw [if_pos ha]
      simp [hv, hax]
    · rw [if_neg ha] at hf
      rw [if_neg ha]
      simp [ih hf]

/-- The lookup by outpoint after the first record with an enode key was replaced by a record
with the same input: the replaced record is found as its replacement, any other as it was. -/
theorem CEnodeMan.findIn_storeKeyIn (l : List CEnode) (k : CPubKey) (mn x : CEnode)
    (hf : CEnodeMan.findKeyIn l k = some x) (hv : mn.vin = x.vin) (v : CTxIn) :
    CEnodeMan.findIn (CEnodeMan.storeKeyIn l k mn) v = CEnodeMan.findIn l v ∨
    (CEnodeMan.findIn l v = some x ∧
      CEnodeMan.findIn (CEnodeMan.storeKeyIn l k mn) v = some mn) := by
  induction l with
  | nil => left; rfl
  | cons a rest ih =>
    unfold CEnodeMan.findKeyIn at hf
    unfold CEnodeMan.storeKeyIn
    by_cases ha : a.pubKeyEnode = k
    · rw [if_pos ha] at hf
      have hax : a = x := Option.some.inj hf
      rw [if_pos ha]
      unfold CEnodeMan.findIn
      by_cases hav : a.vin.prevout = v.prevout
      · right
        rw [if_pos hav, if_pos (by rw [hv, ← hax]; exact hav)]
        exact ⟨by rw [hax], rfl⟩
      · left
        rw [if_neg hav, if_neg (by rw [hv, ← hax]; exact hav)]
    · rw [if_neg ha] at hf
      rw [if_neg ha]
      unfold CEnodeMan.findIn
      by_cases hav : a.vin.prevout = v.prevout
      · left; rw [if_pos hav, if_pos hav]
      · rw [if_neg hav, if_neg hav]
        exact ih hf

theorem CEnodeMan.Grows_storeKeyIn (l : List CEnode) (k : CPubKey) (mn x : CEnode)
    (hf : CEnodeMan.findKeyIn l k = some x) (he : x.Evolves mn) :
    CEnodeMan.Grows l (CEnodeMan.storeKeyIn l k mn) := by
  refine ⟨?_, CEnodeMan.pairwise_of_prevouts (CEnodeMan.storeKeyIn_prevouts l k mn x hf he.1)⟩
  intro v y hy
  rcases CEnodeMan.findIn_storeKeyIn l k mn x hf he.1 v with h | ⟨h1, h2⟩
  · exact ⟨y, by rw [h]; exact hy, CEnode.Evolves_refl y⟩
  · rw [hy] at h1
    cases h1
    exact ⟨mn, h2, he⟩

theorem CEnodeMan.Grows_CheckEnodeByPubKey (env : Env) (man : CEnodeMan) (k : CPubKey)
    (f : Bool) : CEnodeMan.Grows man.vEnodes (man.CheckEnodeByPubKey env k f).vEnodes := by
  unfold CEnodeMan.CheckEnodeByPubKey
  cases hf : man.FindByPubKey k with
  | none => exact CEnodeMan.Grows_refl _
  | some x => exact CEnodeMan.Grows_storeKeyIn _ k _ x hf (CEnode.Check_evolves env man x f)

theorem CEnodeMan.Grows_SetEnodeLastPing (env : Env) (man : CEnodeMan) (vin : CTxIn)
    (mnp : CEnodePing) :
    CEnodeMan.Grows man.vEnodes (man.SetEnodeLastPing env vin mnp).vEnodes := by
  unfold CEnodeMan.SetEnodeLastPing
  cases hf : man.Find vin with
  | none => exact CEnodeMan.Grows_refl _
  | some x =>
    apply CEnodeMan.Grows_storeIn
    intro y hy
    have hy2 : CEnodeMan.findIn man.vEnodes vin = some y := by
      rw [← hy]
      exact CEnodeMan.findIn_congr _ (CEnodeMan.findIn_some hf).2.symm
    have : y = x := Option.some.inj (hy2.symm.trans hf)
    rw [this]
    exact CEnode.Evolves_setLastPing x mnp

theorem CActiveEnode.ManageStateRemote_grows (env : Env) (man : CEnodeMan)
    (active : CActiveEnode) :
    CEnodeMan.Grows man.vEnodes (active.ManageStateRemote env man).2.vEnodes := by
  unfold CActiveEnode.ManageStateRemote
  simp only []
  split_ifs <;> exact CEnodeMan.Grows_CheckEnodeByPubKey _ man _ _

theorem CActiveEnode.SendEnodePing_grows (env : Env) (man : CEnodeMan)
    (active : CActiveEnode) :
    CEnodeMan.Grows man.vEnodes (active.SendEnodePing env man).man.vEnodes := by
  unfold CActiveEnode.SendEnodePing
  simp only []
  split_ifs
  all_goals first
    | exact CEnodeMan.Grows_refl _
    | exact CEnodeMan.Grows_SetEnodeLastPing env man _ _

/-! ### The record and the registry after `UpdateFromNewBroadcast` -/

/-- The fields of a record after the announced values were taken over and the ping checked. -/
theorem CEnode.updateFields_spec (env : Env) (man : CEnodeMan) (mn : CEnode)
    (mnb : CEnodeBroadcast) :
    (mn.updateFields env man mnb).1.vin = mn.vin ∧
    (mn.updateFields env man mnb).1.pubKeyCollateralAddress = mn.pubKeyCollateralAddress ∧
    (mn.updateFields env man mnb).1.sigTime = mnb.mn.sigTime ∧
    (mn.updateFields env man mnb).1.pubKeyEnode = mnb.mn.pubKeyEnode ∧
    (mn.updateFields env man mnb).1.vchSig = mnb.mn.vchSig ∧
    (mn.updateFields env man mnb).1.nProtocolVersion = mnb.mn.nProtocolVersion ∧
    (mn.updateFields env man mnb).1.addr = mnb.mn.addr ∧
    -5 ≤ (mn.updateFields env man mnb).1.nPoSeBanScore ∧
    (mn.updateFields env man mnb).1.nPoSeBanScore ≤ 0 ∧
    (mn.updateFields env man mnb).2.vEnodes = man.vEnodes := by
  have key : ∀ m : CEnode,
      (m = { mn with pubKeyEnode := mnb.mn.pubKeyEnode
                     sigTime := mnb.mn.sigTime
                     vchSig := mnb.mn.vchSig
                     nProtocolVersion := mnb.mn.nProtocolVersion
                     addr := mnb.mn.addr
                     nPoSeBanScore := 0
                     nPoSeBanHeight := 0
                     nTimeLastChecked := 0 } ∨
        ∃ man1, m = CEnode.Check env man1
          { mn with pubKeyEnode := mnb.mn.pubKeyEnode
                    sigTime := mnb.mn.sigTime
                    vchSig := mnb.mn.vchSig
                    nProtocolVersion := mnb.mn.nProtocolVersion
                    addr := mnb.mn.addr
                    nPoSeBanScore := 0
                    nPoSeBanHeight := 0
                    nTimeLastChecked := 0
                    lastPing := mnb.mn.lastPing } true) →
      m.vin = mn.vin ∧ m.pubKeyCollateralAddress = mn.pubKeyCollateralAddress ∧
      m.sigTime = mnb.mn.sigTime ∧ m.pubKeyEnode = mnb.mn.pubKeyEnode ∧
      m.vchSig = mnb.mn.vchSig ∧ m.nProtocolVersion = mnb.mn.nProtocolVersion ∧
      m.addr = mnb.mn.addr ∧ -5 ≤ m.nPoSeBanScore ∧ m.nPoSeBanScore ≤ 0 := by
    intro m hm
    rcases hm with hm | ⟨man1, hm⟩
    · rw [hm]
      exact ⟨rfl, rfl, rfl, rfl, rfl, rfl, rfl, by simp, by simp⟩
    · obtain ⟨t, st, sc, h, hfr⟩ := CEnode.Check_frame env man1
        { mn with pubKeyEnode := mnb.mn.pubKeyEnode
                  sigTime := mnb.mn.sigTime
                  vchSig := mnb.mn.vchSig
                  nProtocolVersion := mnb.mn.nProtocolVersion
                  addr := mnb.mn.addr
                  nPoSeBanScore := 0
                  nPoSeBanHeight := 0
                  nTimeLastChecked := 0
                  lastPing := mnb.mn.lastPing } true
      have hs := CEnode.Check_score env man1
        { mn with pubKeyEnode := mnb.mn.pubKeyEnode
                  sigTime := mnb.mn.sigTime
                  vchSig := mnb.mn.vchSig
                  nProtocolVersion := mnb.mn.nProtocolVersion
                  addr := mnb.mn.addr
                  nPoSeBanScore := 0
                  nPoSeBanHeight := 0
                  nTimeLastChecked := 0
                  lastPing := mnb.mn.lastPing } true
      rw [← hm] at hfr hs
      have hsc : -5 ≤ m.nPoSeBanScore ∧ m.nPoSeBanScore ≤ 0 := by
        rcases hs with hs | ⟨_, _, hs⟩
        · rw [hs]; exact ⟨by simp, by simp⟩
        · rw [hs]; exact ⟨by simp, by simp⟩
      refine ⟨?_, ?_, ?_, ?_, ?_, ?_, ?_, hsc.1, hsc.2⟩ <;> rw [hfr]
  unfold CEnode.updateFields
  simp only []
  by_cases hp : CEnodePing.eq mnb.mn.lastPing CEnodePing.default = true
  · rw [if_pos hp]
    simp
  · rw [if_neg hp]
    have h := CEnodePing.CheckAndUpdate_record env man mnb.mn.lastPing
      { mn with pubKeyEnode := mnb.mn.pubKeyEnode
                sigTime := mnb.mn.sigTime
                vchSig := mnb.mn.vchSig
                nProtocolVersion := mnb.mn.nProtocolVersion
                addr := mnb.mn.addr
                nPoSeBanScore := 0
                nPoSeBanHeight := 0
                nTimeLastChecked := 0 } true
    have hv := (CEnodePing.CheckAndUpdate_vin env man mnb.mn.lastPing
      { mn with pubKeyEnode := mnb.mn.pubKeyEnode
                sigTime := mnb.mn.sigTime
                vchSig := mnb.mn.vchSig
                nProtocolVersion := mnb.mn.nProtocolVersion
                addr := mnb.mn.addr
                nPoSeBanScore := 0
                nPoSeBanHeight := 0
                nTimeLastChecked := 0 } true).2
    generalize CEnodePing.CheckAndUpdate env man mnb.mn.lastPing
      { mn with pubKeyEnode := mnb.mn.pubKeyEnode
                sigTime := mnb.mn.sigTime
                vchSig := mnb.mn.vchSig
                nProtocolVersion := mnb.mn.nProtocolVersion
                addr := mnb.mn.addr
                nPoSeBanScore := 0
                nPoSeBanHeight := 0
                nTimeLastChecked := 0 } true = r at h hv ⊢
    have hk := key r.mn (by
      rcases h with h | ⟨man1, h⟩
      · exact Or.inl h
      · right
        exact ⟨man1, h⟩)
    obtain ⟨k1, k2, k3, k4, k5, k6, k7, k8, k9⟩ := hk
    split_ifs
    · exact ⟨k1, k2, k3, k4, k5, k6, k7, k8, k9, hv⟩
    · exact ⟨k1, k2, k3, k4, k5, k6, k7, k8, k9, hv⟩

theorem CEnode.UpdateFromNewBroadcastWith_rejected (cb : ManageFn) (env : Env)
    (man : CEnodeMan) (a : CActiveEnode) (mn : CEnode) (mnb : CEnodeBroadcast)
    (h : mnb.mn.sigTime ≤ mn.sigTime) (hrec : mnb.fRecovery = false) :
    mn.UpdateFromNewBroadcastWith cb env man a mnb =
      ({ ok := false, nDos := 0, mn := mn, man := man }, a) := by
  unfold CEnode.UpdateFromNewBroadcastWith
  simp [h, hrec]

/-- The record the registry holds under an outpoint after a callback that keeps the
registry, when the record was written there before the callback. -/
theorem ManageFn.Good_readBack {cb : ManageFn} (hcb : ManageFn.Good cb) (env : Env)
    (man : CEnodeMan) (a : CActiveEnode) (mn : CEnode) (h : man.Has mn.vin = true) :
    ∃ y, (cb env { man with vEnodes := CEnodeMan.storeIn man.vEnodes mn } a).2.Find mn.vin =
        some y ∧ mn.Evolves y := by
  obtain ⟨x, hx⟩ := Option.isSome_iff_exists.mp h
  have hs : CEnodeMan.findIn (CEnodeMan.storeIn man.vEnodes mn) mn.vin = some mn :=
    CEnodeMan.findIn_storeIn hx (CEnodeMan.findIn_some hx).2.symm
  exact (hcb env { man with vEnodes := CEnodeMan.storeIn man.vEnodes mn } a).1 mn.vin mn hs

/-- The record after `UpdateFromNewBroadcast`: the call was rejected at once and nothing
changed, or the input and the collateral key are kept, the signature time is at least the
announced one and the PoSe score lies between `-5` and `0`. -/
theorem CEnode.UpdateFromNewBroadcastWith_record (cb : ManageFn) (hcb : ManageFn.Good cb)
    (env : Env) (man : CEnodeMan) (a : CActiveEnode) (mn : CEnode) (mnb : CEnodeBroadcast) :
    ((mnb.mn.sigTime ≤ mn.sigTime ∧ mnb.fRecovery = false) ∧
      mn.UpdateFromNewBroadcastWith cb env man a mnb =
        ({ ok := false, nDos := 0, mn := mn, man := man }, a)) ∨
    (¬ (mnb.mn.sigTime ≤ mn.sigTime ∧ mnb.fRecovery = false) ∧
      (mn.UpdateFromNewBroadcastWith cb env man a mnb).1.mn.vin = mn.vin ∧
      (mn.UpdateFromNewBroadcastWith cb env man a mnb).1.mn.pubKeyCollateralAddress =
        mn.pubKeyCollateralAddress ∧
      mnb.mn.sigTime ≤ (mn.UpdateFromNewBroadcastWith cb env man a mnb).1.mn.sigTime ∧
      -5 ≤ (mn.UpdateFromNewBroadcastWith cb env man a mnb).1.mn.nPoSeBanScore ∧
      (mn.UpdateFromNewBroadcastWith cb env man a mnb).1.mn.nPoSeBanScore ≤ 0) := by
  unfold CEnode.UpdateFromNewBroadcastWith
  by_cases h0 : (decide (mnb.mn.sigTime ≤ mn.sigTime) && !mnb.fRecovery) = true
  · left
    rw [if_pos h0]
    exact ⟨by simpa using h0, rfl⟩
  · right
    rw [if_neg h0]
    refine ⟨by simpa using h0, ?_⟩
    obtain ⟨s1, s2, s3, _, _, _, _, s8, s9, _⟩ := CEnode.updateFields_spec env man mn mnb
    simp only []
    generalize mn.updateFields env man mnb = l at s1 s2 s3 s8 s9 ⊢
    split_ifs with hown hproto hhas
    · obtain ⟨y, hy, he⟩ := ManageFn.Good_readBack hcb env l.2 a
        { l.1 with nPoSeBanScore := -ENODE_POSE_BAN_MAX_SCORE } hhas
      simp only [hy]
      obtain ⟨e1, e2, e3, e4, e5⟩ := he
      have e3b : l.1.sigTime ≤ y.sigTime := e3
      have e4b : y.nPoSeBanScore ≤ -5 ∨ y.nPoSeBanScore ≤ 0 := e4
      have e5b : -5 ≤ y.nPoSeBanScore ∨ -5 ≤ y.nPoSeBanScore := e5
      refine ⟨e1.trans s1, e2.trans s2, by omega, by omega, by omega⟩
    · exact ⟨s1, s2, le_of_eq s3.symm, (by decide : (-5 : Int) ≤ -ENODE_POSE_BAN_MAX_SCORE),
        (by decide : -ENODE_POSE_BAN_MAX_SCORE ≤ (0 : Int))⟩
    · exact ⟨s1, s2, le_of_eq s3.symm, (by decide : (-5 : Int) ≤ -ENODE_POSE_BAN_MAX_SCORE),
        (by decide : -ENODE_POSE_BAN_MAX_SCORE ≤ (0 : Int))⟩
    · exact ⟨s1, s2, le_of_eq s3.symm, s8, s9⟩

/-- No outpoint is held twice after `UpdateFromNewBroadcast` and the write back of its
record, when none was before. -/
theorem CEnode.UpdateFromNewBroadcastWith_unique (cb : ManageFn) (hcb : ManageFn.Good cb)
    (env : Env) (man : CEnodeMan) (a : CActiveEnode) (mn : CEnode) (mnb : CEnodeBroadcast)
    (h : man.vEnodes.Pairwise (fun a b => a.vin.prevout ≠ b.vin.prevout)) :
    (CEnodeMan.storeIn (mn.UpdateFromNewBroadcastWith cb env man a mnb).1.man.vEnodes
      (mn.UpdateFromNewBroadcastWith cb env man a mnb).1.mn).Pairwise
        (fun a b => a.vin.prevout ≠ b.vin.prevout) := by
  apply CEnodeMan.pairwise_of_prevouts (CEnodeMan.storeIn_prevouts _ _)
  unfold CEnode.UpdateFromNewBroadcastWith
  obtain ⟨_, _, _, _, _, _, _, _, _, s10⟩ := CEnode.updateFields_spec env man mn mnb
  simp only []
  generalize mn.updateFields env man mnb = l at s10 ⊢
  split_ifs
  · exact h
  · apply (hcb env _ a).2
    apply CEnodeMan.pairwise_of_prevouts (CEnodeMan.storeIn_prevouts _ _)
    rw [s10]; exact h
  · apply (hcb env _ a).2
    rw [s10]; exact h
  · show l.2.vEnodes.Pairwise _
    rw [s10]; exact h
  · show l.2.vEnodes.Pairwise _
    rw [s10]; exact h

/-- The registry after `UpdateFromNewBroadcast`, run on the record the registry holds for an
announcement without the recovery flag, and the write back of its record. -/
theorem CEnode.UpdateFromNewBroadcastWith_grows (cb : ManageFn) (hcb : ManageFn.Good cb)
    (env : Env) (man : CEnodeMan) (a : CActiveEnode) (mn : CEnode) (mnb : CEnodeBroadcast)
    (hrec : mnb.fRecovery = false) (l : List CEnode) (hl : man.vEnodes = l)
    (hfind : CEnodeMan.findIn l mn.vin = some mn) :
    CEnodeMan.Grows l
      (CEnodeMan.storeIn (mn.UpdateFromNewBroadcastWith cb env man a mnb).1.man.vEnodes
        (mn.UpdateFromNewBroadcastWith cb env man a mnb).1.mn) := by
  subst hl
  refine ⟨?_, CEnode.UpdateFromNewBroadcastWith_unique cb hcb env man a mn mnb⟩
  have hself : ∀ (n : CEnode), mn.Evolves n →
      ∀ x, CEnodeMan.findIn man.vEnodes n.vin = some x → x.Evolves n := by
    intro n hn x hx
    have hx2 : CEnodeMan.findIn man.vEnodes mn.vin = some x := by
      rw [← hx]
      exact CEnodeMan.findIn_congr _ (by rw [hn.1])
    have : x = mn := Option.some.inj (hx2.symm.trans hfind)
    rw [this]; exact hn
  unfold CEnode.UpdateFromNewBroadcastWith
  by_cases h0 : (decide (mnb.mn.sigTime ≤ mn.sigTime) && !mnb.fRecovery) = true
  · rw [if_pos h0]
    exact (CEnodeMan.Grows_storeIn _ _ (hself mn (CEnode.Evolves_refl mn))).1
  · rw [if_neg h0]
    have hlt : mn.sigTime < mnb.mn.sigTime := by
      rw [hrec] at h0
      simp at h0
      exact h0
    obtain ⟨s1, s2, s3, _, _, _, _, s8, s9, s10⟩ := CEnode.updateFields_spec env man mn mnb
    simp only []
    generalize mn.updateFields env man mnb = l at s1 s2 s3 s8 s9 s10 ⊢
    have hl : mn.Evolves l.1 := ⟨s1, s2, by omega, Or.inr s9, Or.inr s8⟩
    have hl3 : mn.Evolves { l.1 with nPoSeBanScore := -ENODE_POSE_BAN_MAX_SCORE } :=
      ⟨s1, s2, by show mn.sigTime ≤ l.1.sigTime; omega,
        Or.inr (by decide : -ENODE_POSE_BAN_MAX_SCORE ≤ (0 : Int)),
        Or.inr (by decide : (-5 : Int) ≤ -ENODE_POSE_BAN_MAX_SCORE)⟩
    split_ifs with hown hproto hhas
    · obtain ⟨y, hy, he⟩ := ManageFn.Good_readBack hcb env l.2 a
        { l.1 with nPoSeBanScore := -ENODE_POSE_BAN_MAX_SCORE } hhas
      simp only [hy]
      have g1 : CEnodeMan.RegEvolves man.vEnodes
          (CEnodeMan.storeIn l.2.vEnodes
            { l.1 with nPoSeBanScore := -ENODE_POSE_BAN_MAX_SCORE }) := by
        rw [s10]
        exact (CEnodeMan.Grows_storeIn _ _ (hself _ hl3)).1
      have g2 := (hcb env { l.2 with vEnodes := (CEnodeMan.storeIn l.2.vEnodes
        { l.1 with nPoSeBanScore := -ENODE_POSE_BAN_MAX_SCORE }) } a).1
      refine CEnodeMan.RegEvolves_trans (CEnodeMan.RegEvolves_trans g1 g2)
        (CEnodeMan.Grows_storeIn _ _ ?_).1
      intro x hx
      have hx2 : CEnodeMan.findIn
          (cb env { l.2 with vEnodes := (CEnodeMan.storeIn l.2.vEnodes
            { l.1 with nPoSeBanScore := -ENODE_POSE_BAN_MAX_SCORE }) } a).2.vEnodes
          ({ l.1 with nPoSeBanScore := -ENODE_POSE_BAN_MAX_SCORE } : CEnode).vin = some x := by
        rw [← hx]
        exact CEnodeMan.findIn_congr _ (by rw [he.1])
      have : x = y := Option.some.inj (hx2.symm.trans hy)
      rw [this]; exact CEnode.Evolves_refl y
    · exfalso
      apply hhas
      show (CEnodeMan.findIn l.2.vEnodes l.1.vin).isSome = true
      rw [s10, s1]
      rw [hfind]; rfl
    · show CEnodeMan.RegEvolves man.vEnodes (CEnodeMan.storeIn l.2.vEnodes _)
      rw [s10]
      exact (CEnodeMan.Grows_storeIn _ _ (hself _ hl3)).1
    · show CEnodeMan.RegEvolves man.vEnodes (CEnodeMan.storeIn l.2.vEnodes _)
      rw [s10]
      exact (CEnodeMan.Grows_storeIn _ _ (hself _ hl)).1

/-! ### The registry after `UpdateEnodeList` and `ManageState` -/

theorem CEnodeMan.findIn_self_of_find {l : List CEnode} {v : CTxIn} {x : CEnode}
    (h : CEnodeMan.findIn l v = some x) : CEnodeMan.findIn l x.vin = some x := by
  rw [CEnodeMan.findIn_congr l (CEnodeMan.findIn_some h).2]
  exact h

theorem CEnodeMan.UpdateEnodeListWith_unique (cb : ManageFn) (hcb : ManageFn.Good cb)
    (env : Env) (man : CEnodeMan) (a : CActiveEnode) (mnb : CEnodeBroadcast)
    (h : man.vEnodes.Pairwise (fun a b => a.vin.prevout ≠ b.vin.prevout)) :
    (CEnodeMan.UpdateEnodeListWith cb env man a mnb).2.vEnodes.Pairwise
      (fun a b => a.vin.prevout ≠ b.vin.prevout) := by
  unfold CEnodeMan.UpdateEnodeListWith
  simp only []
  split
  · exact CEnodeMan.Add_unique _ _ h
  · rename_i pmn hfind
    split_ifs
    · exact CEnode.UpdateFromNewBroadcastWith_unique cb hcb env _ a pmn mnb h
    · exact CEnode.UpdateFromNewBroadcastWith_unique cb hcb env _ a pmn mnb h

theorem CEnodeMan.UpdateEnodeListWith_grows (cb : ManageFn) (hcb : ManageFn.Good cb)
    (env : Env) (man : CEnodeMan) (a : CActiveEnode) (mnb : CEnodeBroadcast)
    (hrec : mnb.fRecovery = false) :
    CEnodeMan.Grows man.vEnodes (CEnodeMan.UpdateEnodeListWith cb env man a mnb).2.vEnodes := by
  unfold CEnodeMan.UpdateEnodeListWith
  simp only []
  split
  · exact CEnodeMan.Grows_Add
      { man with
        mapSeenEnodePing :=
          man.mapSeenEnodePing.insert (mnb.mn.lastPing.GetHash env) mnb.mn.lastPing
        mapSeenEnodeBroadcast :=
          man.mapSeenEnodeBroadcast.insert (mnb.GetHash env) (env.GetTime, mnb) } _
  · rename_i pmn hfind
    have hf2 := CEnodeMan.findIn_self_of_find hfind
    split_ifs
    · apply CEnode.UpdateFromNewBroadcastWith_grows cb hcb env _ a pmn mnb hrec
      · rfl
      · exact hf2
    · apply CEnode.UpdateFromNewBroadcastWith_grows cb hcb env _ a pmn mnb hrec
      · rfl
      · exact hf2

theorem CEnodeBroadcast.Sign_frame (env : Env) (mnb : CEnodeBroadcast) :
    (mnb.Sign env).2.fRecovery = mnb.fRecovery ∧
    (mnb.Sign env).2.mn.sigTime = env.GetAdjustedTime ∧
    (mnb.Sign env).2.mn.vin = mnb.mn.vin ∧
    (mnb.Sign env).2.mn.pubKeyEnode = mnb.mn.pubKeyEnode ∧
    (mnb.Sign env).2.mn.nProtocolVersion = mnb.mn.nProtocolVersion := by
  unfold CEnodeBroadcast.Sign
  simp only []
  split
  · exact ⟨rfl, rfl, rfl, rfl, rfl⟩
  · split_ifs <;> exact ⟨rfl, rfl, rfl, rfl, rfl⟩

/-- The announcement `Create` hands back when it succeeds. -/
theorem CEnodeBroadcast.Create_ok (env : Env) (txin : CTxIn) (service : CService)
    (k1 k2 : CPubKey) (h : (CEnodeBroadcast.Create env txin service k1 k2).ok = true) :
    (CEnodeBroadcast.Create env txin service k1 k2).mnbRet.fRecovery = false ∧
    (CEnodeBroadcast.Create env txin service k1 k2).mnbRet.mn.sigTime = env.GetAdjustedTime ∧
    (CEnodeBroadcast.Create env txin service k1 k2).mnbRet.mn.vin = txin ∧
    (CEnodeBroadcast.Create env txin service k1 k2).mnbRet.mn.pubKeyEnode = k2 ∧
    (CEnodeBroadcast.Create env txin service k1 k2).mnbRet.mn.nProtocolVersion =
      env.PROTOCOL_VERSION := by
  revert h
  unfold CEnodeBroadcast.Create
  simp only []
  split_ifs
  all_goals first
    | (intro h; simp at h; done)
    | (intro _
       obtain ⟨f1, f2, f3, f4, f5⟩ := CEnodeBroadcast.Sign_frame env
        { mn := { CEnode.ofService env service txin k1 k2 env.PROTOCOL_VERSION with
            lastPing := ((CEnodePing.ofVin env txin).Sign env k2).2 }
          fRecovery := false }
       exact ⟨f1, f2, f3, f4, f5⟩)

theorem CActiveEnode.ManageStateLocalWith_grows (cb : ManageFn) (hcb : ManageFn.Good cb)
    (env : Env) (man : CEnodeMan) (a : CActiveEnode) :
    CEnodeMan.Grows man.vEnodes (a.ManageStateLocalWith cb env man).2.vEnodes := by
  unfold CActiveEnode.ManageStateLocalWith
  split_ifs
  · exact CEnodeMan.Grows_refl _
  · split
    · exact CEnodeMan.Grows_refl _
    · rename_i w hw
      simp only []
      split_ifs with h1 h2
      · exact CEnodeMan.Grows_refl _
      · exact CEnodeMan.Grows_refl _
      · have hok : (CEnodeBroadcast.Create env w.1 a.service w.2 a.pubKeyEnode).ok = true := by
          simpa using h2
        exact CEnodeMan.UpdateEnodeListWith_grows cb hcb _ man _ _
          (CEnodeBroadcast.Create_ok env _ _ _ _ hok).1

theorem CActiveEnode.ManageStateWith_grows (cb : ManageFn) (hcb : ManageFn.Good cb)
    (env : Env) (man : CEnodeMan) (a : CActiveEnode) :
    CEnodeMan.Grows man.vEnodes (a.ManageStateWith cb env man).man.vEnodes := by
  unfold CActiveEnode.ManageStateWith
  by_cases h1 : (!env.fZNode) = true
  · rw [if_pos h1]; exact CEnodeMan.Grows_refl _
  rw [if_neg h1]
  by_cases h2 : (!env.isRegTest && !env.IsBlockchainSynced) = true
  · rw [if_pos h2]; exact CEnodeMan.Grows_refl _
  rw [if_neg h2]
  simp only []
  refine CEnodeMan.Grows_trans ?_ (CActiveEnode.SendEnodePing_grows env _ _)
  split_ifs
  all_goals first
    | exact CEnodeMan.Grows_refl _
    | exact CActiveEnode.ManageStateRemote_grows env man _
    | exact CEnodeMan.Grows_trans (CActiveEnode.ManageStateRemote_grows env man _)
        (CActiveEnode.ManageStateLocalWith_grows cb hcb env _ _)

theorem CActiveEnode.manageFuel_good (k : Nat) : ManageFn.Good (CActiveEnode.manageFuel k) := by
  induction k with
  | zero => intro env man a; exact CEnodeMan.Grows_refl _
  | succ n ih =>
    intro env man a
    exact CActiveEnode.ManageStateWith_grows _ ih env man a

/-! ### Nested calls of `ManageState` end at the second level -/

theorem CEnode.UpdateFromNewBroadcastWith_congr (cb1 cb2 : ManageFn) (env : Env)
    (man : CEnodeMan) (a : CActiveEnode) (pmn : CEnode) (mnb : CEnodeBroadcast)
    (hfind : CEnodeMan.findIn man.vEnodes mnb.mn.vin = some pmn)
    (hagree : ∀ man2 : CEnodeMan,
      (∀ p, CEnodeMan.findIn man2.vEnodes mnb.mn.vin = some p → mnb.mn.sigTime ≤ p.sigTime) →
      cb1 env man2 a = cb2 env man2 a) :
    pmn.UpdateFromNewBroadcastWith cb1 env man a mnb =
      pmn.UpdateFromNewBroadcastWith cb2 env man a mnb := by
  unfold CEnode.UpdateFromNewBroadcastWith
  by_cases h0 : (decide (mnb.mn.sigTime ≤ pmn.sigTime) && !mnb.fRecovery) = true
  · rw [if_pos h0, if_pos h0]
  · rw [if_neg h0, if_neg h0]
    obtain ⟨s1, _, s3, _, _, _, _, _, _, s10⟩ := CEnode.updateFields_spec env man pmn mnb
    simp only []
    generalize pmn.updateFields env man mnb = l at s1 s3 s10 ⊢
    have hp := (CEnodeMan.findIn_some hfind).2
    split_ifs with hown hproto hhas
    · have key : cb1 env { l.2 with vEnodes := (CEnodeMan.storeIn l.2.vEnodes
          { l.1 with nPoSeBanScore := -ENODE_POSE_BAN_MAX_SCORE }) } a =
          cb2 env { l.2 with vEnodes := (CEnodeMan.storeIn l.2.vEnodes
          { l.1 with nPoSeBanScore := -ENODE_POSE_BAN_MAX_SCORE }) } a := by
        apply hagree
        intro p hpf
        have hst : CEnodeMan.findIn (CEnodeMan.storeIn l.2.vEnodes
            { l.1 with nPoSeBanScore := -ENODE_POSE_BAN_MAX_SCORE }) mnb.mn.vin =
            some { l.1 with nPoSeBanScore := -ENODE_POSE_BAN_MAX_SCORE } := by
          rw [s10]
          apply CEnodeMan.findIn_storeIn hfind
          show l.1.vin.prevout = pmn.vin.prevout
          rw [s1]
        have : p = { l.1 with nPoSeBanScore := -ENODE_POSE_BAN_MAX_SCORE } :=
          Option.some.inj (hpf.symm.trans hst)
        rw [this]
        exact le_of_eq s3.symm
      rw [key]
    · exfalso
      apply hhas
      show (CEnodeMan.findIn l.2.vEnodes l.1.vin).isSome = true
      rw [s10, s1, CEnodeMan.findIn_self_of_find hfind]
      rfl
    · rfl
    · rfl

theorem CEnodeMan.UpdateEnodeListWith_congr (cb1 cb2 : ManageFn) (env : Env)
    (man : CEnodeMan) (a : CActiveEnode) (mnb : CEnodeBroadcast)
    (hagree : ∀ man2 : CEnodeMan,
      (∀ p, CEnodeMan.findIn man2.vEnodes mnb.mn.vin = some p → mnb.mn.sigTime ≤ p.sigTime) →
      cb1 env man2 a = cb2 env man2 a) :
    CEnodeMan.UpdateEnodeListWith cb1 env man a mnb =
      CEnodeMan.UpdateEnodeListWith cb2 env man a mnb := by
  unfold CEnodeMan.UpdateEnodeListWith
  simp only []
  split
  · rfl
  · rename_i pmn hfind
    have hU : ∀ m : CEnodeMan, m.vEnodes = man.vEnodes →
        pmn.UpdateFromNewBroadcastWith cb1 env m a mnb =
          pmn.UpdateFromNewBroadcastWith cb2 env m a mnb := by
      intro m hm
      exact CEnode.UpdateFromNewBroadcastWith_congr cb1 cb2 env m a pmn mnb
        (by rw [hm]; exact hfind) hagree
    rw [hU]
    rfl

theorem CActiveEnode.ManageStateLocalWith_congr (cb1 cb2 : ManageFn)
    (hagree : ∀ (env : Env) (man : CEnodeMan) (a : CActiveEnode),
      CActiveEnode.Settled env man → cb1 env man a = cb2 env man a)
    (env : Env) (man : CEnodeMan) (a : CActiveEnode) :
    a.ManageStateLocalWith cb1 env man = a.ManageStateLocalWith cb2 env man := by
  unfold CActiveEnode.ManageStateLocalWith
  split_ifs
  · rfl
  · split
    · rfl
    · rename_i w hw
      simp only []
      split_ifs with h1 h2
      · rfl
      · rfl
      · have hok : (CEnodeBroadcast.Create env w.1 a.service w.2 a.pubKeyEnode).ok = true := by
          simpa using h2
        obtain ⟨_, c2, c3, _, _⟩ := CEnodeBroadcast.Create_ok env _ _ _ _ hok
        rw [CEnodeMan.UpdateEnodeListWith_congr cb1 cb2]
        intro man2 hm
        apply hagree
        intro w2 hw2 p hp
        have hw3 : w2 = w := by
          have : some w2 = some w := hw2.symm.trans hw
          exact Option.some.inj this
        rw [hw3] at hp
        have := hm p (by rw [c3]; exact hp)
        rw [c2] at this
        exact this

theorem CActiveEnode.ManageStateWith_congr (cb1 cb2 : ManageFn)
    (hagree : ∀ (env : Env) (man : CEnodeMan) (a : CActiveEnode),
      CActiveEnode.Settled env man → cb1 env man a = cb2 env man a)
    (env : Env) (man : CEnodeMan) (a : CActiveEnode) :
    a.ManageStateWith cb1 env man = a.ManageStateWith cb2 env man := by
  unfold CActiveEnode.ManageStateWith
  simp only [CActiveEnode.ManageStateLocalWith_congr cb1 cb2 hagree]

/-- The lookup by outpoint after `CheckEnode(const CPubKey&)`: a record with the same
signature time was there before. -/
theorem CEnodeMan.findIn_CheckEnodeByPubKey (env : Env) (man : CEnodeMan) (k : CPubKey)
    (f : Bool) (v : CTxIn) (p : CEnode)
    (h : CEnodeMan.findIn (man.CheckEnodeByPubKey env k f).vEnodes v = some p) :
    ∃ q, CEnodeMan.findIn man.vEnodes v = some q ∧ q.sigTime = p.sigTime := by
  unfold CEnodeMan.CheckEnodeByPubKey at h
  cases hf : man.FindByPubKey k with
  | none =>
    rw [hf] at h
    exact ⟨p, h, rfl⟩
  | some x =>
    rw [hf] at h
    rcases CEnodeMan.findIn_storeKeyIn man.vEnodes k (CEnode.Check env man x f) x hf
      (CEnode.Check_vin env man x f) v with h1 | ⟨h1, h2⟩
    · exact ⟨p, by rw [← h1]; exact h, rfl⟩
    · refine ⟨x, h1, ?_⟩
      have : p = CEnode.Check env man x f := Option.some.inj (h.symm.trans h2)
      rw [this, CEnode.Check_sigTime]

theorem CActiveEnode.ManageStateRemote_settled {env : Env} {man : CEnodeMan}
    (h : CActiveEnode.Settled env man) (a : CActiveEnode) :
    CActiveEnode.Settled env (a.ManageStateRemote env man).2 := by
  have key : CActiveEnode.Settled env
      (man.CheckEnodeByPubKey { env with activePubKeyEnode := a.pubKeyEnode }
        a.pubKeyEnode false) := by
    intro w hw p hp
    obtain ⟨q, hq, hqs⟩ := CEnodeMan.findIn_CheckEnodeByPubKey _ man _ _ _ _ hp
    rw [← hqs]
    exact h w hw q hq
  unfold CActiveEnode.ManageStateRemote
  simp only []
  split_ifs <;> exact key

/-- With the record of the wallet collateral already announced at the present clock, the
callback passed to `ManageState` is not called. -/
theorem CActiveEnode.ManageStateWith_settled (cb1 cb2 : ManageFn) (env : Env)
    (man : CEnodeMan) (a : CActiveEnode) (h : CActiveEnode.Settled env man) :
    a.ManageStateWith cb1 env man = a.ManageStateWith cb2 env man := by
  have hloc : ∀ (m : CEnodeMan) (b : CActiveEnode), CActiveEnode.Settled env m →
      b.ManageStateLocalWith cb1 env m = b.ManageStateLocalWith cb2 env m := by
    intro m b hm
    unfold CActiveEnode.ManageStateLocalWith
    split_ifs
    · rfl
    · split
      · rfl
      · rename_i w hw
        simp only []
        split_ifs with h1 h2
        · rfl
        · rfl
        · have hok : (CEnodeBroadcast.Create env w.1 b.service w.2 b.pubKeyEnode).ok = true := by
            simpa using h2
          obtain ⟨c1, c2, c3, _, _⟩ := CEnodeBroadcast.Create_ok env _ _ _ _ hok
          have hu : ∀ cb : ManageFn, ∀ (e : Env) (b2 : CActiveEnode),
              CEnodeMan.UpdateEnodeListWith cb e m b2
                (CEnodeBroadcast.Create env w.1 b.service w.2 b.pubKeyEnode).mnbRet =
              CEnodeMan.UpdateEnodeListWith (fun _ mm aa => (aa, mm)) e m b2
                (CEnodeBroadcast.Create env w.1 b.service w.2 b.pubKeyEnode).mnbRet := by
            intro cb e b2
            unfold CEnodeMan.UpdateEnodeListWith
            simp only []
            split
            · rfl
            · rename_i pmn hfind
              have hle : (CEnodeBroadcast.Create env w.1 b.service w.2
                  b.pubKeyEnode).mnbRet.mn.sigTime ≤ pmn.sigTime := by
                rw [c2]
                apply hm w hw pmn
                rw [← c3]
                exact hfind
              have hR : ∀ (c : ManageFn) (mm : CEnodeMan),
                  pmn.UpdateFromNewBroadcastWith c e mm b2
                    (CEnodeBroadcast.Create env w.1 b.service w.2 b.pubKeyEnode).mnbRet =
                  ({ ok := false, nDos := 0, mn := pmn, man := mm }, b2) :=
                fun c mm => CEnode.UpdateFromNewBroadcastWith_rejected c e mm b2 pmn _ hle c1
              rw [hR, hR]
          rw [hu cb1, hu cb2]
  unfold CActiveEnode.ManageStateWith
  by_cases h1 : (!env.fZNode) = true
  · rw [if_pos h1, if_pos h1]
  rw [if_neg h1, if_neg h1]
  by_cases h2 : (!env.isRegTest && !env.IsBlockchainSynced) = true
  · rw [if_pos h2, if_pos h2]
  rw [if_neg h2, if_neg h2]
  simp only []
  simp only [hloc _ _ (CActiveEnode.ManageStateRemote_settled h _)]

/-- Enough depth gives the result: unfolding nested calls of `ManageState` deeper than two
levels changes nothing. -/
theorem CActiveEnode.manageFuel_stable (n : Nat) (env : Env) (man : CEnodeMan)
    (a : CActiveEnode) :
    CActiveEnode.manageFuel (n + 2) env man a = CActiveEnode.manageFuel 2 env man a := by
  show ((a.ManageStateWith (CActiveEnode.manageFuel (n + 1)) env man).active,
      (a.ManageStateWith (CActiveEnode.manageFuel (n + 1)) env man).man) =
    ((a.ManageStateWith (CActiveEnode.manageFuel 1) env man).active,
      (a.ManageStateWith (CActiveEnode.manageFuel 1) env man).man)
  rw [CActiveEnode.ManageStateWith_congr (CActiveEnode.manageFuel (n + 1))
    (CActiveEnode.manageFuel 1)]
  intro e m b hs
  show ((b.ManageStateWith (CActiveEnode.manageFuel n) e m).active,
      (b.ManageStateWith (CActiveEnode.manageFuel n) e m).man) =
    ((b.ManageStateWith (CActiveEnode.manageFuel 0) e m).active,
      (b.ManageStateWith (CActiveEnode.manageFuel 0) e m).man)
  rw [CActiveEnode.ManageStateWith_settled (CActiveEnode.manageFuel n)
    (CActiveEnode.manageFuel 0) e m b hs]

/-! ### The methods with the active enode the environment holds -/

theorem CActiveEnode.manageFuel_eq (n : Nat) :
    CActiveEnode.manageFuel (n + 2) = CActiveEnode.manageFuel 2 :=
  funext fun env => funext fun man => funext fun a => CActiveEnode.manageFuel_stable n env man a

theorem CEnode.UpdateFromNewBroadcast_rejected (env : Env) (man : CEnodeMan) (mn : CEnode)
    (mnb : CEnodeBroadcast) (h : mnb.mn.sigTime ≤ mn.sigTime) (hrec : mnb.fRecovery = false) :
    mn.UpdateFromNewBroadcast env man mnb = { ok := false, nDos := 0, mn := mn, man := man } := by
  unfold CEnode.UpdateFromNewBroadcast CEnode.UpdateFromNewBroadcastActive
  rw [CEnode.UpdateFromNewBroadcastWith_rejected _ env man _ mn mnb h hrec]

/-- The record after `UpdateFromNewBroadcast`: the call was rejected at once and nothing
changed, or the input and the collateral key are kept, the signature time is at least the
announced one and the PoSe score lies between `-5` and `0`. -/
theorem CEnode.UpdateFromNewBroadcastActive_record (env : Env) (man : CEnodeMan)
    (a : CActiveEnode) (mn : CEnode) (mnb : CEnodeBroadcast) :
    ((mnb.mn.sigTime ≤ mn.sigTime ∧ mnb.fRecovery = false) ∧
      mn.UpdateFromNewBroadcastActive env man a mnb =
        ({ ok := false, nDos := 0, mn := mn, man := man }, a)) ∨
    (¬ (mnb.mn.sigTime ≤ mn.sigTime ∧ mnb.fRecovery = false) ∧
      (mn.UpdateFromNewBroadcastActive env man a mnb).1.mn.vin = mn.vin ∧
      (mn.UpdateFromNewBroadcastActive env man a mnb).1.mn.pubKeyCollateralAddress =
        mn.pubKeyCollateralAddress ∧
      mnb.mn.sigTime ≤ (mn.UpdateFromNewBroadcastActive env man a mnb).1.mn.sigTime ∧
      -5 ≤ (mn.UpdateFromNewBroadcastActive env man a mnb).1.mn.nPoSeBanScore ∧
      (mn.UpdateFromNewBroadcastActive env man a mnb).1.mn.nPoSeBanScore ≤ 0) :=
  CEnode.UpdateFromNewBroadcastWith_record _ (CActiveEnode.manageFuel_good 2) env man a mn mnb

theorem CEnode.UpdateFromNewBroadcast_record (env : Env) (man : CEnodeMan) (mn : CEnode)
    (mnb : CEnodeBroadcast) :
    ((mnb.mn.sigTime ≤ mn.sigTime ∧ mnb.fRecovery = false) ∧
      mn.UpdateFromNewBroadcast env man mnb =
        { ok := false, nDos := 0, mn := mn, man := man }) ∨
    (¬ (mnb.mn.sigTime ≤ mn.sigTime ∧ mnb.fRecovery = false) ∧
      (mn.UpdateFromNewBroadcast env man mnb).mn.vin = mn.vin ∧
      (mn.UpdateFromNewBroadcast env man mnb).mn.pubKeyCollateralAddress =
        mn.pubKeyCollateralAddress ∧
      mnb.mn.sigTime ≤ (mn.UpdateFromNewBroadcast env man mnb).mn.sigTime ∧
      -5 ≤ (mn.UpdateFromNewBroadcast env man mnb).mn.nPoSeBanScore ∧
      (mn.UpdateFromNewBroadcast env man mnb).mn.nPoSeBanScore ≤ 0) := by
  rcases CEnode.UpdateFromNewBroadcastActive_record env man (CActiveEnode.ofEnv env) mn mnb with
    ⟨h1, h2⟩ | h
  · left
    refine ⟨h1, ?_⟩
    unfold CEnode.UpdateFromNewBroadcast
    rw [h2]
  · right
    exact h

/-- An `UpdateFromNewBroadcast` that does not reach the call of `ManageState`: the announced
fields are in the record and the vector is as it was. -/
theorem CEnode.UpdateFromNewBroadcastActive_plain (env : Env) (man : CEnodeMan)
    (a : CActiveEnode) (mn : CEnode) (mnb : CEnodeBroadcast)
    (h : ¬ (mnb.mn.sigTime ≤ mn.sigTime ∧ mnb.fRecovery = false))
    (hplain : ¬ (env.fZNode = true ∧ mnb.mn.pubKeyEnode = env.activePubKeyEnode ∧
      mnb.mn.nProtocolVersion = env.PROTOCOL_VERSION)) :
    (mn.UpdateFromNewBroadcastActive env man a mnb).1.mn.pubKeyEnode = mnb.mn.pubKeyEnode ∧
    (mn.UpdateFromNewBroadcastActive env man a mnb).1.mn.sigTime = mnb.mn.sigTime ∧
    (mn.UpdateFromNewBroadcastActive env man a mnb).1.mn.vchSig = mnb.mn.vchSig ∧
    (mn.UpdateFromNewBroadcastActive env man a mnb).1.mn.nProtocolVersion =
      mnb.mn.nProtocolVersion ∧
    (mn.UpdateFromNewBroadcastActive env man a mnb).1.mn.addr = mnb.mn.addr ∧
    (mn.UpdateFromNewBroadcastActive env man a mnb).1.man.vEnodes = man.vEnodes ∧
    (mn.UpdateFromNewBroadcastActive env man a mnb).2 = a ∧
    (mn.UpdateFromNewBroadcastActive env man a mnb).1.ok =
      !(env.fZNode && decide (mnb.mn.pubKeyEnode = env.activePubKeyEnode)) := by
  unfold CEnode.UpdateFromNewBroadcastActive CEnode.UpdateFromNewBroadcastWith
  have h0 : ¬ (decide (mnb.mn.sigTime ≤ mn.sigTime) && !mnb.fRecovery) = true := by
    simpa using h
  rw [if_neg h0]
  obtain ⟨_, _, s3, s4, s5, s6, s7, _, _, s10⟩ := CEnode.updateFields_spec env man mn mnb
  simp only []
  generalize mn.updateFields env man mnb = l at s3 s4 s5 s6 s7 s10 ⊢
  rw [s4]
  by_cases hown : (env.fZNode && decide (mnb.mn.pubKeyEnode = env.activePubKeyEnode)) = true
  · rw [if_pos hown]
    have hp : ¬ l.1.nProtocolVersion = env.PROTOCOL_VERSION := by
      intro hp
      apply hplain
      simp only [Bool.and_eq_true, decide_eq_true_eq] at hown
      exact ⟨hown.1, hown.2, by rw [← s6]; exact hp⟩
    rw [if_neg hp]
    refine ⟨rfl, s3, s5, s6, s7, s10, rfl, ?_⟩
    rw [hown]; rfl
  · rw [if_neg hown]
    refine ⟨s4, s3, s5, s6, s7, s10, rfl, ?_⟩
    simp only [Bool.not_eq_true] at hown
    rw [hown]; rfl

theorem CEnode.UpdateFromNewBroadcast_score (env : Env) (man : CEnodeMan) (mn : CEnode)
    (mnb : CEnodeBroadcast) :
    (mn.UpdateFromNewBroadcast env man mnb).mn = mn ∨
      (-ENODE_POSE_BAN_MAX_SCORE ≤ (mn.UpdateFromNewBroadcast env man mnb).mn.nPoSeBanScore ∧
        (mn.UpdateFromNewBroadcast env man mnb).mn.nPoSeBanScore ≤ 0) := by
  rcases CEnode.UpdateFromNewBroadcast_record env man mn mnb with ⟨_, h⟩ | ⟨_, _, _, _, h5, h6⟩
  · left; rw [h]
  · exact Or.inr ⟨h5, h6⟩

theorem CEnodeMan.UpdateEnodeList_unique (env : Env) (man : CEnodeMan) (mnb : CEnodeBroadcast)
    (h : man.Unique) : (man.UpdateEnodeList env mnb).Unique :=
  CEnodeMan.UpdateEnodeListWith_unique _ (CActiveEnode.manageFuel_good 2) env man _ mnb h

/-! ### The activation of a remote enode keeps the announced fields -/

theorem CEnode.SameAnnounced_refl (x : CEnode) : x.SameAnnounced x :=
  ⟨rfl, rfl, rfl, rfl, rfl, rfl⟩

theorem CEnode.SameAnnounced_trans {x y z : CEnode} (h1 : x.SameAnnounced y)
    (h2 : y.SameAnnounced z) : x.SameAnnounced z :=
  ⟨h2.1.trans h1.1, h2.2.1.trans h1.2.1, h2.2.2.1.trans h1.2.2.1,
    h2.2.2.2.1.trans h1.2.2.2.1, h2.2.2.2.2.1.trans h1.2.2.2.2.1,
    h2.2.2.2.2.2.trans h1.2.2.2.2.2⟩

theorem CEnode.Check_sameAnnounced (env : Env) (man : CEnodeMan) (mn : CEnode) (f : Bool) :
    mn.SameAnnounced (CEnode.Check env man mn f) := by
  obtain ⟨t, st, sc, h, hfr⟩ := CEnode.Check_frame env man mn f
  rw [hfr]
  exact ⟨rfl, rfl, rfl, rfl, rfl, rfl⟩

theorem CEnodeMan.RegKeeps_refl (l : List CEnode) : CEnodeMan.RegKeeps l l :=
  fun _ x h => ⟨x, h, CEnode.SameAnnounced_refl x⟩

theorem CEnodeMan.RegKeeps_trans {l k m : List CEnode} (h1 : CEnodeMan.RegKeeps l k)
    (h2 : CEnodeMan.RegKeeps k m) : CEnodeMan.RegKeeps l m := by
  intro v x hx
  obtain ⟨y, hy, hxy⟩ := h1 v x hx
  obtain ⟨z, hz, hyz⟩ := h2 v y hy
  exact ⟨z, hz, CEnode.SameAnnounced_trans hxy hyz⟩

theorem CEnodeMan.RegKeeps_storeIn (l : List CEnode) (mn : CEnode)
    (h : ∀ x, CEnodeMan.findIn l mn.vin = some x → x.SameAnnounced mn) :
    CEnodeMan.RegKeeps l (CEnodeMan.storeIn l mn) := by
  intro v x hx
  by_cases hv : mn.vin.prevout = v.prevout
  · have hx2 : CEnodeMan.findIn l mn.vin = some x := by
      rw [CEnodeMan.findIn_congr l hv]; exact hx
    refine ⟨mn, ?_, h x hx2⟩
    exact CEnodeMan.findIn_storeIn hx (by rw [hv, (CEnodeMan.findIn_some hx).2])
  · exact ⟨x, by rw [CEnodeMan.findIn_storeIn_ne l mn v hv]; exact hx,
      CEnode.SameAnnounced_refl x⟩

theorem CEnodeMan.RegKeeps_storeKeyIn (l : List CEnode) (k : CPubKey) (mn x : CEnode)
    (hf : CEnodeMan.findKeyIn l k = some x) (he : x.SameAnnounced mn) :
    CEnodeMan.RegKeeps l (CEnodeMan.storeKeyIn l k mn) := by
  intro v y hy
  rcases CEnodeMan.findIn_storeKeyIn l k mn x hf he.1 v with h | ⟨h1, h2⟩
  · exact ⟨y, by rw [h]; exact hy, CEnode.SameAnnounced_refl y⟩
  · rw [hy] at h1
    cases h1
    exact ⟨mn, h2, he⟩

theorem CEnodeMan.RegKeeps_CheckEnodeByPubKey (env : Env) (man : CEnodeMan) (k : CPubKey)
    (f : Bool) : CEnodeMan.RegKeeps man.vEnodes (man.CheckEnodeByPubKey env k f).vEnodes := by
  unfold CEnodeMan.CheckEnodeByPubKey
  cases hf : man.FindByPubKey k with
  | none => exact CEnodeMan.RegKeeps_refl _
  | some x =>
    exact CEnodeMan.RegKeeps_storeKeyIn _ k _ x hf (CEnode.Check_sameAnnounced env man x f)

theorem CEnodeMan.RegKeeps_SetEnodeLastPing (env : Env) (man : CEnodeMan) (vin : CTxIn)
    (mnp : CEnodePing) :
    CEnodeMan.RegKeeps man.vEnodes (man.SetEnodeLastPing env vin mnp).vEnodes := by
  unfold CEnodeMan.SetEnodeLastPing
  cases hf : man.Find vin with
  | none => exact CEnodeMan.RegKeeps_refl _
  | some x =>
    apply CEnodeMan.RegKeeps_storeIn
    intro y hy
    have hy2 : CEnodeMan.findIn man.vEnodes vin = some y := by
      rw [← hy]
      exact CEnodeMan.findIn_congr _ (CEnodeMan.findIn_some hf).2.symm
    have : y = x := Option.some.inj (hy2.symm.trans hf)
    rw [this]
    exact ⟨rfl, rfl, rfl, rfl, rfl, rfl⟩

theorem CActiveEnode.ManageStateRemote_keeps (env : Env) (man : CEnodeMan)
    (active : CActiveEnode) :
    CEnodeMan.RegKeeps man.vEnodes (active.ManageStateRemote env man).2.vEnodes := by
  unfold CActiveEnode.ManageStateRemote
  simp only []
  split_ifs <;> exact CEnodeMan.RegKeeps_CheckEnodeByPubKey _ man _ _

theorem CActiveEnode.SendEnodePing_keeps (env : Env) (man : CEnodeMan)
    (active : CActiveEnode) :
    CEnodeMan.RegKeeps man.vEnodes (active.SendEnodePing env man).man.vEnodes := by
  unfold CActiveEnode.SendEnodePing
  simp only []
  split_ifs
  all_goals first
    | exact CEnodeMan.RegKeeps_refl _
    | exact CEnodeMan.RegKeeps_SetEnodeLastPing env man _ _

/-- The activation of an enode in remote mode keeps the announced fields of every record. -/
theorem CActiveEnode.ManageStateWith_keeps (cb : ManageFn) (env : Env) (man : CEnodeMan)
    (a : CActiveEnode) (hr : a.eType = ENODE_REMOTE) :
    CEnodeMan.RegKeeps man.vEnodes (CActiveEnode.ManageStateWith cb env man a).man.vEnodes := by
  unfold CActiveEnode.ManageStateWith
  by_cases h1 : (!env.fZNode) = true
  · rw [if_pos h1]; exact CEnodeMan.RegKeeps_refl _
  rw [if_neg h1]
  by_cases h2 : (!env.isRegTest && !env.IsBlockchainSynced) = true
  · rw [if_pos h2]; exact CEnodeMan.RegKeeps_refl _
  rw [if_neg h2]
  simp only []
  have ht : (if a.nState = ACTIVE_ENODE_SYNC_IN_PROCESS then
      { a with nState := ACTIVE_ENODE_INITIAL } else a).eType = ENODE_REMOTE := by
    split_ifs
    · exact hr
    · exact hr
  generalize (if a.nState = ACTIVE_ENODE_SYNC_IN_PROCESS then
      { a with nState := ACTIVE_ENODE_INITIAL } else a) = a1 at ht ⊢
  have hu : ¬ a1.eType = ENODE_UNKNOWN := by
    rw [ht]; decide
  rw [if_neg hu, if_pos ht]
  exact CEnodeMan.RegKeeps_trans (CActiveEnode.ManageStateRemote_keeps env man a1)
    (CActiveEnode.SendEnodePing_keeps env _ _)

/-- An `UpdateFromNewBroadcast` on a node whose active enode runs in remote mode: the
announced fields are in the record. -/
theorem CEnode.UpdateFromNewBroadcastActive_remote (env : Env) (man : CEnodeMan)
    (a : CActiveEnode) (mn : CEnode) (mnb : CEnodeBroadcast)
    (h : ¬ (mnb.mn.sigTime ≤ mn.sigTime ∧ mnb.fRecovery = false))
    (hr : a.eType = ENODE_REMOTE) :
    (mn.UpdateFromNewBroadcastActive env man a mnb).1.mn.pubKeyEnode = mnb.mn.pubKeyEnode ∧
    (mn.UpdateFromNewBroadcastActive env man a mnb).1.mn.sigTime = mnb.mn.sigTime ∧
    (mn.UpdateFromNewBroadcastActive env man a mnb).1.mn.vchSig = mnb.mn.vchSig ∧
    (mn.UpdateFromNewBroadcastActive env man a mnb).1.mn.nProtocolVersion =
      mnb.mn.nProtocolVersion ∧
    (mn.UpdateFromNewBroadcastActive env man a mnb).1.mn.addr = mnb.mn.addr := by
  unfold CEnode.UpdateFromNewBroadcastActive CEnode.UpdateFromNewBroadcastWith
  have h0 : ¬ (decide (mnb.mn.sigTime ≤ mn.sigTime) && !mnb.fRecovery) = true := by
    simpa using h
  rw [if_neg h0]
  obtain ⟨_, _, s3, s4, s5, s6, s7, _, _, s10⟩ := CEnode.updateFields_spec env man mn mnb
  simp only []
  generalize mn.updateFields env man mnb = l at s3 s4 s5 s6 s7 s10 ⊢
  split_ifs with hown hproto hhas
  · obtain ⟨x, hx⟩ := Option.isSome_iff_exists.mp hhas
    have hs : CEnodeMan.findIn (CEnodeMan.storeIn l.2.vEnodes
        ({ l.1 with nPoSeBanScore := -ENODE_POSE_BAN_MAX_SCORE } : CEnode))
        ({ l.1 with nPoSeBanScore := -ENODE_POSE_BAN_MAX_SCORE } : CEnode).vin =
        some { l.1 with nPoSeBanScore := -ENODE_POSE_BAN_MAX_SCORE } :=
      CEnodeMan.findIn_storeIn hx (CEnodeMan.findIn_some hx).2.symm
    obtain ⟨y, hy, he⟩ := CActiveEnode.ManageStateWith_keeps (CActiveEnode.manageFuel 1) env
      { l.2 with vEnodes := (CEnodeMan.storeIn l.2.vEnodes
          { l.1 with nPoSeBanScore := -ENODE_POSE_BAN_MAX_SCORE }) } a hr _ _ hs
    have hy2 : (CActiveEnode.manageFuel 2 env
        { l.2 with vEnodes := (CEnodeMan.storeIn l.2.vEnodes
            { l.1 with nPoSeBanScore := -ENODE_POSE_BAN_MAX_SCORE }) } a).2.Find
        ({ l.1 with nPoSeBanScore := -ENODE_POSE_BAN_MAX_SCORE } : CEnode).vin = some y := hy
    simp only [hy2]
    obtain ⟨_, e2, e3, e4, e5, e6⟩ := he
    exact ⟨e2.trans s4, e3.trans s3, e4.trans s5, e5.trans s6, e6.trans s7⟩
  · exact ⟨s4, s3, s5, s6, s7⟩
  · exact ⟨s4, s3, s5, s6, s7⟩
  · exact ⟨s4, s3, s5, s6, s7⟩

/-- The announced fields are in the record after an `UpdateFromNewBroadcast` that is not
rejected, when the active enode runs in remote mode or its activation is not reached. -/
theorem CEnode.UpdateFromNewBroadcast_fields (env : Env) (man : CEnodeMan) (mn : CEnode)
    (mnb : CEnodeBroadcast)
    (h : ¬ (mnb.mn.sigTime ≤ mn.sigTime ∧ mnb.fRecovery = false))
    (hm : env.activeType = ENODE_REMOTE ∨
      ¬ (env.fZNode = true ∧ mnb.mn.pubKeyEnode = env.activePubKeyEnode ∧
        mnb.mn.nProtocolVersion = env.PROTOCOL_VERSION)) :
    (mn.UpdateFromNewBroadcast env man mnb).mn.pubKeyEnode = mnb.mn.pubKeyEnode ∧
    (mn.UpdateFromNewBroadcast env man mnb).mn.sigTime = mnb.mn.sigTime ∧
    (mn.UpdateFromNewBroadcast env man mnb).mn.vchSig = mnb.mn.vchSig ∧
    (mn.UpdateFromNewBroadcast env man mnb).mn.nProtocolVersion = mnb.mn.nProtocolVersion ∧
    (mn.UpdateFromNewBroadcast env man mnb).mn.addr = mnb.mn.addr := by
  unfold CEnode.UpdateFromNewBroadcast
  rcases hm with hm | hm
  · exact CEnode.UpdateFromNewBroadcastActive_remote env man _ mn mnb h hm
  · obtain ⟨p1, p2, p3, p4, p5, _⟩ :=
      CEnode.UpdateFromNewBroadcastActive_plain env man (CActiveEnode.ofEnv env) mn mnb h hm
    exact ⟨p1, p2, p3, p4, p5⟩

/-! ## Registry: lookup, insertion and uniqueness -/

theorem CEnodeMan.removeSpent_vEnodes (env : Env) (man : CEnodeMan) (l : List CEnode) :
    (CEnodeMan.removeSpent env man l).vEnodes =
      l.filter (fun mn => !mn.IsOutpointSpent) ++ man.vEnodes := by
  induction l generalizing man with
  | nil => simp [CEnodeMan.removeSpent]
  | cons x rest ih =>
    by_cases hx : x.IsOutpointSpent = true
    · simp [CEnodeMan.removeSpent, hx, ih]
    · simp [CEnodeMan.removeSpent, hx, ih]

theorem CEnodeMan.CheckAndRemoveSpent_vEnodes (env : Env) (man : CEnodeMan) :
    (man.CheckAndRemoveSpent env).vEnodes =
      man.vEnodes.filter (fun mn => !mn.IsOutpointSpent) := by
  unfold CEnodeMan.CheckAndRemoveSpent
  rw [CEnodeMan.removeSpent_vEnodes]
  simp

/-- Claim C1.  Every registry reached from the empty registry through `Add`,
`UpdateEnodeList`, the spent-enode removal of `CheckAndRemove` and `Clear` holds each
collateral outpoint at most once: no two entries of `vEnodes` have the same `vin.prevout`. -/
theorem C1_registry_outpoints_unique (ops : List RegistryOp) :
    (CEnodeMan.run ops).vEnodes.Pairwise (fun a b => a.vin.prevout ≠ b.vin.prevout) := by
  have step : ∀ (ops : List RegistryOp) (man : CEnodeMan), man.Unique →
      (ops.foldl RegistryOp.apply man).Unique := by
    intro ops
    induction ops with
    | nil => intro man h; exact h
    | cons op rest ih =>
      intro man h
      simp only [List.foldl_cons]
      apply ih
      cases op with
      | add mn => exact CEnodeMan.Add_unique man mn h
      | updateEnodeList env mnb => exact CEnodeMan.UpdateEnodeList_unique env man mnb h
      | removeSpent env =>
        simp only [RegistryOp.apply, CEnodeMan.Unique]
        rw [CEnodeMan.CheckAndRemoveSpent_vEnodes]
        exact List.Pairwise.sublist (List.filter_sublist _) h
      | clear => simp [RegistryOp.apply, CEnodeMan.Clear, CEnodeMan.Unique]
  exact step ops CEnodeMan.empty (by simp [CEnodeMan.Unique, CEnodeMan.empty])

theorem StdMap.find_set_self {K V : Type} [DecidableEq K] (m : StdMap K V) (k : K) (v : V) :
    StdMap.find (StdMap.set m k v) k = some v := by
  induction m with
  | nil => simp [StdMap.set, StdMap.find]
  | cons p rest ih =>
    obtain ⟨k0, v0⟩ := p
    by_cases h : k0 = k
    · simp [StdMap.set, StdMap.find, h]
    · simp [StdMap.set, StdMap.find, h, ih]

theorem CEnodeIndex.AddEnodeVIN_registered (ix : CEnodeIndex) (vin : CTxIn) :
    ((ix.AddEnodeVIN vin).mapIndex.find vin.prevout).isSome = true := by
  unfold CEnodeIndex.AddEnodeVIN
  cases h : ix.mapIndex.find vin.prevout with
  | some p => simp [h]
  | none => simp [StdMap.find_set_self]

theorem CEnodeMan.findIn_append_self (l : List CEnode) (mn : CEnode) :
    (CEnodeMan.findIn (l ++ [mn]) mn.vin).isSome = true := by
  induction l with
  | nil => simp [CEnodeMan.findIn]
  | cons x rest ih =>
    by_cases hx : x.vin.prevout = mn.vin.prevout
    · simp [CEnodeMan.findIn, hx]
    · simpa [CEnodeMan.findIn, hx] using ih

/-- Claim C2.  `CEnodeMan::Add(mn)` returns true exactly when no existing entry has the
outpoint `mn.vin.prevout`; in that case `mn` becomes the last element of `vEnodes` and
`mn.vin` is registered in the dense index (the rest of the registry, apart from the
added flag, is untouched); otherwise it returns false and the registry is unchanged.
Adding the same enode a second time returns false and leaves the registry as it was after
the first call. -/
theorem C2_add_appends_iff_absent (man : CEnodeMan) (mn : CEnode) :
    ((man.Add mn).1 = true ↔ ∀ x ∈ man.vEnodes, x.vin.prevout ≠ mn.vin.prevout) ∧
    ((man.Add mn).1 = true →
      (man.Add mn).2 = { man with vEnodes := man.vEnodes ++ [mn]
                                  indexEnodes := man.indexEnodes.AddEnodeVIN mn.vin
                                  fEnodesAdded := true } ∧
      (man.Add mn).2.vEnodes.getLast? = some mn ∧
      ((man.Add mn).2.indexEnodes.mapIndex.find mn.vin.prevout).isSome = true) ∧
    ((man.Add mn).1 = false → (man.Add mn).2 = man) ∧
    (man.Add mn).2.Add mn = (false, (man.Add mn).2) := by
  cases hf : man.Find mn.vin with
  | none =>
    have hn := CEnodeMan.findIn_eq_none.mp hf
    have h2 : CEnodeMan.Find
        { man with vEnodes := man.vEnodes ++ [mn]
                   indexEnodes := man.indexEnodes.AddEnodeVIN mn.vin
                   fEnodesAdded := true } mn.vin ≠ none := by
      have := CEnodeMan.findIn_append_self man.vEnodes mn
      intro hc
      simp only [CEnodeMan.Find] at hc
      rw [hc] at this
      simp at this
    refine ⟨?_, ?_, ?_, ?_⟩
    · simp only [CEnodeMan.Add, hf]
      simpa using hn
    · intro _
      simp only [CEnodeMan.Add, hf]
      refine ⟨trivial, by simp, CEnodeIndex.AddEnodeVIN_registered _ _⟩
    · simp [CEnodeMan.Add, hf]
    · simp only [CEnodeMan.Add, hf]
      cases h3 : CEnodeMan.Find
        { man with vEnodes := man.vEnodes ++ [mn]
                   indexEnodes := man.indexEnodes.AddEnodeVIN mn.vin
                   fEnodesAdded := true } mn.vin with
      | none => exact absurd h3 h2
      | some y => rfl
  | some x =>
    have hx := CEnodeMan.findIn_some hf
    refine ⟨?_, ?_, ?_, ?_⟩
    · simp only [CEnodeMan.Add, hf]
      constructor
      · intro h; cases h
      · intro h; exact absurd hx.2 (h x hx.1)
    · simp [CEnodeMan.Add, hf]
    · simp [CEnodeMan.Add, hf]
    · simp [CEnodeMan.Add, hf]

/-! ## Coinbase validation -/

theorem CEnodeBlockPayees.maxSignatures_ge (l : List CEnodePayee) (acc k : Int) :
    CEnodeBlockPayees.maxSignatures l acc ≥ k ↔ acc ≥ k ∨ ∃ p ∈ l, p.GetVoteCount ≥ k := by
  induction l generalizing acc with
  | nil => simp [CEnodeBlockPayees.maxSignatures]
  | cons p rest ih =>
    unfold CEnodeBlockPayees.maxSignatures
    split_ifs with h
    · rw [ih]
      constructor
      · rintro (h1 | ⟨q, hq, hq2⟩)
        · exact Or.inr ⟨p, List.mem_cons_self _ _, h1⟩
        · exact Or.inr ⟨q, List.mem_cons_of_mem _ hq, hq2⟩
      · rintro (h1 | ⟨q, hq, hq2⟩)
        · exact Or.inl (le_trans h1 h)
        · rcases List.mem_cons.mp hq with rfl | hq
          · exact Or.inl hq2
          · exact Or.inr ⟨q, hq, hq2⟩
    · rw [ih]
      constructor
      · rintro (h1 | ⟨q, hq, hq2⟩)
        · exact Or.inl h1
        · exact Or.inr ⟨q, List.mem_cons_of_mem _ hq, hq2⟩
      · rintro (h1 | ⟨q, hq, hq2⟩)
        · exact Or.inl h1
        · rcases List.mem_cons.mp hq with rfl | hq
          · exact Or.inl (by omega)
          · exact Or.inr ⟨q, hq, hq2⟩

theorem CEnodeBlockPayees.paysTo_iff (vout : List CTxOut) (payee : CScript) (amt : Int) :
    CEnodeBlockPayees.paysTo vout payee amt = true ↔
      ∃ o ∈ vout, o.scriptPubKey = payee ∧ o.nValue = amt := by
  induction vout with
  | nil => simp [CEnodeBlockPayees.paysTo]
  | cons o rest ih =>
    unfold CEnodeBlockPayees.paysTo
    split_ifs with h
    · simp only [true_iff]
      exact ⟨o, List.mem_cons_self _ _, h.1.symm, h.2.symm⟩
    · rw [ih]
      constructor
      · rintro ⟨q, hq, hq2⟩
        exact ⟨q, List.mem_cons_of_mem _ hq, hq2⟩
      · rintro ⟨q, hq, hq2⟩
        rcases List.mem_cons.mp hq with rfl | hq
        · exact absurd ⟨hq2.1.symm, hq2.2.symm⟩ h
        · exact ⟨q, hq, hq2⟩

theorem CEnodeBlockPayees.validLoop_found (l : List CEnodePayee) (vout : List CTxOut)
    (amt : Int) (hv : Bool) :
    (CEnodeBlockPayees.validLoop l vout amt hv).1 = true ↔
      ∃ p ∈ l, p.GetVoteCount ≥ MNPAYMENTS_SIGNATURES_REQUIRED ∧
        CEnodeBlockPayees.paysTo vout p.GetPayee amt = true := by
  induction l generalizing hv with
  | nil => simp [CEnodeBlockPayees.validLoop]
  | cons p rest ih =>
    unfold CEnodeBlockPayees.validLoop
    split_ifs with h1 h2
    · simp only [true_iff]
      exact ⟨p, List.mem_cons_self _ _, h1, h2⟩
    · rw [ih]
      constructor
      · rintro ⟨q, hq, hq2⟩
        exact ⟨q, List.mem_cons_of_mem _ hq, hq2⟩
      · rintro ⟨q, hq, hq2⟩
        rcases List.mem_cons.mp hq with rfl | hq
        · exact absurd hq2.2 h2
        · exact ⟨q, hq, hq2⟩
    · rw [ih]
      constructor
      · rintro ⟨q, hq, hq2⟩
        exact ⟨q, List.mem_cons_of_mem _ hq, hq2⟩
      · rintro ⟨q, hq, hq2⟩
        rcases List.mem_cons.mp hq with rfl | hq
        · exact absurd hq2.1 h1
        · exact ⟨q, hq, hq2⟩

theorem CEnodeBlockPayees.validLoop_flag (l : List CEnodePayee) (vout : List CTxOut)
    (amt : Int) (hv : Bool)
    (hnot : (CEnodeBlockPayees.validLoop l vout amt hv).1 = false) :
    (CEnodeBlockPayees.validLoop l vout amt hv).2 = true ↔
      hv = true ∨ ∃ p ∈ l, p.GetVoteCount ≥ MNPAYMENTS_SIGNATURES_REQUIRED := by
  induction l generalizing hv with
  | nil => simp [CEnodeBlockPayees.validLoop]
  | cons p rest ih =>
    unfold CEnodeBlockPayees.validLoop at hnot ⊢
    split_ifs at hnot ⊢ with h1 h2
    · rw [ih true hnot]
      simp only [true_or, true_iff]
      exact Or.inr ⟨p, List.mem_cons_self _ _, h1⟩
    · rw [ih hv hnot]
      constructor
      · rintro (h | ⟨q, hq, hq2⟩)
        · exact Or.inl h
        · exact Or.inr ⟨q, List.mem_cons_of_mem _ hq, hq2⟩
      · rintro (h | ⟨q, hq, hq2⟩)
        · exact Or.inl h
        · rcases List.mem_cons.mp hq with rfl | hq
          · exact absurd hq2 h1
          · exact Or.inr ⟨q, hq, hq2⟩

/-- Claim C3.  `CEnodeBlockPayees::IsTransactionValid(tx)` returns true when no payee of the
height has at least 6 votes; when some payee has at least 6 votes it returns true if and
only if some payee with at least 6 votes appears as an output of `tx` whose script equals
the payee and whose value is exactly `GetEnodePayment(height, tx.GetValueOut())` (so
acceptance then implies that the coinbase holds such an output); and
`CEnodePayments::IsTransactionValid` accepts every transaction for a height that has no
payee entry, and defers to the entry when there is one. -/
theorem C3_coinbase_validation (env : Env) (s : CEnodePayments) (bp : CEnodeBlockPayees)
    (tx : CTransaction) (nBlockHeight : Int) :
    ((∀ p ∈ bp.vecPayees, p.GetVoteCount < MNPAYMENTS_SIGNATURES_REQUIRED) →
      bp.IsTransactionValid env tx = true) ∧
    ((∃ p ∈ bp.vecPayees, p.GetVoteCount ≥ MNPAYMENTS_SIGNATURES_REQUIRED) →
      (bp.IsTransactionValid env tx = true ↔
        ∃ p ∈ bp.vecPayees, p.GetVoteCount ≥ MNPAYMENTS_SIGNATURES_REQUIRED ∧
          ∃ o ∈ tx.vout, o.scriptPubKey = p.scriptPubKey ∧
            o.nValue = env.GetEnodePayment bp.nBlockHeight (env.GetValueOut tx))) ∧
    (s.mapEnodeBlocks.find nBlockHeight = none →
      s.IsTransactionValid env tx nBlockHeight = true) ∧
    (s.mapEnodeBlocks.find nBlockHeight = some bp →
      s.IsTransactionValid env tx nBlockHeight = bp.IsTransactionValid env tx) := by
  have hmax := CEnodeBlockPayees.maxSignatures_ge bp.vecPayees 0 MNPAYMENTS_SIGNATURES_REQUIRED
  have h06 : ¬ ((0 : Int) ≥ MNPAYMENTS_SIGNATURES_REQUIRED) := by
    simp [MNPAYMENTS_SIGNATURES_REQUIRED]
  refine ⟨?_, ?_, ?_, ?_⟩
  · intro hall
    have : CEnodeBlockPayees.maxSignatures bp.vecPayees 0 < MNPAYMENTS_SIGNATURES_REQUIRED := by
      by_contra hc
      rcases hmax.mp (not_lt.mp hc) with h | ⟨p, hp, hp2⟩
      · exact h06 h
      · exact absurd (hall p hp) (not_lt.mpr hp2)
    simp [CEnodeBlockPayees.IsTransactionValid, this]
  · intro hex
    have hge : ¬ (CEnodeBlockPayees.maxSignatures bp.vecPayees 0 <
        MNPAYMENTS_SIGNATURES_REQUIRED) := not_lt.mpr (hmax.mpr (Or.inr hex))
    simp only [CEnodeBlockPayees.IsTransactionValid, hge, if_false]
    cases hfound : (CEnodeBlockPayees.validLoop bp.vecPayees tx.vout
        (env.GetEnodePayment bp.nBlockHeight (env.GetValueOut tx)) false).1 with
    | true =>
      simp only [if_true, true_iff]
      obtain ⟨p, hp, hp6, hpay⟩ := (CEnodeBlockPayees.validLoop_found _ _ _ _).mp hfound
      exact ⟨p, hp, hp6, (CEnodeBlockPayees.paysTo_iff _ _ _).mp hpay⟩
    | false =>
      have hflag := (CEnodeBlockPayees.validLoop_flag _ _ _ _ hfound).mpr (Or.inr hex)
      simp only [hflag]
      constructor
      · intro h; simp at h
      · rintro ⟨p, hp, hp6, hpay⟩
        have := (CEnodeBlockPayees.validLoop_found bp.vecPayees tx.vout
          (env.GetEnodePayment bp.nBlockHeight (env.GetValueOut tx)) false).mpr
          ⟨p, hp, hp6, (CEnodeBlockPayees.paysTo_iff _ _ _).mpr hpay⟩
        rw [hfound] at this
        cases this
  · intro h
    simp [CEnodePayments.IsTransactionValid, h]
  · intro h
    simp [CEnodePayments.IsTransactionValid, h]

/-! ## The best payee of a height -/

theorem CEnodePayee.GetVoteCount_nonneg (p : CEnodePayee) : 0 ≤ p.GetVoteCount := by
  unfold CEnodePayee.GetVoteCount
  exact Int.natCast_nonneg _

/-- What the loop of `GetBestPayee` computes: either nothing beats the initial count, or
the result is the first entry carrying the largest count. -/
theorem CEnodeBlockPayees.bestLoop_spec (l : List CEnodePayee) (r : CScript) (n : Int) :
    ((∀ q ∈ l, q.GetVoteCount ≤ n) ∧ CEnodeBlockPayees.bestLoop l r n = (r, n)) ∨
    (∃ pre p post, l = pre ++ p :: post ∧
      CEnodeBlockPayees.bestLoop l r n = (p.scriptPubKey, p.GetVoteCount) ∧
      n < p.GetVoteCount ∧
      (∀ q ∈ pre, q.GetVoteCount < p.GetVoteCount) ∧
      (∀ q ∈ post, q.GetVoteCount ≤ p.GetVoteCount)) := by
  induction l generalizing r n with
  | nil => left; simp [CEnodeBlockPayees.bestLoop]
  | cons x rest ih =>
    unfold CEnodeBlockPayees.bestLoop
    split_ifs with hx
    · right
      rcases ih x.GetPayee x.GetVoteCount with ⟨hall, heq⟩ | ⟨pre, p, post, hl, heq, hlt, hpre, hpost⟩
      · exact ⟨[], x, rest, rfl, heq, hx, by simp, hall⟩
      · refine ⟨x :: pre, p, post, by simp [hl], heq, by omega, ?_, hpost⟩
        intro q hq
        rcases List.mem_cons.mp hq with rfl | hq
        · exact hlt
        · exact hpre q hq
    · rcases ih r n with ⟨hall, heq⟩ | ⟨pre, p, post, hl, heq, hlt, hpre, hpost⟩
      · left
        refine ⟨?_, heq⟩
        intro q hq
        rcases List.mem_cons.mp hq with rfl | hq
        · omega
        · exact hall q hq
      · right
        refine ⟨x :: pre, p, post, by simp [hl], heq, hlt, ?_, hpost⟩
        intro q hq
        rcases List.mem_cons.mp hq with rfl | hq
        · omega
        · exact hpre q hq

/-- Claim C4.  `CEnodeBlockPayees::GetBestPayee` returns false if and only if the payee list
of the height is empty (leaving the out parameter alone); otherwise it returns true with
the payee that has the most vote hashes, and among payees tied for the most votes the one
inserted first: every earlier entry has strictly fewer votes, every later one at most as
many.  `CEnodePayments::GetBlockPayee` returns false for a height without an entry and
otherwise the best payee of the entry. -/
theorem C4_best_payee_most_votes_first (s : CEnodePayments) (bp : CEnodeBlockPayees)
    (payeeRet : CScript) (nBlockHeight : Int) :
    ((bp.GetBestPayee payeeRet).1 = false ↔ bp.vecPayees = []) ∧
    (bp.vecPayees = [] → (bp.GetBestPayee payeeRet).2 = payeeRet) ∧
    (bp.vecPayees ≠ [] →
      (bp.GetBestPayee payeeRet).1 = true ∧
      ∃ pre p post, bp.vecPayees = pre ++ p :: post ∧
        (bp.GetBestPayee payeeRet).2 = p.scriptPubKey ∧
        (∀ q ∈ pre, q.vecVoteHashes.length < p.vecVoteHashes.length) ∧
        (∀ q ∈ post, q.vecVoteHashes.length ≤ p.vecVoteHashes.length)) ∧
    (s.mapEnodeBlocks.find nBlockHeight = none →
      s.GetBlockPayee nBlockHeight payeeRet = (false, payeeRet)) ∧
    (s.mapEnodeBlocks.find nBlockHeight = some bp →
      s.GetBlockPayee nBlockHeight payeeRet = bp.GetBestPayee payeeRet) := by
  have main : bp.vecPayees ≠ [] →
      (bp.GetBestPayee payeeRet).1 = true ∧
      ∃ pre p post, bp.vecPayees = pre ++ p :: post ∧
        (bp.GetBestPayee payeeRet).2 = p.scriptPubKey ∧
        (∀ q ∈ pre, q.vecVoteHashes.length < p.vecVoteHashes.length) ∧
        (∀ q ∈ post, q.vecVoteHashes.length ≤ p.vecVoteHashes.length) := by
    intro hne
    have hlen : ¬ (bp.vecPayees.length = 0) := by
      intro h; exact hne (List.length_eq_zero.mp h)
    rcases CEnodeBlockPayees.bestLoop_spec bp.vecPayees payeeRet (-1) with
      ⟨hall, _⟩ | ⟨pre, p, post, hl, heq, hlt, hpre, hpost⟩
    · exfalso
      obtain ⟨x, hx⟩ := List.exists_mem_of_ne_nil _ hne
      have h1 := hall x hx
      have h2 := x.GetVoteCount_nonneg
      omega
    · refine ⟨?_, pre, p, post, hl, ?_, ?_, ?_⟩
      · simp only [CEnodeBlockPayees.GetBestPayee, hlen, if_false, heq]
        simpa using hlt
      · simp only [CEnodeBlockPayees.GetBestPayee, hlen, if_false, heq]
      · intro q hq
        have := hpre q hq
        simp only [CEnodePayee.GetVoteCount] at this
        exact_mod_cast this
      · intro q hq
        have := hpost q hq
        simp only [CEnodePayee.GetVoteCount] at this
        exact_mod_cast this
  refine ⟨?_, ?_, main, ?_, ?_⟩
  · constructor
    · intro hfalse
      by_contra hne
      rw [(main hne).1] at hfalse
      cases hfalse
    · intro hnil
      simp [CEnodeBlockPayees.GetBestPayee, hnil]
  · intro hnil
    simp [CEnodeBlockPayees.GetBestPayee, hnil]
  · intro h
    simp [CEnodePayments.GetBlockPayee, h]
  · intro h
    simp [CEnodePayments.GetBlockPayee, h]

/-! ## Processing a payment vote -/

theorem StdMap.count_keys_set {K V : Type} [DecidableEq K] (m : StdMap K V) (k : K) (v : V) :
    ((StdMap.set m k v).map Prod.fst).count k = max 1 ((m.map Prod.fst).count k) := by
  induction m with
  | nil => simp [StdMap.set]
  | cons p rest ih =>
    obtain ⟨k0, v0⟩ := p
    by_cases h : k0 = k
    · subst h
      simp [StdMap.set]
    · simp [StdMap.set, h, ih, List.count_cons]

theorem CEnodeBlockPayees.addPayeeTo_count (l : List CEnodePayee) (payee : CScript)
    (hash : uint256) :
    (((CEnodeBlockPayees.addPayeeTo l payee hash).filter
        (fun p => decide (p.scriptPubKey = payee))).map
        (fun p => p.vecVoteHashes.count hash)).sum =
      ((l.filter (fun p => decide (p.scriptPubKey = payee))).map
        (fun p => p.vecVoteHashes.count hash)).sum + 1 := by
  induction l with
  | nil => simp [CEnodeBlockPayees.addPayeeTo]
  | cons p rest ih =>
    by_cases h : p.scriptPubKey = payee
    · simp [CEnodeBlockPayees.addPayeeTo, CEnodePayee.GetPayee, CEnodePayee.AddVoteHash, h]
      omega
    · simp [CEnodeBlockPayees.addPayeeTo, CEnodePayee.GetPayee, h, ih]

/-- The store after a vote is accepted: the vote is filed under its hash and its hash is
added to the payees of its height. -/
theorem CEnodePayments.AddPaymentVote_accept (env : Env) (s : CEnodePayments)
    (v : CEnodePaymentVote) (hblk : env.GetBlockHash (v.nBlockHeight - 101) ≠ none)
    (hnew : s.HasVerifiedPaymentVote (v.GetHash env) = false) :
    CEnodePayments.AddPaymentVote env s v =
      (true, { s with
        mapEnodePaymentVotes := s.mapEnodePaymentVotes.set (v.GetHash env) v
        mapEnodeBlocks := s.mapEnodeBlocks.set v.nBlockHeight
          (CEnodeBlockPayees.AddPayee env
            ((s.mapEnodeBlocks.find v.nBlockHeight).getD
              { nBlockHeight := v.nBlockHeight, vecPayees := [] }) v) }) := by
  unfold CEnodePayments.AddPaymentVote
  cases hb : env.GetBlockHash (v.nBlockHeight - 101) with
  | none => exact absurd hb hblk
  | some bh =>
    simp only [hnew]
    cases hf : StdMap.find s.mapEnodeBlocks v.nBlockHeight with
    | none =>
      have hset : ∀ (m : StdMap Int CEnodeBlockPayees) (k : Int) (a b : CEnodeBlockPayees),
          StdMap.set (StdMap.set m k a) k b = StdMap.set m k b := by
        intro m k a b
        induction m with
        | nil => simp [StdMap.set]
        | cons p rest ih =>
          obtain ⟨k0, v0⟩ := p
          by_cases h : k0 = k
          · simp [StdMap.set, h]
          · simp [StdMap.set, h, ih]
      simp [StdMap.count, hf, StdMap.find_set_self, hset]
    | some bp => simp [StdMap.count, hf]

/-- Claim C5 (amended).  For every payment vote `v` that carries a signature (it is
verified: `vchSig` is not empty), for a height whose block hash at `h - 101` is known, and
that is not yet stored as verified: the first `AddPaymentVote` returns true, files `v` under
its hash (the votes-by-hash map keeps a single entry per hash) and records the hash once
more under the payee of `v` at its height; every later call returns false and changes
nothing, so processing `v` any number `N + 1` of times leaves the store of the first call. -/
theorem C5_signed_vote_idempotent (env : Env) (s : CEnodePayments) (v : CEnodePaymentVote)
    (hsig : v.IsVerified = true)
    (hblk : env.GetBlockHash (v.nBlockHeight - 101) ≠ none)
    (hnew : s.HasVerifiedPaymentVote (v.GetHash env) = false) :
    (CEnodePayments.AddPaymentVote env s v).1 = true ∧
    (CEnodePayments.AddPaymentVote env s v).2.mapEnodePaymentVotes.find (v.GetHash env)
      = some v ∧
    (CEnodePayments.AddPaymentVote env s v).2.voteEntries (v.GetHash env)
      = max 1 (s.voteEntries (v.GetHash env)) ∧
    (CEnodePayments.AddPaymentVote env s v).2.hashCount v.nBlockHeight v.payee (v.GetHash env)
      = s.hashCount v.nBlockHeight v.payee (v.GetHash env) + 1 ∧
    CEnodePayments.AddPaymentVote env (CEnodePayments.AddPaymentVote env s v).2 v
      = (false, (CEnodePayments.AddPaymentVote env s v).2) ∧
    (∀ N : Nat, CEnodePayments.AddPaymentVoteTimes env s v (N + 1)
      = (true :: List.replicate N false, (CEnodePayments.AddPaymentVote env s v).2)) := by
  have hacc := CEnodePayments.AddPaymentVote_accept env s v hblk hnew
  have hfind : (CEnodePayments.AddPaymentVote env s v).2.mapEnodePaymentVotes.find
      (v.GetHash env) = some v := by
    rw [hacc]
    exact StdMap.find_set_self _ _ _
  have hsecond : CEnodePayments.AddPaymentVote env (CEnodePayments.AddPaymentVote env s v).2 v
      = (false, (CEnodePayments.AddPaymentVote env s v).2) := by
    have hver : (CEnodePayments.AddPaymentVote env s v).2.HasVerifiedPaymentVote
        (v.GetHash env) = true := by
      simp only [CEnodePayments.HasVerifiedPaymentVote, hfind, hsig]
    generalize (CEnodePayments.AddPaymentVote env s v).2 = s1 at hver ⊢
    unfold CEnodePayments.AddPaymentVote
    cases hb : env.GetBlockHash (v.nBlockHeight - 101) with
    | none => rfl
    | some bh => simp [hver]
  refine ⟨by rw [hacc], hfind, ?_, ?_, hsecond, ?_⟩
  · rw [hacc]
    exact StdMap.count_keys_set _ _ _
  · rw [hacc]
    simp only [CEnodePayments.hashCount, StdMap.find_set_self, CEnodeBlockPayees.AddPayee]
    rw [CEnodeBlockPayees.addPayeeTo_count]
    cases hf : StdMap.find s.mapEnodeBlocks v.nBlockHeight with
    | none => simp
    | some bp => simp
  · intro N
    have hrest : ∀ n : Nat, CEnodePayments.AddPaymentVoteTimes env
        (CEnodePayments.AddPaymentVote env s v).2 v n
        = (List.replicate n false, (CEnodePayments.AddPaymentVote env s v).2) := by
      intro n
      induction n with
      | zero => rfl
      | succ n ih =>
        simp only [CEnodePayments.AddPaymentVoteTimes, hsecond, ih, List.replicate_succ]
    have h1 : (CEnodePayments.AddPaymentVote env s v).1 = true := by rw [hacc]
    simp only [CEnodePayments.AddPaymentVoteTimes, hrest, h1]

/-- Witness for C5: from the store holding the votes of voters 1 and 2 for payee `[7]` at
height 210, the signed vote of voter 3 is accepted once; a fourth, identical vote returns
false and leaves the store with 3 votes and a single payee entry of vote count 3. -/
theorem C5_signed_vote_idempotent_witness :
    (CEnodePayments.AddPaymentVote sampleEnv
        (CEnodePayments.AddPaymentVote sampleEnv
          (CEnodePayments.AddPaymentVote sampleEnv CEnodePayments.empty (sampleVote 1 [9])).2
          (sampleVote 2 [9])).2
        (sampleVote 3 [9])).1 = true ∧
    (CEnodePayments.AddPaymentVoteTimes sampleEnv
        (CEnodePayments.AddPaymentVote sampleEnv
          (CEnodePayments.AddPaymentVote sampleEnv CEnodePayments.empty (sampleVote 1 [9])).2
          (sampleVote 2 [9])).2
        (sampleVote 3 [9]) 2).1 = [true, false] ∧
    (CEnodePayments.AddPaymentVoteTimes sampleEnv
        (CEnodePayments.AddPaymentVote sampleEnv
          (CEnodePayments.AddPaymentVote sampleEnv CEnodePayments.empty (sampleVote 1 [9])).2
          (sampleVote 2 [9])).2
        (sampleVote 3 [9]) 2).2.mapEnodePaymentVotes.length = 3 ∧
    ((CEnodePayments.AddPaymentVoteTimes sampleEnv
        (CEnodePayments.AddPaymentVote sampleEnv
          (CEnodePayments.AddPaymentVote sampleEnv CEnodePayments.empty (sampleVote 1 [9])).2
          (sampleVote 2 [9])).2
        (sampleVote 3 [9]) 2).2.mapEnodeBlocks.map
          (fun e => (e.1, e.2.vecPayees.map (fun p => (p.scriptPubKey, p.GetVoteCount)))))
      = [(210, [([7], 3)])] := by
  have h := C5_signed_vote_idempotent sampleEnv
    (CEnodePayments.AddPaymentVote sampleEnv
      (CEnodePayments.AddPaymentVote sampleEnv CEnodePayments.empty (sampleVote 1 [9])).2
      (sampleVote 2 [9])).2
    (sampleVote 3 [9]) (by decide) (by decide) (by decide)
  refine ⟨h.1, ?_, ?_, ?_⟩
  · rw [h.2.2.2.2.2 1]; rfl
  · rw [h.2.2.2.2.2 1]; decide
  · rw [h.2.2.2.2.2 1]; decide

/-- Counterexample for C5 as stated: a vote without a signature is a payment vote for a
height whose block hash at `h - 101` is known, yet processing it twice is accepted twice
and records its hash twice under its payee. -/
theorem C5_counterexample_unsigned_vote :
    sampleEnv.GetBlockHash ((sampleVote 1 []).nBlockHeight - 101) = some 1109 ∧
    (CEnodePayments.AddPaymentVoteTimes sampleEnv CEnodePayments.empty
      (sampleVote 1 []) 2).1 = [true, true] ∧
    (CEnodePayments.AddPaymentVoteTimes sampleEnv CEnodePayments.empty
      (sampleVote 1 []) 2).2.hashCount 210 [7] ((sampleVote 1 []).GetHash sampleEnv) = 2 := by
  decide

/-! ## The score of an enode -/

/-- Claim C8.  `CEnode::CalculateScore(H)` is the unsigned distance `|h3 - h2|` between the
256-bit integers `h2 = sha256d(H)` and `h3 = sha256d(H || aux)` with
`aux = (outpoint.hash + outpoint.n) mod 2^256`, the digest being an arbitrary function of
the serialized bytes; it is a 256-bit value; it depends on the record only through its
collateral outpoint (any record with the same outpoint has the same score), so it is
unchanged when the outpoint is written out and read back by any codec that round-trips. -/
theorem C8_score_is_hash_distance (env : Env) (mn : CEnode) (H : uint256) :
    ((mn.CalculateScore env H : Int) =
      |(UintToArith256 (env.sha256d (env.serUint256 H ++ env.serUint256
          ((UintToArith256 mn.vin.prevout.hash + mn.vin.prevout.n) % 2 ^ 256))) : Int)
        - (UintToArith256 (env.sha256d (env.serUint256 H)) : Int)|) ∧
    mn.CalculateScore env H < 2 ^ 256 ∧
    (∀ mn2 : CEnode, mn2.vin.prevout = mn.vin.prevout →
      mn2.CalculateScore env H = mn.CalculateScore env H) ∧
    (∀ (ser : COutPoint → List Nat) (deser : List Nat → Option COutPoint),
      (∀ o, deser (ser o) = some o) →
      ∀ o2, deser (ser mn.vin.prevout) = some o2 →
        CEnode.CalculateScore env { mn with vin := { mn.vin with prevout := o2 } } H
          = mn.CalculateScore env H) := by
  have hdep : ∀ mn2 : CEnode, mn2.vin.prevout = mn.vin.prevout →
      mn2.CalculateScore env H = mn.CalculateScore env H := by
    intro mn2 h
    simp only [CEnode.CalculateScore, h]
  refine ⟨?_, ?_, hdep, ?_⟩
  · simp only [CEnode.CalculateScore]
    split_ifs with h
    · rw [Nat.cast_sub (le_of_lt h), abs_of_nonneg]
      have : ((UintToArith256 (env.sha256d (env.serUint256 H)) : Nat) : Int) ≤
          (UintToArith256 (env.sha256d (env.serUint256 H ++ env.serUint256
            ((UintToArith256 mn.vin.prevout.hash + mn.vin.prevout.n) % 2 ^ 256))) : Nat) := by
        exact_mod_cast le_of_lt h
      omega
    · have h2 := not_lt.mp h
      rw [Nat.cast_sub h2, abs_of_nonpos]
      · ring
      · have : ((UintToArith256 (env.sha256d (env.serUint256 H ++ env.serUint256
            ((UintToArith256 mn.vin.prevout.hash + mn.vin.prevout.n) % 2 ^ 256))) : Nat) : Int)
            ≤ (UintToArith256 (env.sha256d (env.serUint256 H)) : Nat) := by
          exact_mod_cast h2
        omega
  · have b2 : UintToArith256 (env.sha256d (env.serUint256 H)) < 2 ^ 256 :=
      Nat.mod_lt _ (by positivity)
    have b3 : UintToArith256 (env.sha256d (env.serUint256 H ++ env.serUint256
        ((UintToArith256 mn.vin.prevout.hash + mn.vin.prevout.n) % 2 ^ 256))) < 2 ^ 256 :=
      Nat.mod_lt _ (by positivity)
    simp only [CEnode.CalculateScore]
    split_ifs <;> omega
  · intro ser deser hrt o2 h2
    apply hdep
    rw [hrt] at h2
    simp only [Option.some.injEq] at h2
    simp [h2]

/-! ## Comparators and sorting -/

theorem COutPoint.lt_iff (a b : COutPoint) :
    COutPoint.lt a b = true ↔ a.hash < b.hash ∨ (a.hash = b.hash ∧ a.n < b.n) := by
  simp [COutPoint.lt]

theorem COutPoint.eq_of_not_lt {a b : COutPoint} (h1 : COutPoint.lt a b = false)
    (h2 : COutPoint.lt b a = false) : a = b := by
  have e1 : ¬ (a.hash < b.hash ∨ (a.hash = b.hash ∧ a.n < b.n)) := by
    rw [← COutPoint.lt_iff]; simp [h1]
  have e2 : ¬ (b.hash < a.hash ∨ (b.hash = a.hash ∧ b.n < a.n)) := by
    rw [← COutPoint.lt_iff]; simp [h2]
  cases a with
  | mk ah an =>
    cases b with
    | mk bh bn =>
      simp only [COutPoint.mk.injEq] at *
      omega

theorem CompareLastPaidBlock_iff (a b : Int × CEnode) :
    CompareLastPaidBlock a b = true ↔
      a.1 < b.1 ∨ (a.1 = b.1 ∧
        (a.2.vin.prevout.hash < b.2.vin.prevout.hash ∨
          (a.2.vin.prevout.hash = b.2.vin.prevout.hash ∧
            a.2.vin.prevout.n < b.2.vin.prevout.n))) := by
  unfold CompareLastPaidBlock CTxIn.lt
  split_ifs with h
  · simp only [decide_eq_true_eq]
    constructor
    · intro h1; exact Or.inl h1
    · rintro (h1 | ⟨h1, _⟩)
      · exact h1
      · exact absurd h1 h
  · rw [COutPoint.lt_iff]
    have h1 : a.1 = b.1 := not_not.mp h
    constructor
    · intro h2; exact Or.inr ⟨h1, h2⟩
    · rintro (h2 | ⟨_, h2⟩)
      · omega
      · exact h2

theorem CompareScoreMN_eq : CompareScoreMN = CompareLastPaidBlock := rfl

theorem notAfter_total (a b : Int × CEnode) :
    notAfter CompareLastPaidBlock a b ∨ notAfter CompareLastPaidBlock b a := by
  unfold notAfter
  by_contra hc
  push_neg at hc
  have h1 := (CompareLastPaidBlock_iff b a).mp (by simpa using hc.1)
  have h2 := (CompareLastPaidBlock_iff a b).mp (by simpa using hc.2)
  omega

theorem notAfter_trans (a b c : Int × CEnode) (hab : notAfter CompareLastPaidBlock a b)
    (hbc : notAfter CompareLastPaidBlock b c) : notAfter CompareLastPaidBlock a c := by
  unfold notAfter at *
  by_contra hc
  have h3 := (CompareLastPaidBlock_iff c a).mp (by simpa using hc)
  have h1 : ¬ _ := fun h => by
    have := (CompareLastPaidBlock_iff b a).mpr h
    rw [hab] at this
    cases this
  have h2 : ¬ _ := fun h => by
    have := (CompareLastPaidBlock_iff c b).mpr h
    rw [hbc] at this
    cases this
  omega

theorem notAfter_antisymm {a b : Int × CEnode} (hab : notAfter CompareLastPaidBlock a b)
    (hba : notAfter CompareLastPaidBlock b a) :
    a.1 = b.1 ∧ a.2.vin.prevout = b.2.vin.prevout := by
  unfold notAfter at *
  have h1 : ¬ _ := fun h => by
    have := (CompareLastPaidBlock_iff b a).mpr h
    rw [hab] at this
    cases this
  have h2 : ¬ _ := fun h => by
    have := (CompareLastPaidBlock_iff a b).mpr h
    rw [hba] at this
    cases this
  have e : a.1 = b.1 ∧ a.2.vin.prevout.hash = b.2.vin.prevout.hash ∧
      a.2.vin.prevout.n = b.2.vin.prevout.n := by omega
  refine ⟨e.1, ?_⟩
  cases hx : a.2.vin.prevout with
  | mk ah an =>
    cases hy : b.2.vin.prevout with
    | mk bh bn =>
      rw [hx, hy] at e
      simp only [COutPoint.mk.injEq]
      exact e.2

instance notAfter.isTotal : IsTotal (Int × CEnode) (notAfter CompareLastPaidBlock) :=
  ⟨notAfter_total⟩

instance notAfter.isTrans : IsTrans (Int × CEnode) (notAfter CompareLastPaidBlock) :=
  ⟨notAfter_trans⟩

theorem sortAscending_sorted (v : List (Int × CEnode)) :
    (sortAscending CompareLastPaidBlock v).Pairwise (notAfter CompareLastPaidBlock) :=
  List.sorted_insertionSort (notAfter CompareLastPaidBlock) v

theorem sortAscending_perm (cmp : Int × CEnode → Int × CEnode → Bool)
    (v : List (Int × CEnode)) : (sortAscending cmp v).Perm v :=
  List.perm_insertionSort (notAfter cmp) v

/-- Two vectors with the same entries, no two of them with the same outpoint, sort to the
same vector. -/
theorem sortAscending_eq_of_perm {v1 v2 : List (Int × CEnode)} (hp : v1.Perm v2)
    (hnd : v1.Pairwise (fun a b => a.2.vin.prevout ≠ b.2.vin.prevout)) :
    sortAscending CompareLastPaidBlock v1 = sortAscending CompareLastPaidBlock v2 := by
  have p1 := sortAscending_perm CompareLastPaidBlock v1
  have p2 := sortAscending_perm CompareLastPaidBlock v2
  apply List.Perm.eq_of_sorted _ (sortAscending_sorted v1) (sortAscending_sorted v2)
    (p1.trans (hp.trans p2.symm))
  intro a b ha hb hab hba
  have ha1 : a ∈ v1 := p1.subset ha
  have hb1 : b ∈ v1 := hp.symm.subset (p2.subset hb)
  have hk := notAfter_antisymm hab hba
  by_contra hne
  have hsym : Symmetric (fun a b : Int × CEnode => a.2.vin.prevout ≠ b.2.vin.prevout) :=
    fun x y h => Ne.symm h
  exact (List.Pairwise.forall hsym hnd ha1 hb1 hne) hk.2

/-! ## The payment queue -/

theorem CEnode.GetCollateralAge_vin (env : Env) (mn : CEnode) :
    (mn.GetCollateralAge env).2.vin = mn.vin ∧
    (mn.GetCollateralAge env).2.nBlockLastPaid = mn.nBlockLastPaid := by
  unfold CEnode.GetCollateralAge
  simp only []
  split_ifs <;> exact ⟨rfl, rfl⟩

theorem CEnodeMan.GetNotQualifyReason_vin (env : Env) (pay : CEnodePayments) (mn : CEnode)
    (h : Int) (f : Bool) (n : Int) :
    (CEnodeMan.GetNotQualifyReason env pay mn h f n).2.vin = mn.vin ∧
    (CEnodeMan.GetNotQualifyReason env pay mn h f n).2.nBlockLastPaid = mn.nBlockLastPaid := by
  unfold CEnodeMan.GetNotQualifyReason
  simp only []
  split_ifs <;> first | exact ⟨rfl, rfl⟩ | exact CEnode.GetCollateralAge_vin env mn

/-- The first loop of the payment queue as a map and a filter: every record goes through
the eligibility test, and the eligible ones are listed with their last paid block. -/
theorem CEnodeMan.qualifyLoop_eq (env : Env) (pay : CEnodePayments) (h : Int) (f : Bool)
    (n : Int) (l : List CEnode) :
    (CEnodeMan.qualifyLoop env pay h f n l).1 =
        l.map (fun mn => (CEnodeMan.GetNotQualifyReason env pay mn h f n).2) ∧
    (CEnodeMan.qualifyLoop env pay h f n l).2 =
        l.filterMap (fun mn =>
          if (CEnodeMan.GetNotQualifyReason env pay mn h f n).1 = none then
            some ((CEnodeMan.GetNotQualifyReason env pay mn h f n).2.GetLastPaidBlock,
              (CEnodeMan.GetNotQualifyReason env pay mn h f n).2)
          else none) := by
  induction l with
  | nil => exact ⟨rfl, rfl⟩
  | cons x rest ih =>
    unfold CEnodeMan.qualifyLoop
    cases hr : (CEnodeMan.GetNotQualifyReason env pay x h f n).1 with
    | none => simp [hr, ih.1, ih.2, List.filterMap_cons]
    | some r => simp [hr, ih.1, ih.2, List.filterMap_cons]

theorem CEnodeMan.qualifyLoop_perm (env : Env) (pay : CEnodePayments) (h : Int) (f : Bool)
    (n : Int) {l1 l2 : List CEnode} (hp : l1.Perm l2) :
    (CEnodeMan.qualifyLoop env pay h f n l1).1.Perm (CEnodeMan.qualifyLoop env pay h f n l2).1 ∧
    (CEnodeMan.qualifyLoop env pay h f n l1).2.Perm (CEnodeMan.qualifyLoop env pay h f n l2).2 := by
  rw [(CEnodeMan.qualifyLoop_eq env pay h f n l1).1, (CEnodeMan.qualifyLoop_eq env pay h f n l1).2,
    (CEnodeMan.qualifyLoop_eq env pay h f n l2).1, (CEnodeMan.qualifyLoop_eq env pay h f n l2).2]
  exact ⟨hp.map _, hp.filterMap _⟩

theorem CEnodeMan.qualifyLoop_distinct (env : Env) (pay : CEnodePayments) (h : Int) (f : Bool)
    (n : Int) {l : List CEnode}
    (hnd : l.Pairwise (fun a b => a.vin.prevout ≠ b.vin.prevout)) :
    (CEnodeMan.qualifyLoop env pay h f n l).1.Pairwise
        (fun a b => a.vin.prevout ≠ b.vin.prevout) ∧
    (CEnodeMan.qualifyLoop env pay h f n l).2.Pairwise
        (fun a b => a.2.vin.prevout ≠ b.2.vin.prevout) := by
  rw [(CEnodeMan.qualifyLoop_eq env pay h f n l).1, (CEnodeMan.qualifyLoop_eq env pay h f n l).2]
  constructor
  · apply List.Pairwise.map _ _ hnd
    intro a b hab
    rw [(CEnodeMan.GetNotQualifyReason_vin env pay a h f n).1,
      (CEnodeMan.GetNotQualifyReason_vin env pay b h f n).1]
    exact hab
  · apply List.Pairwise.filterMap _ _ hnd
    intro a a2 hab b hb b2 hb2
    simp only [Option.mem_def] at hb hb2
    split_ifs at hb hb2
    simp only [Option.some.injEq] at hb hb2
    rw [← hb, ← hb2]
    simp only []
    rw [(CEnodeMan.GetNotQualifyReason_vin env pay a h f n).1,
      (CEnodeMan.GetNotQualifyReason_vin env pay a2 h f n).1]
    exact hab

theorem CEnodeMan.CountEnabled_perm (env : Env) {m1 m2 : CEnodeMan}
    (hp : m1.vEnodes.Perm m2.vEnodes) (p : Int) :
    m1.CountEnabled env p = m2.CountEnabled env p := by
  unfold CEnodeMan.CountEnabled
  simp only []
  rw [(hp.filter _).length_eq]

/-- What the score loop computes over the entries it examines, the first
`max 1 (nTenthNetwork - nCountTenth)` ones: either none of them beats `nHighest`, or the
result is the first of them carrying the largest score. -/
theorem CEnodeMan.scoreLoop_spec (env : Env) (bh : uint256) (T : Int)
    (l : List (Int × CEnode)) (c : Int) (hi : Nat) (best : Option CEnode) :
    ((∀ s ∈ l.take (max 1 (T - c)).toNat, s.2.CalculateScore env bh ≤ hi) ∧
      CEnodeMan.scoreLoop env bh T l c hi best = best) ∨
    (∃ pre s post, l.take (max 1 (T - c)).toNat = pre ++ s :: post ∧
      CEnodeMan.scoreLoop env bh T l c hi best = some s.2 ∧
      hi < s.2.CalculateScore env bh ∧
      (∀ x ∈ pre, x.2.CalculateScore env bh < s.2.CalculateScore env bh) ∧
      (∀ x ∈ post, x.2.CalculateScore env bh ≤ s.2.CalculateScore env bh)) := by
  induction l generalizing c hi best with
  | nil => left; simp [CEnodeMan.scoreLoop]
  | cons x rest ih =>
    unfold CEnodeMan.scoreLoop
    simp only []
    by_cases hstop : c + 1 ≥ T
    · have hK : (max 1 (T - c)).toNat = 0 + 1 := by omega
      rw [hK, List.take_succ_cons, List.take_zero]
      simp only [hstop, if_true]
      by_cases hx : x.2.CalculateScore env bh > hi
      · right
        exact ⟨[], x, [], rfl, by simp [hx], hx, by simp, by simp⟩
      · left
        refine ⟨?_, by simp [hx]⟩
        intro s hs
        simp only [List.mem_singleton] at hs
        subst hs
        omega
    · have hK : (max 1 (T - c)).toNat = (max 1 (T - (c + 1))).toNat + 1 := by omega
      rw [hK, List.take_succ_cons]
      simp only [hstop, if_false]
      by_cases hx : x.2.CalculateScore env bh > hi
      · simp only [hx, if_true]
        right
        rcases ih (c + 1) (x.2.CalculateScore env bh) (some x.2) with
          ⟨hall, heq⟩ | ⟨pre, s, post, hl, heq, hlt, hpre, hpost⟩
        · exact ⟨[], x, _, rfl, heq, hx, by simp, hall⟩
        · refine ⟨x :: pre, s, post, by simp [hl], heq, by omega, ?_, hpost⟩
          intro y hy
          rcases List.mem_cons.mp hy with rfl | hy
          · exact hlt
          · exact hpre y hy
      · simp only [hx, if_false]
        rcases ih (c + 1) hi best with
          ⟨hall, heq⟩ | ⟨pre, s, post, hl, heq, hlt, hpre, hpost⟩
        · left
          refine ⟨?_, heq⟩
          intro y hy
          rcases List.mem_cons.mp hy with rfl | hy
          · omega
          · exact hall y hy
        · right
          refine ⟨x :: pre, s, post, by simp [hl], heq, hlt, ?_, hpost⟩
          intro y hy
          rcases List.mem_cons.mp hy with rfl | hy
          · omega
          · exact hpre y hy

theorem CEnodeMan.selectFromQueue_congr (env : Env) (m1 m2 : CEnodeMan) (h n : Int)
    {v1 v2 : List (Int × CEnode)} (hp : v1.Perm v2)
    (hnd : v1.Pairwise (fun a b => a.2.vin.prevout ≠ b.2.vin.prevout)) :
    (CEnodeMan.selectFromQueue env m1 h n v1).pBestEnode =
        (CEnodeMan.selectFromQueue env m2 h n v2).pBestEnode ∧
    (CEnodeMan.selectFromQueue env m1 h n v1).nCount =
        (CEnodeMan.selectFromQueue env m2 h n v2).nCount := by
  unfold CEnodeMan.selectFromQueue
  simp only []
  rw [sortAscending_eq_of_perm hp hnd, hp.length_eq]
  cases env.GetBlockHash (h - 101) with
  | none => exact ⟨rfl, rfl⟩
  | some bh => exact ⟨rfl, rfl⟩

theorem CEnodeMan.NoFilter_congr (env : Env) (pay : CEnodePayments) (m1 m2 : CEnodeMan)
    (h : Int) (hp : m1.vEnodes.Perm m2.vEnodes) (hnd : m1.Unique) :
    (CEnodeMan.GetNextEnodeInQueueForPaymentNoFilter env pay m1 h).pBestEnode =
        (CEnodeMan.GetNextEnodeInQueueForPaymentNoFilter env pay m2 h).pBestEnode ∧
    (CEnodeMan.GetNextEnodeInQueueForPaymentNoFilter env pay m1 h).nCount =
        (CEnodeMan.GetNextEnodeInQueueForPaymentNoFilter env pay m2 h).nCount := by
  unfold CEnodeMan.GetNextEnodeInQueueForPaymentNoFilter
  simp only []
  rw [CEnodeMan.CountEnabled_perm env hp]
  exact CEnodeMan.selectFromQueue_congr env _ _ h _
    (CEnodeMan.qualifyLoop_perm env pay h false _ hp).2
    (CEnodeMan.qualifyLoop_distinct env pay h false _ hnd).2

/-- Claim C7.  Two registries that hold the same enode records, with pairwise distinct
outpoints, in a different vector order give, under the same chain, vote store, clock and
flags, the same result of `GetNextEnodeInQueueForPayment(height, fFilterSigTime)`: the
same enode (or null in both) and the same `nCount`. -/
theorem C7_election_independent_of_insertion_order (env : Env) (pay : CEnodePayments)
    (man1 man2 : CEnodeMan) (nBlockHeight : Int) (fFilterSigTime : Bool)
    (hperm : man1.vEnodes.Perm man2.vEnodes)
    (hdistinct : man1.vEnodes.Pairwise (fun a b => a.vin.prevout ≠ b.vin.prevout)) :
    (man1.GetNextEnodeInQueueForPayment env pay nBlockHeight fFilterSigTime).pBestEnode =
      (man2.GetNextEnodeInQueueForPayment env pay nBlockHeight fFilterSigTime).pBestEnode ∧
    ((man1.GetNextEnodeInQueueForPayment env pay nBlockHeight fFilterSigTime).pBestEnode.map
        (fun mn => mn.vin.prevout) =
      (man2.GetNextEnodeInQueueForPayment env pay nBlockHeight fFilterSigTime).pBestEnode.map
        (fun mn => mn.vin.prevout)) ∧
    (man1.GetNextEnodeInQueueForPayment env pay nBlockHeight fFilterSigTime).nCount =
      (man2.GetNextEnodeInQueueForPayment env pay nBlockHeight fFilterSigTime).nCount := by
  have hq := CEnodeMan.qualifyLoop_perm env pay nBlockHeight fFilterSigTime
    (man1.CountEnabled env (-1)) hperm
  have hd := CEnodeMan.qualifyLoop_distinct env pay nBlockHeight fFilterSigTime
    (man1.CountEnabled env (-1)) hdistinct
  have hcount := CEnodeMan.CountEnabled_perm env hperm (-1)
  have main :
      (man1.GetNextEnodeInQueueForPayment env pay nBlockHeight fFilterSigTime).pBestEnode =
        (man2.GetNextEnodeInQueueForPayment env pay nBlockHeight fFilterSigTime).pBestEnode ∧
      (man1.GetNextEnodeInQueueForPayment env pay nBlockHeight fFilterSigTime).nCount =
        (man2.GetNextEnodeInQueueForPayment env pay nBlockHeight fFilterSigTime).nCount := by
    unfold CEnodeMan.GetNextEnodeInQueueForPayment
    simp only []
    rw [← hcount, ← hq.2.length_eq]
    split_ifs
    · exact CEnodeMan.NoFilter_congr env pay _ _ nBlockHeight hq.1 hd.1
    · exact CEnodeMan.selectFromQueue_congr env _ _ nBlockHeight _ hq.2 hd.2
  exact ⟨main.1, by rw [main.1], main.2⟩

/-- Claim C6 (amended).  `GetNextEnodeInQueueForPayment(height, fFilterSigTime)` filters the
enodes by payment eligibility (`nCount` is the number of eligible ones) and, unless fewer
than a third of the enabled enodes qualified with the sig-time filter on (then the call is
repeated with the filter off), sorts the eligible ones ascending by last paid block with
the outpoint as tiebreak, takes the first `max(1, nMnCount / 10)` entries of that sorted
list (`nMnCount` being the enabled-enode count), and returns the first member of that
cohort carrying the maximum `CalculateScore` at `block_hash(height - 101)`, provided that
score is positive; it returns null when the cohort is empty or all its scores are zero,
and when the block hash is unavailable. -/
theorem C6_payment_queue_selection (env : Env) (pay : CEnodePayments) (man : CEnodeMan)
    (nBlockHeight : Int) (fFilterSigTime : Bool) :
    (CEnodeMan.qualifyLoop env pay nBlockHeight fFilterSigTime (man.CountEnabled env (-1))
        man.vEnodes).2 =
      man.vEnodes.filterMap (fun mn =>
        if (CEnodeMan.GetNotQualifyReason env pay mn nBlockHeight fFilterSigTime
            (man.CountEnabled env (-1))).1 = none then
          some ((CEnodeMan.GetNotQualifyReason env pay mn nBlockHeight fFilterSigTime
              (man.CountEnabled env (-1))).2.GetLastPaidBlock,
            (CEnodeMan.GetNotQualifyReason env pay mn nBlockHeight fFilterSigTime
              (man.CountEnabled env (-1))).2)
        else none) ∧
    ((fFilterSigTime = true ∧
        ((CEnodeMan.qualifyLoop env pay nBlockHeight fFilterSigTime (man.CountEnabled env (-1))
          man.vEnodes).2.length : Int) < Int.tdiv (man.CountEnabled env (-1)) 3) →
      man.GetNextEnodeInQueueForPayment env pay nBlockHeight fFilterSigTime =
        CEnodeMan.GetNextEnodeInQueueForPaymentNoFilter env pay
          { man with vEnodes := (CEnodeMan.qualifyLoop env pay nBlockHeight fFilterSigTime
            (man.CountEnabled env (-1)) man.vEnodes).1 } nBlockHeight) ∧
    (¬ (fFilterSigTime = true ∧
        ((CEnodeMan.qualifyLoop env pay nBlockHeight fFilterSigTime (man.CountEnabled env (-1))
          man.vEnodes).2.length : Int) < Int.tdiv (man.CountEnabled env (-1)) 3) →
      (man.GetNextEnodeInQueueForPayment env pay nBlockHeight fFilterSigTime).nCount =
        ((CEnodeMan.qualifyLoop env pay nBlockHeight fFilterSigTime
          (man.CountEnabled env (-1)) man.vEnodes).2.length : Int) ∧
      (sortAscending CompareLastPaidBlock (CEnodeMan.qualifyLoop env pay nBlockHeight
          fFilterSigTime (man.CountEnabled env (-1)) man.vEnodes).2).Perm
        (CEnodeMan.qualifyLoop env pay nBlockHeight fFilterSigTime
          (man.CountEnabled env (-1)) man.vEnodes).2 ∧
      (sortAscending CompareLastPaidBlock (CEnodeMan.qualifyLoop env pay nBlockHeight
          fFilterSigTime (man.CountEnabled env (-1)) man.vEnodes).2).Pairwise
        (fun a b => CompareLastPaidBlock b a = false) ∧
      (env.GetBlockHash (nBlockHeight - 101) = none →
        (man.GetNextEnodeInQueueForPayment env pay nBlockHeight fFilterSigTime).pBestEnode
          = none) ∧
      (∀ bh, env.GetBlockHash (nBlockHeight - 101) = some bh →
        ((∀ s ∈ (sortAscending CompareLastPaidBlock (CEnodeMan.qualifyLoop env pay
              nBlockHeight fFilterSigTime (man.CountEnabled env (-1)) man.vEnodes).2).take
              (max 1 (Int.tdiv (man.CountEnabled env (-1)) 10)).toNat,
            s.2.CalculateScore env bh = 0) ∧
          (man.GetNextEnodeInQueueForPayment env pay nBlockHeight fFilterSigTime).pBestEnode
            = none) ∨
        (∃ pre s post,
          (sortAscending CompareLastPaidBlock (CEnodeMan.qualifyLoop env pay
              nBlockHeight fFilterSigTime (man.CountEnabled env (-1)) man.vEnodes).2).take
              (max 1 (Int.tdiv (man.CountEnabled env (-1)) 10)).toNat = pre ++ s :: post ∧
          (man.GetNextEnodeInQueueForPayment env pay nBlockHeight fFilterSigTime).pBestEnode
            = some s.2 ∧
          0 < s.2.CalculateScore env bh ∧
          (∀ x ∈ pre, x.2.CalculateScore env bh < s.2.CalculateScore env bh) ∧
          (∀ x ∈ post, x.2.CalculateScore env bh ≤ s.2.CalculateScore env bh)))) := by
  refine ⟨(CEnodeMan.qualifyLoop_eq env pay nBlockHeight fFilterSigTime _ man.vEnodes).2, ?_, ?_⟩
  · intro hretry
    obtain ⟨hf, hlt⟩ := hretry
    subst hf
    unfold CEnodeMan.GetNextEnodeInQueueForPayment
    simp only [Bool.true_and]
    rw [if_pos (by simpa using hlt)]
  · intro hno
    have hcond : (fFilterSigTime && decide
        (((CEnodeMan.qualifyLoop env pay nBlockHeight fFilterSigTime (man.CountEnabled env (-1))
          man.vEnodes).2.length : Int) < Int.tdiv (man.CountEnabled env (-1)) 3)) = false := by
      cases fFilterSigTime with
      | false => rfl
      | true =>
        simp only [Bool.true_and, decide_eq_false_iff_not]
        intro hlt
        exact hno ⟨rfl, hlt⟩
    have hres : man.GetNextEnodeInQueueForPayment env pay nBlockHeight fFilterSigTime =
        CEnodeMan.selectFromQueue env
          { man with vEnodes := (CEnodeMan.qualifyLoop env pay nBlockHeight fFilterSigTime
            (man.CountEnabled env (-1)) man.vEnodes).1 } nBlockHeight
          (man.CountEnabled env (-1))
          (CEnodeMan.qualifyLoop env pay nBlockHeight fFilterSigTime
            (man.CountEnabled env (-1)) man.vEnodes).2 := by
      unfold CEnodeMan.GetNextEnodeInQueueForPayment
      simp only [hcond]
      rfl
    refine ⟨?_, sortAscending_perm _ _, sortAscending_sorted _, ?_, ?_⟩
    · rw [hres]
      unfold CEnodeMan.selectFromQueue
      cases env.GetBlockHash (nBlockHeight - 101) <;> rfl
    · intro hnone
      rw [hres]
      unfold CEnodeMan.selectFromQueue
      simp only [hnone]
    · intro bh hbh
      rw [hres]
      unfold CEnodeMan.selectFromQueue
      simp only [hbh]
      rcases CEnodeMan.scoreLoop_spec env bh (Int.tdiv (man.CountEnabled env (-1)) 10)
          (sortAscending CompareLastPaidBlock (CEnodeMan.qualifyLoop env pay nBlockHeight
            fFilterSigTime (man.CountEnabled env (-1)) man.vEnodes).2) 0 0 none with
        ⟨hall, heq⟩ | ⟨pre, s, post, hl, heq, hlt, hpre, hpost⟩
      · left
        simp only [sub_zero] at hall
        exact ⟨fun s hs => Nat.le_zero.mp (hall s hs), heq⟩
      · right
        simp only [sub_zero] at hl
        exact ⟨pre, s, post, hl, heq, hlt, hpre, hpost⟩

/-- Counterexample for C6 as stated: in a registry of one eligible enabled enode the
enabled count is 1, so "the first `nMnCount / 10` entries" of the sorted list are no
entries at all, yet the call returns that enode. -/
theorem C6_counterexample_small_network :
    CEnodeMan.CountEnabled sampleEnv
      { CEnodeMan.empty with vEnodes := [sampleEnode 17 100] } (-1) = 1 ∧
    (sortAscending CompareLastPaidBlock
      (CEnodeMan.qualifyLoop sampleEnv CEnodePayments.empty 210 false 1
        [sampleEnode 17 100]).2).take (Int.tdiv 1 10).toNat = [] ∧
    (CEnodeMan.GetNextEnodeInQueueForPayment sampleEnv CEnodePayments.empty
      { CEnodeMan.empty with vEnodes := [sampleEnode 17 100] } 210 false).pBestEnode.map
        (fun mn => mn.vin.prevout) = some { hash := 17, n := 0 } := by
  decide

/-- Witness for C7: the registries holding the sample enodes 17 and 34 in either order
elect the same enode and report the same count. -/
theorem C7_election_independent_of_insertion_order_witness :
    (CEnodeMan.GetNextEnodeInQueueForPayment sampleEnv CEnodePayments.empty
        { CEnodeMan.empty with vEnodes := [sampleEnode 17 100, sampleEnode 34 100] }
        210 true).pBestEnode =
      (CEnodeMan.GetNextEnodeInQueueForPayment sampleEnv CEnodePayments.empty
        { CEnodeMan.empty with vEnodes := [sampleEnode 34 100, sampleEnode 17 100] }
        210 true).pBestEnode ∧
    ((CEnodeMan.GetNextEnodeInQueueForPayment sampleEnv CEnodePayments.empty
        { CEnodeMan.empty with vEnodes := [sampleEnode 17 100, sampleEnode 34 100] }
        210 true).pBestEnode.map (fun mn => mn.vin.prevout) =
      (CEnodeMan.GetNextEnodeInQueueForPayment sampleEnv CEnodePayments.empty
        { CEnodeMan.empty with vEnodes := [sampleEnode 34 100, sampleEnode 17 100] }
        210 true).pBestEnode.map (fun mn => mn.vin.prevout)) ∧
    (CEnodeMan.GetNextEnodeInQueueForPayment sampleEnv CEnodePayments.empty
        { CEnodeMan.empty with vEnodes := [sampleEnode 17 100, sampleEnode 34 100] }
        210 true).nCount =
      (CEnodeMan.GetNextEnodeInQueueForPayment sampleEnv CEnodePayments.empty
        { CEnodeMan.empty with vEnodes := [sampleEnode 34 100, sampleEnode 17 100] }
        210 true).nCount :=
  C7_election_independent_of_insertion_order sampleEnv CEnodePayments.empty
    { CEnodeMan.empty with vEnodes := [sampleEnode 17 100, sampleEnode 34 100] }
    { CEnodeMan.empty with vEnodes := [sampleEnode 34 100, sampleEnode 17 100] }
    210 true (List.Perm.swap _ _ _) (by decide)

/-! ## Ranks -/

theorem CEnodeMan.rankLoop_spec (vin : CTxIn) (l : List (Int × CEnode)) (k : Int) :
    ((∀ s ∈ l, s.2.vin.prevout ≠ vin.prevout) ∧ CEnodeMan.rankLoop vin l k = -1) ∨
    (∃ pre s post, l = pre ++ s :: post ∧
      CEnodeMan.rankLoop vin l k = k + (pre.length : Int) + 1 ∧
      s.2.vin.prevout = vin.prevout ∧ ∀ x ∈ pre, x.2.vin.prevout ≠ vin.prevout) := by
  induction l generalizing k with
  | nil => left; simp [CEnodeMan.rankLoop]
  | cons x rest ih =>
    unfold CEnodeMan.rankLoop
    split_ifs with hx
    · right
      exact ⟨[], x, rest, rfl, by simp, hx, by simp⟩
    · rcases ih (k + 1) with ⟨hall, heq⟩ | ⟨pre, s, post, hl, heq, hs, hpre⟩
      · left
        refine ⟨?_, heq⟩
        intro s hs
        rcases List.mem_cons.mp hs with rfl | hs
        · exact hx
        · exact hall s hs
      · right
        refine ⟨x :: pre, s, post, by simp [hl], ?_, hs, ?_⟩
        · rw [heq]; simp only [List.length_cons, Nat.cast_add, Nat.cast_one]; ring
        · intro y hy
          rcases List.mem_cons.mp hy with rfl | hy
          · exact hx
          · exact hpre y hy

theorem CEnodeMan.mem_rankCandidates (env : Env) (man : CEnodeMan) (bh : uint256)
    (nMinProtocol : Int) (fOnlyActive : Bool) (s : Int × CEnode) :
    s ∈ CEnodeMan.rankCandidates env man bh nMinProtocol fOnlyActive ↔
      s.2 ∈ man.vEnodes ∧ s.2.nProtocolVersion ≥ nMinProtocol ∧
      s.2.nActiveState = state.ENODE_ENABLED ∧
      s.1 = env.GetCompact (s.2.CalculateScore env bh) := by
  unfold CEnodeMan.rankCandidates
  simp only [List.mem_map, List.mem_filter]
  constructor
  · rintro ⟨mn, ⟨hmem, hf⟩, rfl⟩
    refine ⟨hmem, ?_, ?_, rfl⟩
    · simp only [Bool.and_eq_true, Bool.not_eq_true', decide_eq_false_iff_not] at hf
      exact not_lt.mp hf.1
    · simp only [Bool.and_eq_true] at hf
      have h2 := hf.2
      cases fOnlyActive <;>
        simp [CEnode.IsEnabled, CEnode.IsValidForPayment] at h2 <;> exact h2
  · rintro ⟨hmem, hp, hs, hsc⟩
    refine ⟨s.2, ⟨hmem, ?_⟩, ?_⟩
    · cases fOnlyActive <;>
        simp [CEnode.IsEnabled, CEnode.IsValidForPayment, hs, not_lt.mpr hp]
    · rw [← hsc]

/-- Claim C9.  `CEnodeMan::GetEnodeRank(vin, height, minProto)` returns -1 if
`block_hash(height)` is unavailable; otherwise the candidates are the enodes that are
Enabled with `protocol_version >= minProto`, each with its compact score at that block
hash, arranged in descending order of (score, outpoint), and the result is -1 exactly
when no candidate has the outpoint `vin.prevout`, else the 1-based position of the first
candidate with that outpoint.  Hence `1 <= rank <= number of candidates`, and two inputs
with the same rank (other than -1) have the same outpoint. -/
theorem C9_rank_is_position_in_descending_scores (env : Env) (man : CEnodeMan) (vin : CTxIn)
    (nBlockHeight nMinProtocol : Int) (fOnlyActive : Bool) :
    (env.GetBlockHash nBlockHeight = none →
      man.GetEnodeRank env vin nBlockHeight nMinProtocol fOnlyActive = -1) ∧
    (∀ bh, env.GetBlockHash nBlockHeight = some bh →
      (∀ s, s ∈ sortDescending CompareScoreMN
            (CEnodeMan.rankCandidates env man bh nMinProtocol fOnlyActive) ↔
          s.2 ∈ man.vEnodes ∧ s.2.nProtocolVersion ≥ nMinProtocol ∧
          s.2.nActiveState = state.ENODE_ENABLED ∧
          s.1 = env.GetCompact (s.2.CalculateScore env bh)) ∧
      (sortDescending CompareScoreMN
          (CEnodeMan.rankCandidates env man bh nMinProtocol fOnlyActive)).Perm
        (CEnodeMan.rankCandidates env man bh nMinProtocol fOnlyActive) ∧
      (sortDescending CompareScoreMN
          (CEnodeMan.rankCandidates env man bh nMinProtocol fOnlyActive)).Pairwise
        (fun a b => CompareScoreMN a b = false) ∧
      (man.GetEnodeRank env vin nBlockHeight nMinProtocol fOnlyActive = -1 ↔
        ∀ s ∈ CEnodeMan.rankCandidates env man bh nMinProtocol fOnlyActive,
          s.2.vin.prevout ≠ vin.prevout) ∧
      (man.GetEnodeRank env vin nBlockHeight nMinProtocol fOnlyActive ≠ -1 →
        1 ≤ man.GetEnodeRank env vin nBlockHeight nMinProtocol fOnlyActive ∧
        man.GetEnodeRank env vin nBlockHeight nMinProtocol fOnlyActive ≤
          ((CEnodeMan.rankCandidates env man bh nMinProtocol fOnlyActive).length : Int) ∧
        ∃ pre s post,
          sortDescending CompareScoreMN
            (CEnodeMan.rankCandidates env man bh nMinProtocol fOnlyActive)
              = pre ++ s :: post ∧
          man.GetEnodeRank env vin nBlockHeight nMinProtocol fOnlyActive
            = (pre.length : Int) + 1 ∧
          s.2.vin.prevout = vin.prevout ∧
          ∀ x ∈ pre, x.2.vin.prevout ≠ vin.prevout) ∧
      (∀ vin2 : CTxIn,
        man.GetEnodeRank env vin nBlockHeight nMinProtocol fOnlyActive ≠ -1 →
        man.GetEnodeRank env vin2 nBlockHeight nMinProtocol fOnlyActive
          = man.GetEnodeRank env vin nBlockHeight nMinProtocol fOnlyActive →
        vin2.prevout = vin.prevout)) := by
  refine ⟨?_, ?_⟩
  · intro h
    simp [CEnodeMan.GetEnodeRank, h]
  · intro bh hbh
    have hperm : (sortDescending CompareScoreMN
        (CEnodeMan.rankCandidates env man bh nMinProtocol fOnlyActive)).Perm
        (CEnodeMan.rankCandidates env man bh nMinProtocol fOnlyActive) :=
      (List.reverse_perm _).trans (sortAscending_perm CompareScoreMN _)
    have hrank : ∀ v : CTxIn, man.GetEnodeRank env v nBlockHeight nMinProtocol fOnlyActive =
        CEnodeMan.rankLoop v (sortDescending CompareScoreMN
          (CEnodeMan.rankCandidates env man bh nMinProtocol fOnlyActive)) 0 := by
      intro v
      simp [CEnodeMan.GetEnodeRank, hbh]
    have hpos : ∀ v : CTxIn,
        man.GetEnodeRank env v nBlockHeight nMinProtocol fOnlyActive ≠ -1 →
        ∃ pre s post,
          sortDescending CompareScoreMN
            (CEnodeMan.rankCandidates env man bh nMinProtocol fOnlyActive)
              = pre ++ s :: post ∧
          man.GetEnodeRank env v nBlockHeight nMinProtocol fOnlyActive
            = (pre.length : Int) + 1 ∧
          s.2.vin.prevout = v.prevout ∧
          ∀ x ∈ pre, x.2.vin.prevout ≠ v.prevout := by
      intro v hne
      rcases CEnodeMan.rankLoop_spec v (sortDescending CompareScoreMN
          (CEnodeMan.rankCandidates env man bh nMinProtocol fOnlyActive)) 0 with
        ⟨_, heq⟩ | ⟨pre, s, post, hl, heq, hs, hpre⟩
      · rw [hrank v] at hne
        exact absurd heq hne
      · exact ⟨pre, s, post, hl, by rw [hrank v, heq]; ring, hs, hpre⟩
    refine ⟨?_, hperm, ?_, ?_, ?_, ?_⟩
    · intro s
      rw [hperm.mem_iff]
      exact CEnodeMan.mem_rankCandidates env man bh nMinProtocol fOnlyActive s
    · unfold sortDescending
      rw [List.pairwise_reverse, CompareScoreMN_eq]
      exact sortAscending_sorted _
    · rw [hrank vin]
      rcases CEnodeMan.rankLoop_spec vin (sortDescending CompareScoreMN
          (CEnodeMan.rankCandidates env man bh nMinProtocol fOnlyActive)) 0 with
        ⟨hall, heq⟩ | ⟨pre, s, post, hl, heq, hs, hpre⟩
      · simp only [heq, true_iff]
        intro s hs
        exact hall s (hperm.symm.subset hs)
      · constructor
        · intro h
          rw [heq] at h
          have : (0 : Int) ≤ (pre.length : Int) := Int.natCast_nonneg _
          omega
        · intro hall
          have hmem : s ∈ sortDescending CompareScoreMN
              (CEnodeMan.rankCandidates env man bh nMinProtocol fOnlyActive) := by
            rw [hl]; simp
          exact absurd hs (hall s (hperm.subset hmem))
    · intro hne
      obtain ⟨pre, s, post, hl, heq, hs, hpre⟩ := hpos vin hne
      have hlen : (sortDescending CompareScoreMN
          (CEnodeMan.rankCandidates env man bh nMinProtocol fOnlyActive)).length
          = (CEnodeMan.rankCandidates env man bh nMinProtocol fOnlyActive).length :=
        hperm.length_eq
      have hlen2 : pre.length + 1 ≤
          (CEnodeMan.rankCandidates env man bh nMinProtocol fOnlyActive).length := by
        rw [← hlen, hl]; simp
      refine ⟨?_, ?_, pre, s, post, hl, heq, hs, hpre⟩
      · rw [heq]
        have : (0 : Int) ≤ (pre.length : Int) := Int.natCast_nonneg _
        omega
      · rw [heq]
        exact_mod_cast hlen2
    · intro vin2 hne heq
      obtain ⟨pre, s, post, hl, hr, hs, hpre⟩ := hpos vin hne
      obtain ⟨pre2, s2, post2, hl2, hr2, hs2, hpre2⟩ := hpos vin2 (by rw [heq]; exact hne)
      have hlenEq : pre2.length = pre.length := by
        have : (pre2.length : Int) + 1 = (pre.length : Int) + 1 := by
          rw [← hr2, ← hr, heq]
        omega
      have happ := hl.symm.trans hl2
      have hpe : pre = pre2 := List.append_inj_left happ hlenEq.symm
      subst hpe
      have : s = s2 := by
        have := List.append_cancel_left happ
        simp only [List.cons.injEq] at this
        exact this.1
      subst this
      rw [← hs2, hs]

/-! ## The double-precision "too new" test -/

theorem log2Fuel_spec (fuel : Nat) : ∀ n : Nat, 0 < n → n ≤ fuel →
    2 ^ log2Fuel fuel n ≤ n ∧ n < 2 ^ (log2Fuel fuel n + 1) := by
  induction fuel with
  | zero => intro n h1 h2; omega
  | succ fuel ih =>
    intro n h1 h2
    unfold log2Fuel
    split_ifs with h
    · simp; omega
    · have := ih (n / 2) (by omega) (by omega)
      rw [pow_succ, pow_succ]
      rw [pow_succ] at this
      omega

theorem floorLog2_spec (n : Nat) (h : 0 < n) :
    2 ^ floorLog2 n ≤ n ∧ n < 2 ^ (floorLog2 n + 1) :=
  log2Fuel_spec n n h (le_refl n)

theorem floorLog2_lt {n j : Nat} (h : 0 < n) (hb : n < 2 ^ j) : floorLog2 n < j := by
  have h1 := (floorLog2_spec n h).1
  exact (Nat.pow_lt_pow_iff_right (by norm_num : 1 < 2)).mp (lt_of_le_of_lt h1 hb)

theorem floorLog2_ge {n j : Nat} (hb : 2 ^ j ≤ n) : j ≤ floorLog2 n := by
  have hpos : 0 < n := lt_of_lt_of_le (by positivity) hb
  have h1 := (floorLog2_spec n hpos).2
  have := (Nat.pow_lt_pow_iff_right (by norm_num : 1 < 2)).mp (lt_of_le_of_lt hb h1)
  omega

/-- The rounding of a natural number of at least 54 bits, written out. -/
theorem roundToDouble_nat (a : Nat) (ha : 2 ^ 53 ≤ a) :
    roundToDouble (a : Int) =
      (((if a % 2 ^ (floorLog2 a - 52) > 2 ^ (floorLog2 a - 52 - 1) ∨
          (a % 2 ^ (floorLog2 a - 52) = 2 ^ (floorLog2 a - 52 - 1) ∧
            a / 2 ^ (floorLog2 a - 52) % 2 = 1)
        then a / 2 ^ (floorLog2 a - 52) + 1 else a / 2 ^ (floorLog2 a - 52))
        * 2 ^ (floorLog2 a - 52) : Nat) : Int) := by
  have hpos : (0 : Int) < (a : Int) := by
    have : 0 < a := lt_of_lt_of_le (by positivity) ha
    exact_mod_cast this
  unfold roundToDouble
  simp only [Int.natAbs_ofNat]
  rw [if_neg (not_lt.mpr ha), Int.sign_eq_one_of_pos hpos, one_mul]

/-- A number of at most 104 bits that lies within less than half a unit in the last place
of a multiple of `2^51` rounds to that multiple. -/
theorem roundToDouble_near (a m : Nat) (d : Int) (ha : 2 ^ 53 ≤ a) (ha2 : a < 2 ^ 104)
    (heq : (a : Int) = m * 2 ^ 51 + d) (hd : |d| < 2 ^ (floorLog2 a - 53)) :
    roundToDouble (a : Int) = m * 2 ^ 51 := by
  have hpos : 0 < a := lt_of_lt_of_le (by positivity) ha
  have hL1 : 53 ≤ floorLog2 a := floorLog2_ge ha
  have hL2 : floorLog2 a < 104 := floorLog2_lt hpos ha2
  rw [roundToDouble_nat a ha]
  obtain ⟨e, he⟩ : ∃ e, floorLog2 a - 52 = e + 1 := ⟨floorLog2 a - 53, by omega⟩
  have he2 : floorLog2 a - 53 = e := by omega
  have he3 : e + 1 ≤ 51 := by omega
  have hd2 : |d| < 2 ^ e := by rw [← he2]; exact hd
  rw [he]
  simp only [Nat.add_sub_cancel]
  obtain ⟨g, hg⟩ : ∃ g, 51 = g + (e + 1) := ⟨51 - (e + 1), by omega⟩
  have hP : (2 : Nat) ^ 51 = 2 ^ g * (2 * 2 ^ e) := by
    conv_lhs => rw [hg]
    rw [pow_add, pow_succ]; ring
  have hH : 0 < 2 ^ e := by positivity
  have hpe : (2 : Nat) ^ (e + 1) = 2 * 2 ^ e := by rw [pow_succ]; ring
  rw [hpe]
  have hdabs := abs_lt.mp hd2
  clear hd hd2 he he2 hL1 hL2
  have hcast : ((2 : Int) ^ e) = ((2 ^ e : Nat) : Int) := by norm_cast
  rw [hcast] at hdabs
  have h51 : ((2 : Int) ^ 51) = ((2 ^ 51 : Nat) : Int) := by norm_cast
  rw [h51, hP] at heq
  generalize (2 : Nat) ^ e = H at *
  generalize (2 : Nat) ^ g = G at *
  rcases le_or_lt 0 d with hd0 | hd0
  · obtain ⟨dn, rfl⟩ := Int.eq_ofNat_of_zero_le hd0
    have hdn : dn < H := by omega
    have haeq : a = dn + (2 * H) * (m * G) := by
      have : (a : Int) = ((dn + (2 * H) * (m * G) : Nat) : Int) := by
        rw [heq]; push_cast; ring
      exact_mod_cast this
    have hdm := (Nat.div_mod_unique (by omega : 0 < 2 * H)).mpr ⟨haeq.symm, by omega⟩
    rw [hdm.1, hdm.2]
    rw [if_neg (by omega)]
    have hfin : m * G * (2 * H) = m * 2 ^ 51 := by rw [hP]; ring
    rw [hfin]
    push_cast
    ring
  · obtain ⟨dn, hdn⟩ : ∃ dn : Nat, d = -(dn : Int) := ⟨d.natAbs, by omega⟩
    subst hdn
    have hdn1 : 0 < dn := by omega
    have hdn2 : dn < H := by omega
    have hmG : 0 < m * G := by
      by_contra hc
      have : m * G = 0 := by omega
      have h0 : (a : Int) = -(dn : Int) := by
        rw [heq]
        have : (m : Int) * ((G : Int) * (2 * (H : Int))) = ((m * G : Nat) : Int) * (2 * H) := by
          push_cast; ring
        push_cast
        rw [this]
        simp [‹m * G = 0›]
      omega
    obtain ⟨q, hq⟩ : ∃ q, m * G = q + 1 := ⟨m * G - 1, by omega⟩
    have haeq : a = (2 * H - dn) + (2 * H) * q := by
      have : (a : Int) = (((2 * H - dn) + (2 * H) * q : Nat) : Int) := by
        rw [heq]
        have e1 : (m : Int) * ((G : Int) * (2 * (H : Int))) = ((m * G : Nat) : Int) * (2 * H) := by
          push_cast; ring
        push_cast
        rw [e1, hq, Nat.cast_sub (by omega)]
        push_cast
        ring
      exact_mod_cast this
    have hdm := (Nat.div_mod_unique (by omega : 0 < 2 * H)).mpr ⟨haeq.symm, by omega⟩
    rw [hdm.1, hdm.2]
    rw [if_pos (Or.inl (by omega))]
    have : ((q + 1) * (2 * H) : Nat) = m * 2 ^ 51 := by
      rw [← hq, hP]; ring
    rw [this]
    push_cast
    ring

/-- Rounding a natural number below `2^(53+j)` moves it by at most `2^j / 2`. -/
theorem roundToDouble_error (a j : Nat) (ha2 : a < 2 ^ (53 + j)) :
    ∃ res : Nat, roundToDouble (a : Int) = (res : Int) ∧
      2 * res ≤ 2 * a + 2 ^ j ∧ 2 * a ≤ 2 * res + 2 ^ j := by
  by_cases ha : a < 2 ^ 53
  · refine ⟨a, ?_, Nat.le_add_right _ _, Nat.le_add_right _ _⟩
    unfold roundToDouble
    simp only [Int.natAbs_ofNat]
    rw [if_pos ha]
  · have ha1 : 2 ^ 53 ≤ a := not_lt.mp ha
    have hpos : 0 < a := lt_of_lt_of_le (by positivity) ha1
    have hL1 : 53 ≤ floorLog2 a := floorLog2_ge ha1
    have hL2 : floorLog2 a < 53 + j := floorLog2_lt hpos ha2
    rw [roundToDouble_nat a ha1]
    obtain ⟨e, he⟩ : ∃ e, floorLog2 a - 52 = e + 1 := ⟨floorLog2 a - 53, by omega⟩
    have hej : e + 1 ≤ j := by omega
    rw [he]
    simp only [Nat.add_sub_cancel]
    have hpe : (2 : Nat) ^ (e + 1) = 2 * 2 ^ e := by rw [pow_succ]; ring
    have hPj : (2 : Nat) ^ (e + 1) ≤ 2 ^ j := Nat.pow_le_pow_right (by norm_num) hej
    rw [hpe] at hPj ⊢
    have hH : 0 < 2 ^ e := by positivity
    generalize (2 : Nat) ^ e = H at *
    generalize (2 : Nat) ^ j = J at *
    have hdiv := Nat.div_add_mod a (2 * H)
    have hmod := Nat.mod_lt a (by omega : 0 < 2 * H)
    generalize a / (2 * H) = q at *
    generalize a % (2 * H) = r at *
    split_ifs with hup
    · refine ⟨(q + 1) * (2 * H), rfl, ?_, ?_⟩
      · have hr : H ≤ r := by omega
        have : (q + 1) * (2 * H) = 2 * H * q + 2 * H := by ring
        omega
      · have : (q + 1) * (2 * H) = 2 * H * q + 2 * H := by ring
        omega
    · refine ⟨q * (2 * H), rfl, ?_, ?_⟩
      · have : q * (2 * H) = 2 * H * q := by ring
        omega
      · have hr : r ≤ H := by
          by_contra hc
          exact hup (Or.inl (by omega))
        have : q * (2 * H) = 2 * H * q := by ring
        omega

theorem intToDouble_exact (t : Nat) (ht : t < 2 ^ 52) : intToDouble (t : Int) = t * 2 ^ 51 := by
  unfold intToDouble
  by_cases hsmall : t * 2 ^ 51 < 2 ^ 53
  · unfold roundToDouble
    have : ((t : Int) * 2 ^ 51).natAbs = t * 2 ^ 51 := by
      have : ((t : Int) * 2 ^ 51) = ((t * 2 ^ 51 : Nat) : Int) := by push_cast; ring
      rw [this, Int.natAbs_ofNat]
    simp only [this]
    rw [if_pos hsmall]
  · have h1 : 2 ^ 53 ≤ t * 2 ^ 51 := not_lt.mp hsmall
    have h2 : t * 2 ^ 51 < 2 ^ 104 := by omega
    have := roundToDouble_near (t * 2 ^ 51) t 0 h1 h2 (by push_cast; ring) (by simp)
    have hc : ((t * 2 ^ 51 : Nat) : Int) = (t : Int) * 2 ^ 51 := by push_cast; ring
    rw [hc] at this
    exact this

/-- For counts below `2^20` and times between `2^30` and `2^52` the double-precision test
is the integer comparison `sig_time + n * 156 > now`. -/
theorem tooNew_eq_integer_test (sigTime n now : Int) (hn0 : 0 ≤ n) (hn : n < 2 ^ 20)
    (hs : 2 ^ 30 ≤ sigTime) (hT : sigTime + n * 156 < 2 ^ 52)
    (hnow0 : 0 ≤ now) (hnow : now < 2 ^ 52) :
    tooNew sigTime n now = decide (sigTime + n * 156 > now) := by
  obtain ⟨nn, rfl⟩ := Int.eq_ofNat_of_zero_le hn0
  obtain ⟨sn, rfl⟩ := Int.eq_ofNat_of_zero_le (by omega : (0 : Int) ≤ sigTime)
  obtain ⟨wn, rfl⟩ := Int.eq_ofNat_of_zero_le hnow0
  have hnn : nn < 2 ^ 20 := by exact_mod_cast hn
  have hsn : 2 ^ 30 ≤ sn := by exact_mod_cast hs
  have hTn : sn + nn * 156 < 2 ^ 52 := by exact_mod_cast hT
  have hwn : wn < 2 ^ 52 := by exact_mod_cast hnow
  unfold tooNew
  simp only []
  have e1 : (nn : Int) * double_2_6 = ((nn * 5854679515581645 : Nat) : Int) := by
    unfold double_2_6; push_cast; ring
  obtain ⟨p1, hp1, hp1a, hp1b⟩ := roundToDouble_error (nn * 5854679515581645) 20 (by omega)
  rw [e1, hp1]
  have e2 : (p1 : Int) * 60 = ((p1 * 60 : Nat) : Int) := by push_cast; ring
  obtain ⟨p2, hp2, hp2a, hp2b⟩ := roundToDouble_error (p1 * 60) 27 (by omega)
  rw [e2, hp2]
  rw [intToDouble_exact sn (by omega), intToDouble_exact wn hwn]
  have hsum : roundToDouble ((sn : Int) * 2 ^ 51 + (p2 : Int)) = ((sn + nn * 156 : Nat) : Int) * 2 ^ 51 := by
    have ha : ((sn : Int) * 2 ^ 51 + (p2 : Int)) = ((sn * 2 ^ 51 + p2 : Nat) : Int) := by
      push_cast; ring
    rw [ha]
    have hlow : 2 ^ 80 ≤ sn * 2 ^ 51 + p2 := by omega
    have hL : 80 ≤ floorLog2 (sn * 2 ^ 51 + p2) := floorLog2_ge hlow
    have h27 : (2 : Int) ^ 27 ≤ 2 ^ (floorLog2 (sn * 2 ^ 51 + p2) - 53) :=
      pow_le_pow_right₀ (by norm_num) (by omega)
    apply roundToDouble_near (sn * 2 ^ 51 + p2) (sn + nn * 156)
      ((p2 : Int) - (nn : Int) * 156 * 2 ^ 51) (by omega) (by omega) (by push_cast; ring)
    refine lt_of_lt_of_le ?_ h27
    rw [abs_lt]
    constructor <;> omega
  rw [hsum]
  congr 1
  apply propext
  push_cast
  constructor <;> intro h <;> nlinarith

/-! ## Payment eligibility -/

/-- Claim C10 (amended).  `GetNotQualifyReason` reports no reason if and only if the state
is Enabled, the protocol version is at least the payment floor, `IsScheduled(mn, height)`
is false, the "too new" test `sig_time + n * 2.6 * 60 > now` (evaluated in double
precision) is false whenever the sig-time filter is on, and the collateral age is at
least `n`; the first failing condition, in this order, determines the reported reason.
For counts `0 <= n < 2^20` and times from `2^30` up to `2^52` the "too new" test is false
exactly when `sig_time + n * 156 <= now`. -/
theorem C10_eligibility_single_predicate (env : Env) (pay : CEnodePayments) (mn : CEnode)
    (nBlockHeight : Int) (fFilterSigTime : Bool) (n : Int) :
    ((CEnodeMan.GetNotQualifyReason env pay mn nBlockHeight fFilterSigTime n).1 = none ↔
      mn.nActiveState = state.ENODE_ENABLED ∧
      mn.nProtocolVersion ≥ GetMinEnodePaymentsProto env ∧
      pay.IsScheduled env mn nBlockHeight = false ∧
      (fFilterSigTime = true → tooNew mn.sigTime n env.GetAdjustedTime = false) ∧
      (mn.GetCollateralAge env).1 ≥ n) ∧
    ((CEnodeMan.GetNotQualifyReason env pay mn nBlockHeight fFilterSigTime n).1
        = some NotQualifyReason.notValidForPayment ↔
      mn.nActiveState ≠ state.ENODE_ENABLED) ∧
    ((CEnodeMan.GetNotQualifyReason env pay mn nBlockHeight fFilterSigTime n).1
        = some NotQualifyReason.invalidProtocolVersion ↔
      mn.nActiveState = state.ENODE_ENABLED ∧
      mn.nProtocolVersion < GetMinEnodePaymentsProto env) ∧
    ((CEnodeMan.GetNotQualifyReason env pay mn nBlockHeight fFilterSigTime n).1
        = some NotQualifyReason.isScheduled ↔
      mn.nActiveState = state.ENODE_ENABLED ∧
      mn.nProtocolVersion ≥ GetMinEnodePaymentsProto env ∧
      pay.IsScheduled env mn nBlockHeight = true) ∧
    ((CEnodeMan.GetNotQualifyReason env pay mn nBlockHeight fFilterSigTime n).1
        = some NotQualifyReason.tooNew ↔
      mn.nActiveState = state.ENODE_ENABLED ∧
      mn.nProtocolVersion ≥ GetMinEnodePaymentsProto env ∧
      pay.IsScheduled env mn nBlockHeight = false ∧
      fFilterSigTime = true ∧ tooNew mn.sigTime n env.GetAdjustedTime = true) ∧
    ((CEnodeMan.GetNotQualifyReason env pay mn nBlockHeight fFilterSigTime n).1
        = some NotQualifyReason.collateralAge ↔
      mn.nActiveState = state.ENODE_ENABLED ∧
      mn.nProtocolVersion ≥ GetMinEnodePaymentsProto env ∧
      pay.IsScheduled env mn nBlockHeight = false ∧
      (fFilterSigTime = true → tooNew mn.sigTime n env.GetAdjustedTime = false) ∧
      (mn.GetCollateralAge env).1 < n) ∧
    (0 ≤ n → n < 2 ^ 20 → 2 ^ 30 ≤ mn.sigTime → mn.sigTime + n * 156 < 2 ^ 52 →
      0 ≤ env.GetAdjustedTime → env.GetAdjustedTime < 2 ^ 52 →
      (tooNew mn.sigTime n env.GetAdjustedTime = false ↔
        mn.sigTime + n * 156 ≤ env.GetAdjustedTime)) := by
  have hfp : 0 ≤ n → n < 2 ^ 20 → 2 ^ 30 ≤ mn.sigTime → mn.sigTime + n * 156 < 2 ^ 52 →
      0 ≤ env.GetAdjustedTime → env.GetAdjustedTime < 2 ^ 52 →
      (tooNew mn.sigTime n env.GetAdjustedTime = false ↔
        mn.sigTime + n * 156 ≤ env.GetAdjustedTime) := by
    intro a1 a2 a3 a4 a5 a6
    rw [tooNew_eq_integer_test mn.sigTime n env.GetAdjustedTime a1 a2 a3 a4 a5 a6]
    simp
  refine ⟨?_, ?_, ?_, ?_, ?_, ?_, hfp⟩ <;> clear hfp
  all_goals
    unfold CEnodeMan.GetNotQualifyReason CEnode.IsValidForPayment
    by_cases h1 : mn.nActiveState = state.ENODE_ENABLED
    · by_cases h2 : mn.nProtocolVersion < GetMinEnodePaymentsProto env
      · simp [h1, h2]
      · have h2g : mn.nProtocolVersion ≥ GetMinEnodePaymentsProto env := not_lt.mp h2
        cases h3 : pay.IsScheduled env mn nBlockHeight with
        | true => simp [h1, h2, h2g]
        | false =>
          cases h4 : fFilterSigTime with
          | true =>
            cases h5 : tooNew mn.sigTime n env.GetAdjustedTime with
            | true => simp [h1, h2, h2g]
            | false =>
              by_cases h6 : (mn.GetCollateralAge env).1 < n
              · simp [h1, h2, h2g, h6]
              · simp [h1, h2, h2g, h6, not_lt.mp h6]
          | false =>
            by_cases h6 : (mn.GetCollateralAge env).1 < n
            · simp [h1, h2, h2g, h6]
            · simp [h1, h2, h2g, h6, not_lt.mp h6]
    · simp [h1]

/-- Counterexample for C10 as stated: an Enabled enode with a sufficient protocol version
that is not scheduled, whose collateral is old enough and for which
`sig_time + n * 156 <= now` holds (`0 + 3 * 156 <= 468`), is nevertheless reported as too
new, because `3 * 2.6 * 60` is `468.00000000000006` in double precision. -/
theorem C10_counterexample_double_rounding :
    (sampleEnode 17 100).nActiveState = state.ENODE_ENABLED ∧
    (sampleEnode 17 100).nProtocolVersion ≥
      GetMinEnodePaymentsProto { sampleEnv with GetAdjustedTime := 468 } ∧
    CEnodePayments.empty.IsScheduled { sampleEnv with GetAdjustedTime := 468 }
      (sampleEnode 17 100) 210 = false ∧
    (sampleEnode 17 100).sigTime + 3 * 156 ≤
      Env.GetAdjustedTime { sampleEnv with GetAdjustedTime := 468 } ∧
    ((sampleEnode 17 100).GetCollateralAge { sampleEnv with GetAdjustedTime := 468 }).1 ≥ 3 ∧
    (CEnodeMan.GetNotQualifyReason { sampleEnv with GetAdjustedTime := 468 }
      CEnodePayments.empty (sampleEnode 17 100) 210 true 3).1
        = some NotQualifyReason.tooNew := by
  decide

/-! ## What a check and an update leave alone -/

/-! ## The steps of `Check` -/

/-- A check that is due, not stopped by shutdown or the chain lock, on a record not yet
marked spent: the collateral test, then the ban handling at the tip height (height 0 for a
record flagged as unit test). -/
theorem CEnode.Check_run (env : Env) (man : CEnodeMan) (mn : CEnode) (f : Bool)
    (hshut : env.ShutdownRequested = false)
    (hdue : f = true ∨ ENODE_CHECK_SECONDS ≤ env.GetTime - mn.nTimeLastChecked)
    (hlock : mn.fUnitTest = true ∨ env.lockMain = true)
    (hspent : mn.nActiveState ≠ state.ENODE_OUTPOINT_SPENT) :
    CEnode.Check env man mn f =
      if mn.fUnitTest = false ∧ env.hasUTXO mn.vin.prevout = false then
        { mn with nTimeLastChecked := env.GetTime, nActiveState := state.ENODE_OUTPOINT_SPENT }
      else
        CEnode.checkBan env man { mn with nTimeLastChecked := env.GetTime }
          (if mn.fUnitTest = true then 0 else env.chainHeight) := by
  have hd : (!f && decide (env.GetTime - mn.nTimeLastChecked < ENODE_CHECK_SECONDS)) = false := by
    rcases hdue with h | h
    · simp [h]
    · have : ¬ env.GetTime - mn.nTimeLastChecked < ENODE_CHECK_SECONDS := by omega
      simp [this]
  have hs : CEnode.IsOutpointSpent { mn with nTimeLastChecked := env.GetTime } = false := by
    simp [CEnode.IsOutpointSpent, hspent]
  unfold CEnode.Check
  simp only [hshut, hd, Bool.false_eq_true, if_false]
  rw [hs]
  simp only [Bool.false_eq_true, if_false]
  cases hu : mn.fUnitTest
  · have hlk : env.lockMain = true := by
      rcases hlock with h | h
      · rw [hu] at h; exact absurd h (by decide)
      · exact h
    rw [hlk]
    cases hx : env.hasUTXO mn.vin.prevout <;> simp
  · simp

/-- The ban handling leaves a record alone that is not banned and whose score is below the
limit: only the lifecycle tests run. -/
theorem CEnode.checkBan_not_banned (env : Env) (man : CEnodeMan) (mn : CEnode) (h : Int)
    (hban : mn.nActiveState ≠ state.ENODE_POSE_BAN)
    (hscore : mn.nPoSeBanScore < ENODE_POSE_BAN_MAX_SCORE) :
    CEnode.checkBan env man mn h = CEnode.checkLifecycle env man mn := by
  unfold CEnode.checkBan
  have h1 : mn.IsPoSeBanned = false := by simp [CEnode.IsPoSeBanned, hban]
  rw [h1]
  simp only [Bool.false_eq_true, if_false]
  rw [if_neg]
  omega

/-- An arithmetic result that fits an `int64_t` is the value the variable holds. -/
theorem int64_of_fits (x : Int) (h1 : -2 ^ 63 ≤ x) (h2 : x < 2 ^ 63) : int64 x = x := by
  unfold int64
  omega

/-- The lifecycle tests when the wait-for-ping grace does not apply (the enode list is
synced, or the record is the node's own enode): the state is decided by the first test
that matches. -/
theorem CEnode.checkLifecycle_state (env : Env) (man : CEnodeMan) (mn : CEnode)
    (hsync : env.IsEnodeListSynced = true ∨
      (env.fZNode = true ∧ env.activePubKeyEnode = mn.pubKeyEnode)) :
    (CEnode.checkLifecycle env man mn).nActiveState =
      (if mn.nProtocolVersion < GetMinEnodePaymentsProto env ∨
          ((env.fZNode = true ∧ env.activePubKeyEnode = mn.pubKeyEnode) ∧
            mn.nProtocolVersion < env.PROTOCOL_VERSION) then
        state.ENODE_UPDATE_REQUIRED
      else if CEnodePing.eq mn.lastPing CEnodePing.default = true ∨
          int64 (env.GetAdjustedTime - mn.lastPing.sigTime) ≥ 180 * 60 then
        state.ENODE_NEW_START_REQUIRED
      else if (env.IsSynced = true ∧ env.GetTime - man.nLastWatchdogVoteTime ≤ 120 * 60) ∧
          int64 (env.GetTime - mn.nTimeLastWatchdogVote) > 120 * 60 then
        state.ENODE_WATCHDOG_EXPIRED
      else if int64 (env.GetAdjustedTime - mn.lastPing.sigTime) ≥ 65 * 60 then
        state.ENODE_EXPIRED
      else if int64 (mn.lastPing.sigTime - mn.sigTime) < 10 * 60 then
        state.ENODE_PRE_ENABLED
      else state.ENODE_ENABLED) := by
  unfold CEnode.checkLifecycle
  simp only [CEnode.IsPingedWithin, CEnodeMan.IsWatchdogActive,
    ENODE_NEW_START_REQUIRED_SECONDS, ENODE_WATCHDOG_MAX_SECONDS, ENODE_EXPIRATION_SECONDS,
    ENODE_MIN_MNP_SECONDS]
  rcases hsync with hsync | hown
  · by_cases hp : CEnodePing.eq mn.lastPing CEnodePing.default = true
    · simp [hp, hsync]
      split_ifs <;> simp_all
    · simp [hp, hsync]
      split_ifs <;> simp_all
  · by_cases hp : CEnodePing.eq mn.lastPing CEnodePing.default = true
    · simp [hp, hown]
      split_ifs <;> simp_all
    · simp [hp, hown]
      split_ifs <;> simp_all

/-- An unforced check less than `ENODE_CHECK_SECONDS` after the previous one returns the
record as it is. -/
theorem CEnode.Check_skip (env : Env) (man : CEnodeMan) (mn : CEnode)
    (h : env.GetTime - mn.nTimeLastChecked < ENODE_CHECK_SECONDS) :
    CEnode.Check env man mn false = mn := by
  unfold CEnode.Check
  by_cases hs : env.ShutdownRequested = true
  · rw [if_pos hs]
  · rw [if_neg hs, if_pos]
    simpa using h


/-- A record already marked spent stays so through a check. -/
theorem CEnode.Check_spent (env : Env) (man : CEnodeMan) (mn : CEnode) (f : Bool)
    (h : mn.nActiveState = state.ENODE_OUTPOINT_SPENT) :
    (CEnode.Check env man mn f).nActiveState = state.ENODE_OUTPOINT_SPENT := by
  have hs : CEnode.IsOutpointSpent { mn with nTimeLastChecked := env.GetTime } = true := by
    simp [CEnode.IsOutpointSpent, h]
  unfold CEnode.Check
  simp only [hs, if_true]
  split_ifs <;> exact h

/-- The four ways through the ban handling of `Check`. -/
theorem CEnode.checkBan_cases (env : Env) (man : CEnodeMan) (mn : CEnode) (h : Int) :
    (mn.nActiveState = state.ENODE_POSE_BAN ∧ h < mn.nPoSeBanHeight ∧
      CEnode.checkBan env man mn h = mn) ∨
    (mn.nActiveState = state.ENODE_POSE_BAN ∧ mn.nPoSeBanHeight ≤ h ∧
      CEnode.checkBan env man mn h = CEnode.checkLifecycle env man mn.DecreasePoSeBanScore) ∨
    (mn.nActiveState ≠ state.ENODE_POSE_BAN ∧ ENODE_POSE_BAN_MAX_SCORE ≤ mn.nPoSeBanScore ∧
      CEnode.checkBan env man mn h =
        { mn with nActiveState := state.ENODE_POSE_BAN, nPoSeBanHeight := h + man.size }) ∨
    (mn.nActiveState ≠ state.ENODE_POSE_BAN ∧ mn.nPoSeBanScore < ENODE_POSE_BAN_MAX_SCORE ∧
      CEnode.checkBan env man mn h = CEnode.checkLifecycle env man mn) := by
  unfold CEnode.checkBan
  by_cases hb : mn.nActiveState = state.ENODE_POSE_BAN
  · have h1 : mn.IsPoSeBanned = true := by simp [CEnode.IsPoSeBanned, hb]
    rw [h1]
    simp only [if_true]
    by_cases hh : h < mn.nPoSeBanHeight
    · rw [if_pos hh]
      exact Or.inl ⟨hb, hh, rfl⟩
    · rw [if_neg hh]
      exact Or.inr (Or.inl ⟨hb, by omega, rfl⟩)
  · have h1 : mn.IsPoSeBanned = false := by simp [CEnode.IsPoSeBanned, hb]
    rw [h1]
    simp only [Bool.false_eq_true, if_false]
    by_cases hs : mn.nPoSeBanScore ≥ ENODE_POSE_BAN_MAX_SCORE
    · rw [if_pos hs]
      exact Or.inr (Or.inr (Or.inl ⟨hb, hs, rfl⟩))
    · rw [if_neg hs]
      exact Or.inr (Or.inr (Or.inr ⟨hb, by omega, rfl⟩))

/-- The lifecycle tests never leave a banned record banned. -/
theorem CEnode.checkLifecycle_not_ban (env : Env) (man : CEnodeMan) (mn : CEnode)
    (h : mn.nActiveState = state.ENODE_POSE_BAN) :
    (CEnode.checkLifecycle env man mn).nActiveState ≠ state.ENODE_POSE_BAN := by
  unfold CEnode.checkLifecycle
  simp only [CEnode.IsExpired, CEnode.IsWatchdogExpired, CEnode.IsNewStartRequired, h]
  split_ifs <;> simp_all

/-- When the lifecycle tests end in Enabled, the last ping is at least ten minutes after the
announcement; and where the wait-for-ping grace does not apply, there is a ping and it is
less than 65 minutes old. -/
theorem CEnode.checkLifecycle_enabled (env : Env) (man : CEnodeMan) (mn : CEnode)
    (h : (CEnode.checkLifecycle env man mn).nActiveState = state.ENODE_ENABLED) :
    int64 (mn.lastPing.sigTime - mn.sigTime) ≥ 10 * 60 ∧
    (env.IsEnodeListSynced = true ∨
        (env.fZNode = true ∧ env.activePubKeyEnode = mn.pubKeyEnode) →
      CEnodePing.eq mn.lastPing CEnodePing.default = false ∧
        int64 (env.GetAdjustedTime - mn.lastPing.sigTime) < 65 * 60) := by
  constructor
  · revert h
    unfold CEnode.checkLifecycle
    simp only [CEnode.IsExpired, CEnode.IsWatchdogExpired, CEnode.IsNewStartRequired,
      ENODE_MIN_MNP_SECONDS]
    split_ifs with h1 h2 <;> simp_all
    intro he
    rw [he] at h2
    simp at h2
  · intro hs
    rw [CEnode.checkLifecycle_state env man mn hs] at h
    split_ifs at h with h1 h2 h3 h4 h5
    constructor
    · cases hp : CEnodePing.eq mn.lastPing CEnodePing.default
      · rfl
      · exact absurd (Or.inl hp) h2
    · omega

/-! ## The order of the lifecycle tests -/

/-- Claim C11 (amended).  With the enode list synced, shutdown not requested and
the chain lock obtained (a record flagged as unit test needs no lock and its collateral is
not looked up), a forced `Check` on an enode that is neither spent nor PoSe-banned and whose
PoSe score is below 5 sets the state to the first row that matches: OutpointSpent if the
collateral is gone; UpdateRequired if the protocol version is below the payments minimum, or
if the record is the node's own enode and its version is below the node's own version;
NewStartRequired if there is no ping within 180 minutes; WatchdogExpired if the watchdog is
active and the last watchdog vote is older than 120 minutes; Expired if there is no ping
within 65 minutes; PreEnabled if the last ping is less than 10 minutes after the
announcement; Enabled otherwise.  The ages of the ping and of the watchdog vote and the
distance of the ping from the announcement are the `int64_t` differences the code computes,
which are the true differences whenever those fit 64 bits.  And an unforced `Check` less
than 5 seconds after the previous one returns the record unchanged, whatever the
environment. -/
theorem C11_lifecycle_precedence (env : Env) (man : CEnodeMan) (mn : CEnode)
    (hsync : env.IsEnodeListSynced = true)
    (hshut : env.ShutdownRequested = false)
    (hlock : mn.fUnitTest = true ∨ env.lockMain = true)
    (hspent : mn.nActiveState ≠ state.ENODE_OUTPOINT_SPENT)
    (hban : mn.nActiveState ≠ state.ENODE_POSE_BAN)
    (hscore : mn.nPoSeBanScore < 5) :
    (CEnode.Check env man mn true).nActiveState =
      (if mn.fUnitTest = false ∧ env.hasUTXO mn.vin.prevout = false then
        state.ENODE_OUTPOINT_SPENT
      else if mn.nProtocolVersion < GetMinEnodePaymentsProto env ∨
          ((env.fZNode = true ∧ env.activePubKeyEnode = mn.pubKeyEnode) ∧
            mn.nProtocolVersion < env.PROTOCOL_VERSION) then
        state.ENODE_UPDATE_REQUIRED
      else if CEnodePing.eq mn.lastPing CEnodePing.default = true ∨
          int64 (env.GetAdjustedTime - mn.lastPing.sigTime) ≥ 180 * 60 then
        state.ENODE_NEW_START_REQUIRED
      else if (env.IsSynced = true ∧ env.GetTime - man.nLastWatchdogVoteTime ≤ 120 * 60) ∧
          int64 (env.GetTime - mn.nTimeLastWatchdogVote) > 120 * 60 then
        state.ENODE_WATCHDOG_EXPIRED
      else if int64 (env.GetAdjustedTime - mn.lastPing.sigTime) ≥ 65 * 60 then
        state.ENODE_EXPIRED
      else if int64 (mn.lastPing.sigTime - mn.sigTime) < 10 * 60 then
        state.ENODE_PRE_ENABLED
      else state.ENODE_ENABLED) ∧
    (∀ (e : Env) (m : CEnodeMan) (r : CEnode),
      e.GetTime - r.nTimeLastChecked < 5 → CEnode.Check e m r false = r) ∧
    (∀ x : Int, -2 ^ 63 ≤ x → x < 2 ^ 63 → int64 x = x) := by
  refine ⟨?_, ?_, int64_of_fits⟩
  · rw [CEnode.Check_run env man mn true hshut (Or.inl rfl) hlock hspent]
    by_cases hc : mn.fUnitTest = false ∧ env.hasUTXO mn.vin.prevout = false
    · rw [if_pos hc, if_pos hc]
    · rw [if_neg hc, if_neg hc,
        CEnode.checkBan_not_banned env man { mn with nTimeLastChecked := env.GetTime } _ hban hscore]
      exact CEnode.checkLifecycle_state env man _ (Or.inl hsync)
  · intro e m r h
    exact CEnode.Check_skip e m r h

/-- Witness for C11: at the sample enode a last ping 70 minutes old gives Expired, and one
185 minutes old gives NewStartRequired. -/
theorem C11_lifecycle_precedence_witness :
    sampleEnv.IsEnodeListSynced = true ∧ sampleEnv.ShutdownRequested = false ∧
    ((samplePinged (1000000 - 70 * 60)).fUnitTest = true ∨ sampleEnv.lockMain = true) ∧
    (samplePinged (1000000 - 70 * 60)).nActiveState ≠ state.ENODE_OUTPOINT_SPENT ∧
    (samplePinged (1000000 - 70 * 60)).nActiveState ≠ state.ENODE_POSE_BAN ∧
    (samplePinged (1000000 - 70 * 60)).nPoSeBanScore < 5 ∧
    (CEnode.Check sampleEnv CEnodeMan.empty (samplePinged (1000000 - 70 * 60)) true).nActiveState
      = state.ENODE_EXPIRED ∧
    (CEnode.Check sampleEnv CEnodeMan.empty (samplePinged (1000000 - 185 * 60)) true).nActiveState
      = state.ENODE_NEW_START_REQUIRED :=
  ⟨rfl, rfl, Or.inr rfl, by decide, by decide, by decide,
    (C11_lifecycle_precedence sampleEnv CEnodeMan.empty (samplePinged (1000000 - 70 * 60))
      rfl rfl (Or.inr rfl) (by decide) (by decide) (by decide)).1.trans (by decide),
    by decide⟩

/-- Counterexample for C11 as stated: the node's own enode whose protocol version
90023 meets the payments minimum but is below the node's version 90024 becomes
UpdateRequired although its ping is fresh and old enough for Enabled; when shutdown is
requested a forced check changes nothing, so a spent collateral is not noticed; the
collateral of a record flagged as unit test is not looked up; and a record whose last ping
carries the least signature time an `int64_t` holds, more than 180 minutes before the clock
reading 1000000, becomes Enabled, because the age the code computes wraps around to a
negative number. -/
theorem C11_counterexample_own_enode_protocol :
    sampleOwnEnv.IsEnodeListSynced = true ∧
    ¬ ((90023 : Int) < GetMinEnodePaymentsProto sampleOwnEnv) ∧
    (CEnode.Check sampleEnv CEnodeMan.empty
      { samplePinged 999000 with nProtocolVersion := 90023 } true).nActiveState
      = state.ENODE_ENABLED ∧
    (CEnode.Check sampleOwnEnv CEnodeMan.empty
      { samplePinged 999000 with nProtocolVersion := 90023 } true).nActiveState
      = state.ENODE_UPDATE_REQUIRED ∧
    (CEnode.Check { sampleEnv with ShutdownRequested := true, hasUTXO := fun _ => false }
      CEnodeMan.empty (samplePinged 999000) true) = samplePinged 999000 ∧
    (CEnode.Check { sampleEnv with hasUTXO := fun _ => false }
      CEnodeMan.empty { samplePinged 999000 with fUnitTest := true } true).nActiveState
      = state.ENODE_ENABLED ∧
    sampleEnv.GetAdjustedTime - (-9223372036854775808 : Int) ≥ 180 * 60 ∧
    int64 (sampleEnv.GetAdjustedTime - (-9223372036854775808 : Int)) = -9223372036853775808 ∧
    (CEnode.Check sampleEnv CEnodeMan.empty
      { samplePinged (-9223372036854775808) with sigTime := 1 } true).nActiveState
      = state.ENODE_ENABLED := by
  refine ⟨rfl, by decide, by decide, by decide, by decide, by decide, by decide, by decide,
    by decide⟩

/-! ## The announcement time of a record only moves forward -/

/-- Claim C12 (amended).  For a broadcast without the recovery flag, `UpdateFromNewBroadcast`
never lowers the record's signature time; if it changes the record at all the new signature
time is strictly greater than the old one; if the broadcast's signature time is not greater
than the record's it returns false and leaves the record and the tables unchanged, and
otherwise the signature time afterwards is at least the broadcast's.  Through
`CEnodeBroadcast::Update` the signature time never goes down and a broadcast whose signature
time is not greater is refused with the record and the tables untouched; otherwise the record
afterwards is the one `Update`'s own unforced `Check` leaves, whose signature time is the old
one, or the broadcast was taken over and the signature time is at least the broadcast's
strictly greater one.  Unfolding the nested calls of `ManageState` deeper than two levels
gives the same outcome. -/
theorem C12_sig_time_monotone (env : Env) (man : CEnodeMan) (mn : CEnode)
    (mnb : CEnodeBroadcast) (hrec : mnb.fRecovery = false) :
    mn.sigTime ≤ (mn.UpdateFromNewBroadcast env man mnb).mn.sigTime ∧
    ((mn.UpdateFromNewBroadcast env man mnb).mn ≠ mn →
      mn.sigTime < (mn.UpdateFromNewBroadcast env man mnb).mn.sigTime) ∧
    (mnb.mn.sigTime ≤ mn.sigTime →
      (mn.UpdateFromNewBroadcast env man mnb).ok = false ∧
      (mn.UpdateFromNewBroadcast env man mnb).mn = mn ∧
      (mn.UpdateFromNewBroadcast env man mnb).man = man) ∧
    (mn.sigTime < mnb.mn.sigTime →
      mnb.mn.sigTime ≤ (mn.UpdateFromNewBroadcast env man mnb).mn.sigTime) ∧
    mn.sigTime ≤ (mnb.Update env man mn).mn.sigTime ∧
    ((mnb.Update env man mn).mn = mn ∨
      ((mnb.Update env man mn).mn = CEnode.Check env man mn false ∧
        (mnb.Update env man mn).mn.sigTime = mn.sigTime) ∨
      (mn.sigTime < mnb.mn.sigTime ∧ mnb.mn.sigTime ≤ (mnb.Update env man mn).mn.sigTime)) ∧
    (mnb.mn.sigTime ≤ mn.sigTime →
      (mnb.Update env man mn).ok = false ∧ (mnb.Update env man mn).mn = mn ∧
      (mnb.Update env man mn).man = man) ∧
    (∀ n : Nat,
      mn.UpdateFromNewBroadcastWith (CActiveEnode.manageFuel (n + 2)) env man
          (CActiveEnode.ofEnv env) mnb =
        mn.UpdateFromNewBroadcastActive env man (CActiveEnode.ofEnv env) mnb) := by
  have hU : ∀ (m : CEnode) (a : CActiveEnode),
      m.UpdateFromNewBroadcastActive env man a mnb =
        ({ ok := false, nDos := 0, mn := m, man := man }, a) ∨
      (m.sigTime < mnb.mn.sigTime ∧
        mnb.mn.sigTime ≤ (m.UpdateFromNewBroadcastActive env man a mnb).1.mn.sigTime) := by
    intro m a
    rcases CEnode.UpdateFromNewBroadcastActive_record env man a m mnb with
      ⟨_, h⟩ | ⟨h1, _, _, h4, _, _⟩
    · exact Or.inl h
    · right
      refine ⟨?_, h4⟩
      by_contra hlt
      exact h1 ⟨by omega, hrec⟩
  have hU0 : (mn.UpdateFromNewBroadcast env man mnb).mn = mn ∨
      (mn.sigTime < mnb.mn.sigTime ∧
        mnb.mn.sigTime ≤ (mn.UpdateFromNewBroadcast env man mnb).mn.sigTime) := by
    rcases hU mn (CActiveEnode.ofEnv env) with h | h
    · left
      unfold CEnode.UpdateFromNewBroadcast
      rw [h]
    · exact Or.inr h
  have hc : (CEnode.Check env man mn false).sigTime = mn.sigTime := CEnode.Check_sigTime _ _ _ _
  have hUpd : (mnb.Update env man mn).mn = mn ∨
      ((mnb.Update env man mn).mn = CEnode.Check env man mn false ∧
        (mnb.Update env man mn).mn.sigTime = mn.sigTime) ∨
      (mn.sigTime < mnb.mn.sigTime ∧
        mnb.mn.sigTime ≤ (mnb.Update env man mn).mn.sigTime) := by
    unfold CEnodeBroadcast.Update CEnodeBroadcast.UpdateActive
    by_cases h1 : (decide (mn.sigTime = mnb.mn.sigTime) && !mnb.fRecovery) = true
    · rw [if_pos h1]
      exact Or.inl rfl
    · rw [if_neg h1]
      by_cases h2 : mn.sigTime > mnb.mn.sigTime
      · rw [if_pos h2]
        exact Or.inl rfl
      · rw [if_neg h2]
        have hlt : mn.sigTime < mnb.mn.sigTime := by
          simp only [hrec, Bool.not_false, Bool.and_true, decide_eq_true_eq] at h1
          omega
        have hr : mnb.mn.sigTime ≤ ((CEnode.Check env man mn false).UpdateFromNewBroadcastActive
            env man (CActiveEnode.ofEnv env) mnb).1.mn.sigTime := by
          rcases hU (CEnode.Check env man mn false) (CActiveEnode.ofEnv env) with h | h
          · rw [h]
            show mnb.mn.sigTime ≤ (CEnode.Check env man mn false).sigTime
            rcases CEnode.UpdateFromNewBroadcastActive_record env man (CActiveEnode.ofEnv env)
              (CEnode.Check env man mn false) mnb with ⟨⟨h3, _⟩, _⟩ | ⟨_, _, _, h4, _, _⟩
            · exact h3
            · rw [h] at h4
              exact h4
          · exact h.2
        simp only []
        split_ifs
        all_goals first
          | exact Or.inr (Or.inl ⟨rfl, hc⟩)
          | exact Or.inr (Or.inr ⟨hlt, hr⟩)
          | (right; right
             refine ⟨hlt, ?_⟩
             show _ ≤ (CEnode.Check env _ _ false).sigTime
             rw [CEnode.Check_sigTime]
             exact hr)
  refine ⟨?_, ?_, ?_, ?_, ?_, hUpd, ?_, ?_⟩
  · rcases hU0 with h | ⟨h1, h2⟩
    · rw [h]
    · omega
  · intro hne
    rcases hU0 with h | ⟨h1, h2⟩
    · exact absurd h hne
    · omega
  · intro h
    rw [CEnode.UpdateFromNewBroadcast_rejected env man mn mnb h hrec]
    exact ⟨rfl, rfl, rfl⟩
  · intro h
    rcases CEnode.UpdateFromNewBroadcast_record env man mn mnb with ⟨⟨h1, _⟩, _⟩ | ⟨_, _, _, h4, _, _⟩
    · omega
    · exact h4
  · rcases hUpd with h | ⟨_, h⟩ | ⟨h1, h2⟩
    · rw [h]
    · rw [h]
    · omega
  · intro h
    unfold CEnodeBroadcast.Update CEnodeBroadcast.UpdateActive
    rcases lt_or_eq_of_le h with h1 | h1
    · have h2 : ¬ mn.sigTime = mnb.mn.sigTime := by omega
      simp [h2, h1]
    · simp [h1, hrec]
  · intro n
    unfold CEnode.UpdateFromNewBroadcastActive
    rw [CActiveEnode.manageFuel_eq n]

/-- Witness for C12: for the sample enode 17 and an announcement 500 seconds newer, without
the recovery flag, the record's signature time moves from 0 to 500 on both paths; on a node
that runs this enode with its collateral in the wallet, the activation announces the record
again and the signature time moves on to the clock reading 1000000. -/
theorem C12_sig_time_monotone_witness :
    sampleBroadcast.fRecovery = false ∧
    ((sampleEnode 17 100).UpdateFromNewBroadcast sampleEnv CEnodeMan.empty
      sampleBroadcast).mn.sigTime = 500 ∧
    (sampleBroadcast.Update sampleEnv CEnodeMan.empty (sampleEnode 17 100)).mn.sigTime = 500 ∧
    (sampleEnode 17 100).sigTime <
      ((sampleEnode 17 100).UpdateFromNewBroadcast sampleEnv CEnodeMan.empty
        sampleBroadcast).mn.sigTime ∧
    ((sampleEnode 17 100).UpdateFromNewBroadcast sampleLocalEnv sampleRegistry
      sampleBroadcast).mn.sigTime = 1000000 :=
  ⟨rfl, by decide, by decide,
    (C12_sig_time_monotone sampleEnv CEnodeMan.empty (sampleEnode 17 100) sampleBroadcast rfl).2.1
      (by decide),
    by decide⟩

/-- Counterexample for C12 as stated: through `CEnodeBroadcast::Update` a broadcast without
the recovery flag changes the record and leaves its signature time as it was.  An
announcement signed with another collateral key is refused after the unforced `Check`, which
has set the time of the check and the state of the record; and an announcement 50 seconds
newer than a record announced 100 seconds ago is accepted and not applied, again after that
`Check`. -/
theorem C12_counterexample_update_changes_record :
    (sampleOtherKeyBroadcast.fRecovery = false ∧
      (sampleOtherKeyBroadcast.Update sampleEnv CEnodeMan.empty (sampleEnode 17 100)).ok = false ∧
      (sampleOtherKeyBroadcast.Update sampleEnv CEnodeMan.empty (sampleEnode 17 100)).mn ≠
        sampleEnode 17 100 ∧
      (sampleOtherKeyBroadcast.Update sampleEnv CEnodeMan.empty (sampleEnode 17 100)).mn.sigTime =
        (sampleEnode 17 100).sigTime) ∧
    ((sampleRecentBroadcast.Update sampleEnv CEnodeMan.empty
        { sampleEnode 17 100 with sigTime := 999900 }).ok = true ∧
      (sampleRecentBroadcast.Update sampleEnv CEnodeMan.empty
        { sampleEnode 17 100 with sigTime := 999900 }).mn ≠
          { sampleEnode 17 100 with sigTime := 999900 } ∧
      (sampleRecentBroadcast.Update sampleEnv CEnodeMan.empty
        { sampleEnode 17 100 with sigTime := 999900 }).mn.sigTime = 999900) := by
  refine ⟨⟨rfl, by decide, by decide, by decide⟩, by decide, by decide, by decide⟩

/-! ## The PoSe score stays within its range -/

/-- Claim C13.  The PoSe score stays within `[-5, 5]`: the constructors `CEnode()`,
`CEnode(addr, vin, keys, version)` and `CEnode(mnb)` set it to 0 (the copy constructor keeps
the score it copies); `IncreasePoSeBanScore`, `DecreasePoSeBanScore`, `Check` and
`UpdateFromNewBroadcast` keep a score that is in the range within it; `IncreasePoSeBanScore`
at 5 and `DecreasePoSeBanScore` at -5 return the record unchanged, and otherwise they add 1
and subtract 1 and touch nothing else; hence every record built by a constructor and taken
through any sequence of these operations has its score in the range. -/
theorem C13_pose_score_range :
    (∀ env : Env, (CEnode.default env).nPoSeBanScore = 0) ∧
    (∀ (env : Env) (a : CService) (v : CTxIn) (k1 k2 : CPubKey) (p : Int),
      (CEnode.ofService env a v k1 k2 p).nPoSeBanScore = 0) ∧
    (∀ mnb : CEnodeBroadcast, (CEnode.ofBroadcast mnb).nPoSeBanScore = 0) ∧
    (∀ other : CEnode, (CEnode.copy other).nPoSeBanScore = other.nPoSeBanScore) ∧
    (∀ mn : CEnode, -5 ≤ mn.nPoSeBanScore ∧ mn.nPoSeBanScore ≤ 5 →
      (-5 ≤ mn.IncreasePoSeBanScore.nPoSeBanScore ∧ mn.IncreasePoSeBanScore.nPoSeBanScore ≤ 5) ∧
      (-5 ≤ mn.DecreasePoSeBanScore.nPoSeBanScore ∧ mn.DecreasePoSeBanScore.nPoSeBanScore ≤ 5) ∧
      (∀ (env : Env) (man : CEnodeMan) (fForce : Bool),
        -5 ≤ (CEnode.Check env man mn fForce).nPoSeBanScore ∧
          (CEnode.Check env man mn fForce).nPoSeBanScore ≤ 5) ∧
      (∀ (env : Env) (man : CEnodeMan) (mnb : CEnodeBroadcast),
        -5 ≤ (mn.UpdateFromNewBroadcast env man mnb).mn.nPoSeBanScore ∧
          (mn.UpdateFromNewBroadcast env man mnb).mn.nPoSeBanScore ≤ 5)) ∧
    (∀ mn : CEnode, mn.nPoSeBanScore = 5 → mn.IncreasePoSeBanScore = mn) ∧
    (∀ mn : CEnode, mn.nPoSeBanScore = -5 → mn.DecreasePoSeBanScore = mn) ∧
    (∀ mn : CEnode, -5 ≤ mn.nPoSeBanScore → mn.nPoSeBanScore < 5 →
      mn.IncreasePoSeBanScore = { mn with nPoSeBanScore := mn.nPoSeBanScore + 1 }) ∧
    (∀ mn : CEnode, -5 < mn.nPoSeBanScore → mn.nPoSeBanScore ≤ 5 →
      mn.DecreasePoSeBanScore = { mn with nPoSeBanScore := mn.nPoSeBanScore - 1 }) ∧
    (∀ (c : Construction) (ops : List RecordOp),
      -5 ≤ (c.build.runOps ops).nPoSeBanScore ∧ (c.build.runOps ops).nPoSeBanScore ≤ 5) := by
  have hinc : ∀ mn : CEnode, -5 ≤ mn.nPoSeBanScore ∧ mn.nPoSeBanScore ≤ 5 →
      -5 ≤ mn.IncreasePoSeBanScore.nPoSeBanScore ∧
        mn.IncreasePoSeBanScore.nPoSeBanScore ≤ 5 := by
    intro mn h
    unfold CEnode.IncreasePoSeBanScore
    split_ifs with h1
    · simp only [ENODE_POSE_BAN_MAX_SCORE] at h1
      show -5 ≤ mn.nPoSeBanScore + 1 ∧ mn.nPoSeBanScore + 1 ≤ 5
      omega
    · exact h
  have hdec : ∀ mn : CEnode, -5 ≤ mn.nPoSeBanScore ∧ mn.nPoSeBanScore ≤ 5 →
      -5 ≤ mn.DecreasePoSeBanScore.nPoSeBanScore ∧
        mn.DecreasePoSeBanScore.nPoSeBanScore ≤ 5 := by
    intro mn h
    unfold CEnode.DecreasePoSeBanScore
    split_ifs with h1
    · simp only [ENODE_POSE_BAN_MAX_SCORE] at h1
      show -5 ≤ mn.nPoSeBanScore - 1 ∧ mn.nPoSeBanScore - 1 ≤ 5
      omega
    · exact h
  have hchk : ∀ (mn : CEnode) (env : Env) (man : CEnodeMan) (f : Bool),
      -5 ≤ mn.nPoSeBanScore ∧ mn.nPoSeBanScore ≤ 5 →
      -5 ≤ (CEnode.Check env man mn f).nPoSeBanScore ∧
        (CEnode.Check env man mn f).nPoSeBanScore ≤ 5 := by
    intro mn env man f h
    rcases CEnode.Check_score env man mn f with h1 | ⟨_, h2, h1⟩
    · rw [h1]; exact h
    · rw [h1]
      simp only [ENODE_POSE_BAN_MAX_SCORE] at h2
      omega
  have hupd : ∀ (mn : CEnode) (env : Env) (man : CEnodeMan) (mnb : CEnodeBroadcast),
      -5 ≤ mn.nPoSeBanScore ∧ mn.nPoSeBanScore ≤ 5 →
      -5 ≤ (mn.UpdateFromNewBroadcast env man mnb).mn.nPoSeBanScore ∧
        (mn.UpdateFromNewBroadcast env man mnb).mn.nPoSeBanScore ≤ 5 := by
    intro mn env man mnb h
    rcases CEnode.UpdateFromNewBroadcast_score env man mn mnb with h1 | ⟨h1, h2⟩
    · rw [h1]; exact h
    · simp only [ENODE_POSE_BAN_MAX_SCORE] at h1
      omega
  refine ⟨fun _ => rfl, fun _ _ _ _ _ _ => rfl, fun _ => rfl, fun _ => rfl, ?_, ?_, ?_, ?_, ?_, ?_⟩
  · intro mn h
    exact ⟨hinc mn h, hdec mn h, fun env man f => hchk mn env man f h,
      fun env man mnb => hupd mn env man mnb h⟩
  · intro mn h
    unfold CEnode.IncreasePoSeBanScore
    rw [if_neg]
    simp only [ENODE_POSE_BAN_MAX_SCORE]
    omega
  · intro mn h
    unfold CEnode.DecreasePoSeBanScore
    rw [if_neg]
    simp only [ENODE_POSE_BAN_MAX_SCORE]
    omega
  · intro mn _ h
    unfold CEnode.IncreasePoSeBanScore
    rw [if_pos]
    simp only [ENODE_POSE_BAN_MAX_SCORE]
    omega
  · intro mn h _
    unfold CEnode.DecreasePoSeBanScore
    rw [if_pos]
    simp only [ENODE_POSE_BAN_MAX_SCORE]
    omega
  · intro c ops
    have h0 : -5 ≤ c.build.nPoSeBanScore ∧ c.build.nPoSeBanScore ≤ 5 := by
      cases c <;> exact (by decide : -5 ≤ (0 : Int) ∧ (0 : Int) ≤ 5)
    generalize c.build = mn at h0
    unfold CEnode.runOps
    induction ops generalizing mn with
    | nil => exact h0
    | cons op rest ih =>
      rw [List.foldl_cons]
      apply ih
      cases op with
      | IncreasePoSeBanScore => exact hinc mn h0
      | DecreasePoSeBanScore => exact hdec mn h0
      | Check env man f => exact hchk mn env man f h0
      | UpdateFromNewBroadcast env man mnb => exact hupd mn env man mnb h0

/-! ## Five votes do not bind the coinbase -/

/-- Claim C14 (amended).  With five votes recorded for payee P and one for payee Q
at a height, `GetBestPayee` returns P, whose vote count is 5, and `IsTransactionValid`
accepts every coinbase, one that pays Q and not P as well as one that pays P: no payee has
the 6 votes of `MNPAYMENTS_SIGNATURES_REQUIRED`.  Once a sixth vote for P is added,
`IsTransactionValid` accepts exactly the coinbases with an output paying P the enode
payment. -/
theorem C14_five_votes_do_not_bind (env : Env) (bp : CEnodeBlockPayees) (p q : CEnodePayee)
    (hp : p.vecVoteHashes.length = 5) (hq : q.vecVoteHashes.length = 1)
    (hne : p.scriptPubKey ≠ q.scriptPubKey)
    (hbp : bp.vecPayees = [p, q] ∨ bp.vecPayees = [q, p]) :
    bp.GetBestPayee [] = (true, p.scriptPubKey) ∧ p.GetVoteCount = 5 ∧
    (∀ tx : CTransaction, bp.IsTransactionValid env tx = true) ∧
    (∀ (vote : CEnodePaymentVote) (tx : CTransaction), vote.payee = p.scriptPubKey →
      ((bp.AddPayee env vote).IsTransactionValid env tx = true ↔
        ∃ txout ∈ tx.vout, txout.scriptPubKey = p.scriptPubKey ∧
          txout.nValue = env.GetEnodePayment bp.nBlockHeight (env.GetValueOut tx))) := by
  have hpc : p.GetVoteCount = 5 := by simp [CEnodePayee.GetVoteCount, hp]
  have hqc : q.GetVoteCount = 1 := by simp [CEnodePayee.GetVoteCount, hq]
  have hp6 : ∀ hash, (p.AddVoteHash hash).GetVoteCount = 6 := by
    intro hash
    simp [CEnodePayee.GetVoteCount, CEnodePayee.AddVoteHash, hp]
  have hpays : ∀ (vout : List CTxOut) (amt : Int),
      CEnodeBlockPayees.paysTo vout p.scriptPubKey amt = true ↔
        ∃ txout ∈ vout, txout.scriptPubKey = p.scriptPubKey ∧ txout.nValue = amt := by
    intro vout amt
    induction vout with
    | nil => simp [CEnodeBlockPayees.paysTo]
    | cons x rest ih =>
      unfold CEnodeBlockPayees.paysTo
      by_cases hx : p.scriptPubKey = x.scriptPubKey ∧ amt = x.nValue
      · rw [if_pos hx]
        simp only [true_iff]
        exact ⟨x, List.mem_cons_self _ _, hx.1.symm, hx.2.symm⟩
      · rw [if_neg hx, ih]
        constructor
        · rintro ⟨t, ht, h1, h2⟩
          exact ⟨t, List.mem_cons_of_mem _ ht, h1, h2⟩
        · rintro ⟨t, ht, h1, h2⟩
          rcases List.mem_cons.mp ht with h | h
          · subst h
            exact absurd ⟨h1.symm, h2.symm⟩ hx
          · exact ⟨t, h, h1, h2⟩
  refine ⟨?_, hpc, ?_, ?_⟩
  · rcases hbp with h | h <;>
      simp [CEnodeBlockPayees.GetBestPayee, CEnodeBlockPayees.bestLoop, h, hpc, hqc,
        CEnodePayee.GetPayee]
  · intro tx
    rcases hbp with h | h <;>
      simp [CEnodeBlockPayees.IsTransactionValid, CEnodeBlockPayees.maxSignatures, h, hpc, hqc,
        MNPAYMENTS_SIGNATURES_REQUIRED]
  · intro vote tx hv
    rw [← hpays]
    have hqp : ¬ q.scriptPubKey = p.scriptPubKey := fun h => hne h.symm
    rcases hbp with h | h
    · simp only [CEnodeBlockPayees.AddPayee, h, hv, CEnodeBlockPayees.addPayeeTo,
        CEnodePayee.GetPayee, if_true, CEnodeBlockPayees.IsTransactionValid,
        CEnodeBlockPayees.maxSignatures, CEnodeBlockPayees.validLoop, hp6, hqc,
        MNPAYMENTS_SIGNATURES_REQUIRED]
      cases hx : CEnodeBlockPayees.paysTo tx.vout (p.AddVoteHash (vote.GetHash env)).scriptPubKey
          (env.GetEnodePayment bp.nBlockHeight (env.GetValueOut tx)) <;>
        simp_all [CEnodePayee.AddVoteHash]
    · simp only [CEnodeBlockPayees.AddPayee, h, hv, CEnodeBlockPayees.addPayeeTo,
        CEnodePayee.GetPayee, if_true, hqp, if_false, CEnodeBlockPayees.IsTransactionValid,
        CEnodeBlockPayees.maxSignatures, CEnodeBlockPayees.validLoop, hp6, hqc,
        MNPAYMENTS_SIGNATURES_REQUIRED]
      cases hx : CEnodeBlockPayees.paysTo tx.vout (p.AddVoteHash (vote.GetHash env)).scriptPubKey
          (env.GetEnodePayment bp.nBlockHeight (env.GetValueOut tx)) <;>
        simp_all [CEnodePayee.AddVoteHash]

/-- Witness for C14: the sample store with five votes for `[7]` and one for `[8]`
at height 210; the best payee is `[7]` and the coinbase paying `[8]` is accepted. -/
theorem C14_five_votes_do_not_bind_witness :
    samplePayeeP.vecVoteHashes.length = 5 ∧ samplePayeeQ.vecVoteHashes.length = 1 ∧
    samplePayeeP.scriptPubKey ≠ samplePayeeQ.scriptPubKey ∧
    sampleBlockPayees.vecPayees = [samplePayeeP, samplePayeeQ] ∧
    sampleBlockPayees.GetBestPayee [] = (true, [7]) ∧
    sampleBlockPayees.IsTransactionValid sampleEnv (sampleCoinbase [8]) = true :=
  ⟨rfl, rfl, by decide, by decide,
    (C14_five_votes_do_not_bind sampleEnv sampleBlockPayees samplePayeeP samplePayeeQ rfl rfl
      (by decide) (Or.inl (by decide))).1,
    (C14_five_votes_do_not_bind sampleEnv sampleBlockPayees samplePayeeP samplePayeeQ rfl rfl
      (by decide) (Or.inl (by decide))).2.2.1 _⟩

/-- Counterexample for C14 as stated: in the sample store with five votes for
`[7]` and one for `[8]` at height 210 the best payee is `[7]` with 5 votes, and the
coinbase whose enode payment goes to `[8]` and which pays nothing to `[7]` is accepted. -/
theorem C14_counterexample_coinbase_paying_q_accepted :
    sampleVotedStore.GetBlockPayee 210 [] = (true, [7]) ∧
    (sampleBlockPayees.vecPayees.map (fun p => (p.scriptPubKey, p.GetVoteCount)))
      = [([7], 5), ([8], 1)] ∧
    (sampleCoinbase [8]).vout.all (fun o => decide (o.scriptPubKey ≠ [7])) = true ∧
    sampleVotedStore.IsTransactionValid sampleEnv (sampleCoinbase [8]) 210 = true := by
  refine ⟨by decide, by decide, by decide, by decide⟩

/-! ## The payment queue of a registry of two -/

/-- An eligible enode is enabled and meets the payment protocol floor. -/
theorem CEnodeMan.GetNotQualifyReason_none (env : Env) (pay : CEnodePayments) (mn : CEnode)
    (h : Int) (f : Bool) (n : Int)
    (hq : (CEnodeMan.GetNotQualifyReason env pay mn h f n).1 = none) :
    mn.IsEnabled = true ∧ ¬ mn.nProtocolVersion < GetMinEnodePaymentsProto env := by
  unfold CEnodeMan.GetNotQualifyReason at hq
  simp only [CEnode.IsValidForPayment] at hq
  split_ifs at hq with h1 h2 h3 h4 h5 h6
  all_goals try (simp at hq)
  all_goals simp_all [CEnode.IsEnabled]

/-- Claim C15 (amended).  For a registry of exactly two payment-eligible Enabled
enodes A and B with the same last paid block, A having the smaller outpoint, the queue
examines `max(1, 2/10) = 1` entry, the first in (last paid block, outpoint) order: the
result is A when A's score at the block hash of `height - 101` is positive, and null
otherwise, whatever the score of B is and in whichever order the two were added. -/
theorem C15_two_enode_queue (env : Env) (pay : CEnodePayments) (man : CEnodeMan)
    (A B : CEnode) (nBlockHeight : Int) (fFilterSigTime : Bool) (blockHash : uint256)
    (hreg : man.vEnodes = [A, B] ∨ man.vEnodes = [B, A])
    (hA : (CEnodeMan.GetNotQualifyReason env pay A nBlockHeight fFilterSigTime 2).1 = none)
    (hB : (CEnodeMan.GetNotQualifyReason env pay B nBlockHeight fFilterSigTime 2).1 = none)
    (hpaid : A.nBlockLastPaid = B.nBlockLastPaid)
    (hlt : COutPoint.lt A.vin.prevout B.vin.prevout = true)
    (hhash : env.GetBlockHash (nBlockHeight - 101) = some blockHash) :
    (CEnodeMan.GetNextEnodeInQueueForPayment env pay man nBlockHeight fFilterSigTime).pBestEnode =
      (if 0 < A.CalculateScore env blockHash then
        some (CEnodeMan.GetNotQualifyReason env pay A nBlockHeight fFilterSigTime 2).2
      else none) ∧
    (CEnodeMan.GetNextEnodeInQueueForPayment env pay man nBlockHeight
      fFilterSigTime).pBestEnode.map (fun mn => mn.vin.prevout) =
      (if 0 < A.CalculateScore env blockHash then some A.vin.prevout else none) := by
  obtain ⟨hAe, hAp⟩ := CEnodeMan.GetNotQualifyReason_none env pay A _ _ _ hA
  obtain ⟨hBe, hBp⟩ := CEnodeMan.GetNotQualifyReason_none env pay B _ _ _ hB
  obtain ⟨hAv, hAl⟩ := CEnodeMan.GetNotQualifyReason_vin env pay A nBlockHeight fFilterSigTime 2
  obtain ⟨hBv, hBl⟩ := CEnodeMan.GetNotQualifyReason_vin env pay B nBlockHeight fFilterSigTime 2
  have hcount : man.CountEnabled env (-1) = 2 := by
    unfold CEnodeMan.CountEnabled
    rcases hreg with h | h <;> simp [h, hAe, hBe, hAp, hBp]
  have hBA : COutPoint.lt B.vin.prevout A.vin.prevout = false := by
    have h1 := (COutPoint.lt_iff A.vin.prevout B.vin.prevout).mp hlt
    cases hx : COutPoint.lt B.vin.prevout A.vin.prevout
    · rfl
    · have h2 := (COutPoint.lt_iff B.vin.prevout A.vin.prevout).mp hx
      omega
  have hcAB : CompareLastPaidBlock
      ((CEnodeMan.GetNotQualifyReason env pay A nBlockHeight fFilterSigTime 2).2.GetLastPaidBlock,
        (CEnodeMan.GetNotQualifyReason env pay A nBlockHeight fFilterSigTime 2).2)
      ((CEnodeMan.GetNotQualifyReason env pay B nBlockHeight fFilterSigTime 2).2.GetLastPaidBlock,
        (CEnodeMan.GetNotQualifyReason env pay B nBlockHeight fFilterSigTime 2).2) = true := by
    simp [CompareLastPaidBlock, CEnode.GetLastPaidBlock, CTxIn.lt, hAv, hBv, hAl, hBl, hpaid, hlt]
  have hcBA : CompareLastPaidBlock
      ((CEnodeMan.GetNotQualifyReason env pay B nBlockHeight fFilterSigTime 2).2.GetLastPaidBlock,
        (CEnodeMan.GetNotQualifyReason env pay B nBlockHeight fFilterSigTime 2).2)
      ((CEnodeMan.GetNotQualifyReason env pay A nBlockHeight fFilterSigTime 2).2.GetLastPaidBlock,
        (CEnodeMan.GetNotQualifyReason env pay A nBlockHeight fFilterSigTime 2).2) = false := by
    simp [CompareLastPaidBlock, CEnode.GetLastPaidBlock, CTxIn.lt, hAv, hBv, hAl, hBl, hpaid, hBA]
  have hscore : (CEnodeMan.GetNotQualifyReason env pay A nBlockHeight fFilterSigTime
      2).2.CalculateScore env blockHash = A.CalculateScore env blockHash := by
    unfold CEnode.CalculateScore
    rw [hAv]
  have main : (CEnodeMan.GetNextEnodeInQueueForPayment env pay man nBlockHeight
      fFilterSigTime).pBestEnode =
      (if 0 < A.CalculateScore env blockHash then
        some (CEnodeMan.GetNotQualifyReason env pay A nBlockHeight fFilterSigTime 2).2
      else none) := by
    unfold CEnodeMan.GetNextEnodeInQueueForPayment
    simp only [hcount]
    have hretry : ∀ l : List (Int × CEnode),
        (fFilterSigTime && decide ((l.length : Int) < Int.tdiv 2 3)) = false := by
      intro l
      have : Int.tdiv 2 3 = 0 := by decide
      rw [this]
      cases fFilterSigTime
      · rfl
      · simp
    rw [hretry]
    simp only [Bool.false_eq_true, if_false]
    unfold CEnodeMan.selectFromQueue
    simp only [hhash]
    have htenth : Int.tdiv 2 10 = 0 := by decide
    rw [htenth]
    rcases hreg with h | h
    · rw [h]
      simp only [CEnodeMan.qualifyLoop, hA, hB, sortAscending, List.insertionSort,
        List.orderedInsert, notAfter, hcBA, if_true]
      simp only [CEnodeMan.scoreLoop, hscore]
      simp
    · rw [h]
      simp only [CEnodeMan.qualifyLoop, hA, hB, sortAscending, List.insertionSort,
        List.orderedInsert, notAfter, hcAB, Bool.true_eq_false, if_false]
      simp only [CEnodeMan.scoreLoop, hscore]
      simp
  refine ⟨main, ?_⟩
  rw [main]
  split_ifs
  · simp [hAv]
  · rfl

/-- Witness for C15: for the sample enodes 17 and 34 (last paid at block 100, tip 200,
height 210) the result is enode 17. -/
theorem C15_two_enode_queue_witness :
    (CEnodeMan.GetNotQualifyReason sampleEnv CEnodePayments.empty (sampleEnode 17 100)
      210 true 2).1 = none ∧
    (CEnodeMan.GetNotQualifyReason sampleEnv CEnodePayments.empty (sampleEnode 34 100)
      210 true 2).1 = none ∧
    COutPoint.lt (sampleEnode 17 100).vin.prevout (sampleEnode 34 100).vin.prevout = true ∧
    sampleEnv.GetBlockHash (210 - 101) = some 1109 ∧
    (CEnodeMan.GetNextEnodeInQueueForPayment sampleEnv CEnodePayments.empty sampleRegistry
      210 true).pBestEnode.map (fun mn => mn.vin.prevout) = some { hash := 17, n := 0 } :=
  ⟨by decide, by decide, by decide, by decide,
    (C15_two_enode_queue sampleEnv CEnodePayments.empty sampleRegistry (sampleEnode 17 100)
      (sampleEnode 34 100) 210 true 1109 (Or.inl rfl) (by decide) (by decide) rfl (by decide)
      (by decide)).2.trans (by decide)⟩

/-- Counterexample for C15 as stated: of the sample enodes 17 and 34, both eligible
and last paid at block 100, enode 34 has the larger score at the block hash of height 109,
yet the queue returns enode 17, in whichever order the two were added. -/
theorem C15_counterexample_lower_outpoint_wins :
    (sampleEnode 17 100).CalculateScore sampleEnv 1109 <
      (sampleEnode 34 100).CalculateScore sampleEnv 1109 ∧
    (CEnodeMan.GetNextEnodeInQueueForPayment sampleEnv CEnodePayments.empty sampleRegistry
      210 true).pBestEnode.map (fun mn => mn.vin.prevout) = some { hash := 17, n := 0 } ∧
    (CEnodeMan.GetNextEnodeInQueueForPayment sampleEnv CEnodePayments.empty
      { CEnodeMan.empty with vEnodes := [sampleEnode 34 100, sampleEnode 17 100] }
      210 true).pBestEnode.map (fun mn => mn.vin.prevout) = some { hash := 17, n := 0 } := by
  refine ⟨by decide, by decide, by decide⟩

/-! ## `CanVote` remembers the last height of a voter -/

theorem StdMap.find_set_other {K V : Type} [DecidableEq K] (m : StdMap K V) (k k2 : K) (v : V)
    (h : k ≠ k2) : StdMap.find (StdMap.set m k v) k2 = StdMap.find m k2 := by
  induction m with
  | nil =>
    unfold StdMap.set StdMap.find
    rw [if_neg h]
    rfl
  | cons x rest ih =>
    obtain ⟨k0, v0⟩ := x
    unfold StdMap.set
    by_cases hk : k0 = k
    · rw [if_pos hk]
      unfold StdMap.find
      have h2 : ¬ k0 = k2 := by rw [hk]; exact h
      rw [if_neg h2, if_neg h2]
    · rw [if_neg hk]
      unfold StdMap.find
      by_cases hk2 : k0 = k2
      · rw [if_pos hk2, if_pos hk2]
      · rw [if_neg hk2, if_neg hk2]
        exact ih

/-- After a call `CanVote(o, h)` the voter's last height is `h`, whatever the call returned. -/
theorem CEnodePayments.CanVote_last (s : CEnodePayments) (o : COutPoint) (h : Int) :
    (s.CanVote o h).2.mapEnodesLastVote.find o = some h := by
  unfold CEnodePayments.CanVote
  split_ifs with h1
  · simp only [Bool.and_eq_true, decide_eq_true_eq] at h1
    exact h1.2
  · exact StdMap.find_set_self _ _ _

/-- The flag of `CanVote(o, h)` is false exactly when the voter's last height is `h`. -/
theorem CEnodePayments.CanVote_flag (s : CEnodePayments) (o : COutPoint) (h : Int) :
    (s.CanVote o h).1 = false ↔ s.mapEnodesLastVote.find o = some h := by
  unfold CEnodePayments.CanVote
  split_ifs with h1
  · simp only [Bool.and_eq_true, decide_eq_true_eq] at h1
    simp [h1.2]
  · simp only [Bool.and_eq_true, decide_eq_true_eq, not_and] at h1
    constructor
    · intro hf
      exact absurd hf (by simp)
    · intro hf
      exact absurd hf (h1 (by simp [StdMap.count, hf]))

/-- Claim C16 (amended).  After a call `CanVote(o, h)`, every later call
`CanVote(o, h)` returns false as long as no call for the same outpoint `o` with a different
height comes in between, whatever calls for other outpoints do; the store keeps only the
last height of each voter, so after a call `CanVote(o, h2)` with another height `h2` the
call `CanVote(o, h)` returns true again. -/
theorem C16_can_vote_last_height (s : CEnodePayments) (o : COutPoint) (h : Int)
    (calls : List (COutPoint × Int)) (hcalls : ∀ c ∈ calls, c.1 = o → c.2 = h) :
    ((((s.CanVote o h).2.CanVoteAll calls).2.CanVote o h).1 = false) ∧
    (∀ h2 : Int, h2 ≠ h →
      ((s.CanVote o h).2.CanVote o h2).1 = true ∧
      (((s.CanVote o h).2.CanVote o h2).2.CanVote o h).1 = true) := by
  constructor
  · rw [CEnodePayments.CanVote_flag]
    have h0 := CEnodePayments.CanVote_last s o h
    generalize (s.CanVote o h).2 = s1 at h0
    induction calls generalizing s1 with
    | nil => exact h0
    | cons c rest ih =>
      unfold CEnodePayments.CanVoteAll
      simp only []
      apply ih (fun c2 hc2 => hcalls c2 (List.mem_cons_of_mem _ hc2))
      by_cases hc : c.1 = o
      · have h2 := hcalls c (List.mem_cons_self _ _) hc
        rw [hc, h2]
        exact CEnodePayments.CanVote_last s1 o h
      · unfold CEnodePayments.CanVote
        split_ifs
        · exact h0
        · show StdMap.find (StdMap.set s1.mapEnodesLastVote c.1 c.2) o = some h
          rw [StdMap.find_set_other _ _ _ _ hc]
          exact h0
  · intro h2 hne
    have h0 := CEnodePayments.CanVote_last s o h
    have h1 : ((s.CanVote o h).2.CanVote o h2).1 = true := by
      cases hx : ((s.CanVote o h).2.CanVote o h2).1
      · rw [CEnodePayments.CanVote_flag, h0] at hx
        exact absurd (Option.some.inj hx).symm hne
      · rfl
    refine ⟨h1, ?_⟩
    have h3 := CEnodePayments.CanVote_last (s.CanVote o h).2 o h2
    cases hx : (((s.CanVote o h).2.CanVote o h2).2.CanVote o h).1
    · rw [CEnodePayments.CanVote_flag, h3] at hx
      exact absurd (Option.some.inj hx) hne
    · rfl

/-- Witness for C16: on the empty store, after the voter `(17, 0)` passed `CanVote`
at height 210, calls for another voter and a repeated call leave `CanVote` refusing
`((17, 0), 210)`. -/
theorem C16_can_vote_last_height_witness :
    (∀ c ∈ [(({ hash := 34, n := 0 } : COutPoint), (211 : Int)),
        (({ hash := 17, n := 0 } : COutPoint), (210 : Int))],
      c.1 = ({ hash := 17, n := 0 } : COutPoint) → c.2 = 210) ∧
    (CEnodePayments.empty.CanVote { hash := 17, n := 0 } 210).1 = true ∧
    ((((CEnodePayments.empty.CanVote { hash := 17, n := 0 } 210).2.CanVoteAll
      [({ hash := 34, n := 0 }, 211), ({ hash := 17, n := 0 }, 210)]).2.CanVote
        { hash := 17, n := 0 } 210).1 = false) :=
  ⟨by decide, by decide,
    (C16_can_vote_last_height CEnodePayments.empty { hash := 17, n := 0 } 210
      [({ hash := 34, n := 0 }, 211), ({ hash := 17, n := 0 }, 210)] (by decide)).1⟩

/-- Counterexample for C16 as stated: the voter `(17, 0)` passes `CanVote` at height
210, then at height 211, and then at height 210 a second time. -/
theorem C16_counterexample_same_height_twice :
    (CEnodePayments.empty.CanVoteAll
      [({ hash := 17, n := 0 }, 210), ({ hash := 17, n := 0 }, 211),
        ({ hash := 17, n := 0 }, 210)]).1 = [true, true, true] := by
  decide

/-! ## The block payee check -/

/-- Claim C17.  The function `IsBlockPayeeValid` returns false exactly when the height has
reached the payments start block, the node is fully synced, `CEnodePayments::
IsTransactionValid` rejects the transaction at that height, and the payment-enforcement
spork is active; whenever one of the four fails (height below the start, not synced, valid
payment, or enforcement inactive) it returns true. -/
theorem C17_block_payee_valid (env : Env) (mnpayments : CEnodePayments) (txNew : CTransaction)
    (nBlockHeight blockReward : Int) :
    (IsBlockPayeeValid env mnpayments txNew nBlockHeight blockReward = false ↔
      (env.nEnodePaymentsStartBlock ≤ nBlockHeight ∧ env.IsSynced = true ∧
        mnpayments.IsTransactionValid env txNew nBlockHeight = false ∧
        env.sporkPaymentEnforcement = true)) ∧
    ((nBlockHeight < env.nEnodePaymentsStartBlock ∨ env.IsSynced = false ∨
        mnpayments.IsTransactionValid env txNew nBlockHeight = true ∨
        env.sporkPaymentEnforcement = false) →
      IsBlockPayeeValid env mnpayments txNew nBlockHeight blockReward = true) := by
  unfold IsBlockPayeeValid
  constructor
  · split_ifs with h1 h2 h3 h4 <;> simp_all
  · rintro (h | h | h | h) <;> split_ifs <;> simp_all

/-! ## What Enabled means after a check -/

/-- Claim C18 (amended).  When a `Check` that actually runs (shutdown not
requested, forced or at least 5 seconds after the previous one, chain lock obtained unless
the record is flagged as unit test) leaves the record Enabled, the last ping is at least 10
minutes after the announcement; and if the enode list is synced or the record is the node's
own enode, the record has a ping and it is less than 65 minutes old.  Both distances are
the `int64_t` differences the code computes, which are the true differences whenever those
fit 64 bits. -/
theorem C18_enabled_after_check (env : Env) (man : CEnodeMan) (mn : CEnode) (fForce : Bool)
    (hshut : env.ShutdownRequested = false)
    (hdue : fForce = true ∨ 5 ≤ env.GetTime - mn.nTimeLastChecked)
    (hlock : mn.fUnitTest = true ∨ env.lockMain = true)
    (hres : (CEnode.Check env man mn fForce).nActiveState = state.ENODE_ENABLED) :
    int64 ((CEnode.Check env man mn fForce).lastPing.sigTime -
        (CEnode.Check env man mn fForce).sigTime) ≥ 10 * 60 ∧
    (env.IsEnodeListSynced = true ∨
        (env.fZNode = true ∧
          env.activePubKeyEnode = (CEnode.Check env man mn fForce).pubKeyEnode) →
      CEnodePing.eq (CEnode.Check env man mn fForce).lastPing CEnodePing.default = false ∧
        int64 (env.GetAdjustedTime - (CEnode.Check env man mn fForce).lastPing.sigTime)
          < 65 * 60) ∧
    (∀ x : Int, -2 ^ 63 ≤ x → x < 2 ^ 63 → int64 x = x) := by
  have key : ∃ m, CEnode.Check env man mn fForce = CEnode.checkLifecycle env man m := by
    by_cases hspent : mn.nActiveState = state.ENODE_OUTPOINT_SPENT
    · rw [CEnode.Check_spent env man mn fForce hspent] at hres
      exact absurd hres (by decide)
    · rw [CEnode.Check_run env man mn fForce hshut hdue hlock hspent] at hres ⊢
      by_cases hc : mn.fUnitTest = false ∧ env.hasUTXO mn.vin.prevout = false
      · rw [if_pos hc] at hres
        exact absurd (show state.ENODE_OUTPOINT_SPENT = state.ENODE_ENABLED from hres)
          (by decide)
      · rw [if_neg hc] at hres ⊢
        rcases CEnode.checkBan_cases env man { mn with nTimeLastChecked := env.GetTime }
          (if mn.fUnitTest = true then 0 else env.chainHeight) with
          ⟨h1, _, h3⟩ | ⟨_, _, h3⟩ | ⟨_, _, h3⟩ | ⟨_, _, h3⟩
        · rw [h3] at hres
          exact absurd (show state.ENODE_POSE_BAN = state.ENODE_ENABLED from
            (show mn.nActiveState = state.ENODE_POSE_BAN from h1).symm.trans hres) (by decide)
        · exact ⟨_, h3⟩
        · rw [h3] at hres
          exact absurd (show state.ENODE_POSE_BAN = state.ENODE_ENABLED from hres) (by decide)
        · exact ⟨_, h3⟩
  obtain ⟨m, hm⟩ := key
  rw [hm] at hres ⊢
  have hE := CEnode.checkLifecycle_enabled env man m hres
  obtain ⟨st, hst⟩ := CEnode.checkLifecycle_frame env man m
  rw [hst]
  exact ⟨hE.1, hE.2, int64_of_fits⟩

/-- Witness for C18: the forced check leaves the sample enode with a ping 1000 seconds old
Enabled, and both conditions hold. -/
theorem C18_enabled_after_check_witness :
    sampleEnv.ShutdownRequested = false ∧
    ((samplePinged 999000).fUnitTest = true ∨ sampleEnv.lockMain = true) ∧
    (CEnode.Check sampleEnv CEnodeMan.empty (samplePinged 999000) true).nActiveState
      = state.ENODE_ENABLED ∧
    int64 ((CEnode.Check sampleEnv CEnodeMan.empty (samplePinged 999000) true).lastPing.sigTime -
      (CEnode.Check sampleEnv CEnodeMan.empty (samplePinged 999000) true).sigTime) ≥ 10 * 60 ∧
    int64 (sampleEnv.GetAdjustedTime -
      (CEnode.Check sampleEnv CEnodeMan.empty (samplePinged 999000) true).lastPing.sigTime)
        < 65 * 60 ∧
    (CEnode.Check sampleEnv CEnodeMan.empty (samplePinged 999000) true).lastPing.sigTime -
      (CEnode.Check sampleEnv CEnodeMan.empty (samplePinged 999000) true).sigTime = 999000 ∧
    sampleEnv.GetAdjustedTime -
      (CEnode.Check sampleEnv CEnodeMan.empty (samplePinged 999000) true).lastPing.sigTime
        = 1000 :=
  ⟨rfl, Or.inr rfl, by decide,
    (C18_enabled_after_check sampleEnv CEnodeMan.empty (samplePinged 999000) true rfl
      (Or.inl rfl) (Or.inr rfl) (by decide)).1,
    ((C18_enabled_after_check sampleEnv CEnodeMan.empty (samplePinged 999000) true rfl
      (Or.inl rfl) (Or.inr rfl) (by decide)).2.1 (Or.inl rfl)).2,
    by decide, by decide⟩

/-- Counterexample for C18 as stated: while the enode list is still syncing, a
forced check leaves an enode Enabled whose last ping is 70 minutes old; an unforced
check 2 seconds after the previous one returns an Enabled record with a 70 minute old ping
as it is; and with the list synced a forced check leaves Enabled a record whose last ping
carries the least signature time an `int64_t` holds, which is neither within 65 minutes of
the clock reading 1000000 nor after the announcement at time 1: both differences wrap
around in the code. -/
theorem C18_counterexample_enabled_with_old_ping :
    (CEnode.Check sampleSyncingEnv CEnodeMan.empty
      (samplePinged (1000000 - 70 * 60)) true).nActiveState = state.ENODE_ENABLED ∧
    ¬ (sampleSyncingEnv.GetAdjustedTime -
      (CEnode.Check sampleSyncingEnv CEnodeMan.empty
        (samplePinged (1000000 - 70 * 60)) true).lastPing.sigTime < 65 * 60) ∧
    (CEnode.Check sampleEnv CEnodeMan.empty
      { samplePinged (1000000 - 70 * 60) with nTimeLastChecked := 999998 } false).nActiveState
      = state.ENODE_ENABLED ∧
    ¬ (sampleEnv.GetAdjustedTime -
      (CEnode.Check sampleEnv CEnodeMan.empty
        { samplePinged (1000000 - 70 * 60) with nTimeLastChecked := 999998 }
        false).lastPing.sigTime < 65 * 60) ∧
    sampleEnv.IsEnodeListSynced = true ∧
    (CEnode.Check sampleEnv CEnodeMan.empty
      { samplePinged (-9223372036854775808) with sigTime := 1 } true).nActiveState
      = state.ENODE_ENABLED ∧
    ¬ (sampleEnv.GetAdjustedTime -
      (CEnode.Check sampleEnv CEnodeMan.empty
        { samplePinged (-9223372036854775808) with sigTime := 1 } true).lastPing.sigTime
          < 65 * 60) ∧
    ¬ ((CEnode.Check sampleEnv CEnodeMan.empty
        { samplePinged (-9223372036854775808) with sigTime := 1 } true).lastPing.sigTime -
      (CEnode.Check sampleEnv CEnodeMan.empty
        { samplePinged (-9223372036854775808) with sigTime := 1 } true).sigTime ≥ 10 * 60) := by
  refine ⟨by decide, by decide, by decide, by decide, rfl, by decide, by decide, by decide⟩

/-! ## The PoSe score of a record that is not banned -/

/-- Claim C19 (amended).  In every state reached from a constructor through
`IncreasePoSeBanScore`, `DecreasePoSeBanScore`, `Check` and `UpdateFromNewBroadcast` the
PoSe score is at most 5, and right after a `Check` that ran as far as the ban handling
(shutdown not requested, forced or due, record not marked spent, chain lock obtained and
collateral unspent unless the record is flagged as unit test) a state other than PoSeBan
comes with a score below 5. -/
theorem C19_pose_ban_after_check (c : Construction) (ops : List RecordOp) :
    (c.build.runOps ops).nPoSeBanScore ≤ 5 ∧
    (∀ (env : Env) (man : CEnodeMan) (fForce : Bool),
      env.ShutdownRequested = false →
      (fForce = true ∨ 5 ≤ env.GetTime - (c.build.runOps ops).nTimeLastChecked) →
      (c.build.runOps ops).nActiveState ≠ state.ENODE_OUTPOINT_SPENT →
      ((c.build.runOps ops).fUnitTest = true ∨
        (env.lockMain = true ∧ env.hasUTXO (c.build.runOps ops).vin.prevout = true)) →
      (CEnode.Check env man (c.build.runOps ops) fForce).nActiveState ≠ state.ENODE_POSE_BAN →
      (CEnode.Check env man (c.build.runOps ops) fForce).nPoSeBanScore < 5) := by
  have hrange : (c.build.runOps ops).nPoSeBanScore ≤ 5 := by
    have h0 : c.build.nPoSeBanScore ≤ 5 := by
      cases c <;> exact (by decide : (0 : Int) ≤ 5)
    generalize c.build = mn at h0
    unfold CEnode.runOps
    induction ops generalizing mn with
    | nil => exact h0
    | cons op rest ih =>
      rw [List.foldl_cons]
      apply ih
      cases op with
      | IncreasePoSeBanScore =>
        show mn.IncreasePoSeBanScore.nPoSeBanScore ≤ 5
        unfold CEnode.IncreasePoSeBanScore
        split_ifs with h1
        · simp only [ENODE_POSE_BAN_MAX_SCORE] at h1
          show mn.nPoSeBanScore + 1 ≤ 5
          omega
        · exact h0
      | DecreasePoSeBanScore =>
        show mn.DecreasePoSeBanScore.nPoSeBanScore ≤ 5
        unfold CEnode.DecreasePoSeBanScore
        split_ifs with h1
        · show mn.nPoSeBanScore - 1 ≤ 5
          omega
        · exact h0
      | Check env man f =>
        show (CEnode.Check env man mn f).nPoSeBanScore ≤ 5
        rcases CEnode.Check_score env man mn f with h1 | ⟨_, _, h1⟩
        · rw [h1]; exact h0
        · rw [h1]; omega
      | UpdateFromNewBroadcast env man mnb =>
        show (mn.UpdateFromNewBroadcast env man mnb).mn.nPoSeBanScore ≤ 5
        rcases CEnode.UpdateFromNewBroadcast_score env man mn mnb with h1 | ⟨_, h2⟩
        · rw [h1]; exact h0
        · omega
  refine ⟨hrange, ?_⟩
  generalize c.build.runOps ops = mn at hrange
  intro env man fForce hshut hdue hspent hutxo hres
  have hlock : mn.fUnitTest = true ∨ env.lockMain = true := by
    rcases hutxo with h | h
    · exact Or.inl h
    · exact Or.inr h.1
  have hc : ¬ (mn.fUnitTest = false ∧ env.hasUTXO mn.vin.prevout = false) := by
    rintro ⟨h1, h2⟩
    rcases hutxo with h | h
    · rw [h1] at h; exact absurd h (by decide)
    · rw [h2] at h; exact absurd h.2 (by decide)
  rw [CEnode.Check_run env man mn fForce hshut hdue hlock hspent, if_neg hc] at hres ⊢
  rcases CEnode.checkBan_cases env man { mn with nTimeLastChecked := env.GetTime }
    (if mn.fUnitTest = true then 0 else env.chainHeight) with
    ⟨h1, _, h3⟩ | ⟨_, _, h3⟩ | ⟨_, _, h3⟩ | ⟨_, h2, h3⟩
  · rw [h3] at hres
    exact absurd h1 hres
  · rw [h3]
    obtain ⟨st, hst⟩ := CEnode.checkLifecycle_frame env man
      (CEnode.DecreasePoSeBanScore { mn with nTimeLastChecked := env.GetTime })
    obtain ⟨sc, hsc, hval⟩ :=
      CEnode.DecreasePoSeBanScore_frame { mn with nTimeLastChecked := env.GetTime }
    rw [hst, hsc]
    show sc < 5
    rw [hval]
    simp only [ENODE_POSE_BAN_MAX_SCORE]
    show (if mn.nPoSeBanScore > -5 then mn.nPoSeBanScore - 1 else mn.nPoSeBanScore) < 5
    split_ifs <;> omega
  · rw [h3] at hres
    exact absurd rfl hres
  · rw [h3]
    obtain ⟨st, hst⟩ := CEnode.checkLifecycle_frame env man
      { mn with nTimeLastChecked := env.GetTime }
    rw [hst]
    have h2' : mn.nPoSeBanScore < ENODE_POSE_BAN_MAX_SCORE := h2
    simp only [ENODE_POSE_BAN_MAX_SCORE] at h2'
    exact h2'

/-- Witness for C19: in an environment where only the collateral of the sample enode 17 is
unspent, a record built from an announcement of that enode and raised four times has score 4,
and the forced check runs through its ban handling and leaves it in state
`NEW_START_REQUIRED` with that score. -/
theorem C19_pose_ban_after_check_witness :
    sampleUtxoEnv.hasUTXO CTxIn.default.prevout = false ∧
    ((Construction.ofBroadcast sampleBroadcast).build.runOps
      [RecordOp.IncreasePoSeBanScore, RecordOp.IncreasePoSeBanScore,
        RecordOp.IncreasePoSeBanScore, RecordOp.IncreasePoSeBanScore]).fUnitTest = false ∧
    ((Construction.ofBroadcast sampleBroadcast).build.runOps
      [RecordOp.IncreasePoSeBanScore, RecordOp.IncreasePoSeBanScore,
        RecordOp.IncreasePoSeBanScore, RecordOp.IncreasePoSeBanScore]).nPoSeBanScore = 4 ∧
    (CEnode.Check sampleUtxoEnv sampleRegistry
      ((Construction.ofBroadcast sampleBroadcast).build.runOps
        [RecordOp.IncreasePoSeBanScore, RecordOp.IncreasePoSeBanScore,
          RecordOp.IncreasePoSeBanScore, RecordOp.IncreasePoSeBanScore]) true).nActiveState
      = state.ENODE_NEW_START_REQUIRED ∧
    (CEnode.Check sampleUtxoEnv sampleRegistry
      ((Construction.ofBroadcast sampleBroadcast).build.runOps
        [RecordOp.IncreasePoSeBanScore, RecordOp.IncreasePoSeBanScore,
          RecordOp.IncreasePoSeBanScore, RecordOp.IncreasePoSeBanScore]) true).nPoSeBanScore
      < 5 :=
  ⟨by decide, by decide, by decide, by decide,
    (C19_pose_ban_after_check (Construction.ofBroadcast sampleBroadcast)
      [RecordOp.IncreasePoSeBanScore, RecordOp.IncreasePoSeBanScore,
        RecordOp.IncreasePoSeBanScore, RecordOp.IncreasePoSeBanScore]).2
      sampleUtxoEnv sampleRegistry true rfl (Or.inl rfl) (by decide)
      (Or.inr ⟨rfl, by decide⟩) (by decide)⟩

/-- Counterexample for C19 as stated: five calls of `IncreasePoSeBanScore` on a
fresh record give score 5 while the state is still Enabled (only the next `Check` bans the
record); and when that ban is followed by a `Check` that finds the collateral spent, the
state is OutpointSpent with the score still 5. -/
theorem C19_counterexample_score_five_not_banned :
    ((Construction.default sampleEnv).build.runOps
      [RecordOp.IncreasePoSeBanScore, RecordOp.IncreasePoSeBanScore,
        RecordOp.IncreasePoSeBanScore, RecordOp.IncreasePoSeBanScore,
        RecordOp.IncreasePoSeBanScore]).nActiveState = state.ENODE_ENABLED ∧
    ((Construction.default sampleEnv).build.runOps
      [RecordOp.IncreasePoSeBanScore, RecordOp.IncreasePoSeBanScore,
        RecordOp.IncreasePoSeBanScore, RecordOp.IncreasePoSeBanScore,
        RecordOp.IncreasePoSeBanScore]).nPoSeBanScore = 5 ∧
    ((Construction.default sampleEnv).build.runOps
      [RecordOp.IncreasePoSeBanScore, RecordOp.IncreasePoSeBanScore,
        RecordOp.IncreasePoSeBanScore, RecordOp.IncreasePoSeBanScore,
        RecordOp.IncreasePoSeBanScore, RecordOp.Check sampleEnv sampleRegistry true,
        RecordOp.Check sampleSpentEnv sampleRegistry true]).nActiveState
      = state.ENODE_OUTPOINT_SPENT ∧
    ((Construction.default sampleEnv).build.runOps
      [RecordOp.IncreasePoSeBanScore, RecordOp.IncreasePoSeBanScore,
        RecordOp.IncreasePoSeBanScore, RecordOp.IncreasePoSeBanScore,
        RecordOp.IncreasePoSeBanScore, RecordOp.Check sampleEnv sampleRegistry true,
        RecordOp.Check sampleSpentEnv sampleRegistry true]).nPoSeBanScore = 5 := by
  refine ⟨by decide, by decide, by decide, by decide⟩

/-! ## Banning and un-banning by PoSe score -/

/-- Claim C20 (amended).  Let the check not be stopped (shutdown not requested,
chain lock obtained) and the collateral be unspent, and let the tip height stand for the
chain height (for 0 on a record flagged as unit test, which needs neither lock nor
collateral).  A forced `Check` on an enode that is neither marked spent nor banned and
whose PoSe score is at least 5 sets the state to PoSeBan, the ban height to the tip height
plus the registry size and the last-checked time to the clock, and changes nothing else.
A `Check`, forced or not, on a PoSeBan enode leaves state, score and ban height unchanged
while the tip height is below the ban height.  Once the tip height has reached the ban
height, a `Check` that is forced or due lowers the score by one (it stays at -5), runs the
lifecycle tests on the record and leaves a state other than PoSeBan. -/
theorem C20_pose_ban_and_unban (env : Env) (man : CEnodeMan) (mn : CEnode)
    (hshut : env.ShutdownRequested = false)
    (hlock : mn.fUnitTest = true ∨ env.lockMain = true)
    (hutxo : mn.fUnitTest = true ∨ env.hasUTXO mn.vin.prevout = true) :
    (mn.nActiveState ≠ state.ENODE_OUTPOINT_SPENT → mn.nActiveState ≠ state.ENODE_POSE_BAN →
      5 ≤ mn.nPoSeBanScore →
      CEnode.Check env man mn true =
        { mn with nTimeLastChecked := env.GetTime
                  nActiveState := state.ENODE_POSE_BAN
                  nPoSeBanHeight :=
                    (if mn.fUnitTest = true then 0 else env.chainHeight) + man.size }) ∧
    (mn.nActiveState = state.ENODE_POSE_BAN →
      (if mn.fUnitTest = true then 0 else env.chainHeight) < mn.nPoSeBanHeight →
      ∀ fForce : Bool,
        (CEnode.Check env man mn fForce).nActiveState = state.ENODE_POSE_BAN ∧
        (CEnode.Check env man mn fForce).nPoSeBanScore = mn.nPoSeBanScore ∧
        (CEnode.Check env man mn fForce).nPoSeBanHeight = mn.nPoSeBanHeight) ∧
    (mn.nActiveState = state.ENODE_POSE_BAN →
      mn.nPoSeBanHeight ≤ (if mn.fUnitTest = true then 0 else env.chainHeight) →
      ∀ fForce : Bool, fForce = true ∨ 5 ≤ env.GetTime - mn.nTimeLastChecked →
        CEnode.Check env man mn fForce =
          CEnode.checkLifecycle env man
            (CEnode.DecreasePoSeBanScore { mn with nTimeLastChecked := env.GetTime }) ∧
        (CEnode.Check env man mn fForce).nActiveState ≠ state.ENODE_POSE_BAN ∧
        (CEnode.Check env man mn fForce).nPoSeBanScore =
          (if -5 < mn.nPoSeBanScore then mn.nPoSeBanScore - 1 else mn.nPoSeBanScore)) := by
  have hc : ¬ (mn.fUnitTest = false ∧ env.hasUTXO mn.vin.prevout = false) := by
    rintro ⟨h1, h2⟩
    rcases hutxo with h | h
    · rw [h1] at h; exact absurd h (by decide)
    · rw [h2] at h; exact absurd h (by decide)
  refine ⟨?_, ?_, ?_⟩
  · intro hspent hban hscore
    rw [CEnode.Check_run env man mn true hshut (Or.inl rfl) hlock hspent, if_neg hc]
    rcases CEnode.checkBan_cases env man { mn with nTimeLastChecked := env.GetTime }
      (if mn.fUnitTest = true then 0 else env.chainHeight) with
      ⟨h1, _, _⟩ | ⟨h1, _, _⟩ | ⟨_, _, h3⟩ | ⟨_, h2, _⟩
    · exact absurd h1 hban
    · exact absurd h1 hban
    · rw [h3]
    · exfalso
      have h2' : mn.nPoSeBanScore < ENODE_POSE_BAN_MAX_SCORE := h2
      simp only [ENODE_POSE_BAN_MAX_SCORE] at h2'
      omega
  · intro hban hlt fForce
    by_cases hdue : fForce = true ∨ 5 ≤ env.GetTime - mn.nTimeLastChecked
    · have hspent : mn.nActiveState ≠ state.ENODE_OUTPOINT_SPENT := by
        rw [hban]; decide
      rw [CEnode.Check_run env man mn fForce hshut hdue hlock hspent, if_neg hc]
      rcases CEnode.checkBan_cases env man { mn with nTimeLastChecked := env.GetTime }
        (if mn.fUnitTest = true then 0 else env.chainHeight) with
        ⟨_, _, h3⟩ | ⟨_, h2, _⟩ | ⟨h1, _, _⟩ | ⟨h1, _, _⟩
      · rw [h3]
        exact ⟨hban, rfl, rfl⟩
      · exfalso
        have h2' : mn.nPoSeBanHeight ≤ (if mn.fUnitTest = true then 0 else env.chainHeight) := h2
        omega
      · exact absurd hban h1
      · exact absurd hban h1
    · have hf : fForce = false := by
        cases fForce
        · rfl
        · exact absurd (Or.inl rfl) hdue
      have hlt5 : env.GetTime - mn.nTimeLastChecked < ENODE_CHECK_SECONDS := by
        simp only [ENODE_CHECK_SECONDS]
        by_contra hh
        exact hdue (Or.inr (by omega))
      rw [hf, CEnode.Check_skip env man mn hlt5]
      exact ⟨hban, rfl, rfl⟩
  · intro hban hge fForce hdue
    have hspent : mn.nActiveState ≠ state.ENODE_OUTPOINT_SPENT := by
      rw [hban]; decide
    have hrun : CEnode.Check env man mn fForce =
        CEnode.checkLifecycle env man
          (CEnode.DecreasePoSeBanScore { mn with nTimeLastChecked := env.GetTime }) := by
      rw [CEnode.Check_run env man mn fForce hshut hdue hlock hspent, if_neg hc]
      rcases CEnode.checkBan_cases env man { mn with nTimeLastChecked := env.GetTime }
        (if mn.fUnitTest = true then 0 else env.chainHeight) with
        ⟨_, h2, _⟩ | ⟨_, _, h3⟩ | ⟨h1, _, _⟩ | ⟨h1, _, _⟩
      · exfalso
        have h2' : (if mn.fUnitTest = true then 0 else env.chainHeight) < mn.nPoSeBanHeight := h2
        omega
      · exact h3
      · exact absurd hban h1
      · exact absurd hban h1
    obtain ⟨sc, hsc, hval⟩ :=
      CEnode.DecreasePoSeBanScore_frame { mn with nTimeLastChecked := env.GetTime }
    refine ⟨hrun, ?_, ?_⟩
    · rw [hrun]
      apply CEnode.checkLifecycle_not_ban
      rw [hsc]
      exact hban
    · rw [hrun]
      obtain ⟨st, hst⟩ := CEnode.checkLifecycle_frame env man
        (CEnode.DecreasePoSeBanScore { mn with nTimeLastChecked := env.GetTime })
      rw [hst, hsc]
      show sc = _
      rw [hval]
      simp only [ENODE_POSE_BAN_MAX_SCORE]

/-- Witness for C20: the sample enode in a registry of two; with score 5 the
forced check bans it until height 202; banned until height 150 with the tip at 200 it is
released with score 4. -/
theorem C20_pose_ban_and_unban_witness :
    sampleEnv.ShutdownRequested = false ∧
    ((sampleScored 5).fUnitTest = true ∨ sampleEnv.lockMain = true) ∧
    ((sampleScored 5).fUnitTest = true ∨ sampleEnv.hasUTXO (sampleScored 5).vin.prevout = true) ∧
    CEnode.Check sampleEnv sampleRegistry (sampleScored 5) true =
      { sampleScored 5 with nTimeLastChecked := 1000000
                            nActiveState := state.ENODE_POSE_BAN
                            nPoSeBanHeight := 202 } ∧
    (CEnode.Check sampleEnv sampleRegistry (sampleBanned 150) true).nActiveState
      = state.ENODE_NEW_START_REQUIRED ∧
    (CEnode.Check sampleEnv sampleRegistry (sampleBanned 150) true).nPoSeBanScore = 4 :=
  ⟨rfl, Or.inr rfl, Or.inr rfl,
    ((C20_pose_ban_and_unban sampleEnv sampleRegistry (sampleScored 5) rfl (Or.inr rfl)
      (Or.inr rfl)).1 (by decide) (by decide) (by decide)).trans (by decide),
    by decide, by decide⟩

/-- Counterexample for C20 as stated: the ban also sets the last-checked time of
the record, and a banned enode whose collateral has been spent leaves PoSeBan for
OutpointSpent although the tip (200) is below its ban height (300). -/
theorem C20_counterexample_timestamp_and_spent :
    (sampleScored 5).nTimeLastChecked = 0 ∧
    (CEnode.Check sampleEnv sampleRegistry (sampleScored 5) true).nTimeLastChecked = 1000000 ∧
    (CEnode.Check sampleEnv sampleRegistry (sampleScored 5) true).nActiveState
      = state.ENODE_POSE_BAN ∧
    (sampleBanned 300).nActiveState = state.ENODE_POSE_BAN ∧
    sampleSpentEnv.chainHeight < (sampleBanned 300).nPoSeBanHeight ∧
    (CEnode.Check sampleSpentEnv sampleRegistry (sampleBanned 300) true).nActiveState
      = state.ENODE_OUTPOINT_SPENT := by
  refine ⟨rfl, by decide, by decide, rfl, by decide, by decide⟩

/-! ## The stateless checks of an announcement -/

/-- Claim C21 (amended).  `CEnodeBroadcast::SimpleCheck` accepts an announcement exactly when
its address is valid (on the regression-test network every address is; elsewhere it must be
IPv4, reachable and routable), `sig_time <= now + 1 h`, the protocol version is at least the
minimum payment protocol, the scripts for the collateral key and for the enode key are each
25 bytes, `vin.scriptSig` is empty, and the port equals the mainnet default port on mainnet
and differs from it on every other network.  An embedded ping that is empty or fails the
ping simple check does not reject the announcement: it sets the announcement's state to
Expired, and otherwise the announcement is left as it is. -/
theorem C21_announce_simple_check (env : Env) (mnb : CEnodeBroadcast) :
    ((mnb.SimpleCheck env).ok = true ↔
      ((env.isRegTest = true ∨ (env.IsIPv4 mnb.mn.addr = true ∧
          env.IsReachable mnb.mn.addr = true ∧ env.IsRoutable mnb.mn.addr = true)) ∧
        mnb.mn.sigTime ≤ env.GetAdjustedTime + 60 * 60 ∧
        GetMinEnodePaymentsProto env ≤ mnb.mn.nProtocolVersion ∧
        (env.GetScriptForDestination mnb.mn.pubKeyCollateralAddress).length = 25 ∧
        (env.GetScriptForDestination mnb.mn.pubKeyEnode).length = 25 ∧
        mnb.mn.vin.scriptSig = [] ∧
        (if env.isMainNet = true then mnb.mn.addr.port = env.mainnetDefaultPort
          else mnb.mn.addr.port ≠ env.mainnetDefaultPort))) ∧
    ((mnb.SimpleCheck env).ok = true →
      (mnb.SimpleCheck env).mnb =
        (if CEnodePing.eq mnb.mn.lastPing CEnodePing.default = true ∨
            (mnb.mn.lastPing.SimpleCheck env).1 = false then
          { mnb with mn := { mnb.mn with nActiveState := state.ENODE_EXPIRED } }
        else mnb)) := by
  have tail : ∀ (m1 : CEnodeBroadcast) (d : Int),
      m1.mn.nProtocolVersion = mnb.mn.nProtocolVersion →
      m1.mn.pubKeyCollateralAddress = mnb.mn.pubKeyCollateralAddress →
      m1.mn.pubKeyEnode = mnb.mn.pubKeyEnode → m1.mn.vin = mnb.mn.vin →
      m1.mn.addr = mnb.mn.addr →
      ∀ r : SimpleCheckResult,
      r = (if m1.mn.nProtocolVersion < GetMinEnodePaymentsProto env then
          { ok := false, nDos := d, mnb := m1 }
        else if (env.GetScriptForDestination m1.mn.pubKeyCollateralAddress).length ≠ 25 then
          { ok := false, nDos := 100, mnb := m1 }
        else if (env.GetScriptForDestination m1.mn.pubKeyEnode).length ≠ 25 then
          { ok := false, nDos := 100, mnb := m1 }
        else if (!m1.mn.vin.scriptSig.isEmpty) = true then
          { ok := false, nDos := 100, mnb := m1 }
        else if env.isMainNet = true then
          if m1.mn.addr.port ≠ env.mainnetDefaultPort then
            { ok := false, nDos := d, mnb := m1 }
          else { ok := true, nDos := d, mnb := m1 }
        else if m1.mn.addr.port = env.mainnetDefaultPort then
          { ok := false, nDos := d, mnb := m1 }
        else { ok := true, nDos := d, mnb := m1 }) →
      (r.ok = true ↔
        (GetMinEnodePaymentsProto env ≤ mnb.mn.nProtocolVersion ∧
          (env.GetScriptForDestination mnb.mn.pubKeyCollateralAddress).length = 25 ∧
          (env.GetScriptForDestination mnb.mn.pubKeyEnode).length = 25 ∧
          mnb.mn.vin.scriptSig = [] ∧
          (if env.isMainNet = true then mnb.mn.addr.port = env.mainnetDefaultPort
            else mnb.mn.addr.port ≠ env.mainnetDefaultPort))) ∧
      (r.ok = true → r.mnb = m1) := by
    intro m1 d e1 e2 e3 e4 e5 r hr
    rw [e1, e2, e3, e4, e5] at hr
    by_cases h3 : mnb.mn.nProtocolVersion < GetMinEnodePaymentsProto env
    · rw [if_pos h3] at hr
      subst hr
      exact ⟨⟨fun h => absurd h (by simp), fun h => absurd h.1 (by omega)⟩,
        fun h => absurd h (by simp)⟩
    · rw [if_neg h3] at hr
      by_cases h4 : (env.GetScriptForDestination mnb.mn.pubKeyCollateralAddress).length ≠ 25
      · rw [if_pos h4] at hr
        subst hr
        exact ⟨⟨fun h => absurd h (by simp), fun h => absurd h.2.1 h4⟩,
          fun h => absurd h (by simp)⟩
      · rw [if_neg h4] at hr
        by_cases h5 : (env.GetScriptForDestination mnb.mn.pubKeyEnode).length ≠ 25
        · rw [if_pos h5] at hr
          subst hr
          exact ⟨⟨fun h => absurd h (by simp), fun h => absurd h.2.2.1 h5⟩,
            fun h => absurd h (by simp)⟩
        · rw [if_neg h5] at hr
          by_cases h6 : (!mnb.mn.vin.scriptSig.isEmpty) = true
          · rw [if_pos h6] at hr
            subst hr
            refine ⟨⟨fun h => absurd h (by simp), fun h => ?_⟩, fun h => absurd h (by simp)⟩
            rw [h.2.2.2.1] at h6
            exact absurd h6 (by decide)
          · rw [if_neg h6] at hr
            have h6b : mnb.mn.vin.scriptSig = [] := by
              simpa [List.isEmpty_iff] using h6
            by_cases h7 : env.isMainNet = true
            · rw [if_pos h7] at hr
              by_cases h8 : mnb.mn.addr.port ≠ env.mainnetDefaultPort
              · rw [if_pos h8] at hr
                subst hr
                refine ⟨⟨fun h => absurd h (by simp), fun h => ?_⟩, fun h => absurd h (by simp)⟩
                have h9 := h.2.2.2.2
                rw [if_pos h7] at h9
                exact absurd h9 h8
              · rw [if_neg h8] at hr
                subst hr
                refine ⟨⟨fun _ => ⟨by omega, not_not.mp h4, not_not.mp h5, h6b, ?_⟩,
                  fun _ => rfl⟩, fun _ => rfl⟩
                rw [if_pos h7]
                exact not_not.mp h8
            · rw [if_neg h7] at hr
              by_cases h8 : mnb.mn.addr.port = env.mainnetDefaultPort
              · rw [if_pos h8] at hr
                subst hr
                refine ⟨⟨fun h => absurd h (by simp), fun h => ?_⟩, fun h => absurd h (by simp)⟩
                have h9 := h.2.2.2.2
                rw [if_neg h7] at h9
                exact absurd h8 h9
              · rw [if_neg h8] at hr
                subst hr
                refine ⟨⟨fun _ => ⟨by omega, not_not.mp h4, not_not.mp h5, h6b, ?_⟩,
                  fun _ => rfl⟩, fun _ => rfl⟩
                rw [if_neg h7]
                exact h8
  unfold CEnodeBroadcast.SimpleCheck
  cases hA : CEnode.IsValidNetAddr env mnb.mn.addr
  · have hA2 : ¬ (env.isRegTest = true ∨ (env.IsIPv4 mnb.mn.addr = true ∧
        env.IsReachable mnb.mn.addr = true ∧ env.IsRoutable mnb.mn.addr = true)) := by
      unfold CEnode.IsValidNetAddr at hA
      intro h
      rcases h with h | ⟨h1, h2, h3⟩
      · rw [h] at hA
        exact absurd hA (by simp)
      · rw [h1, h2, h3] at hA
        exact absurd hA (by simp)
    simp only [Bool.not_false, if_true]
    exact ⟨⟨fun h => absurd h (by simp), fun h => absurd h.1 hA2⟩, fun h => absurd h (by simp)⟩
  · have hA2 : env.isRegTest = true ∨ (env.IsIPv4 mnb.mn.addr = true ∧
        env.IsReachable mnb.mn.addr = true ∧ env.IsRoutable mnb.mn.addr = true) := by
      unfold CEnode.IsValidNetAddr at hA
      simpa [and_assoc] using hA
    simp only [Bool.not_true, Bool.false_eq_true, if_false]
    by_cases h2 : mnb.mn.sigTime > env.GetAdjustedTime + 60 * 60
    · rw [if_pos h2]
      exact ⟨⟨fun h => absurd h (by simp), fun h => absurd h.2.1 (by omega)⟩,
        fun h => absurd h (by simp)⟩
    · rw [if_neg h2]
      by_cases hc : (CEnodePing.eq mnb.mn.lastPing CEnodePing.default ||
          !(mnb.mn.lastPing.SimpleCheck env).1) = true
      · have hc2 : CEnodePing.eq mnb.mn.lastPing CEnodePing.default = true ∨
            (mnb.mn.lastPing.SimpleCheck env).1 = false := by
          simpa using hc
        rw [if_pos hc2]
        have ht := tail { mnb with mn := { mnb.mn with nActiveState := state.ENODE_EXPIRED } }
          (if CEnodePing.eq mnb.mn.lastPing CEnodePing.default = true then 0
            else (mnb.mn.lastPing.SimpleCheck env).2) rfl rfl rfl rfl rfl _ rfl
        simp only [hc, if_true]
        exact ⟨⟨fun h => ⟨hA2, by omega, ht.1.mp h⟩, fun h => ht.1.mpr h.2.2⟩, ht.2⟩
      · have hc2 : ¬ (CEnodePing.eq mnb.mn.lastPing CEnodePing.default = true ∨
            (mnb.mn.lastPing.SimpleCheck env).1 = false) := by
          simpa using hc
        rw [if_neg hc2]
        have ht := tail mnb
          (if CEnodePing.eq mnb.mn.lastPing CEnodePing.default = true then 0
            else (mnb.mn.lastPing.SimpleCheck env).2) rfl rfl rfl rfl rfl _ rfl
        simp only [hc, Bool.false_eq_true, if_false]
        exact ⟨⟨fun h => ⟨hA2, by omega, ht.1.mp h⟩, fun h => ht.1.mpr h.2.2⟩, ht.2⟩

/-- Counterexample for C21 as stated: on mainnet an announcement whose embedded ping is empty
is accepted, and so is one whose embedded ping names an unknown block and fails the ping
simple check (both leave the check in state Expired); on the regression-test network an
announcement is accepted although its address is not IPv4. -/
theorem C21_counterexample_ping_not_required :
    CEnodePing.eq (sampleEnode 17 100).lastPing CEnodePing.default = true ∧
    ((CEnodeBroadcast.ofEnode (sampleEnode 17 100)).SimpleCheck sampleAnnounceEnv).ok = true ∧
    ((CEnodeBroadcast.ofEnode (sampleEnode 17 100)).SimpleCheck sampleAnnounceEnv).mnb.mn.nActiveState
      = state.ENODE_EXPIRED ∧
    (CEnodePing.SimpleCheck sampleAnnounceEnv { samplePing 17 900 with blockHash := 5 }).1
      = false ∧
    ((CEnodeBroadcast.ofEnode { sampleEnode 17 100 with
        lastPing := { samplePing 17 900 with blockHash := 5 } }).SimpleCheck
      sampleAnnounceEnv).ok = true ∧
    sampleRegTestEnv.IsIPv4 { ip := 17, port := 18168 } = false ∧
    ((CEnodeBroadcast.ofEnode { sampleEnode 17 100 with
        addr := { ip := 17, port := 18168 } }).SimpleCheck sampleRegTestEnv).ok = true := by
  refine ⟨by decide, by decide, by decide, by decide, by decide, by decide, by decide⟩

/-! ## The update step of an announcement -/

/-- Claim C22 (amended).  For an announcement whose outpoint is registered with record `pmn`,
`CEnodeBroadcast::Update` rejects and leaves the record and the tables as they are when
`new.sig_time < old.sig_time`, with or without the recovery flag, and when
`new.sig_time = old.sig_time` without the recovery flag.  Otherwise it runs an unforced
`Check` on the record and rejects when the record is PoSe-banned after that check, when the
announcement's collateral key differs from the record's, and when the announcement's
signature is bad; every rejection leaves the record's sig_time, keys, address and signature
unchanged.  Otherwise it accepts; it then applies the update only when the record was not
announced within the last five minutes or the announcement carries the node's own enode key:
`UpdateFromNewBroadcast` runs on the record, `Check` is re-run on the record when
`UpdateFromNewBroadcast` returned true, and the record's sig_time is then at least the
announcement's.  The enode key, sig_time, signature, protocol version and address of the
record are then the announcement's when the node's active enode runs in remote mode, and
when `UpdateFromNewBroadcast` does not reach `ManageState` (the node runs no enode, the
announcement carries another enode key, or another protocol version than the node's). -/
theorem C22_update_step (env : Env) (man : CEnodeMan) (mnb : CEnodeBroadcast) (pmn : CEnode) :
    ((mnb.mn.sigTime < pmn.sigTime ∨ (mnb.mn.sigTime = pmn.sigTime ∧ mnb.fRecovery = false)) →
      (mnb.Update env man pmn).ok = false ∧ (mnb.Update env man pmn).mn = pmn ∧
      (mnb.Update env man pmn).man = man) ∧
    (¬ (mnb.mn.sigTime < pmn.sigTime ∨ (mnb.mn.sigTime = pmn.sigTime ∧ mnb.fRecovery = false)) →
      (((CEnode.Check env man pmn false).IsPoSeBanned = true ∨
          pmn.pubKeyCollateralAddress ≠ mnb.mn.pubKeyCollateralAddress ∨
          (mnb.CheckSignature env).1 = false) →
        (mnb.Update env man pmn).ok = false ∧
        (mnb.Update env man pmn).mn = CEnode.Check env man pmn false ∧
        (mnb.Update env man pmn).man = man) ∧
      (¬ ((CEnode.Check env man pmn false).IsPoSeBanned = true ∨
          pmn.pubKeyCollateralAddress ≠ mnb.mn.pubKeyCollateralAddress ∨
          (mnb.CheckSignature env).1 = false) →
        (mnb.Update env man pmn).ok = true ∧
        (((CEnode.Check env man pmn false).IsBroadcastedWithin env ENODE_MIN_MNB_SECONDS = false ∨
            (env.fZNode = true ∧ mnb.mn.pubKeyEnode = env.activePubKeyEnode)) →
          (mnb.Update env man pmn).man =
            ((CEnode.Check env man pmn false).UpdateFromNewBroadcast env man mnb).man ∧
          (mnb.Update env man pmn).mn =
            (if ((CEnode.Check env man pmn false).UpdateFromNewBroadcast env man mnb).ok = true
              then CEnode.Check env
                ((CEnode.Check env man pmn false).UpdateFromNewBroadcast env man mnb).man
                ((CEnode.Check env man pmn false).UpdateFromNewBroadcast env man mnb).mn false
              else ((CEnode.Check env man pmn false).UpdateFromNewBroadcast env man mnb).mn) ∧
          mnb.mn.sigTime ≤ (mnb.Update env man pmn).mn.sigTime ∧
          ((env.activeType = ENODE_REMOTE ∨
              ¬ (env.fZNode = true ∧ mnb.mn.pubKeyEnode = env.activePubKeyEnode ∧
                mnb.mn.nProtocolVersion = env.PROTOCOL_VERSION)) →
            (mnb.Update env man pmn).mn.pubKeyEnode = mnb.mn.pubKeyEnode ∧
            (mnb.Update env man pmn).mn.sigTime = mnb.mn.sigTime ∧
            (mnb.Update env man pmn).mn.vchSig = mnb.mn.vchSig ∧
            (mnb.Update env man pmn).mn.nProtocolVersion = mnb.mn.nProtocolVersion ∧
            (mnb.Update env man pmn).mn.addr = mnb.mn.addr)) ∧
        (¬ ((CEnode.Check env man pmn false).IsBroadcastedWithin env ENODE_MIN_MNB_SECONDS = false ∨
            (env.fZNode = true ∧ mnb.mn.pubKeyEnode = env.activePubKeyEnode)) →
          (mnb.Update env man pmn).mn = CEnode.Check env man pmn false ∧
          (mnb.Update env man pmn).man = man))) ∧
    ((mnb.Update env man pmn).ok = false →
      (mnb.Update env man pmn).mn.sigTime = pmn.sigTime ∧
      (mnb.Update env man pmn).mn.pubKeyEnode = pmn.pubKeyEnode ∧
      (mnb.Update env man pmn).mn.pubKeyCollateralAddress = pmn.pubKeyCollateralAddress ∧
      (mnb.Update env man pmn).mn.addr = pmn.addr ∧
      (mnb.Update env man pmn).mn.vchSig = pmn.vchSig) := by
  obtain ⟨t, st, sc, hh, hfr⟩ := CEnode.Check_frame env man pmn false
  have hkey : (CEnode.Check env man pmn false).pubKeyCollateralAddress =
      pmn.pubKeyCollateralAddress := by rw [hfr]
  have hsig : (CEnode.Check env man pmn false).sigTime = pmn.sigTime := by rw [hfr]
  have hstale : (mnb.mn.sigTime < pmn.sigTime ∨
      (mnb.mn.sigTime = pmn.sigTime ∧ mnb.fRecovery = false)) →
      mnb.Update env man pmn = { ok := false, nDos := 0, mn := pmn, man := man } := by
    intro h
    unfold CEnodeBroadcast.Update CEnodeBroadcast.UpdateActive
    by_cases h1 : (decide (pmn.sigTime = mnb.mn.sigTime) && !mnb.fRecovery) = true
    · rw [if_pos h1]
    · rw [if_neg h1]
      rcases h with h | ⟨h, h2⟩
      · rw [if_pos (by omega)]
      · exfalso
        apply h1
        simp [h, h2]
  have hfresh : ¬ (mnb.mn.sigTime < pmn.sigTime ∨
      (mnb.mn.sigTime = pmn.sigTime ∧ mnb.fRecovery = false)) →
      mnb.Update env man pmn =
        (if (CEnode.Check env man pmn false).IsPoSeBanned = true then
          { ok := false, nDos := 0, mn := CEnode.Check env man pmn false, man := man }
        else if (CEnode.Check env man pmn false).pubKeyCollateralAddress ≠
            mnb.mn.pubKeyCollateralAddress then
          { ok := false, nDos := 33, mn := CEnode.Check env man pmn false, man := man }
        else if (!(mnb.CheckSignature env).1) = true then
          { ok := false, nDos := (mnb.CheckSignature env).2,
            mn := CEnode.Check env man pmn false, man := man }
        else if (!(CEnode.Check env man pmn false).IsBroadcastedWithin env ENODE_MIN_MNB_SECONDS ||
            (env.fZNode && decide (mnb.mn.pubKeyEnode = env.activePubKeyEnode))) = true then
          if ((CEnode.Check env man pmn false).UpdateFromNewBroadcast env man mnb).ok = true then
            { ok := true, nDos := (mnb.CheckSignature env).2,
              mn := CEnode.Check env
                ((CEnode.Check env man pmn false).UpdateFromNewBroadcast env man mnb).man
                ((CEnode.Check env man pmn false).UpdateFromNewBroadcast env man mnb).mn false,
              man := ((CEnode.Check env man pmn false).UpdateFromNewBroadcast env man mnb).man }
          else
            { ok := true, nDos := (mnb.CheckSignature env).2,
              mn := ((CEnode.Check env man pmn false).UpdateFromNewBroadcast env man mnb).mn,
              man := ((CEnode.Check env man pmn false).UpdateFromNewBroadcast env man mnb).man }
        else
          { ok := true, nDos := (mnb.CheckSignature env).2,
            mn := CEnode.Check env man pmn false, man := man }) := by
    intro h
    unfold CEnodeBroadcast.Update CEnodeBroadcast.UpdateActive CEnode.UpdateFromNewBroadcast
    have h1 : ¬ (decide (pmn.sigTime = mnb.mn.sigTime) && !mnb.fRecovery) = true := by
      intro h1
      apply h
      right
      simp only [Bool.and_eq_true, decide_eq_true_eq, Bool.not_eq_true'] at h1
      exact ⟨h1.1.symm, h1.2⟩
    have h2 : ¬ pmn.sigTime > mnb.mn.sigTime := fun h2 => h (Or.inl h2)
    rw [if_neg h1, if_neg h2]
    simp only []
    split_ifs <;> rfl
  constructor
  · intro h
    rw [hstale h]
    exact ⟨rfl, rfl, rfl⟩
  constructor
  · intro h
    have hnot : ¬ (mnb.mn.sigTime ≤ (CEnode.Check env man pmn false).sigTime ∧
        mnb.fRecovery = false) := by
      rw [hsig]
      intro h3
      apply h
      rcases lt_or_eq_of_le h3.1 with h4 | h4
      · exact Or.inl h4
      · exact Or.inr ⟨h4, h3.2⟩
    rw [hfresh h, hkey]
    constructor
    · intro hrej
      by_cases hb : (CEnode.Check env man pmn false).IsPoSeBanned = true
      · rw [if_pos hb]
        exact ⟨rfl, rfl, rfl⟩
      · rw [if_neg hb]
        by_cases hk : pmn.pubKeyCollateralAddress ≠ mnb.mn.pubKeyCollateralAddress
        · rw [if_pos hk]
          exact ⟨rfl, rfl, rfl⟩
        · rw [if_neg hk]
          have hs : (mnb.CheckSignature env).1 = false := by
            rcases hrej with h1 | h1 | h1
            · exact absurd h1 hb
            · exact absurd h1 hk
            · exact h1
          rw [if_pos (by rw [hs]; rfl)]
          exact ⟨rfl, rfl, rfl⟩
    · intro hacc
      have hb : ¬ (CEnode.Check env man pmn false).IsPoSeBanned = true := fun x => hacc (Or.inl x)
      have hk : ¬ pmn.pubKeyCollateralAddress ≠ mnb.mn.pubKeyCollateralAddress :=
        fun x => hacc (Or.inr (Or.inl x))
      have hs : ¬ (!(mnb.CheckSignature env).1) = true := by
        intro x
        apply hacc
        right; right
        simpa using x
      rw [if_neg hb, if_neg hk, if_neg hs]
      have hrec := CEnode.UpdateFromNewBroadcast_record env man (CEnode.Check env man pmn false)
        mnb
      have hge : mnb.mn.sigTime ≤
          ((CEnode.Check env man pmn false).UpdateFromNewBroadcast env man mnb).mn.sigTime := by
        rcases hrec with ⟨h1, _⟩ | ⟨_, _, _, h4, _⟩
        · exact absurd h1 hnot
        · exact h4
      refine ⟨?_, ?_, ?_⟩
      · split_ifs <;> rfl
      · intro happly
        have hc : (!(CEnode.Check env man pmn false).IsBroadcastedWithin env ENODE_MIN_MNB_SECONDS ||
            (env.fZNode && decide (mnb.mn.pubKeyEnode = env.activePubKeyEnode))) = true := by
          rcases happly with h1 | ⟨h1, h2⟩
          · simp [h1]
          · simp [h1, h2]
        rw [if_pos hc]
        by_cases hu : ((CEnode.Check env man pmn false).UpdateFromNewBroadcast env man mnb).ok
            = true
        · rw [if_pos hu, if_pos hu]
          obtain ⟨t2, st2, sc2, hh2, hx⟩ := CEnode.Check_frame env
            ((CEnode.Check env man pmn false).UpdateFromNewBroadcast env man mnb).man
            ((CEnode.Check env man pmn false).UpdateFromNewBroadcast env man mnb).mn false
          refine ⟨rfl, rfl, ?_, ?_⟩
          · show _ ≤ (CEnode.Check env _ _ false).sigTime
            rw [hx]
            exact hge
          · intro hm
            have hf := CEnode.UpdateFromNewBroadcast_fields env man
              (CEnode.Check env man pmn false) mnb hnot hm
            refine ⟨?_, ?_, ?_, ?_, ?_⟩
            · show (CEnode.Check env _ _ false).pubKeyEnode = _
              rw [hx]
              exact hf.1
            · show (CEnode.Check env _ _ false).sigTime = _
              rw [hx]
              exact hf.2.1
            · show (CEnode.Check env _ _ false).vchSig = _
              rw [hx]
              exact hf.2.2.1
            · show (CEnode.Check env _ _ false).nProtocolVersion = _
              rw [hx]
              exact hf.2.2.2.1
            · show (CEnode.Check env _ _ false).addr = _
              rw [hx]
              exact hf.2.2.2.2
        · rw [if_neg hu, if_neg hu]
          exact ⟨rfl, rfl, hge, fun hm => CEnode.UpdateFromNewBroadcast_fields env man
            (CEnode.Check env man pmn false) mnb hnot hm⟩
      · intro hskip
        have hc : ¬ (!(CEnode.Check env man pmn false).IsBroadcastedWithin env
            ENODE_MIN_MNB_SECONDS ||
            (env.fZNode && decide (mnb.mn.pubKeyEnode = env.activePubKeyEnode))) = true := by
          intro hc
          apply hskip
          simp only [Bool.or_eq_true, Bool.not_eq_true', Bool.and_eq_true,
            decide_eq_true_eq] at hc
          exact hc
        rw [if_neg hc]
        exact ⟨rfl, rfl⟩
  · intro hrej
    by_cases h : (mnb.mn.sigTime < pmn.sigTime ∨
        (mnb.mn.sigTime = pmn.sigTime ∧ mnb.fRecovery = false))
    · rw [hstale h]
      exact ⟨rfl, rfl, rfl, rfl, rfl⟩
    · rw [hfresh h] at hrej ⊢
      have hmn : ∀ r : Outcome, r.ok = false →
          (r.mn = CEnode.Check env man pmn false ∨ r.ok = true) →
          r.mn.sigTime = pmn.sigTime ∧ r.mn.pubKeyEnode = pmn.pubKeyEnode ∧
          r.mn.pubKeyCollateralAddress = pmn.pubKeyCollateralAddress ∧
          r.mn.addr = pmn.addr ∧ r.mn.vchSig = pmn.vchSig := by
        intro r h1 h2
        rcases h2 with h2 | h2
        · rw [h2, hfr]
          exact ⟨rfl, rfl, rfl, rfl, rfl⟩
        · rw [h1] at h2
          exact absurd h2 (by decide)
      apply hmn _ hrej
      split_ifs
      all_goals first
        | exact Or.inl rfl
        | exact Or.inr rfl

/-- Counterexample for C22 as stated: an announcement with the recovery flag that is older
than the record (`sig_time` 100 against 500) is rejected; and for a record that is PoSe-banned
when `Update` is called, with the ban ended, the check that `Update` runs first lifts the ban
and the announcement is accepted and applied.  On a node that runs the enode 17 in local mode
and has not started it, the announcement of that enode signed at 500 is accepted and applied,
and the record then carries the signature time 1000000 and the address of the announcement
the node created itself in `ManageState`, not those of the announcement received. -/
theorem C22_counterexample_recovery_older :
    (sampleRecoveryBroadcast 100).fRecovery = true ∧
    ((sampleRecoveryBroadcast 100).Update sampleEnv sampleRegistry
      { sampleEnode 17 100 with sigTime := 500 }).ok = false ∧
    sampleBanEnded.IsPoSeBanned = true ∧
    (sampleBroadcast.Update sampleEnv sampleRegistry sampleBanEnded).ok = true ∧
    (sampleBroadcast.Update sampleEnv sampleRegistry sampleBanEnded).mn.sigTime = 500 ∧
    sampleLocalEnv.activeType = ENODE_LOCAL ∧
    (sampleBroadcast.Update sampleLocalEnv sampleRegistry (sampleEnode 17 100)).ok = true ∧
    sampleBroadcast.mn.sigTime = 500 ∧
    (sampleBroadcast.Update sampleLocalEnv sampleRegistry (sampleEnode 17 100)).mn.sigTime =
      1000000 ∧
    sampleBroadcast.mn.addr = { ip := 17, port := 8168 } ∧
    (sampleBroadcast.Update sampleLocalEnv sampleRegistry (sampleEnode 17 100)).mn.addr =
      { ip := 34, port := 8168 } := by
  refine ⟨by decide, by decide, by decide, by decide, by decide, by decide, by decide,
    by decide, by decide, by decide, by decide⟩

/-! ## The DoS score of a rejected announcement -/

/-- Claim C23, evaluated where the code departs from it.  On mainnet at time 1000000,
`CEnodeBroadcast::SimpleCheck` rejects an announcement signed at time 0 for its outdated
protocol version (90000 below the minimum 90023), and one for its port 9999; the signature
time of neither announcement is in the future, yet the reported score is 1 and not 0: it is
the score the simple check of the embedded ping (signed at 2000000) left behind, although
that ping check only marks the announcement Expired.  With an embedded ping signed in the
past the same two rejections report 0.  The same score is left behind when the simple
check accepts, and `CEnodeBroadcast::CheckOutpoint`, which returns false for the node's own
announcement without setting the score, then reports that 1 as well. -/
theorem C23_dos_score_leak :
    sampleOutdatedBroadcast.mn.sigTime ≤ sampleAnnounceEnv.GetAdjustedTime + 60 * 60 ∧
    sampleOutdatedBroadcast.mn.nProtocolVersion < GetMinEnodePaymentsProto sampleAnnounceEnv ∧
    (sampleOutdatedBroadcast.SimpleCheck sampleAnnounceEnv).ok = false ∧
    (sampleOutdatedBroadcast.SimpleCheck sampleAnnounceEnv).nDos = 1 ∧
    sampleWrongPortBroadcast.mn.sigTime ≤ sampleAnnounceEnv.GetAdjustedTime + 60 * 60 ∧
    sampleWrongPortBroadcast.mn.addr.port ≠ sampleAnnounceEnv.mainnetDefaultPort ∧
    (sampleWrongPortBroadcast.SimpleCheck sampleAnnounceEnv).ok = false ∧
    (sampleWrongPortBroadcast.SimpleCheck sampleAnnounceEnv).nDos = 1 ∧
    ((CEnodeBroadcast.ofEnode { sampleOutdatedBroadcast.mn with
        lastPing := samplePing 17 900 }).SimpleCheck sampleAnnounceEnv).nDos = 0 ∧
    ((CEnodeBroadcast.ofEnode { sampleWrongPortBroadcast.mn with
        lastPing := samplePing 17 900 }).SimpleCheck sampleAnnounceEnv).nDos = 0 ∧
    (sampleFuturePingBroadcast.SimpleCheck sampleOwnAnnounceEnv).ok = true ∧
    (sampleFuturePingBroadcast.SimpleCheck sampleOwnAnnounceEnv).nDos = 1 ∧
    ((sampleFuturePingBroadcast.SimpleCheck sampleOwnAnnounceEnv).mnb.CheckOutpoint
      sampleOwnAnnounceEnv CEnodeMan.empty
      (sampleFuturePingBroadcast.SimpleCheck sampleOwnAnnounceEnv).nDos).ok = false ∧
    ((sampleFuturePingBroadcast.SimpleCheck sampleOwnAnnounceEnv).mnb.CheckOutpoint
      sampleOwnAnnounceEnv CEnodeMan.empty
      (sampleFuturePingBroadcast.SimpleCheck sampleOwnAnnounceEnv).nDos).nDos = 1 := by
  refine ⟨by decide, by decide, by decide, by decide, by decide, by decide, by decide,
    by decide, by decide, by decide, by decide, by decide, by decide, by decide⟩

/-! ## Enodes that share an address -/

/-- The scan skips the pointers to records that are neither enabled nor pre-enabled. -/
theorem CEnodeMan.sameAddrStep_skip (l : List (Nat × CEnode)) (s : SameAddrScan) :
    l.foldl CEnodeMan.sameAddrStep s =
      (l.filter SameAddrScan.scanned).foldl CEnodeMan.sameAddrStep s := by
  induction l generalizing s with
  | nil => rfl
  | cons p rest ih =>
    by_cases hp : SameAddrScan.scanned p = true
    · rw [List.filter_cons_of_pos hp, List.foldl_cons, List.foldl_cons]
      exact ih _
    · rw [List.filter_cons_of_neg hp, List.foldl_cons, ← ih]
      have hs : CEnodeMan.sameAddrStep s p = s := by
        unfold CEnodeMan.sameAddrStep
        rw [if_pos]
        unfold SameAddrScan.scanned at hp
        simpa using hp
      rw [hs]

/-- The step for a scanned pointer when there is no previous pointer or the previous pointer
has another address. -/
theorem CEnodeMan.sameAddrStep_first (s : SameAddrScan) (p : Nat × CEnode)
    (hp : SameAddrScan.scanned p = true)
    (hs : ∀ q, s.pprevEnode = some q → p.2.addr ≠ q.2.addr) :
    CEnodeMan.sameAddrStep s p =
      { pprevEnode := some p
        pverifiedEnode := if p.2.IsPoSeVerified then some p else none
        vBan := s.vBan } := by
  unfold CEnodeMan.sameAddrStep
  have hp2 : ¬ ((!p.2.IsEnabled && !p.2.IsPreEnabled) = true) := by
    unfold SameAddrScan.scanned at hp
    cases h1 : p.2.IsEnabled <;> cases h2 : p.2.IsPreEnabled <;> simp_all
  rw [if_neg hp2]
  cases hq : s.pprevEnode with
  | none => rfl
  | some q =>
    simp only []
    rw [if_neg (hs q hq)]

/-- The step for a scanned pointer with the address of the previous pointer. -/
theorem CEnodeMan.sameAddrStep_same (s : SameAddrScan) (p q : Nat × CEnode)
    (hp : SameAddrScan.scanned p = true) (hq : s.pprevEnode = some q)
    (ha : p.2.addr = q.2.addr) :
    CEnodeMan.sameAddrStep s p =
      (match s.pverifiedEnode with
        | some pverified =>
          { pprevEnode := some p, pverifiedEnode := some pverified, vBan := s.vBan ++ [p.1] }
        | none =>
          if p.2.IsPoSeVerified then
            { pprevEnode := some p, pverifiedEnode := some p, vBan := s.vBan ++ [q.1] }
          else { pprevEnode := some p, pverifiedEnode := none, vBan := s.vBan }) := by
  unfold CEnodeMan.sameAddrStep
  have hp2 : ¬ ((!p.2.IsEnabled && !p.2.IsPreEnabled) = true) := by
    unfold SameAddrScan.scanned at hp
    cases h1 : p.2.IsEnabled <;> cases h2 : p.2.IsPreEnabled <;> simp_all
  rw [if_neg hp2, hq]
  simp only []
  rw [if_pos ha]

/-- Once a verified pointer is held, every further pointer with the same address is
collected. -/
theorem CEnodeMan.sameAddr_after_verified (a : CService) (l : List (Nat × CEnode)) :
    ∀ (s : SameAddrScan) (q v : Nat × CEnode),
    (∀ p ∈ l, SameAddrScan.scanned p = true ∧ p.2.addr = a) →
    s.pprevEnode = some q → q.2.addr = a → s.pverifiedEnode = some v →
    (l.foldl CEnodeMan.sameAddrStep s).vBan = s.vBan ++ l.map Prod.fst ∧
    (l.foldl CEnodeMan.sameAddrStep s).pprevEnode = some ((q :: l).getLast (by simp)) := by
  induction l with
  | nil =>
    intro s q v _ hq _ _
    simp [hq]
  | cons p rest ih =>
    intro s q v hl hq hqa hv
    have hp := hl p (List.mem_cons_self _ _)
    have hstep := CEnodeMan.sameAddrStep_same s p q hp.1 hq (by rw [hp.2, hqa])
    rw [hv] at hstep
    simp only [] at hstep
    rw [List.foldl_cons, hstep]
    have h := ih { pprevEnode := some p, pverifiedEnode := some v, vBan := s.vBan ++ [p.1] }
      p v (fun x hx => hl x (List.mem_cons_of_mem _ hx)) rfl hp.2 rfl
    refine ⟨?_, ?_⟩
    · rw [h.1]
      simp
    · rw [h.2]
      simp [List.getLast_cons]

/-- While no pointer of the run is verified nothing is collected. -/
theorem CEnodeMan.sameAddr_none_verified (a : CService) (l : List (Nat × CEnode)) :
    ∀ (s : SameAddrScan) (q : Nat × CEnode),
    (∀ p ∈ l, SameAddrScan.scanned p = true ∧ p.2.addr = a ∧ p.2.IsPoSeVerified = false) →
    s.pprevEnode = some q → q.2.addr = a → s.pverifiedEnode = none →
    l.foldl CEnodeMan.sameAddrStep s =
      { pprevEnode := some ((q :: l).getLast (by simp)), pverifiedEnode := none,
        vBan := s.vBan } := by
  induction l with
  | nil =>
    intro s q _ hq _ hv
    cases s
    simp only [] at hq hv
    simp [hq, hv]
  | cons p rest ih =>
    intro s q hl hq hqa hv
    have hp := hl p (List.mem_cons_self _ _)
    have hstep := CEnodeMan.sameAddrStep_same s p q hp.1 hq (by rw [hp.2.1, hqa])
    rw [hv] at hstep
    simp only [hp.2.2, Bool.false_eq_true, if_false] at hstep
    rw [List.foldl_cons, hstep]
    rw [ih { pprevEnode := some p, pverifiedEnode := none, vBan := s.vBan }
      p (fun x hx => hl x (List.mem_cons_of_mem _ hx)) rfl hp.2.1 rfl]
    simp [List.getLast_cons]

/-- The step for a scanned pointer makes it the previous pointer. -/
theorem CEnodeMan.sameAddrStep_pprev (s : SameAddrScan) (p : Nat × CEnode)
    (hsc : SameAddrScan.scanned p = true) :
    (CEnodeMan.sameAddrStep s p).pprevEnode = some p := by
  cases hq : s.pprevEnode with
  | none =>
    rw [CEnodeMan.sameAddrStep_first s p hsc (by rw [hq]; intro q h; cases h)]
  | some q =>
    by_cases ha : p.2.addr = q.2.addr
    · rw [CEnodeMan.sameAddrStep_same s p q hsc hq ha]
      cases s.pverifiedEnode with
      | some v => rfl
      | none =>
        simp only []
        split_ifs <;> rfl
    · rw [CEnodeMan.sameAddrStep_first s p hsc (by
        rw [hq]
        intro q2 h
        rw [← Option.some.inj h]
        exact ha)]

/-- After a non-empty run of scanned pointers the previous pointer is the last of the run. -/
theorem CEnodeMan.sameAddr_pprev (l : List (Nat × CEnode)) :
    ∀ (s : SameAddrScan) (x : Nat × CEnode), (∀ p ∈ l, SameAddrScan.scanned p = true) →
    l.getLast? = some x → (l.foldl CEnodeMan.sameAddrStep s).pprevEnode = some x := by
  induction l with
  | nil =>
    intro s x _ h
    cases h
  | cons p rest ih =>
    intro s x hl hx
    rw [List.foldl_cons]
    cases rest with
    | nil =>
      simp only [List.getLast?_singleton, Option.some.injEq] at hx
      rw [← hx]
      exact CEnodeMan.sameAddrStep_pprev s p (hl p (List.mem_cons_self _ _))
    | cons y ys =>
      rw [List.getLast?_cons_cons] at hx
      exact ih _ x (fun z hz => hl z (List.mem_cons_of_mem _ hz)) hx

/-- The pointers a run of the scan collects are pointers of the run, or the previous
pointer when the run starts at its address. -/
theorem CEnodeMan.sameAddr_collected (l : List (Nat × CEnode)) :
    ∀ (s : SameAddrScan), (∀ p ∈ l, SameAddrScan.scanned p = true) →
    ∃ e, (l.foldl CEnodeMan.sameAddrStep s).vBan = s.vBan ++ e ∧
      ∀ i ∈ e, i ∈ l.map Prod.fst ∨
        ∃ q p, s.pprevEnode = some q ∧ l.head? = some p ∧ p.2.addr = q.2.addr ∧ i = q.1 := by
  induction l with
  | nil =>
    intro s _
    exact ⟨[], by simp, by simp⟩
  | cons p rest ih =>
    intro s hl
    have hsc := hl p (List.mem_cons_self _ _)
    obtain ⟨e, he, hmem⟩ := ih (CEnodeMan.sameAddrStep s p)
      (fun x hx => hl x (List.mem_cons_of_mem _ hx))
    have hpp : (CEnodeMan.sameAddrStep s p).pprevEnode = some p :=
      CEnodeMan.sameAddrStep_pprev s p hsc
    have hstep : ∃ e1, (CEnodeMan.sameAddrStep s p).vBan = s.vBan ++ e1 ∧
        ∀ i ∈ e1, i = p.1 ∨ ∃ q, s.pprevEnode = some q ∧ p.2.addr = q.2.addr ∧ i = q.1 := by
      cases hq : s.pprevEnode with
      | none =>
        rw [CEnodeMan.sameAddrStep_first s p hsc (by rw [hq]; intro q h; cases h)]
        exact ⟨[], by simp, by simp⟩
      | some q =>
        by_cases ha : p.2.addr = q.2.addr
        · rw [CEnodeMan.sameAddrStep_same s p q hsc hq ha]
          cases s.pverifiedEnode with
          | some v =>
            exact ⟨[p.1], rfl, by simp⟩
          | none =>
            simp only []
            split_ifs
            · exact ⟨[q.1], rfl, by
                intro i hi
                right
                exact ⟨q, rfl, ha, by simpa using hi⟩⟩
            · exact ⟨[], by simp, by simp⟩
        · rw [CEnodeMan.sameAddrStep_first s p hsc (by
            rw [hq]
            intro q2 h
            rw [← Option.some.inj h]
            exact ha)]
          exact ⟨[], by simp, by simp⟩
    obtain ⟨e1, he1, hmem1⟩ := hstep
    refine ⟨e1 ++ e, ?_, ?_⟩
    · rw [List.foldl_cons, he, he1, List.append_assoc]
    · intro i hi
      rcases List.mem_append.mp hi with h | h
      · rcases hmem1 i h with h1 | ⟨q, h1, h2, h3⟩
        · left
          rw [h1]
          simp
        · right
          exact ⟨q, p, h1, rfl, h2, h3⟩
      · rcases hmem i h with h1 | ⟨q, p2, h1, _, _, h4⟩
        · left
          simp only [List.map_cons, List.mem_cons]
          right
          exact h1
        · left
          rw [hpp] at h1
          rw [h4, ← Option.some.inj h1]
          simp

/-- The pointers collected from one cluster: none when no member is verified; otherwise the
member just before the first verified member and every member after it. -/
theorem CEnodeMan.sameAddr_cluster (a : CService) (c : List (Nat × CEnode))
    (s : SameAddrScan)
    (hc : ∀ p ∈ c, SameAddrScan.scanned p = true ∧ p.2.addr = a)
    (hs : ∀ q, s.pprevEnode = some q → q.2.addr ≠ a) :
    ((∀ p ∈ c, p.2.IsPoSeVerified = false) →
      (c.foldl CEnodeMan.sameAddrStep s).vBan = s.vBan) ∧
    (∀ before v after, c = before ++ v :: after →
      (∀ p ∈ before, p.2.IsPoSeVerified = false) → v.2.IsPoSeVerified = true →
      (c.foldl CEnodeMan.sameAddrStep s).vBan =
        s.vBan ++ ((before.getLast?.map Prod.fst).toList ++ after.map Prod.fst)) := by
  constructor
  · intro hnone
    cases c with
    | nil => rfl
    | cons x rest =>
      have hx := hc x (List.mem_cons_self _ _)
      rw [List.foldl_cons, CEnodeMan.sameAddrStep_first s x hx.1 (by
        intro q hq
        rw [hx.2]
        exact Ne.symm (hs q hq))]
      rw [hnone x (List.mem_cons_self _ _)]
      simp only [Bool.false_eq_true, if_false]
      rw [CEnodeMan.sameAddr_none_verified a rest _ x (fun p hp =>
        ⟨(hc p (List.mem_cons_of_mem _ hp)).1, (hc p (List.mem_cons_of_mem _ hp)).2,
          hnone p (List.mem_cons_of_mem _ hp)⟩) rfl hx.2 rfl]
  · intro before v after hdec hbefore hv
    subst hdec
    cases before with
    | nil =>
      have hx := hc v (by simp)
      rw [List.nil_append, List.foldl_cons, CEnodeMan.sameAddrStep_first s v hx.1 (by
        intro q hq
        rw [hx.2]
        exact Ne.symm (hs q hq))]
      rw [hv]
      simp only [if_true]
      rw [(CEnodeMan.sameAddr_after_verified a after _ v v (fun p hp => hc p (by simp [hp]))
        rfl hx.2 rfl).1]
      simp
    | cons x b =>
      have hx := hc x (by simp)
      have hvc := hc v (by simp)
      rw [List.cons_append, List.foldl_cons, CEnodeMan.sameAddrStep_first s x hx.1 (by
        intro q hq
        rw [hx.2]
        exact Ne.symm (hs q hq))]
      rw [hbefore x (List.mem_cons_self _ _)]
      simp only [Bool.false_eq_true, if_false]
      rw [List.foldl_append, CEnodeMan.sameAddr_none_verified a b _ x (fun p hp =>
        ⟨(hc p (by simp [hp])).1, (hc p (by simp [hp])).2,
          hbefore p (List.mem_cons_of_mem _ hp)⟩) rfl hx.2 rfl]
      have hlast : ((x :: b).getLast (by simp)).2.addr = a := by
        have hm : (x :: b).getLast (by simp) ∈ x :: b := List.getLast_mem _
        exact (hc _ (by
          rcases List.mem_cons.mp hm with h | h
          · rw [h]; simp
          · simp [h])).2
      rw [List.foldl_cons, CEnodeMan.sameAddrStep_same _ v ((x :: b).getLast (by simp)) hvc.1 rfl
        (by rw [hvc.2, hlast])]
      simp only [hv, if_true]
      rw [(CEnodeMan.sameAddr_after_verified a after _ v v (fun p hp => hc p (by simp [hp]))
        rfl hvc.2 rfl).1]
      rw [List.getLast?_eq_getLast _ (by simp)]
      simp

theorem CService.lt_lex (a b : CService) :
    CService.lt a b = true ↔ (a.ip < b.ip ∨ (a.ip = b.ip ∧ a.port < b.port)) := by
  unfold CService.lt
  simp

theorem addrNotAfter_iff (x y : Nat × CEnode) :
    addrNotAfter x y ↔ (x.2.addr.ip < y.2.addr.ip ∨
      (x.2.addr.ip = y.2.addr.ip ∧ x.2.addr.port ≤ y.2.addr.port)) := by
  unfold addrNotAfter CompareByAddr
  rw [Bool.eq_false_iff, Ne, CService.lt_lex]
  omega

instance addrNotAfter.isTotal : IsTotal (Nat × CEnode) addrNotAfter :=
  ⟨fun x y => by
    rw [addrNotAfter_iff, addrNotAfter_iff]
    omega⟩

instance addrNotAfter.isTrans : IsTrans (Nat × CEnode) addrNotAfter :=
  ⟨fun x y z => by
    rw [addrNotAfter_iff, addrNotAfter_iff, addrNotAfter_iff]
    omega⟩

/-- Two pointers that are not after one another in either direction have the same address. -/
theorem addrNotAfter_antisymm (x y : Nat × CEnode) (h1 : addrNotAfter x y)
    (h2 : addrNotAfter y x) : x.2.addr = y.2.addr := by
  rw [addrNotAfter_iff] at h1 h2
  cases hx : x.2.addr with
  | mk i1 p1 =>
    cases hy : y.2.addr with
    | mk i2 p2 =>
      rw [hx, hy] at h1 h2
      simp only at h1 h2
      have e1 : i1 = i2 := by omega
      have e2 : p1 = p2 := by omega
      rw [e1, e2]

/-- In a vector sorted by address the pointers with one address stand together. -/
theorem addr_sorted_split (a : CService) (l : List (Nat × CEnode))
    (h : l.Pairwise addrNotAfter) :
    ∃ pre post, l = pre ++ l.filter (fun p => decide (p.2.addr = a)) ++ post ∧
      (∀ x ∈ pre, x.2.addr ≠ a) ∧ (∀ x ∈ post, x.2.addr ≠ a) := by
  induction l with
  | nil => exact ⟨[], [], rfl, by simp, by simp⟩
  | cons x rest ih =>
    rw [List.pairwise_cons] at h
    obtain ⟨pre, post, hdec, hpre, hpost⟩ := ih h.2
    by_cases hx : x.2.addr = a
    · rw [List.filter_cons_of_pos (by simpa using hx)]
      by_cases hf : rest.filter (fun p => decide (p.2.addr = a)) = []
      · refine ⟨[], rest, ?_, by simp, ?_⟩
        · rw [hf]
          rfl
        · intro y hy hya
          have : y ∈ rest.filter (fun p => decide (p.2.addr = a)) :=
            List.mem_filter.mpr ⟨hy, by simpa using hya⟩
          rw [hf] at this
          exact absurd this (List.not_mem_nil _)
      · have hpre0 : pre = [] := by
          cases pre with
          | nil => rfl
          | cons y ys =>
            exfalso
            obtain ⟨z, hz⟩ := List.exists_mem_of_ne_nil _ hf
            have hza : z.2.addr = a := by
              simpa using (List.mem_filter.mp hz).2
            have hyr : y ∈ rest := by
              rw [hdec]
              simp
            have hxy : addrNotAfter x y := h.1 y hyr
            have hyz : addrNotAfter y z := by
              have hp := h.2
              rw [hdec, List.append_assoc, List.pairwise_append] at hp
              exact hp.2.2 y (List.mem_cons_self _ _) z (List.mem_append_left _ hz)
            have hzx : addrNotAfter z x := by
              rw [addrNotAfter_iff, hza, hx]
              omega
            have hyx : addrNotAfter y x := Trans.trans hyz hzx
            have := addrNotAfter_antisymm x y hxy hyx
            exact hpre y (List.mem_cons_self _ _) (by rw [← this, hx])
        refine ⟨[], post, ?_, by simp, hpost⟩
        rw [hpre0] at hdec
        simp only [List.nil_append] at hdec ⊢
        rw [List.cons_append, ← hdec]
    · rw [List.filter_cons_of_neg (by simpa using hx)]
      refine ⟨x :: pre, post, ?_, ?_, hpost⟩
      · rw [List.cons_append, List.cons_append, ← hdec]
      · intro y hy
        rcases List.mem_cons.mp hy with h1 | h1
        · rw [h1]
          exact hx
        · exact hpre y h1

theorem CEnodeMan.increaseAt_getElem? (l : List CEnode) :
    ∀ (j i : Nat), (CEnodeMan.increaseAt l j)[i]? =
      if i = j then l[i]?.map CEnode.IncreasePoSeBanScore else l[i]? := by
  induction l with
  | nil =>
    intro j i
    simp [CEnodeMan.increaseAt]
  | cons mn rest ih =>
    intro j i
    cases j with
    | zero =>
      cases i with
      | zero => simp [CEnodeMan.increaseAt]
      | succ i => simp [CEnodeMan.increaseAt]
    | succ j =>
      cases i with
      | zero => simp [CEnodeMan.increaseAt]
      | succ i =>
        simp only [CEnodeMan.increaseAt, List.getElem?_cons_succ, ih j i]
        simp

/-- The record behind a pointer after the banning loop: `IncreasePoSeBanScore` was called on
it once for each time the pointer was collected. -/
theorem CEnodeMan.increaseAt_foldl (bans : List Nat) :
    ∀ (l : List CEnode) (i : Nat), (bans.foldl CEnodeMan.increaseAt l)[i]? =
      l[i]?.map (CEnode.IncreasePoSeBanScore^[bans.count i]) := by
  induction bans with
  | nil =>
    intro l i
    simp
  | cons j rest ih =>
    intro l i
    rw [List.foldl_cons, ih, CEnodeMan.increaseAt_getElem?]
    by_cases hij : i = j
    · rw [if_pos hij, hij, List.count_cons_self, Function.iterate_succ]
      cases l[j]? <;> simp
    · rw [if_neg hij, List.count_cons_of_ne hij]

/-- The pointers of the sorted vector are the positions of the enode vector, each once. -/
theorem CEnodeMan.sameAddr_pointers (man : CEnodeMan) (vs : List (Nat × CEnode))
    (hvs : man.IsSortedByAddr vs) :
    ((vs.filter SameAddrScan.scanned).map
        Prod.fst).Nodup ∧
    (∀ p, p ∈ vs.filter SameAddrScan.scanned ↔
      (man.vEnodes[p.1]? = some p.2 ∧ SameAddrScan.scanned p = true)) := by
  have hperm := hvs.1
  constructor
  · have h1 : (vs.map Prod.fst).Nodup := by
      rw [(hperm.map Prod.fst).nodup_iff, List.enum_map_fst]
      exact List.nodup_range _
    exact List.Nodup.sublist (List.Sublist.map _ (List.filter_sublist _)) h1
  · intro p
    rw [List.mem_filter, hperm.mem_iff, List.mem_enum_iff_getElem?]

/-- What the scan of `CheckSameAddr` collects, seen from the cluster at one address: the
pointers collected before and after the cluster are not pointers of the cluster, and the
pointers collected from the cluster are none when no member is verified, and otherwise the
member just before the first verified member and every member after it. -/
theorem CEnodeMan.sameAddr_scan (man : CEnodeMan) (vs : List (Nat × CEnode))
    (hvs : man.IsSortedByAddr vs) (a : CService) :
    ∃ ePre B ePost,
      (vs.foldl CEnodeMan.sameAddrStep
        { pprevEnode := none, pverifiedEnode := none, vBan := [] }).vBan = ePre ++ B ++ ePost ∧
      (∀ p ∈ CEnodeMan.sameAddrCluster vs a, p.1 ∉ ePre ∧ p.1 ∉ ePost) ∧
      ((∀ p ∈ CEnodeMan.sameAddrCluster vs a, p.2.IsPoSeVerified = false) → B = []) ∧
      (∀ before v after, CEnodeMan.sameAddrCluster vs a = before ++ v :: after →
        (∀ p ∈ before, p.2.IsPoSeVerified = false) → v.2.IsPoSeVerified = true →
        B = (before.getLast?.map Prod.fst).toList ++ after.map Prod.fst) := by
  rw [CEnodeMan.sameAddrStep_skip]
  unfold CEnodeMan.sameAddrCluster
  obtain ⟨hnd, hmem⟩ := CEnodeMan.sameAddr_pointers man vs hvs
  have hsorted : (vs.filter
      SameAddrScan.scanned).Pairwise addrNotAfter :=
    List.Pairwise.filter _ hvs.2
  generalize vs.filter SameAddrScan.scanned
    = A at hnd hmem hsorted ⊢
  have hscA : ∀ p ∈ A, SameAddrScan.scanned p = true := fun p hp => ((hmem p).mp hp).2
  obtain ⟨pre, post, hdec, hpre, hpost⟩ := addr_sorted_split a A hsorted
  generalize hcdef : A.filter (fun p => decide (p.2.addr = a)) = c at hdec ⊢
  have hcA : ∀ p ∈ c, p ∈ A ∧ p.2.addr = a := by
    intro p hp
    rw [← hcdef] at hp
    have := List.mem_filter.mp hp
    exact ⟨this.1, by simpa using this.2⟩
  by_cases hc : c = []
  · refine ⟨(A.foldl CEnodeMan.sameAddrStep
        { pprevEnode := none, pverifiedEnode := none, vBan := [] }).vBan, [], [], by simp, ?_,
      fun _ => rfl, ?_⟩
    · intro p hp
      rw [hc] at hp
      exact absurd hp (List.not_mem_nil _)
    · intro before v after h
      rw [hc] at h
      exact absurd h (by simp)
  · have hpreA : ∀ p ∈ pre, p ∈ A := fun p hp => by
      rw [hdec]
      simp [hp]
    have hpostA : ∀ p ∈ post, p ∈ A := fun p hp => by
      rw [hdec]
      simp [hp]
    rw [hdec, List.foldl_append, List.foldl_append]
    obtain ⟨e1, he1, hm1⟩ := CEnodeMan.sameAddr_collected pre
      { pprevEnode := none, pverifiedEnode := none, vBan := [] }
      (fun p hp => hscA p (hpreA p hp))
    have hsub1 : ∀ i ∈ e1, i ∈ pre.map Prod.fst := by
      intro i hi
      rcases hm1 i hi with h | ⟨q, _, h, _⟩
      · exact h
      · cases h
    have hspre : ∀ q, (pre.foldl CEnodeMan.sameAddrStep
        { pprevEnode := none, pverifiedEnode := none, vBan := [] }).pprevEnode = some q →
        q.2.addr ≠ a := by
      intro q hq
      cases hl : pre.getLast? with
      | none =>
        rw [List.getLast?_eq_none_iff] at hl
        rw [hl] at hq
        cases hq
      | some x =>
        rw [CEnodeMan.sameAddr_pprev pre _ x (fun p hp => hscA p (hpreA p hp)) hl] at hq
        rw [← Option.some.inj hq]
        exact hpre x (List.mem_of_getLast?_eq_some hl)
    generalize pre.foldl CEnodeMan.sameAddrStep
      { pprevEnode := none, pverifiedEnode := none, vBan := [] } = sPre at he1 hspre ⊢
    have hcl := CEnodeMan.sameAddr_cluster a c sPre
      (fun p hp => ⟨hscA p (hcA p hp).1, (hcA p hp).2⟩) hspre
    obtain ⟨B, hB, _⟩ := CEnodeMan.sameAddr_collected c sPre
      (fun p hp => hscA p (hcA p hp).1)
    have hlastc : ∃ x, c.getLast? = some x ∧ x.2.addr = a := by
      cases hl : c.getLast? with
      | none =>
        rw [List.getLast?_eq_none_iff] at hl
        exact absurd hl hc
      | some x => exact ⟨x, rfl, (hcA x (List.mem_of_getLast?_eq_some hl)).2⟩
    obtain ⟨x, hx, hxa⟩ := hlastc
    have hpc := CEnodeMan.sameAddr_pprev c sPre x (fun p hp => hscA p (hcA p hp).1) hx
    obtain ⟨e3, he3, hm3⟩ := CEnodeMan.sameAddr_collected post
      (c.foldl CEnodeMan.sameAddrStep sPre) (fun p hp => hscA p (hpostA p hp))
    have hsub3 : ∀ i ∈ e3, i ∈ post.map Prod.fst := by
      intro i hi
      rcases hm3 i hi with h | ⟨q, p, h1, h2, h3, _⟩
      · exact h
      · exfalso
        rw [hpc] at h1
        have hp : p ∈ post := List.mem_of_mem_head? h2
        apply hpost p hp
        rw [h3, ← Option.some.inj h1, hxa]
    have hndA : (pre.map Prod.fst ++ c.map Prod.fst ++ post.map Prod.fst).Nodup := by
      rw [hdec] at hnd
      simpa using hnd
    refine ⟨e1, B, e3, ?_, ?_, ?_, ?_⟩
    · rw [he3, hB, he1]
      simp
    · intro p hp
      have hpc1 : p.1 ∈ c.map Prod.fst := List.mem_map_of_mem _ hp
      rw [List.nodup_append, List.nodup_append] at hndA
      constructor
      · intro h
        exact hndA.1.2.2 (hsub1 _ h) hpc1
      · intro h
        exact hndA.2.2 (List.mem_append_right _ hpc1) (hsub3 _ h)
    · intro hnone
      have h := hcl.1 hnone
      rw [hB] at h
      exact (List.append_right_eq_self.mp h)
    · intro before v after hd hb hv
      have h := hcl.2 before v after hd hb hv
      rw [hB] at h
      exact List.append_cancel_left h

/-- How often each member of a cluster is among the pointers collected from it. -/
theorem CEnodeMan.sameAddr_counts (before after : List (Nat × CEnode)) (v : Nat × CEnode)
    (hnd : ((before ++ v :: after).map Prod.fst).Nodup) :
    (∀ p ∈ after,
      ((before.getLast?.map Prod.fst).toList ++ after.map Prod.fst).count p.1 = 1) ∧
    (∀ p, before.getLast? = some p →
      ((before.getLast?.map Prod.fst).toList ++ after.map Prod.fst).count p.1 = 1) ∧
    (∀ p ∈ before.dropLast,
      ((before.getLast?.map Prod.fst).toList ++ after.map Prod.fst).count p.1 = 0) ∧
    ((before.getLast?.map Prod.fst).toList ++ after.map Prod.fst).count v.1 = 0 := by
  rcases List.eq_nil_or_concat before with hb | ⟨L, b, hb⟩
  · subst hb
    simp only [List.nil_append, List.map_cons, List.nodup_cons] at hnd
    refine ⟨fun p hp => ?_, fun p hp => ?_, fun p hp => ?_, ?_⟩
    · exact List.count_eq_one_of_mem (by simpa using hnd.2)
        (by simpa using List.mem_map_of_mem Prod.fst hp)
    · simp at hp
    · simp at hp
    · exact List.count_eq_zero_of_not_mem (by simpa using hnd.1)
  · rw [List.concat_eq_append] at hb
    subst hb
    have hB : (((L ++ [b]).getLast?.map Prod.fst).toList ++ after.map Prod.fst) =
        b.1 :: after.map Prod.fst := by
      simp
    rw [hB]
    have hnd2 : (L.map Prod.fst ++ (b.1 :: v.1 :: after.map Prod.fst)).Nodup := by
      simpa using hnd
    rw [List.nodup_append] at hnd2
    obtain ⟨_, hnd3, hdis⟩ := hnd2
    have hnd4 : (b.1 :: after.map Prod.fst).Nodup := by
      rw [List.nodup_cons] at hnd3 ⊢
      rw [List.nodup_cons] at hnd3
      exact ⟨fun h => hnd3.1 (List.mem_cons_of_mem _ h), hnd3.2.2⟩
    refine ⟨fun p hp => ?_, fun p hp => ?_, fun p hp => ?_, ?_⟩
    · exact List.count_eq_one_of_mem hnd4
        (List.mem_cons_of_mem _ (List.mem_map_of_mem _ hp))
    · have : p = b := by
        simpa using hp.symm
      rw [this]
      exact List.count_eq_one_of_mem hnd4 (List.mem_cons_self _ _)
    · rw [List.dropLast_concat] at hp
      apply List.count_eq_zero_of_not_mem
      intro h
      have h1 : p.1 ∈ L.map Prod.fst := List.mem_map_of_mem _ hp
      apply hdis h1
      rcases List.mem_cons.mp h with h2 | h2
      · rw [h2]
        exact List.mem_cons_self _ _
      · exact List.mem_cons_of_mem _ (List.mem_cons_of_mem _ h2)
    · apply List.count_eq_zero_of_not_mem
      intro h
      rw [List.nodup_cons, List.nodup_cons] at hnd3
      rcases List.mem_cons.mp h with h2 | h2
      · apply hnd3.1
        rw [← h2]
        exact List.mem_cons_self _ _
      · exact hnd3.2.1 h2

/-- An arrangement of two things is one of the two orders. -/
theorem perm_pair_cases {α : Type} (a b : α) (v : List α) (h : v.Perm [a, b]) :
    v = [a, b] ∨ v = [b, a] := by
  have hl := h.length_eq
  match v, h, hl with
  | [x, y], h, _ =>
    have hx : x ∈ [a, b] := h.subset (List.mem_cons_self _ _)
    rcases List.mem_cons.mp hx with rfl | hx
    · left
      have := List.perm_singleton.mp ((List.perm_cons x).mp h)
      rw [this]
    · have hxb : x = b := List.mem_singleton.mp hx
      subst hxb
      right
      have h2 : [x, y].Perm [x, a] := h.trans (List.Perm.swap _ _ _)
      have := List.perm_singleton.mp ((List.perm_cons x).mp h2)
      rw [this]

/-- Claim C24 (amended).  When the node is synced, one run of `CEnodeMan::CheckSameAddr`
treats the cluster of the Enabled and PreEnabled enodes that share the address `a`, taken in
the order they have in the vector sorted by address, whichever arrangement of the records
with equal addresses the call of `sort` leaves, as follows.  If no member of the cluster is
PoSe-verified it changes no member.  Otherwise it calls `IncreasePoSeBanScore` once on every
member that stands after the first PoSe-verified member and on the member that stands just
before it, and changes no other member of the cluster; `IncreasePoSeBanScore` adds 1 to a
score below 5 and leaves the score 5 as it is. -/
theorem C24_check_same_addr (env : Env) (man : CEnodeMan) (a : CService)
    (vs : List (Nat × CEnode)) (hsync : env.IsSynced = true) (hvs : man.IsSortedByAddr vs) :
    (∀ p, p ∈ CEnodeMan.sameAddrCluster vs a ↔
      (man.vEnodes[p.1]? = some p.2 ∧ (p.2.IsEnabled = true ∨ p.2.IsPreEnabled = true) ∧
        p.2.addr = a)) ∧
    ((∀ p ∈ CEnodeMan.sameAddrCluster vs a, p.2.IsPoSeVerified = false) →
      ∀ p ∈ CEnodeMan.sameAddrCluster vs a, (man.CheckSameAddr env vs).vEnodes[p.1]? = some p.2) ∧
    (∀ before v after, CEnodeMan.sameAddrCluster vs a = before ++ v :: after →
      (∀ p ∈ before, p.2.IsPoSeVerified = false) → v.2.IsPoSeVerified = true →
      (∀ p ∈ after,
        (man.CheckSameAddr env vs).vEnodes[p.1]? = some p.2.IncreasePoSeBanScore) ∧
      (∀ p, before.getLast? = some p →
        (man.CheckSameAddr env vs).vEnodes[p.1]? = some p.2.IncreasePoSeBanScore) ∧
      (∀ p ∈ before.dropLast, (man.CheckSameAddr env vs).vEnodes[p.1]? = some p.2) ∧
      (man.CheckSameAddr env vs).vEnodes[v.1]? = some v.2) ∧
    (∀ mn : CEnode, mn.IncreasePoSeBanScore =
      if mn.nPoSeBanScore < 5 then { mn with nPoSeBanScore := mn.nPoSeBanScore + 1 } else mn) := by
  obtain ⟨hnd, hmem⟩ := CEnodeMan.sameAddr_pointers man vs hvs
  have hcl : ∀ p, p ∈ CEnodeMan.sameAddrCluster vs a ↔
      (man.vEnodes[p.1]? = some p.2 ∧ (p.2.IsEnabled = true ∨ p.2.IsPreEnabled = true) ∧
        p.2.addr = a) := by
    intro p
    unfold CEnodeMan.sameAddrCluster
    rw [List.mem_filter, hmem]
    unfold SameAddrScan.scanned
    simp only [Bool.or_eq_true, decide_eq_true_eq]
    tauto
  have hndc : ((CEnodeMan.sameAddrCluster vs a).map Prod.fst).Nodup :=
    List.Nodup.sublist (List.Sublist.map _ (List.filter_sublist _)) hnd
  obtain ⟨ePre, B, ePost, hscan, hout, hB0, hB1⟩ := CEnodeMan.sameAddr_scan man vs hvs a
  have hget : ∀ p ∈ CEnodeMan.sameAddrCluster vs a,
      (man.CheckSameAddr env vs).vEnodes[p.1]? = some (CEnode.IncreasePoSeBanScore^[B.count p.1] p.2) := by
    intro p hp
    have hL : man.vEnodes[p.1]? = some p.2 := ((hcl p).mp hp).1
    unfold CEnodeMan.CheckSameAddr
    by_cases he : (!env.IsSynced || man.vEnodes.isEmpty) = true
    · exfalso
      rw [hsync] at he
      simp only [Bool.not_true, Bool.false_or, List.isEmpty_iff] at he
      rw [he] at hL
      simp at hL
    · rw [if_neg he]
      simp only []
      rw [hscan, CEnodeMan.increaseAt_foldl, hL, List.count_append, List.count_append,
        List.count_eq_zero_of_not_mem (hout p hp).1,
        List.count_eq_zero_of_not_mem (hout p hp).2]
      simp
  refine ⟨hcl, ?_, ?_, ?_⟩
  · intro hnone p hp
    rw [hget p hp, hB0 hnone]
    simp
  · intro before v after hdec hb hv
    have hBv := hB1 before v after hdec hb hv
    rw [hdec] at hndc
    obtain ⟨c1, c2, c3, c4⟩ := CEnodeMan.sameAddr_counts before after v hndc
    have hin : ∀ p, p ∈ before ∨ p = v ∨ p ∈ after → p ∈ CEnodeMan.sameAddrCluster vs a := by
      intro p h
      rw [hdec]
      simp only [List.mem_append, List.mem_cons]
      tauto
    refine ⟨fun p hp => ?_, fun p hp => ?_, fun p hp => ?_, ?_⟩
    · rw [hget p (hin p (Or.inr (Or.inr hp))), hBv, c1 p hp]
      rfl
    · rw [hget p (hin p (Or.inl (List.mem_of_getLast?_eq_some hp))), hBv, c2 p hp]
      rfl
    · rw [hget p (hin p (Or.inl (List.dropLast_subset _ hp))), hBv, c3 p hp]
      rfl
    · rw [hget v (hin v (Or.inr (Or.inl rfl))), hBv, c4]
      rfl
  · intro mn
    rfl

/-- Witness for C24: four enabled enodes at `1.2.3.4`, the first in the sorted vector
PoSe-verified; one run calls `IncreasePoSeBanScore` on each of the other three, which brings
their scores from 0 to 1. -/
theorem C24_check_same_addr_witness :
    sampleEnv.IsSynced = true ∧
    sampleVerifiedFirstRegistry.IsSortedByAddr sampleVerifiedFirstRegistry.vEnodes.enum ∧
    CEnodeMan.sameAddrCluster sampleVerifiedFirstRegistry.vEnodes.enum
        { ip := 16909060, port := 8168 } =
      [] ++ (0, sampleAt1234 4 (-5)) ::
        [(1, sampleAt1234 1 0), (2, sampleAt1234 2 0), (3, sampleAt1234 3 0)] ∧
    (∀ p ∈ [(1, sampleAt1234 1 0), (2, sampleAt1234 2 0), (3, sampleAt1234 3 0)],
      (sampleVerifiedFirstRegistry.CheckSameAddr sampleEnv
        sampleVerifiedFirstRegistry.vEnodes.enum).vEnodes[p.1]? =
        some p.2.IncreasePoSeBanScore) ∧
    (sampleVerifiedFirstRegistry.CheckSameAddr sampleEnv
      sampleVerifiedFirstRegistry.vEnodes.enum).vEnodes.map
      (fun mn => mn.nPoSeBanScore) = [-5, 1, 1, 1] :=
  ⟨rfl, by decide, by decide,
    ((C24_check_same_addr sampleEnv sampleVerifiedFirstRegistry
      { ip := 16909060, port := 8168 } sampleVerifiedFirstRegistry.vEnodes.enum rfl
      (by decide)).2.2.1 [] (0, sampleAt1234 4 (-5))
      [(1, sampleAt1234 1 0), (2, sampleAt1234 2 0), (3, sampleAt1234 3 0)]
      (by decide) (by simp) (by decide)).1,
    by decide⟩

/-- Counterexample for C24 as stated: with the node synced, in a cluster of two enabled
enodes at `1.2.3.4` of which one is PoSe-verified and the other has the score 5, one run
leaves the score 5 as it is, in either of the two arrangements the sort can leave; and in a
cluster of four enabled enodes at `1.2.3.4` of which the one that stands last in the sorted
vector is PoSe-verified, one run increases the score of the third only and leaves the first
two at 0. -/
theorem C24_counterexample_not_every_member :
    sampleEnv.IsSynced = true ∧
    (∀ mn ∈ sampleCappedRegistry.vEnodes ++ sampleSameAddrRegistry.vEnodes,
      mn.IsEnabled = true ∧ mn.addr = { ip := 16909060, port := 8168 }) ∧
    sampleCappedRegistry.vEnodes.map (fun mn => (mn.nPoSeBanScore, mn.IsPoSeVerified)) =
      [(-5, true), (5, false)] ∧
    (∀ v, sampleCappedRegistry.IsSortedByAddr v →
      (sampleCappedRegistry.CheckSameAddr sampleEnv v).vEnodes.map
        (fun mn => mn.nPoSeBanScore) = [-5, 5]) ∧
    sampleSameAddrRegistry.vEnodes.map (fun mn => (mn.nPoSeBanScore, mn.IsPoSeVerified)) =
      [(0, false), (0, false), (0, false), (-5, true)] ∧
    sampleSameAddrRegistry.IsSortedByAddr sampleSameAddrRegistry.vEnodes.enum ∧
    (sampleSameAddrRegistry.CheckSameAddr sampleEnv
      sampleSameAddrRegistry.vEnodes.enum).vEnodes.map (fun mn => mn.nPoSeBanScore) =
      [0, 0, 1, -5] := by
  refine ⟨rfl, by decide, by decide, ?_, by decide, by decide, by decide⟩
  intro v hv
  rcases perm_pair_cases _ _ v hv.1 with h | h
  · rw [h]
    decide
  · rw [h]
    decide

/-! ## Verification broadcasts -/

/-- Whenever `ProcessVerifyBroadcast` does not relay the message it leaves every record of
the registry as it is. -/
theorem CEnodeMan.ProcessVerifyBroadcast_not_relayed (env : Env) (man : CEnodeMan)
    (mnv : CEnodeVerification) (r : VerifyBroadcastResult)
    (h : man.ProcessVerifyBroadcast env mnv = some r) (hr : r.fRelayed = false) :
    r.man.vEnodes = man.vEnodes := by
  unfold CEnodeMan.ProcessVerifyBroadcast at h
  simp only [] at h
  repeat (any_goals (split at h))
  all_goals first
    | (simp only [Option.some.injEq] at h
       rw [← h]
       done)
    | (simp only [Option.some.injEq] at h
       rw [← h] at hr
       exact Bool.noConfusion hr)
    | cases h

/-- A message whose first signature verifies under the enode key of the record of `vin1` is
never relayed, so by the lemma above it changes no record. -/
theorem CEnodeMan.ProcessVerifyBroadcast_valid_sig1 (env : Env) (man : CEnodeMan)
    (mnv : CEnodeVerification) (r : VerifyBroadcastResult) (blockHash : uint256)
    (pmn1 : CEnode)
    (h : man.ProcessVerifyBroadcast env mnv = some r)
    (hb : env.GetBlockHash mnv.nBlockHeight = some blockHash)
    (h1 : man.Find mnv.vin1 = some pmn1)
    (hsig : env.VerifyMessage pmn1.pubKeyEnode mnv.vchSig1
      (env.addrToString mnv.addr ++ toString mnv.nonce ++ env.hashToString blockHash) = true) :
    r.fRelayed = false ∧ r.man.vEnodes = man.vEnodes := by
  have hrel : r.fRelayed = false := by
    have h1b : CEnodeMan.Find { man with
        mapSeenEnodeVerification := man.mapSeenEnodeVerification.set (mnv.GetHash env) mnv }
        mnv.vin1 = some pmn1 := h1
    unfold CEnodeMan.ProcessVerifyBroadcast at h
    simp only [hb, h1b, hsig, if_true] at h
    repeat (any_goals (split at h))
    all_goals first
      | (simp only [Option.some.injEq] at h
         rw [← h])
      | cases h
  exact ⟨hrel, CEnodeMan.ProcessVerifyBroadcast_not_relayed env man mnv r h hrel⟩

/-- Claim C25, evaluated where the code departs from it.  The registry has its tip at height
200 and holds the enodes 17, 34 and a third enode at the address of enode 17, all with PoSe
score 0.  A verification message for height 195, not seen before, names enode 17 as `vin1`
and enode 34 as `vin2` (ranked within the top 10 at that height), carries the registered
address of enode 17 and two valid signatures.  `ProcessVerifyBroadcast` returns at the first
signature test: it relays nothing and every record keeps its score.  With two invalid
signatures in the same message it relays, lowers the score of enode 17 to -1 and raises the
score of the third enode to 1.  With `vin1 = vin2` it reports the penalty 100 for the peer
and changes no record. -/
theorem C25_verify_broadcast_inverted :
    sampleEnv.VerifyMessage (sampleEnode 17 100).pubKeyEnode [1]
      (sampleEnv.addrToString (sampleVerification [1] [1]).addr ++ toString (5 : Int) ++
        sampleEnv.hashToString 1195) = true ∧
    CEnodeMan.GetEnodeRank sampleEnv sampleVerifyRegistry (sampleVerification [1] [1]).vin2 195
      MIN_POSE_PROTO_VERSION true ≤ MAX_POSE_RANK ∧
    CEnodeMan.GetEnodeRank sampleEnv sampleVerifyRegistry (sampleVerification [1] [1]).vin2 195
      MIN_POSE_PROTO_VERSION true ≠ -1 ∧
    (sampleVerifyRegistry.ProcessVerifyBroadcast sampleEnv (sampleVerification [1] [1])).map
      (fun r => (r.nMisbehaving, r.fRelayed, r.man.vEnodes.map (fun mn => mn.nPoSeBanScore)))
      = some (0, false, [0, 0, 0]) ∧
    (sampleVerifyRegistry.ProcessVerifyBroadcast sampleEnv (sampleVerification [] [])).map
      (fun r => (r.nMisbehaving, r.fRelayed, r.man.vEnodes.map (fun mn => mn.nPoSeBanScore)))
      = some (0, true, [-1, 0, 1]) ∧
    (sampleVerifyRegistry.ProcessVerifyBroadcast sampleEnv
        { sampleVerification [1] [1] with vin2 := (sampleEnode 17 100).vin }).map
      (fun r => (r.nMisbehaving, r.fRelayed, r.man.vEnodes.map (fun mn => mn.nPoSeBanScore)))
      = some (100, false, [0, 0, 0]) := by
  refine ⟨by decide, by decide, by decide, by decide, by decide, by decide⟩

/-! ## Casting a vote at a new tip -/

/-- An accepted vote adds one occurrence of its hash under its payee at its height. -/
theorem CEnodePayments.AddPaymentVote_recorded (env : Env) (s : CEnodePayments)
    (v : CEnodePaymentVote) (h : (s.AddPaymentVote env v).1 = true) :
    (s.AddPaymentVote env v).2.hashCount v.nBlockHeight v.payee (v.GetHash env) =
      s.hashCount v.nBlockHeight v.payee (v.GetHash env) + 1 := by
  have hblk : env.GetBlockHash (v.nBlockHeight - 101) ≠ none := by
    intro hn
    unfold CEnodePayments.AddPaymentVote at h
    rw [hn] at h
    exact absurd h (by simp)
  have hnew : s.HasVerifiedPaymentVote (v.GetHash env) = false := by
    cases hv : s.HasVerifiedPaymentVote (v.GetHash env)
    · rfl
    · unfold CEnodePayments.AddPaymentVote at h
      cases hb : env.GetBlockHash (v.nBlockHeight - 101) with
      | none => exact absurd hb hblk
      | some bh =>
        rw [hb] at h
        simp only [hv, if_true] at h
        exact absurd h (by simp)
  rw [CEnodePayments.AddPaymentVote_accept env s v hblk hnew]
  unfold CEnodePayments.hashCount
  simp only [StdMap.find_set_self]
  cases hf : StdMap.find s.mapEnodeBlocks v.nBlockHeight with
  | none =>
    simp only [Option.getD, CEnodeBlockPayees.AddPayee]
    rw [CEnodeBlockPayees.addPayeeTo_count]
    simp
  | some bp =>
    simp only [Option.getD, CEnodeBlockPayees.AddPayee]
    rw [CEnodeBlockPayees.addPayeeTo_count]

/-- A successful signing fills in the signature made for the vote and nothing else. -/
theorem CEnodePaymentVote.Sign_ok (env : Env) (vote : CEnodePaymentVote)
    (h : (vote.Sign env).1 = true) :
    ∃ sig, env.SignMessage (vote.strMessage env) = some sig ∧
      (vote.Sign env).2 = { vote with vchSig := sig } := by
  unfold CEnodePaymentVote.Sign at h ⊢
  cases hs : env.SignMessage (vote.strMessage env) with
  | none =>
    rw [hs] at h
    exact absurd h (by simp)
  | some sig =>
    refine ⟨sig, rfl, ?_⟩
    simp only
    split_ifs <;> rfl

/-- Claim C26 (amended).  On a tip update to height `T` the node runs `ProcessBlock(T + 5)`.
If a vote is recorded, then the node is an enode, not in lite mode, with the enode list
synced, the rank of its own outpoint at height `(T + 5) - 101 = T - 96` is known and at most
10, the vote is by its own input for height `T + 5`, its payee is the script of the
payment-queue winner for height `T + 5`, it carries the signature made for it, and it is
stored by `AddPaymentVote`, which records its hash under that payee in the payees of height
`T + 5`.  A node that is not an enode, or whose rank at `T - 96` is unknown or above 10,
records no vote and leaves the votes and payees as they are. -/
theorem C26_outbound_vote (env : Env) (man : CEnodeMan) (pay : CEnodePayments) (T : Int) :
    (∀ v, (CEnodePayments.UpdatedBlockTip env man pay T).vote = some v →
      env.fZNode = true ∧ env.fLiteMode = false ∧ env.IsEnodeListSynced = true ∧
      man.GetEnodeRank env env.activeVin (T - 96) (GetMinEnodePaymentsProto env) false ≠ -1 ∧
      man.GetEnodeRank env env.activeVin (T - 96) (GetMinEnodePaymentsProto env) false ≤ 10 ∧
      v.vinEnode = env.activeVin ∧ v.nBlockHeight = T + 5 ∧
      (∃ pmn, (man.GetNextEnodeInQueueForPayment env { pay with pCurrentBlockIndex := some T }
          (T + 5) true).pBestEnode = some pmn ∧
        v.payee = env.GetScriptForDestination pmn.pubKeyCollateralAddress) ∧
      env.SignMessage (CEnodePaymentVote.strMessage env { v with vchSig := [] }) = some v.vchSig ∧
      (CEnodePayments.UpdatedBlockTip env man pay T).ok = true ∧
      (CEnodePayments.UpdatedBlockTip env man pay T).pay =
        (CEnodePayments.AddPaymentVote env { pay with pCurrentBlockIndex := some T } v).2 ∧
      (CEnodePayments.UpdatedBlockTip env man pay T).pay.hashCount (T + 5) v.payee (v.GetHash env) =
        pay.hashCount (T + 5) v.payee (v.GetHash env) + 1) ∧
    ((env.fZNode = false ∨
        man.GetEnodeRank env env.activeVin (T - 96) (GetMinEnodePaymentsProto env) false = -1 ∨
        10 < man.GetEnodeRank env env.activeVin (T - 96) (GetMinEnodePaymentsProto env) false) →
      (CEnodePayments.UpdatedBlockTip env man pay T).vote = none ∧
      (CEnodePayments.UpdatedBlockTip env man pay T).ok = false ∧
      (CEnodePayments.UpdatedBlockTip env man pay T).pay =
        { pay with pCurrentBlockIndex := some T }) := by
  have h96 : T + 5 - 101 = T - 96 := by ring
  unfold CEnodePayments.UpdatedBlockTip CEnodePayments.ProcessBlock
  rw [h96]
  simp only [MNPAYMENTS_SIGNATURES_TOTAL]
  generalize man.GetEnodeRank env env.activeVin (T - 96) (GetMinEnodePaymentsProto env) false
    = nRank
  constructor
  · intro v hv
    by_cases h1 : (env.fLiteMode || !env.fZNode) = true
    · rw [if_pos h1] at hv
      exact absurd hv (by simp)
    · rw [if_neg h1] at hv ⊢
      by_cases h2 : (!env.IsEnodeListSynced) = true
      · rw [if_pos h2] at hv
        exact absurd hv (by simp)
      · rw [if_neg h2] at hv ⊢
        by_cases h3 : nRank = -1
        · rw [if_pos h3] at hv
          exact absurd hv (by simp)
        · rw [if_neg h3] at hv ⊢
          by_cases h4 : nRank > 10
          · rw [if_pos h4] at hv
            exact absurd hv (by simp)
          · rw [if_neg h4] at hv ⊢
            simp only [Bool.or_eq_true, Bool.not_eq_true', not_or, Bool.not_eq_true,
              Bool.not_eq_false] at h1 h2
            refine ⟨h1.2, h1.1, h2, h3, by omega, ?_⟩
            cases hq : (man.GetNextEnodeInQueueForPayment env
                { pay with pCurrentBlockIndex := some T } (T + 5) true).pBestEnode with
            | none =>
              simp only [hq] at hv
              exact absurd hv (by simp)
            | some pmn =>
              simp only [hq] at hv ⊢
              cases hsg : (CEnodePaymentVote.Sign env
                  { vinEnode := env.activeVin, nBlockHeight := T + 5,
                    payee := env.GetScriptForDestination pmn.pubKeyCollateralAddress,
                    vchSig := [] }).1 with
              | false =>
                simp only [hsg] at hv
                exact absurd hv (by simp)
              | true =>
                obtain ⟨sig, hs, hsig⟩ := CEnodePaymentVote.Sign_ok env _ hsg
                simp only [hsg, if_true] at hv ⊢
                rw [hsig] at hv ⊢
                cases hr : (CEnodePayments.AddPaymentVote env
                    { pay with pCurrentBlockIndex := some T }
                    { vinEnode := env.activeVin, nBlockHeight := T + 5,
                      payee := env.GetScriptForDestination pmn.pubKeyCollateralAddress,
                      vchSig := sig }).1 with
                | false =>
                  simp only [hr] at hv
                  exact absurd hv (by simp)
                | true =>
                  simp only [hr, if_true, Option.some.injEq] at hv ⊢
                  subst hv
                  exact ⟨rfl, rfl, ⟨pmn, rfl, rfl⟩, hs, trivial, rfl,
                    CEnodePayments.AddPaymentVote_recorded env
                      { pay with pCurrentBlockIndex := some T } _ hr⟩
  · intro h
    by_cases h1 : (env.fLiteMode || !env.fZNode) = true
    · rw [if_pos h1]
      exact ⟨rfl, rfl, rfl⟩
    · rw [if_neg h1]
      by_cases h2 : (!env.IsEnodeListSynced) = true
      · rw [if_pos h2]
        exact ⟨rfl, rfl, rfl⟩
      · rw [if_neg h2]
        by_cases h3 : nRank = -1
        · rw [if_pos h3]
          exact ⟨rfl, rfl, rfl⟩
        · rw [if_neg h3]
          by_cases h4 : nRank > 10
          · rw [if_pos h4]
            exact ⟨rfl, rfl, rfl⟩
          · exfalso
            simp only [Bool.or_eq_true, Bool.not_eq_true', not_or, Bool.not_eq_true,
              Bool.not_eq_false] at h1
            rcases h with h | h | h
            · rw [h1.2] at h
              exact absurd h (by decide)
            · exact h3 h
            · omega

set_option maxRecDepth 100000

/-- Witness for C26: with the registry of 25 sample enodes and the tip moving to 150, the enode
with outpoint `(2, 0)` has rank 3 at height 54; it casts a vote for height 155 that names the
payee script `[2]`. -/
theorem C26_outbound_vote_witness :
    (CEnodePayments.UpdatedBlockTip (sampleVotingEnv 2) sampleLargeRegistry
        CEnodePayments.empty 150).vote =
      some { vinEnode := (sampleVotingEnv 2).activeVin, nBlockHeight := 155, payee := [2],
             vchSig := [1] } ∧
    CEnodeMan.GetEnodeRank (sampleVotingEnv 2) sampleLargeRegistry (sampleVotingEnv 2).activeVin
      (150 - 96) (GetMinEnodePaymentsProto (sampleVotingEnv 2)) false ≤ 10 ∧
    (CEnodePayments.UpdatedBlockTip (sampleVotingEnv 1) sampleLargeRegistry
        CEnodePayments.empty 150).vote = none :=
  ⟨by decide,
    ((C26_outbound_vote (sampleVotingEnv 2) sampleLargeRegistry CEnodePayments.empty 150).1
      { vinEnode := (sampleVotingEnv 2).activeVin, nBlockHeight := 155, payee := [2],
        vchSig := [1] } (by decide)).2.2.2.2.1,
    ((C26_outbound_vote (sampleVotingEnv 1) sampleLargeRegistry CEnodePayments.empty 150).2
      (Or.inr (Or.inr (by decide)))).1⟩

/-- Counterexample for C26 as stated: with the tip moving to `T = 150`, the enode `(2, 0)` has
rank 25 at height `T - 101 = 49` and yet casts a vote (its rank at height 54 is 3), and the
enode `(1, 0)` has rank 3 at height 49 and casts none (its rank at height 54 is 12). -/
theorem C26_counterexample_rank_height :
    CEnodeMan.GetEnodeRank (sampleVotingEnv 2) sampleLargeRegistry (sampleVotingEnv 2).activeVin
      (150 - 101) (GetMinEnodePaymentsProto (sampleVotingEnv 2)) false = 25 ∧
    (CEnodePayments.UpdatedBlockTip (sampleVotingEnv 2) sampleLargeRegistry
        CEnodePayments.empty 150).ok = true ∧
    (CEnodePayments.UpdatedBlockTip (sampleVotingEnv 2) sampleLargeRegistry
        CEnodePayments.empty 150).vote ≠ none ∧
    CEnodeMan.GetEnodeRank (sampleVotingEnv 1) sampleLargeRegistry (sampleVotingEnv 1).activeVin
      (150 - 101) (GetMinEnodePaymentsProto (sampleVotingEnv 1)) false = 3 ∧
    (sampleVotingEnv 1).fZNode = true ∧ (sampleVotingEnv 1).IsEnodeListSynced = true ∧
    (CEnodePayments.UpdatedBlockTip (sampleVotingEnv 1) sampleLargeRegistry
        CEnodePayments.empty 150).vote = none := by
  refine ⟨by decide, by decide, by decide, by decide, by decide, by decide, by decide⟩

/-! ## The rank test of a payment vote -/

/-- Claim C27 (amended).  `CEnodePaymentVote::IsValid` accepts a vote exactly when its voter
is registered with at least the required protocol version (the payment minimum for a vote
at or above the validation height, version 1 of it below) and either the node is not an
enode and the vote is for a height below the validation height, in which case the rank is
not looked at, or the voter's rank at `block_height - 101` can be computed and is at most
10.  The sending peer is penalised, with score 20, exactly when the rank is looked at, is
above 20 and the vote's height is above the validation height; a rank from 11 to 20, an
unknown rank and an unknown voter bring no penalty.  The peer is a peer, not a null pointer,
as in the one call of the method. -/
theorem C27_vote_rank_check (env : Env) (man : CEnodeMan) (vote : CEnodePaymentVote)
    (pnode : CNode) (nValidationHeight : Int) (nMinRequiredProtocol nRank : Int)
    (hproto : nMinRequiredProtocol =
      (if vote.nBlockHeight ≥ nValidationHeight then GetMinEnodePaymentsProto env
        else MIN_ENODE_PAYMENT_PROTO_VERSION_1))
    (hrank : nRank = man.GetEnodeRank env vote.vinEnode (vote.nBlockHeight - 101)
      nMinRequiredProtocol false) :
    ((vote.IsValid env man pnode nValidationHeight).ok = true ↔
      ∃ pmn, man.Find vote.vinEnode = some pmn ∧ nMinRequiredProtocol ≤ pmn.nProtocolVersion ∧
        ((env.fZNode = false ∧ vote.nBlockHeight < nValidationHeight) ∨
          (nRank ≠ -1 ∧ nRank ≤ 10))) ∧
    ((vote.IsValid env man pnode nValidationHeight).nMisbehaving = 20 ↔
      ∃ pmn, man.Find vote.vinEnode = some pmn ∧ nMinRequiredProtocol ≤ pmn.nProtocolVersion ∧
        ¬ (env.fZNode = false ∧ vote.nBlockHeight < nValidationHeight) ∧
        20 < nRank ∧ nValidationHeight < vote.nBlockHeight) ∧
    ((vote.IsValid env man pnode nValidationHeight).nMisbehaving = 0 ∨
      (vote.IsValid env man pnode nValidationHeight).nMisbehaving = 20) := by
  unfold CEnodePaymentVote.IsValid
  cases hf : man.Find vote.vinEnode with
  | none =>
    simp only []
    split_ifs <;> simp
  | some pmn =>
    simp only [← hproto]
    by_cases hp : pmn.nProtocolVersion < nMinRequiredProtocol
    · rw [if_pos hp]
      have hp2 : ¬ nMinRequiredProtocol ≤ pmn.nProtocolVersion := by omega
      simp [hp2]
    · rw [if_neg hp]
      have hp2 : nMinRequiredProtocol ≤ pmn.nProtocolVersion := by omega
      by_cases hskip : env.fZNode = false ∧ vote.nBlockHeight < nValidationHeight
      · have hc : (!env.fZNode && decide (vote.nBlockHeight < nValidationHeight)) = true := by
          simp [hskip.1, hskip.2]
        rw [if_pos hc]
        simp [hp2, hskip]
      · have hc : ¬ (!env.fZNode && decide (vote.nBlockHeight < nValidationHeight)) = true := by
          intro h
          simp only [Bool.and_eq_true, Bool.not_eq_true', decide_eq_true_eq] at h
          exact hskip h
        rw [if_neg hc]
        simp only [← hrank, MNPAYMENTS_SIGNATURES_TOTAL]
        by_cases h1 : nRank = -1
        · rw [if_pos h1]
          simp [hp2, hskip, h1]
        · rw [if_neg h1]
          by_cases h2 : nRank > 10
          · rw [if_pos h2]
            by_cases h3 : nRank > 10 * 2 ∧ vote.nBlockHeight > nValidationHeight
            · rw [if_pos h3]
              have h4 : ¬ nRank ≤ 10 := by omega
              have h5 : 20 < nRank := by omega
              simp [hp2, hskip, h1, h4, h5, h3.2]
            · rw [if_neg h3]
              have h4 : ¬ nRank ≤ 10 := by omega
              have h5 : ¬ (20 < nRank ∧ nValidationHeight < vote.nBlockHeight) := by
                intro h
                exact h3 ⟨by omega, h.2⟩
              simp only [Bool.false_eq_true, false_iff, not_exists, not_and, true_or,
                and_true]
              refine ⟨?_, ?_⟩
              · intro x _ _ hor
                rcases hor with h | h
                · exact hskip h
                · exact h4 h.2
              · constructor
                · intro h
                  exact absurd h (by decide)
                · rintro ⟨x, _, _, _, h6, h7⟩
                  exact absurd ⟨h6, h7⟩ h5
          · rw [if_neg h2]
            have h4 : nRank ≤ 10 := by omega
            have h5 : ¬ 20 < nRank := by omega
            simp [hp2, hskip, h1, h4, h5]

/-- Witness for C27: on an enode with the tip at 200 and the registry of 25 sample enodes, the
vote of the voter ranked 6 for height 210, sent by the sample peer, is accepted, and the vote
of the voter ranked 25 is refused with penalty 20 for that peer. -/
theorem C27_vote_rank_check_witness :
    CEnodeMan.GetEnodeRank sampleEnodeEnv sampleLargeRegistry (sampleVoteAt 20 210).vinEnode
      (210 - 101) 90023 false = 6 ∧
    ((sampleVoteAt 20 210).IsValid sampleEnodeEnv sampleLargeRegistry samplePeer 200).ok = true ∧
    ((sampleVoteAt 1 210).IsValid sampleEnodeEnv sampleLargeRegistry samplePeer 200).nMisbehaving
      = 20 :=
  ⟨by decide,
    (C27_vote_rank_check sampleEnodeEnv sampleLargeRegistry (sampleVoteAt 20 210) samplePeer 200 _ _
      rfl rfl).1.mpr ⟨sampleEnode 20 100, by decide, by decide, Or.inr ⟨by decide, by decide⟩⟩,
    by decide⟩

/-- Counterexample for C27 as stated: on a node that is not an enode, with the validation
height 200, the vote for height 150 of a voter whose rank at height 49 is 25 is accepted, and
so is the vote for height 50 of a voter whose rank cannot be computed; and on an enode the
vote for height 150 of the voter ranked 25 is refused without penalty. -/
theorem C27_counterexample_old_votes_skip_rank :
    CEnodeMan.GetEnodeRank sampleEnv sampleLargeRegistry (sampleVoteAt 1 150).vinEnode
      (150 - 101) 90023 false = 25 ∧
    ((sampleVoteAt 1 150).IsValid sampleEnv sampleLargeRegistry samplePeer 200).ok = true ∧
    CEnodeMan.GetEnodeRank sampleEnv sampleLargeRegistry (sampleVoteAt 1 50).vinEnode
      (50 - 101) 90023 false = -1 ∧
    ((sampleVoteAt 1 50).IsValid sampleEnv sampleLargeRegistry samplePeer 200).ok = true ∧
    ((sampleVoteAt 1 150).IsValid sampleEnodeEnv sampleLargeRegistry samplePeer 200).ok = false ∧
    ((sampleVoteAt 1 150).IsValid sampleEnodeEnv sampleLargeRegistry samplePeer 200).nMisbehaving
      = 0 := by
  refine ⟨by decide, by decide, by decide, by decide, by decide, by decide⟩

/-! ## Pruning the vote history -/

theorem StdMap.find_erase_self {K V : Type} [DecidableEq K] (m : StdMap K V) (k : K) :
    StdMap.find (StdMap.erase m k) k = none := by
  induction m with
  | nil => rfl
  | cons x rest ih =>
    obtain ⟨k0, v0⟩ := x
    unfold StdMap.erase at ih ⊢
    by_cases hk : k0 = k
    · simp only [List.filter, hk, ne_eq, not_true_eq_false, decide_False]
      exact ih
    · simp only [List.filter, hk, ne_eq, not_false_eq_true, decide_True, StdMap.find, if_false]
      exact ih

theorem StdMap.find_erase_other {K V : Type} [DecidableEq K] (m : StdMap K V) (k k2 : K)
    (h : k ≠ k2) : StdMap.find (StdMap.erase m k) k2 = StdMap.find m k2 := by
  induction m with
  | nil => rfl
  | cons x rest ih =>
    obtain ⟨k0, v0⟩ := x
    unfold StdMap.erase at ih ⊢
    by_cases hk : k0 = k
    · have hk2 : ¬ k0 = k2 := by rw [hk]; exact h
      simp only [List.filter, hk, ne_eq, not_true_eq_false, decide_False, StdMap.find]
      rw [if_neg h]
      exact ih
    · simp only [List.filter, hk, ne_eq, not_false_eq_true, decide_True, StdMap.find]
      rw [ih]

/-- An arithmetic result that fits in an `int` is the value the `int` holds. -/
theorem int32_of_fits (x : Int) (h1 : -2 ^ 31 ≤ x) (h2 : x < 2 ^ 31) : int32 x = x := by
  unfold int32
  omega

/-- The pruning loop as two filters: the votes whose hash belongs to a pruned entry go, and
so do the payees of every height of a pruned entry; the last-vote table and the tip stay. -/
theorem CEnodePayments.pruneLoop_eq (tip nLimit : Int)
    (l : List (uint256 × CEnodePaymentVote)) (s : CEnodePayments) :
    CEnodePayments.pruneLoop tip nLimit l s =
      { s with
        mapEnodePaymentVotes := s.mapEnodePaymentVotes.filter (fun p =>
          !(l.any (fun q => decide (int32 (tip - q.2.nBlockHeight) > nLimit) && decide (q.1 = p.1))))
        mapEnodeBlocks := s.mapEnodeBlocks.filter (fun b =>
          !(l.any (fun q => decide (int32 (tip - q.2.nBlockHeight) > nLimit) &&
            decide (q.2.nBlockHeight = b.1)))) } := by
  induction l generalizing s with
  | nil => simp [CEnodePayments.pruneLoop]
  | cons x rest ih =>
    obtain ⟨hash, vote⟩ := x
    unfold CEnodePayments.pruneLoop
    by_cases hp : int32 (tip - vote.nBlockHeight) > nLimit
    · rw [if_pos hp, ih]
      simp only [StdMap.erase, List.filter_filter, List.any_cons, hp, decide_True, Bool.true_and,
        Bool.not_or]
      congr 1
      · apply List.filter_congr
        intro p _
        by_cases hh : hash = p.1
        · simp [hh]
        · have hh2 : ¬ p.1 = hash := fun h => hh h.symm
          simp [hh, hh2]
      · apply List.filter_congr
        intro b _
        by_cases hh : vote.nBlockHeight = b.1
        · simp [hh]
        · have hh2 : ¬ b.1 = vote.nBlockHeight := fun h => hh h.symm
          simp [hh, hh2]
    · rw [if_neg hp, ih]
      simp only [List.any_cons, hp, decide_False, Bool.false_and, Bool.false_or]

theorem StdMap.find_filter_key {K V : Type} [DecidableEq K] (m : StdMap K V) (f : K → Bool)
    (k : K) : StdMap.find (m.filter (fun p => f p.1)) k = if f k then StdMap.find m k else none := by
  induction m with
  | nil => simp [StdMap.find]
  | cons x rest ih =>
    obtain ⟨k0, v0⟩ := x
    by_cases hk : k0 = k
    · subst hk
      cases hf : f k0
      · simp only [List.filter, hf]
        rw [ih, hf]
        rfl
      · simp only [List.filter, hf, StdMap.find, if_true]
    · cases hf : f k0
      · simp only [List.filter, hf, StdMap.find]
        rw [ih, if_neg hk]
      · simp only [List.filter, hf, StdMap.find]
        rw [if_neg hk, if_neg hk, ih]

theorem roundToFloat_small (a : Nat) (h : a < 2 ^ 24) : roundToFloat a = a := by
  unfold roundToFloat
  rw [if_pos h]

/-- The storage limit as a function of the registry size. -/
theorem CEnodePayments.GetStorageLimit_of_size (man : CEnodeMan) (n : Nat)
    (h : man.vEnodes.length = n) :
    CEnodePayments.GetStorageLimit man =
      max ((roundToFloat (5 * roundToFloat n) / 4 : Nat) : Int) 5000 := by
  unfold CEnodePayments.GetStorageLimit nMinBlocksToStore CEnodeMan.size
  rw [h, Int.toNat_natCast]

/-- Claim C28 (amended).  With tip height `T`, storage limit `L = GetStorageLimit()` and
the votes map holding one entry per hash, after `CheckAndRemove` the stored votes are
exactly the earlier ones with `T - block_height <= L`, each unchanged, so none with
`T - block_height > L` is left; the payees entry of every pruned vote's height is gone; the
payees entry of every height `H` with `T - H <= L`, in particular of every kept vote's
height, is unchanged.  Each difference is the `int` the code computes, which is the true
difference whenever that lies between `-2^31` and `2^31 - 1`.  `L` is at least 5000; and `L`
is `max(int(size * 1.25f), 5000)` with the product taken in single precision, which is
`max(floor(1.25 * size), 5000)` whenever `5 * size < 2^24`. -/
theorem C28_vote_history_pruning (man : CEnodeMan) (s : CEnodePayments) (T : Int)
    (htip : s.pCurrentBlockIndex = some T)
    (hkeys : (s.mapEnodePaymentVotes.map Prod.fst).Nodup) :
    (CEnodePayments.CheckAndRemove man s).mapEnodePaymentVotes =
      s.mapEnodePaymentVotes.filter
        (fun p => decide (int32 (T - p.2.nBlockHeight) ≤ CEnodePayments.GetStorageLimit man)) ∧
    (∀ p ∈ (CEnodePayments.CheckAndRemove man s).mapEnodePaymentVotes,
      ¬ (int32 (T - p.2.nBlockHeight) > CEnodePayments.GetStorageLimit man)) ∧
    (∀ p ∈ s.mapEnodePaymentVotes,
      int32 (T - p.2.nBlockHeight) > CEnodePayments.GetStorageLimit man →
      (CEnodePayments.CheckAndRemove man s).mapEnodeBlocks.find p.2.nBlockHeight = none) ∧
    (∀ H : Int, int32 (T - H) ≤ CEnodePayments.GetStorageLimit man →
      (CEnodePayments.CheckAndRemove man s).mapEnodeBlocks.find H = s.mapEnodeBlocks.find H) ∧
    (∀ H : Int, -2 ^ 31 ≤ T - H → T - H < 2 ^ 31 → int32 (T - H) = T - H) ∧
    5000 ≤ CEnodePayments.GetStorageLimit man ∧
    (5 * man.vEnodes.length < 2 ^ 24 →
      CEnodePayments.GetStorageLimit man = max (((5 * man.vEnodes.length / 4 : Nat) : Int)) 5000) := by
  have hrun : CEnodePayments.CheckAndRemove man s =
      CEnodePayments.pruneLoop T (CEnodePayments.GetStorageLimit man) s.mapEnodePaymentVotes s := by
    unfold CEnodePayments.CheckAndRemove
    rw [htip]
  have hL1 : 5000 ≤ CEnodePayments.GetStorageLimit man := by
    unfold CEnodePayments.GetStorageLimit nMinBlocksToStore
    exact le_max_right _ _
  have hL2 : 5 * man.vEnodes.length < 2 ^ 24 →
      CEnodePayments.GetStorageLimit man =
        max (((5 * man.vEnodes.length / 4 : Nat) : Int)) 5000 := by
    intro hsmall
    rw [CEnodePayments.GetStorageLimit_of_size man _ rfl,
      roundToFloat_small man.vEnodes.length (by omega), roundToFloat_small _ hsmall]
  generalize CEnodePayments.GetStorageLimit man = L at hrun hL1 hL2
  rw [hrun, CEnodePayments.pruneLoop_eq]
  have hvotes : s.mapEnodePaymentVotes.filter (fun p =>
      !(s.mapEnodePaymentVotes.any
        (fun q => decide (int32 (T - q.2.nBlockHeight) > L) && decide (q.1 = p.1)))) =
      s.mapEnodePaymentVotes.filter (fun p => decide (int32 (T - p.2.nBlockHeight) ≤ L)) := by
    apply List.filter_congr
    intro p hp
    by_cases hpr : int32 (T - p.2.nBlockHeight) > L
    · have h1 : s.mapEnodePaymentVotes.any
          (fun q => decide (int32 (T - q.2.nBlockHeight) > L) && decide (q.1 = p.1)) = true := by
        rw [List.any_eq_true]
        exact ⟨p, hp, by simp [hpr]⟩
      have h2 : ¬ int32 (T - p.2.nBlockHeight) ≤ L := by omega
      simp [h1, h2]
    · have h1 : s.mapEnodePaymentVotes.any
          (fun q => decide (int32 (T - q.2.nBlockHeight) > L) && decide (q.1 = p.1)) = false := by
        rw [Bool.eq_false_iff]
        intro hany
        rw [List.any_eq_true] at hany
        obtain ⟨q, hq, hqp⟩ := hany
        simp only [Bool.and_eq_true, decide_eq_true_eq] at hqp
        have hinj := List.inj_on_of_nodup_map hkeys hq hp hqp.2
        rw [hinj] at hqp
        exact hpr hqp.1
      have h2 : int32 (T - p.2.nBlockHeight) ≤ L := by omega
      simp [h1, h2]
  refine ⟨hvotes, ?_, ?_, ?_, fun H => int32_of_fits (T - H), hL1, hL2⟩
  · intro p hp
    simp only [] at hp
    rw [hvotes] at hp
    have := (List.mem_filter.mp hp).2
    simp only [decide_eq_true_eq] at this
    omega
  · intro p hp hpr
    simp only []
    rw [StdMap.find_filter_key s.mapEnodeBlocks (fun k => !(s.mapEnodePaymentVotes.any
      (fun q => decide (int32 (T - q.2.nBlockHeight) > L) && decide (q.2.nBlockHeight = k))))]
    have h1 : s.mapEnodePaymentVotes.any
        (fun q => decide (int32 (T - q.2.nBlockHeight) > L) &&
          decide (q.2.nBlockHeight = p.2.nBlockHeight)) = true := by
      rw [List.any_eq_true]
      exact ⟨p, hp, by simp [hpr]⟩
    simp [h1]
  · intro H hH
    simp only []
    rw [StdMap.find_filter_key s.mapEnodeBlocks (fun k => !(s.mapEnodePaymentVotes.any
      (fun q => decide (int32 (T - q.2.nBlockHeight) > L) && decide (q.2.nBlockHeight = k))))]
    have h1 : s.mapEnodePaymentVotes.any
        (fun q => decide (int32 (T - q.2.nBlockHeight) > L) && decide (q.2.nBlockHeight = H)) = false := by
      rw [Bool.eq_false_iff]
      intro hany
      rw [List.any_eq_true] at hany
      obtain ⟨q, _, hqp⟩ := hany
      simp only [Bool.and_eq_true, decide_eq_true_eq] at hqp
      rw [hqp.2] at hqp
      omega
    simp [h1]

/-- Witness for C28: a store whose tip is at height 6000 holds one vote for height 210 and one
for height 5990; a registry of two enodes gives the limit 5000, the first vote and the
payees of height 210 are pruned, the second vote and the payees of height 5990 stay. -/
theorem C28_vote_history_pruning_witness :
    samplePruneStore.pCurrentBlockIndex = some 6000 ∧
    (samplePruneStore.mapEnodePaymentVotes.map Prod.fst).Nodup ∧
    CEnodePayments.GetStorageLimit sampleRegistry = 5000 ∧
    (CEnodePayments.CheckAndRemove sampleRegistry samplePruneStore).mapEnodePaymentVotes =
      samplePruneStore.mapEnodePaymentVotes.filter
        (fun p => decide (int32 (6000 - p.2.nBlockHeight) ≤
          CEnodePayments.GetStorageLimit sampleRegistry)) ∧
    ((CEnodePayments.CheckAndRemove sampleRegistry samplePruneStore).mapEnodePaymentVotes.map
      (fun p => p.2.nBlockHeight)) = [5990] ∧
    ((CEnodePayments.CheckAndRemove sampleRegistry samplePruneStore).mapEnodeBlocks.map
      Prod.fst) = [5990] :=
  ⟨rfl, by decide, by decide,
    (C28_vote_history_pruning sampleRegistry samplePruneStore 6000 rfl (by decide)).1,
    by decide, by decide⟩

/-- Counterexample for C28 as stated: for a registry of 3355447 enodes the product
`3355447 * 1.25f = 4194308.75` is not a `float`; it is rounded to 4194309, so the storage
limit is 4194309 and not `floor(1.25 * 3355447) = 4194308`.  And a vote for the height
`-2^31`, which the vote handler stores before it tests the height, is kept by a store whose
tip is at height 6000 with limit 5000: the `int` difference wraps around to a negative
number. -/
theorem C28_counterexample_float_rounding :
    CEnodePayments.GetStorageLimit
      { CEnodeMan.empty with vEnodes := List.replicate 3355447 (sampleEnode 17 100) } = 4194309 ∧
    max (((5 * 3355447 / 4 : Nat) : Int)) 5000 = 4194308 ∧
    CEnodePayments.GetStorageLimit sampleRegistry = 5000 ∧
    (6000 : Int) - (-2147483648) > 5000 ∧
    ((CEnodePayments.CheckAndRemove sampleRegistry
      { samplePruneStore with
        mapEnodePaymentVotes :=
          [((sampleVoteAt 1 (-2147483648)).GetHash sampleEnv,
            (sampleVoteAt 1 (-2147483648)).MarkAsNotVerified)] }).mapEnodePaymentVotes.map
      (fun p => p.2.nBlockHeight)) = [-2147483648] := by
  refine ⟨?_, by decide, by decide, by decide, by decide⟩
  rw [CEnodePayments.GetStorageLimit_of_size _ 3355447 (List.length_replicate _ _)]
  decide

/-! ## The ask limit -/

/-- The record `Find(const CPubKey&)` returns after `CheckEnode(const CPubKey&)`: the first
record with the key, checked. -/
theorem CEnodeMan.FindByPubKey_CheckEnodeByPubKey (env : Env) (man : CEnodeMan) (k : CPubKey)
    (f : Bool) :
    (man.CheckEnodeByPubKey env k f).FindByPubKey k =
      (man.FindByPubKey k).map (fun mn => CEnode.Check env man mn f) := by
  unfold CEnodeMan.CheckEnodeByPubKey
  cases hf : man.FindByPubKey k with
  | none =>
    simp only [Option.map]
    exact hf
  | some pMN =>
    have hkey : pMN.pubKeyEnode = k := by
      unfold CEnodeMan.FindByPubKey at hf
      generalize man.vEnodes = l at hf
      induction l with
      | nil => exact absurd hf (by simp [CEnodeMan.findKeyIn])
      | cons x rest ih =>
        unfold CEnodeMan.findKeyIn at hf
        by_cases hx : x.pubKeyEnode = k
        · rw [if_pos hx] at hf
          rw [← Option.some.inj hf]
          exact hx
        · rw [if_neg hx] at hf
          exact ih hf
    have hck : (CEnode.Check env man pMN f).pubKeyEnode = k := by
      obtain ⟨t, st, sc, h, hx⟩ := CEnode.Check_frame env man pMN f
      rw [hx]
      exact hkey
    show CEnodeMan.findKeyIn (CEnodeMan.storeKeyIn man.vEnodes k _) k = _
    rw [CEnodeMan.findKeyIn_storeKeyIn _ _ _ hck]
    unfold CEnodeMan.FindByPubKey at hf
    rw [hf]
    rfl

theorem CEnode.IsValidStateForAutoStart_iff (st : state) :
    CEnode.IsValidStateForAutoStart st = true ↔
      (st = state.ENODE_ENABLED ∨ st = state.ENODE_PRE_ENABLED ∨ st = state.ENODE_EXPIRED ∨
        st = state.ENODE_WATCHDOG_EXPIRED) := by
  cases st <;> simp [CEnode.IsValidStateForAutoStart]

/-- Claim C30 (amended).  `CActiveEnode::ManageStateRemote` first runs an unforced `Check` on
the first record of the registry whose enode key equals ours, and then looks at that record
only.  It leaves the status Started if and only if that record exists and, after the check,
its protocol version equals `PROTOCOL_VERSION`, its address equals our service address and
its state is Enabled, PreEnabled, Expired or WatchdogExpired.  On the transition into Started
it adopts that record's outpoint and address and enables the pinger; when the status was
Started already it changes nothing.  In every other case it sets the status NotCapable with
a non-empty reason and adopts nothing. -/
theorem C30_remote_activation (env : Env) (man : CEnodeMan) (active : CActiveEnode) :
    (active.ManageStateRemote env man).2 =
      man.CheckEnodeByPubKey { env with activePubKeyEnode := active.pubKeyEnode }
        active.pubKeyEnode false ∧
    (active.ManageStateRemote env man).2.FindByPubKey active.pubKeyEnode =
      (man.FindByPubKey active.pubKeyEnode).map (fun mn =>
        CEnode.Check { env with activePubKeyEnode := active.pubKeyEnode } man mn false) ∧
    ((active.ManageStateRemote env man).1.nState = ACTIVE_ENODE_STARTED ↔
      ∃ mn, (active.ManageStateRemote env man).2.FindByPubKey active.pubKeyEnode = some mn ∧
        mn.nProtocolVersion = env.PROTOCOL_VERSION ∧ mn.addr = active.service ∧
        (mn.nActiveState = state.ENODE_ENABLED ∨ mn.nActiveState = state.ENODE_PRE_ENABLED ∨
          mn.nActiveState = state.ENODE_EXPIRED ∨
          mn.nActiveState = state.ENODE_WATCHDOG_EXPIRED)) ∧
    ((active.ManageStateRemote env man).1.nState = ACTIVE_ENODE_STARTED →
      active.nState ≠ ACTIVE_ENODE_STARTED →
      ∃ mn, (active.ManageStateRemote env man).2.FindByPubKey active.pubKeyEnode = some mn ∧
        (active.ManageStateRemote env man).1 =
          { active with vin := mn.vin, service := mn.addr, fPingerEnabled := true
                        nState := ACTIVE_ENODE_STARTED }) ∧
    ((active.ManageStateRemote env man).1.nState = ACTIVE_ENODE_STARTED →
      active.nState = ACTIVE_ENODE_STARTED → (active.ManageStateRemote env man).1 = active) ∧
    ((active.ManageStateRemote env man).1.nState ≠ ACTIVE_ENODE_STARTED →
      (active.ManageStateRemote env man).1.nState = ACTIVE_ENODE_NOT_CAPABLE ∧
      (active.ManageStateRemote env man).1.strNotCapableReason ≠ "" ∧
      (active.ManageStateRemote env man).1.vin = active.vin ∧
      (active.ManageStateRemote env man).1.service = active.service ∧
      (active.ManageStateRemote env man).1.fPingerEnabled = active.fPingerEnabled ∧
      (active.ManageStateRemote env man).1.pubKeyEnode = active.pubKeyEnode) := by
  have hman : (active.ManageStateRemote env man).2 =
      man.CheckEnodeByPubKey { env with activePubKeyEnode := active.pubKeyEnode }
        active.pubKeyEnode false := by
    unfold CActiveEnode.ManageStateRemote
    simp only []
    split_ifs <;> rfl
  refine ⟨hman, ?_, ?_⟩
  · rw [hman]
    exact CEnodeMan.FindByPubKey_CheckEnodeByPubKey _ man active.pubKeyEnode false
  rw [hman]
  unfold CActiveEnode.ManageStateRemote
  dsimp only []
  generalize man.CheckEnodeByPubKey { env with activePubKeyEnode := active.pubKeyEnode }
    active.pubKeyEnode false = man1
  unfold CEnodeMan.GetEnodeInfoByPubKey
  have hnc : ACTIVE_ENODE_NOT_CAPABLE ≠ ACTIVE_ENODE_STARTED := by decide
  cases hf : man1.FindByPubKey active.pubKeyEnode with
  | none =>
    dsimp only [znode_info_t.default]
    rw [if_neg (by decide)]
    refine ⟨⟨fun h => absurd h hnc, ?_⟩, fun h => absurd h hnc, fun h => absurd h hnc,
      fun _ => ⟨rfl, ?_, rfl, rfl, rfl, rfl⟩⟩
    · rintro ⟨mn, h, _⟩
      exact absurd h (by simp)
    · exact (by decide : "Enode not in znode list" ≠ "")
  | some pMN =>
    dsimp only [CEnode.GetInfo]
    rw [if_pos rfl]
    by_cases h1 : pMN.nProtocolVersion ≠ env.PROTOCOL_VERSION
    · rw [if_pos h1]
      refine ⟨⟨fun h => absurd h hnc, ?_⟩, fun h => absurd h hnc, fun h => absurd h hnc,
        fun _ => ⟨rfl, ?_, rfl, rfl, rfl, rfl⟩⟩
      · rintro ⟨mn, h, h2, _⟩
        rw [← Option.some.inj h] at h2
        exact absurd h2 h1
      · exact (by decide : "Invalid protocol version" ≠ "")
    · rw [if_neg h1]
      by_cases h2 : active.service ≠ pMN.addr
      · rw [if_pos h2]
        refine ⟨⟨fun h => absurd h hnc, ?_⟩, fun h => absurd h hnc, fun h => absurd h hnc,
          fun _ => ⟨rfl, ?_, rfl, rfl, rfl, rfl⟩⟩
        · rintro ⟨mn, h, _, h3, _⟩
          rw [← Option.some.inj h] at h3
          exact absurd h3.symm h2
        · dsimp only []
          decide
      · rw [if_neg h2]
        by_cases h3 : (!CEnode.IsValidStateForAutoStart pMN.nActiveState) = true
        · rw [if_pos h3]
          have h3b : ¬ CEnode.IsValidStateForAutoStart pMN.nActiveState = true := by
            simpa using h3
          refine ⟨⟨fun h => absurd h hnc, ?_⟩, fun h => absurd h hnc, fun h => absurd h hnc,
            fun _ => ⟨rfl, ?_, rfl, rfl, rfl, rfl⟩⟩
          · rintro ⟨mn, h, _, _, h4⟩
            rw [← Option.some.inj h] at h4
            exact absurd ((CEnode.IsValidStateForAutoStart_iff _).mpr h4) h3b
          · show "Enode in " ++ CEnode.StateToString pMN.nActiveState ++ " state" ≠ ""
            cases pMN.nActiveState <;> decide
        · rw [if_neg h3]
          have h3b : CEnode.IsValidStateForAutoStart pMN.nActiveState = true := by
            simpa using h3
          have hex : ∃ mn, some pMN = some mn ∧
              mn.nProtocolVersion = env.PROTOCOL_VERSION ∧ mn.addr = active.service ∧
              (mn.nActiveState = state.ENODE_ENABLED ∨
                mn.nActiveState = state.ENODE_PRE_ENABLED ∨
                mn.nActiveState = state.ENODE_EXPIRED ∨
                mn.nActiveState = state.ENODE_WATCHDOG_EXPIRED) :=
            ⟨pMN, rfl, not_not.mp h1, (not_not.mp h2).symm,
              (CEnode.IsValidStateForAutoStart_iff _).mp h3b⟩
          by_cases h4 : active.nState ≠ ACTIVE_ENODE_STARTED
          · rw [if_pos h4]
            exact ⟨⟨fun _ => hex, fun _ => rfl⟩, fun _ _ => ⟨pMN, rfl, rfl⟩,
              fun _ h => absurd h h4, fun h => absurd rfl h⟩
          · rw [if_neg h4]
            have h4b := not_not.mp h4
            exact ⟨⟨fun _ => hex, fun _ => h4b⟩, fun _ h => absurd h4b h,
              fun _ _ => rfl, fun h => absurd h4b h⟩

/-- Counterexample for C30 as stated: the registry holds two records with our enode key; the
second has the protocol version `PROTOCOL_VERSION`, our service address and the state
Enabled, before and after the call, but the first has an older protocol version, and
`ManageStateRemote` sets the status NotCapable. -/
theorem C30_counterexample_first_record_only :
    (∃ mn ∈ sampleSharedKeyRegistry.vEnodes,
      mn ∈ (sampleActive.ManageStateRemote sampleOwnEnv sampleSharedKeyRegistry).2.vEnodes ∧
      mn.pubKeyEnode = sampleActive.pubKeyEnode ∧
      mn.nProtocolVersion = sampleOwnEnv.PROTOCOL_VERSION ∧
      mn.addr = sampleActive.service ∧ mn.nActiveState = state.ENODE_ENABLED) ∧
    (sampleActive.ManageStateRemote sampleOwnEnv sampleSharedKeyRegistry).1.nState =
      ACTIVE_ENODE_NOT_CAPABLE ∧
    (sampleActive.ManageStateRemote sampleOwnEnv sampleSharedKeyRegistry).1.strNotCapableReason =
      "Invalid protocol version" :=
  ⟨⟨{ sampleEnode 34 100 with pubKeyEnode := [17, 1] }, by decide, by decide, by decide,
    by decide, by decide, by decide⟩, by decide, by decide⟩

/-! ## The pinger -/

/-- Claim C31 (amended).  `CActiveEnode::SendEnodePing` signs and relays a ping only while
the pinger is enabled and the own input is in the registry; the status is not read.  It sends
no more often than once per `ENODE_MIN_MNP_SECONDS` (600 s): if the own record has a last
ping other than the empty ping and that ping is less than 600 s older than the signature
time of the new ping, the adjusted clock (the age being the `int64_t` difference the code
computes, which is the true difference whenever that fits 64 bits), it returns false;
whenever it returns false the registry is unchanged and nothing is relayed.  When it does
send, it returns true, the last ping of the own record in the registry is replaced by the
new ping, and that replacement comes before the relay of the ping. -/
theorem C31_pinger_rate_limit (env : Env) (man : CEnodeMan) (active : CActiveEnode) :
    ((active.SendEnodePing env man).ok = true →
      active.fPingerEnabled = true ∧
      ∃ own, man.Find active.vin = some own ∧
        ((CEnodePing.ofVin env active.vin).Sign env active.pubKeyEnode).1 = true ∧
        ((CEnodePing.ofVin env active.vin).Sign env active.pubKeyEnode).2.sigTime =
          env.GetAdjustedTime ∧
        own.IsPingedWithin env ENODE_MIN_MNP_SECONDS env.GetAdjustedTime = false ∧
        (active.SendEnodePing env man).events =
          [PingerEvent.SetEnodeLastPing active.vin
              ((CEnodePing.ofVin env active.vin).Sign env active.pubKeyEnode).2,
            PingerEvent.Relay
              (((CEnodePing.ofVin env active.vin).Sign env active.pubKeyEnode).2.GetHash env)] ∧
        (active.SendEnodePing env man).man =
          man.SetEnodeLastPing env active.vin
            ((CEnodePing.ofVin env active.vin).Sign env active.pubKeyEnode).2 ∧
        (active.SendEnodePing env man).man.Find active.vin =
          some { own with
            lastPing := ((CEnodePing.ofVin env active.vin).Sign env active.pubKeyEnode).2 } ∧
        (active.SendEnodePing env man).active = active) ∧
    ((active.SendEnodePing env man).ok = false →
      (active.SendEnodePing env man).man = man ∧
      (active.SendEnodePing env man).events = []) ∧
    (∀ own, man.Find active.vin = some own →
      CEnodePing.eq own.lastPing CEnodePing.default = false →
      int64 (env.GetAdjustedTime - own.lastPing.sigTime) < ENODE_MIN_MNP_SECONDS →
      (active.SendEnodePing env man).ok = false ∧
      (active.SendEnodePing env man).man = man ∧
      (active.SendEnodePing env man).events = []) ∧
    (∀ x : Int, -2 ^ 63 ≤ x → x < 2 ^ 63 → int64 x = x) := by
  have hst := CEnodePing.Sign_sigTime env (CEnodePing.ofVin env active.vin) active.pubKeyEnode
  have hfalse : (active.SendEnodePing env man).ok = false →
      (active.SendEnodePing env man).man = man ∧
      (active.SendEnodePing env man).events = [] := by
    unfold CActiveEnode.SendEnodePing
    simp only []
    split_ifs
    · intro _; exact ⟨rfl, rfl⟩
    · intro _; exact ⟨rfl, rfl⟩
    · intro _; exact ⟨rfl, rfl⟩
    · intro _; exact ⟨rfl, rfl⟩
    · intro h; cases h
  refine ⟨?_, hfalse, ?_, int64_of_fits⟩
  · intro hok
    unfold CActiveEnode.SendEnodePing at hok ⊢
    simp only [] at hok ⊢
    by_cases h1 : (!active.fPingerEnabled) = true
    · rw [if_pos h1] at hok; cases hok
    rw [if_neg h1] at hok ⊢
    by_cases h2 : (!man.Has active.vin) = true
    · rw [if_pos h2] at hok; cases hok
    rw [if_neg h2] at hok ⊢
    by_cases h3 : (!((CEnodePing.ofVin env active.vin).Sign env active.pubKeyEnode).1) = true
    · rw [if_pos h3] at hok; cases hok
    rw [if_neg h3] at hok ⊢
    by_cases h4 : man.IsEnodePingedWithin env active.vin ENODE_MIN_MNP_SECONDS
        ((CEnodePing.ofVin env active.vin).Sign env active.pubKeyEnode).2.sigTime = true
    · rw [if_pos h4] at hok; cases hok
    rw [if_neg h4]
    have hhas : (man.Find active.vin).isSome = true := by
      have h2b : man.Has active.vin = true := by simpa using h2
      exact h2b
    obtain ⟨own, hown⟩ := Option.isSome_iff_exists.mp hhas
    refine ⟨by simpa using h1, own, hown, by simpa using h3, hst, ?_, rfl, rfl, ?_, rfl⟩
    · rw [hst] at h4
      unfold CEnodeMan.IsEnodePingedWithin at h4
      rw [hown] at h4
      simpa using h4
    · show (man.SetEnodeLastPing env active.vin _).Find active.vin = _
      unfold CEnodeMan.SetEnodeLastPing
      rw [hown]
      exact CEnodeMan.findIn_storeIn hown rfl
  · intro own hown hne hlt
    have hok : (active.SendEnodePing env man).ok = false := by
      unfold CActiveEnode.SendEnodePing
      simp only []
      split_ifs with h1 h2 h3 h4
      · rfl
      · rfl
      · rfl
      · rfl
      · exfalso
        apply h4
        rw [hst]
        unfold CEnodeMan.IsEnodePingedWithin
        rw [hown]
        show own.IsPingedWithin env ENODE_MIN_MNP_SECONDS env.GetAdjustedTime = true
        unfold CEnode.IsPingedWithin
        rw [hne]
        simp only [Bool.false_eq_true, if_false]
        split_ifs <;> exact decide_eq_true hlt
    exact ⟨hok, hfalse hok⟩

/-- Counterexample for C31 as stated: an active enode that was started, with its pinger
enabled, whose registry record has been banned.  `ManageState` sets the status to
`NOT_CAPABLE` and then calls `SendEnodePing`, which signs and relays a ping all the same:
the status is not `STARTED` when the ping goes out.  And a record whose last ping is the
empty ping, with signature time 0, is pinged at clock reading 100, less than 600 s later. -/
theorem C31_counterexample_ping_while_not_started :
    ((sampleStartedActive.ManageStateRemote sampleEnodeEnv
        { sampleRegistry with vEnodes := [{ sampleEnode 17 100 with
            nActiveState := state.ENODE_POSE_BAN, nPoSeBanHeight := 300 }] }).1.nState =
      ACTIVE_ENODE_NOT_CAPABLE) ∧
    ((sampleStartedActive.ManageState sampleEnodeEnv
        { sampleRegistry with vEnodes := [{ sampleEnode 17 100 with
            nActiveState := state.ENODE_POSE_BAN, nPoSeBanHeight := 300 }] }).ok = true) ∧
    ((sampleStartedActive.ManageState sampleEnodeEnv
        { sampleRegistry with vEnodes := [{ sampleEnode 17 100 with
            nActiveState := state.ENODE_POSE_BAN, nPoSeBanHeight := 300 }] }).active.nState =
      ACTIVE_ENODE_NOT_CAPABLE) ∧
    ((sampleStartedActive.ManageState sampleEnodeEnv
        { sampleRegistry with vEnodes := [{ sampleEnode 17 100 with
            nActiveState := state.ENODE_POSE_BAN, nPoSeBanHeight := 300 }] }).events.length
      = 2) ∧
    (({ sampleStartedActive with nState := ACTIVE_ENODE_NOT_CAPABLE }.SendEnodePing
        sampleEnodeEnv sampleRegistry).ok = true) ∧
    ((sampleEnode 17 100).lastPing.sigTime = 0) ∧
    ((sampleStartedActive.SendEnodePing { sampleEnodeEnv with GetAdjustedTime := 100 }
        sampleRegistry).ok = true) := by
  refine ⟨by decide, by decide, by decide, by decide, by decide, by decide, by decide⟩

/-! ## Registry housekeeping -/

theorem CEnodeMan.askForRecovery_frame (env : Env) (mn : CEnode) (rest : List CEnode)
    (hash : uint256) (nHeight : Int) (s : RemoveLoopState) :
    (CEnodeMan.askForRecovery env mn rest hash nHeight s).man.vEnodes = s.man.vEnodes ∧
    (CEnodeMan.askForRecovery env mn rest hash nHeight s).man.mMnbRecoveryGoodReplies =
      s.man.mMnbRecoveryGoodReplies := by
  unfold CEnodeMan.askForRecovery
  simp only []
  split_ifs <;> exact ⟨rfl, rfl⟩

/-- The first loop keeps the records that are not spent, in their order, behind the records
it kept before, and leaves the recovery replies alone. -/
theorem CEnodeMan.checkAndRemoveLoop_spec (env : Env) (l : List CEnode) (s : RemoveLoopState) :
    (CEnodeMan.checkAndRemoveLoop env l s).man.vEnodes =
      s.man.vEnodes ++ l.filter (fun mn => !mn.IsOutpointSpent) ∧
    (CEnodeMan.checkAndRemoveLoop env l s).man.mMnbRecoveryGoodReplies =
      s.man.mMnbRecoveryGoodReplies := by
  induction l generalizing s with
  | nil => simp [CEnodeMan.checkAndRemoveLoop]
  | cons mn rest ih =>
    unfold CEnodeMan.checkAndRemoveLoop
    simp only []
    by_cases hsp : mn.IsOutpointSpent = true
    · rw [if_pos hsp]
      have := ih { s with man := { s.man with
            mapSeenEnodeBroadcast :=
              s.man.mapSeenEnodeBroadcast.erase ((CEnodeBroadcast.ofEnode mn).GetHash env)
            mWeAskedForEnodeListEntry := s.man.mWeAskedForEnodeListEntry.erase mn.vin.prevout
            fEnodesRemoved := true } }
      refine ⟨?_, this.2⟩
      rw [this.1]
      simp [List.filter_cons, hsp]
    · rw [if_neg hsp]
      have hframe : ∀ s1 : RemoveLoopState,
          s1.man.vEnodes = s.man.vEnodes →
          s1.man.mMnbRecoveryGoodReplies = s.man.mMnbRecoveryGoodReplies →
          (CEnodeMan.checkAndRemoveLoop env rest
            { s1 with man := { s1.man with vEnodes := s1.man.vEnodes ++ [mn] } }).man.vEnodes =
            s.man.vEnodes ++ (mn :: rest).filter (fun mn => !mn.IsOutpointSpent) ∧
          (CEnodeMan.checkAndRemoveLoop env rest
            { s1 with man := { s1.man with vEnodes := s1.man.vEnodes ++ [mn] } }).man.mMnbRecoveryGoodReplies =
            s.man.mMnbRecoveryGoodReplies := by
        intro s1 h1 h2
        have := ih { s1 with man := { s1.man with vEnodes := s1.man.vEnodes ++ [mn] } }
        refine ⟨?_, this.2.trans h2⟩
        rw [this.1]
        simp [List.filter_cons, hsp, h1]
      cases hcur : s.man.pCurrentBlockIndex with
      | none => exact hframe s rfl rfl
      | some nHeight =>
        simp only []
        split_ifs
        · exact hframe _ (CEnodeMan.askForRecovery_frame env mn rest _ nHeight s).1
            (CEnodeMan.askForRecovery_frame env mn rest _ nHeight s).2
        · exact hframe s rfl rfl

/-- The second loop leaves the vector alone while no entry holds the required number of good
replies. -/
theorem CEnodeMan.processRecoveryReplies_short (env : Env)
    (l : List (uint256 × List CEnodeBroadcast)) (active : CActiveEnode) (man : CEnodeMan)
    (hshort : ∀ e ∈ l, (e.2.length : Int) < MNB_RECOVERY_QUORUM_REQUIRED) :
    (CEnodeMan.processRecoveryReplies env l active man).vEnodes = man.vEnodes := by
  induction l generalizing active man with
  | nil => rfl
  | cons e rest ih =>
    obtain ⟨hash, replies⟩ := e
    have hlen : ¬ ((replies.length : Int) ≥ MNB_RECOVERY_QUORUM_REQUIRED) :=
      not_le.mpr (hshort (hash, replies) (List.mem_cons_self _ _))
    have hrest : ∀ e ∈ rest, (e.2.length : Int) < MNB_RECOVERY_QUORUM_REQUIRED :=
      fun e he => hshort e (List.mem_cons_of_mem _ he)
    unfold CEnodeMan.processRecoveryReplies
    simp only [if_neg hlen]
    split_ifs
    · rw [ih _ _ hrest]
    · rw [ih _ _ hrest]

/-- Claim C32 (amended).  `CEnodeMan::CheckAndRemove` changes nothing unless the enode list
is synced.  When it runs, the registry after its removal loop contains no enode in state
`OUTPOINT_SPENT`, and the enodes it holds are exactly the enodes that were not
`OUTPOINT_SPENT` after the check, in their previous relative order.  That is also the
registry at the end of the first block when no entry of the recovery replies holds the
`MNB_RECOVERY_QUORUM_REQUIRED` good replies that make the method process an announcement
again. -/
theorem C32_check_and_remove (env : Env) (man : CEnodeMan) :
    (env.IsEnodeListSynced = false → man.CheckAndRemove env = man) ∧
    (man.CheckAndRemoveFirstLoop env).vEnodes =
      (man.Check env).vEnodes.filter (fun mn => !mn.IsOutpointSpent) ∧
    (∀ mn ∈ (man.CheckAndRemoveFirstLoop env).vEnodes,
      mn.nActiveState ≠ state.ENODE_OUTPOINT_SPENT) ∧
    (man.CheckAndRemoveFirstLoop env).vEnodes.Sublist (man.Check env).vEnodes ∧
    (env.IsEnodeListSynced = true →
      (∀ e ∈ man.mMnbRecoveryGoodReplies,
        (e.2.length : Int) < MNB_RECOVERY_QUORUM_REQUIRED) →
      (man.CheckAndRemove env).vEnodes =
        (man.Check env).vEnodes.filter (fun mn => !mn.IsOutpointSpent) ∧
      ∀ mn ∈ (man.CheckAndRemove env).vEnodes,
        mn.nActiveState ≠ state.ENODE_OUTPOINT_SPENT) := by
  have hloop : (man.CheckAndRemoveFirstLoop env).vEnodes =
      (man.Check env).vEnodes.filter (fun mn => !mn.IsOutpointSpent) := by
    unfold CEnodeMan.CheckAndRemoveFirstLoop
    rw [(CEnodeMan.checkAndRemoveLoop_spec env _ _).1]
    rfl
  have hreplies : (man.CheckAndRemoveFirstLoop env).mMnbRecoveryGoodReplies =
      man.mMnbRecoveryGoodReplies := by
    unfold CEnodeMan.CheckAndRemoveFirstLoop
    rw [(CEnodeMan.checkAndRemoveLoop_spec env _ _).2]
    rfl
  have hnospent : ∀ mn ∈ (man.Check env).vEnodes.filter (fun mn => !mn.IsOutpointSpent),
      mn.nActiveState ≠ state.ENODE_OUTPOINT_SPENT := by
    intro mn hmn
    have h := (List.mem_filter.mp hmn).2
    simpa [CEnode.IsOutpointSpent] using h
  refine ⟨?_, hloop, ?_, ?_, ?_⟩
  · intro hs
    unfold CEnodeMan.CheckAndRemove
    simp [hs]
  · rw [hloop]
    exact hnospent
  · rw [hloop]
    exact List.filter_sublist _
  · intro hs hshort
    have hfinal : (man.CheckAndRemove env).vEnodes =
        (man.Check env).vEnodes.filter (fun mn => !mn.IsOutpointSpent) := by
      unfold CEnodeMan.CheckAndRemove
      simp only [hs, Bool.not_true, Bool.false_eq_true, if_false]
      rw [CEnodeMan.processRecoveryReplies_short, hloop]
      intro e he
      have hperm : (hashOrder env (man.CheckAndRemoveFirstLoop env).mMnbRecoveryGoodReplies).Perm
          (man.CheckAndRemoveFirstLoop env).mMnbRecoveryGoodReplies :=
        List.perm_insertionSort _ _
      have he2 := hperm.subset he
      rw [hreplies] at he2
      exact hshort e he2
    refine ⟨hfinal, ?_⟩
    rw [hfinal]
    exact hnospent

/-- Counterexample for C32 as stated: the collateral of enode 17 is spent, but the record was
checked two seconds ago, so the check skips it and the removal loop keeps it; the processing
of the six good recovery replies that follows updates the record from the announcement and
checks it again, which marks it spent.  The registry afterwards holds an enode in state
`OUTPOINT_SPENT`, and its record is not the one the check left.  And with the enode list
synced but the sync not finished, the method runs and removes a spent record. -/
theorem C32_counterexample_spent_after_recovery :
    (sampleRecoveryRegistry.Check sampleSpentAnnounceEnv).vEnodes.map
      (fun mn => (mn.vin.prevout.hash, mn.nActiveState)) =
      [(17, state.ENODE_NEW_START_REQUIRED)] ∧
    (sampleRecoveryRegistry.CheckAndRemove sampleSpentAnnounceEnv).vEnodes.map
      (fun mn => (mn.vin.prevout.hash, mn.nActiveState)) =
      [(17, state.ENODE_OUTPOINT_SPENT)] ∧
    (sampleRecoveryRegistry.CheckAndRemove sampleSpentAnnounceEnv).vEnodes ≠
      (sampleRecoveryRegistry.Check sampleSpentAnnounceEnv).vEnodes.filter
        (fun mn => !mn.IsOutpointSpent) ∧
    ({ sampleEnv with IsSynced := false } : Env).IsEnodeListSynced = true ∧
    (CEnodeMan.CheckAndRemove { sampleEnv with IsSynced := false }
      { CEnodeMan.empty with
        vEnodes := [{ sampleEnode 17 100 with nActiveState := state.ENODE_OUTPOINT_SPENT },
                    sampleEnode 34 100] }).vEnodes.map (fun mn => mn.vin.prevout.hash) =
      [34] := by
  refine ⟨by decide, by decide, by decide, by decide, by decide⟩

/-! ## Reading a registry with another version string -/

/-- What reading a registry with another version string leaves: every member that `Clear`
names is empty or zero, and the two recovery maps are the stored ones. -/
theorem CEnodeMan.SerializationOp_mismatch (man : CEnodeMan) (stored : CEnodeManStored)
    (h : stored.strVersion ≠ SERIALIZATION_VERSION_STRING) :
    (man.SerializationOp stored).vEnodes = [] ∧
    (man.SerializationOp stored).mAskedUsForEnodeList = [] ∧
    (man.SerializationOp stored).mWeAskedForEnodeList = [] ∧
    (man.SerializationOp stored).mWeAskedForEnodeListEntry = [] ∧
    (man.SerializationOp stored).mapSeenEnodeBroadcast = [] ∧
    (man.SerializationOp stored).mapSeenEnodePing = [] ∧
    (man.SerializationOp stored).indexEnodes = CEnodeIndex.empty ∧
    (man.SerializationOp stored).nLastWatchdogVoteTime = 0 ∧
    (man.SerializationOp stored).nDsqCount = 0 ∧
    (man.SerializationOp stored).mMnbRecoveryRequests = stored.mMnbRecoveryRequests ∧
    (man.SerializationOp stored).mMnbRecoveryGoodReplies = stored.mMnbRecoveryGoodReplies := by
  unfold CEnodeMan.SerializationOp
  simp only []
  rw [if_pos h]
  exact ⟨rfl, rfl, rfl, rfl, rfl, rfl, rfl, rfl, rfl, rfl, rfl⟩

/-- Claim C33, evaluated where the code departs from it.  A stored registry whose version
string is `CEnodeMan-Version-3` and that holds one recovery request and one recovery reply
is read into a fresh registry.  The enode vector, the three ask maps, the seen announcements,
the seen pings and the index come out empty and the two counters zero, but the recovery
requests and the recovery replies that were read are still there: `Clear` does not name
them.  With the version string `CEnodeMan-Version-4` nothing is cleared. -/
theorem C33_recovery_maps_survive_clear :
    (sampleStored "CEnodeMan-Version-3").strVersion ≠ SERIALIZATION_VERSION_STRING ∧
    (CEnodeMan.empty.SerializationOp (sampleStored "CEnodeMan-Version-3")).vEnodes = [] ∧
    (CEnodeMan.empty.SerializationOp (sampleStored "CEnodeMan-Version-3")).mWeAskedForEnodeListEntry
      = [] ∧
    (CEnodeMan.empty.SerializationOp (sampleStored "CEnodeMan-Version-3")).indexEnodes
      = CEnodeIndex.empty ∧
    (CEnodeMan.empty.SerializationOp (sampleStored "CEnodeMan-Version-3")).mMnbRecoveryRequests
      = [(77, (40, [4]))] ∧
    (CEnodeMan.empty.SerializationOp
      (sampleStored "CEnodeMan-Version-3")).mMnbRecoveryGoodReplies = [(77, [sampleBroadcast])] ∧
    (CEnodeMan.empty.SerializationOp (sampleStored "CEnodeMan-Version-4")).vEnodes
      = [sampleEnode 17 100] ∧
    (CEnodeMan.empty.SerializationOp (sampleStored "CEnodeMan-Version-4")).indexEnodes.Get 0
      = some (sampleEnode 17 100).vin := by
  refine ⟨by decide, by decide, by decide, by decide, by decide, by decide, by decide,
    by decide⟩

/-! ## The retry of the payment queue -/

/-- The ways through `GetCollateralAge`: the record comes back as it is, or with the
collateral block cached. -/
theorem CEnode.GetCollateralAge_cases (env : Env) (mn : CEnode) :
    (mn.GetCollateralAge env).2 = mn ∨
    ((!env.lockMain || !env.hasTip) = false ∧ env.GetInputAge mn.vin > 0 ∧
      mn.GetCollateralAge env =
        (env.chainHeight - (env.chainHeight - env.GetInputAge mn.vin),
          { mn with nCacheCollateralBlock := env.chainHeight - env.GetInputAge mn.vin })) := by
  unfold CEnode.GetCollateralAge
  simp only []
  split_ifs with h1 h2 h3
  · exact Or.inl rfl
  · exact Or.inr ⟨by simpa using h1, h3, rfl⟩
  · exact Or.inl rfl
  · exact Or.inl rfl

/-- The collateral age is the same, with the same record, when it is asked again of the
record it returned. -/
theorem CEnode.GetCollateralAge_again (env : Env) (mn : CEnode) :
    (mn.GetCollateralAge env).2.GetCollateralAge env = mn.GetCollateralAge env := by
  rcases CEnode.GetCollateralAge_cases env mn with h | ⟨h1, h3, h⟩
  · rw [h]
  · rw [h]
    show CEnode.GetCollateralAge env
      { mn with nCacheCollateralBlock := env.chainHeight - env.GetInputAge mn.vin } = _
    unfold CEnode.GetCollateralAge
    simp only [h1, Bool.false_eq_true, if_false]
    by_cases h4 : env.chainHeight - env.GetInputAge mn.vin = 0
    · rw [if_pos h4, if_pos h3]
    · rw [if_neg h4]

/-- The eligibility test changes at most the cached collateral block of a record. -/
theorem CEnodeMan.GetNotQualifyReason_frame (env : Env) (pay : CEnodePayments) (mn : CEnode)
    (h : Int) (f : Bool) (n : Int) :
    ∃ c, (CEnodeMan.GetNotQualifyReason env pay mn h f n).2 =
      { mn with nCacheCollateralBlock := c } := by
  have hage : ∃ c, (mn.GetCollateralAge env).2 = { mn with nCacheCollateralBlock := c } := by
    unfold CEnode.GetCollateralAge
    simp only []
    split_ifs
    all_goals first
      | exact ⟨mn.nCacheCollateralBlock, rfl⟩
      | exact ⟨_, rfl⟩
  unfold CEnodeMan.GetNotQualifyReason
  simp only []
  split_ifs
  all_goals first
    | exact ⟨mn.nCacheCollateralBlock, rfl⟩
    | exact hage

/-- The eligibility test without the `sig_time` filter gives the same answer and the same
record when it is made on the record an earlier eligibility test returned. -/
theorem CEnodeMan.GetNotQualifyReason_again (env : Env) (pay : CEnodePayments) (mn : CEnode)
    (h : Int) (f : Bool) (n k : Int) :
    CEnodeMan.GetNotQualifyReason env pay (CEnodeMan.GetNotQualifyReason env pay mn h f n).2
        h false k =
      CEnodeMan.GetNotQualifyReason env pay mn h false k := by
  have hr : (CEnodeMan.GetNotQualifyReason env pay mn h f n).2 = mn ∨
      ((CEnodeMan.GetNotQualifyReason env pay mn h f n).2 = (mn.GetCollateralAge env).2 ∧
        ¬ ((!mn.IsValidForPayment) = true) ∧
        ¬ (mn.nProtocolVersion < GetMinEnodePaymentsProto env) ∧
        ¬ (pay.IsScheduled env mn h = true)) := by
    unfold CEnodeMan.GetNotQualifyReason
    simp only []
    split_ifs
    all_goals first
      | exact Or.inl rfl
      | exact Or.inr ⟨rfl, by assumption, by assumption, by assumption⟩
  rcases hr with hr | ⟨hr, h1, h2, h3⟩
  · rw [hr]
  · rw [hr]
    have hfr : ∃ c, (mn.GetCollateralAge env).2 = { mn with nCacheCollateralBlock := c } := by
      unfold CEnode.GetCollateralAge
      simp only []
      split_ifs
      all_goals first
        | exact ⟨mn.nCacheCollateralBlock, rfl⟩
        | exact ⟨_, rfl⟩
    have hage := CEnode.GetCollateralAge_again env mn
    obtain ⟨c, hc⟩ := hfr
    generalize (mn.GetCollateralAge env).2 = m2 at hage hc
    have e1 : m2.IsValidForPayment = mn.IsValidForPayment := by rw [hc]; rfl
    have e2 : m2.nProtocolVersion = mn.nProtocolVersion := by rw [hc]
    have e3 : pay.IsScheduled env m2 h = pay.IsScheduled env mn h := by rw [hc]; rfl
    unfold CEnodeMan.GetNotQualifyReason
    rw [hage, e1, e2, e3]
    simp only [h1, h2, h3, Bool.false_and, Bool.false_eq_true, if_false]

/-- The first loop of the queue without the filter gives the same records and the same
vector when it runs on the records an earlier first loop returned. -/
theorem CEnodeMan.qualifyLoop_again (env : Env) (pay : CEnodePayments) (h : Int) (f : Bool)
    (n k : Int) (l : List CEnode) :
    CEnodeMan.qualifyLoop env pay h false k (CEnodeMan.qualifyLoop env pay h f n l).1 =
      CEnodeMan.qualifyLoop env pay h false k l := by
  apply Prod.ext
  · rw [(CEnodeMan.qualifyLoop_eq env pay h false k _).1,
      (CEnodeMan.qualifyLoop_eq env pay h f n l).1,
      (CEnodeMan.qualifyLoop_eq env pay h false k l).1, List.map_map]
    apply List.map_congr_left
    intro mn _
    exact congrArg Prod.snd (CEnodeMan.GetNotQualifyReason_again env pay mn h f n k)
  · rw [(CEnodeMan.qualifyLoop_eq env pay h false k _).2,
      (CEnodeMan.qualifyLoop_eq env pay h f n l).1,
      (CEnodeMan.qualifyLoop_eq env pay h false k l).2, List.filterMap_map]
    apply List.filterMap_congr
    intro mn _
    simp only [Function.comp]
    rw [CEnodeMan.GetNotQualifyReason_again env pay mn h f n k]

/-- The first loop of the queue leaves the enabled count as it is. -/
theorem CEnodeMan.CountEnabled_qualifyLoop (env : Env) (pay : CEnodePayments) (man : CEnodeMan)
    (h : Int) (f : Bool) (n p : Int) :
    CEnodeMan.CountEnabled env
        { man with vEnodes := (CEnodeMan.qualifyLoop env pay h f n man.vEnodes).1 } p =
      man.CountEnabled env p := by
  unfold CEnodeMan.CountEnabled
  simp only []
  rw [(CEnodeMan.qualifyLoop_eq env pay h f n man.vEnodes).1, List.filter_map, List.length_map]
  congr 2
  apply List.filter_congr
  intro mn _
  obtain ⟨c, hc⟩ := CEnodeMan.GetNotQualifyReason_frame env pay mn h f n
  simp only [Function.comp, hc]
  rfl

/-- The queue without the filter gives the same result on the registry an earlier first
loop left as on the registry before it. -/
theorem CEnodeMan.NoFilter_again (env : Env) (pay : CEnodePayments) (man : CEnodeMan)
    (h : Int) (f : Bool) (n : Int) :
    CEnodeMan.GetNextEnodeInQueueForPaymentNoFilter env pay
        { man with vEnodes := (CEnodeMan.qualifyLoop env pay h f n man.vEnodes).1 } h =
      CEnodeMan.GetNextEnodeInQueueForPaymentNoFilter env pay man h := by
  unfold CEnodeMan.GetNextEnodeInQueueForPaymentNoFilter
  simp only []
  rw [CEnodeMan.CountEnabled_qualifyLoop, CEnodeMan.qualifyLoop_again]

/-- Claim C34 (amended).  Written with its recursive call, `GetNextEnodeInQueueForPayment`
returns with at most one nested call, whatever the registry is (fuel 2 is enough), and the
nested call is made exactly when the `sig_time` filter is on and the number of qualifying
enodes is less than `nMnCount / 3`, the division being the integer division of the
enabled-enode count.  In that case the result, winner, `nCount` and registry, is exactly the
result of the same call with the filter off; otherwise no retry happens and the result is
chosen from the qualifying enodes of the first pass. -/
theorem C34_retry_once (env : Env) (pay : CEnodePayments) (man : CEnodeMan)
    (nBlockHeight : Int) (fFilterSigTime : Bool) :
    (∀ fuel, 2 ≤ fuel → ∃ d,
      CEnodeMan.GetNextEnodeInQueueForPaymentRec env pay fuel man nBlockHeight fFilterSigTime =
        some (man.GetNextEnodeInQueueForPayment env pay nBlockHeight fFilterSigTime, d) ∧
      d ≤ 1 ∧
      (d = 1 ↔ (fFilterSigTime = true ∧
        ((CEnodeMan.qualifyLoop env pay nBlockHeight fFilterSigTime (man.CountEnabled env (-1))
          man.vEnodes).2.length : Int) < Int.tdiv (man.CountEnabled env (-1)) 3))) ∧
    ((fFilterSigTime = true ∧
        ((CEnodeMan.qualifyLoop env pay nBlockHeight fFilterSigTime (man.CountEnabled env (-1))
          man.vEnodes).2.length : Int) < Int.tdiv (man.CountEnabled env (-1)) 3) →
      man.GetNextEnodeInQueueForPayment env pay nBlockHeight fFilterSigTime =
        man.GetNextEnodeInQueueForPayment env pay nBlockHeight false) ∧
    (¬ (fFilterSigTime = true ∧
        ((CEnodeMan.qualifyLoop env pay nBlockHeight fFilterSigTime (man.CountEnabled env (-1))
          man.vEnodes).2.length : Int) < Int.tdiv (man.CountEnabled env (-1)) 3) →
      man.GetNextEnodeInQueueForPayment env pay nBlockHeight fFilterSigTime =
        CEnodeMan.selectFromQueue env
          { man with vEnodes := (CEnodeMan.qualifyLoop env pay nBlockHeight fFilterSigTime
            (man.CountEnabled env (-1)) man.vEnodes).1 } nBlockHeight
          (man.CountEnabled env (-1))
          (CEnodeMan.qualifyLoop env pay nBlockHeight fFilterSigTime
            (man.CountEnabled env (-1)) man.vEnodes).2) := by
  have hoff : ∀ (m : CEnodeMan) (k : Nat),
      CEnodeMan.GetNextEnodeInQueueForPaymentRec env pay (k + 1) m nBlockHeight false =
        some (CEnodeMan.GetNextEnodeInQueueForPaymentNoFilter env pay m nBlockHeight, 0) := by
    intro m k
    unfold CEnodeMan.GetNextEnodeInQueueForPaymentRec
      CEnodeMan.GetNextEnodeInQueueForPaymentNoFilter
    simp only [Bool.false_and, Bool.false_eq_true, if_false]
  have hcases : (fFilterSigTime && decide
      (((CEnodeMan.qualifyLoop env pay nBlockHeight fFilterSigTime (man.CountEnabled env (-1))
        man.vEnodes).2.length : Int) < Int.tdiv (man.CountEnabled env (-1)) 3)) = true ↔
      (fFilterSigTime = true ∧
        ((CEnodeMan.qualifyLoop env pay nBlockHeight fFilterSigTime (man.CountEnabled env (-1))
          man.vEnodes).2.length : Int) < Int.tdiv (man.CountEnabled env (-1)) 3) := by
    simp
  refine ⟨?_, ?_, ?_⟩
  · intro fuel hfuel
    obtain ⟨k, hk⟩ : ∃ k, fuel = k + 2 := ⟨fuel - 2, by omega⟩
    subst hk
    by_cases hc : (fFilterSigTime = true ∧
        ((CEnodeMan.qualifyLoop env pay nBlockHeight fFilterSigTime (man.CountEnabled env (-1))
          man.vEnodes).2.length : Int) < Int.tdiv (man.CountEnabled env (-1)) 3)
    · refine ⟨1, ?_, le_refl _, ⟨fun _ => hc, fun _ => rfl⟩⟩
      unfold CEnodeMan.GetNextEnodeInQueueForPaymentRec CEnodeMan.GetNextEnodeInQueueForPayment
      simp only []
      rw [if_pos (hcases.mpr hc), if_pos (hcases.mpr hc), hoff]
    · refine ⟨0, ?_, by omega, ⟨fun h => absurd h (by decide), fun h => absurd h hc⟩⟩
      unfold CEnodeMan.GetNextEnodeInQueueForPaymentRec CEnodeMan.GetNextEnodeInQueueForPayment
      simp only []
      rw [if_neg (fun h => hc (hcases.mp h)), if_neg (fun h => hc (hcases.mp h))]
  · intro hc
    have hfalse : man.GetNextEnodeInQueueForPayment env pay nBlockHeight false =
        CEnodeMan.GetNextEnodeInQueueForPaymentNoFilter env pay man nBlockHeight := by
      unfold CEnodeMan.GetNextEnodeInQueueForPayment
        CEnodeMan.GetNextEnodeInQueueForPaymentNoFilter
      simp only [Bool.false_and, Bool.false_eq_true, if_false]
    rw [hfalse]
    unfold CEnodeMan.GetNextEnodeInQueueForPayment
    simp only []
    rw [if_pos (hcases.mpr hc)]
    exact CEnodeMan.NoFilter_again env pay man nBlockHeight fFilterSigTime _
  · intro hc
    unfold CEnodeMan.GetNextEnodeInQueueForPayment
    simp only []
    rw [if_neg (fun h => hc (hcases.mp h))]

/-- Witness for C34: of the six enabled enodes of the sample registry one qualifies with the
filter on, which is less than `6 / 3 = 2`; the call with the filter on makes one nested call
and returns what the call with the filter off returns, with `nCount = 6`. -/
theorem C34_retry_once_witness :
    ((CEnodeMan.qualifyLoop sampleEnv CEnodePayments.empty 210 true
      (sampleFreshRegistry6.CountEnabled sampleEnv (-1)) sampleFreshRegistry6.vEnodes).2.length
      = 1) ∧
    sampleFreshRegistry6.CountEnabled sampleEnv (-1) = 6 ∧
    sampleFreshRegistry6.GetNextEnodeInQueueForPayment sampleEnv CEnodePayments.empty 210 true =
      sampleFreshRegistry6.GetNextEnodeInQueueForPayment sampleEnv CEnodePayments.empty 210
        false ∧
    (sampleFreshRegistry6.GetNextEnodeInQueueForPayment sampleEnv CEnodePayments.empty 210
      true).nCount = 6 ∧
    (CEnodeMan.GetNextEnodeInQueueForPaymentRec sampleEnv CEnodePayments.empty 2
      sampleFreshRegistry6 210 true).map Prod.snd = some 1 :=
  ⟨by decide, by decide,
    (C34_retry_once sampleEnv CEnodePayments.empty sampleFreshRegistry6 210 true).2.1
      ⟨rfl, by decide⟩,
    by decide, by decide⟩

/-- Counterexample for C34 as stated: of the five enabled enodes of the sample registry one
qualifies with the filter on, fewer than one-third of five, but not less than `5 / 3 = 1`;
no retry happens, and the call with the filter on returns `nCount = 1` where the call with
the filter off returns `nCount = 5`. -/
theorem C34_counterexample_integer_third :
    sampleFreshRegistry.CountEnabled sampleEnv (-1) = 5 ∧
    ((CEnodeMan.qualifyLoop sampleEnv CEnodePayments.empty 210 true 5
      sampleFreshRegistry.vEnodes).2.length = 1) ∧
    (3 * 1 < 5) ∧
    (CEnodeMan.GetNextEnodeInQueueForPaymentRec sampleEnv CEnodePayments.empty 2
      sampleFreshRegistry 210 true).map Prod.snd = some 0 ∧
    (sampleFreshRegistry.GetNextEnodeInQueueForPayment sampleEnv CEnodePayments.empty 210
      true).nCount = 1 ∧
    (sampleFreshRegistry.GetNextEnodeInQueueForPayment sampleEnv CEnodePayments.empty 210
      false).nCount = 5 := by
  refine ⟨by decide, by decide, by decide, by decide, by decide, by decide⟩

/-- Without a retry the queue is the selection over the entries of the first loop. -/
theorem CEnodeMan.GetNextEnodeInQueueForPayment_direct (env : Env) (pay : CEnodePayments)
    (man : CEnodeMan) (nBlockHeight : Int) (fFilterSigTime : Bool)
    (hno : ¬ (fFilterSigTime = true ∧
        ((CEnodeMan.qualifyLoop env pay nBlockHeight fFilterSigTime (man.CountEnabled env (-1))
          man.vEnodes).2.length : Int) < Int.tdiv (man.CountEnabled env (-1)) 3)) :
    man.GetNextEnodeInQueueForPayment env pay nBlockHeight fFilterSigTime =
      CEnodeMan.selectFromQueue env
        { man with vEnodes := (CEnodeMan.qualifyLoop env pay nBlockHeight fFilterSigTime
          (man.CountEnabled env (-1)) man.vEnodes).1 } nBlockHeight
        (man.CountEnabled env (-1))
        (CEnodeMan.qualifyLoop env pay nBlockHeight fFilterSigTime
          (man.CountEnabled env (-1)) man.vEnodes).2 := by
  have hcond : (fFilterSigTime && decide
      (((CEnodeMan.qualifyLoop env pay nBlockHeight fFilterSigTime (man.CountEnabled env (-1))
        man.vEnodes).2.length : Int) < Int.tdiv (man.CountEnabled env (-1)) 3)) = false := by
    cases fFilterSigTime with
    | false => rfl
    | true =>
      simp only [Bool.true_and, decide_eq_false_iff_not]
      intro hlt
      exact hno ⟨rfl, hlt⟩
  unfold CEnodeMan.GetNextEnodeInQueueForPayment
  simp only [hcond]
  rfl

/-- Claim C35 (amended).  When no retry is triggered, `GetNextEnodeInQueueForPayment`
returns `nCount = E`, the number of eligible enodes; it examines the first
`min(E, max(1, nMnCount / 10))` entries of the eligible enodes sorted by last paid block
(integer division of the enabled-enode count); it returns null if and only if
`block_hash(height - 101)` is unavailable, no enode is eligible, or every examined candidate
has score 0; and a non-null result is the record of an eligible enode of the registry, namely
the examined candidate with the largest score, the first examined among the candidates with
that score: its score is positive, strictly greater than the score of every candidate
examined before it, and at least the score of every candidate examined after it. -/
theorem C35_cohort_and_null_result (env : Env) (pay : CEnodePayments) (man : CEnodeMan)
    (nBlockHeight : Int) (fFilterSigTime : Bool)
    (hno : ¬ (fFilterSigTime = true ∧
        ((CEnodeMan.qualifyLoop env pay nBlockHeight fFilterSigTime (man.CountEnabled env (-1))
          man.vEnodes).2.length : Int) < Int.tdiv (man.CountEnabled env (-1)) 3)) :
    (man.GetNextEnodeInQueueForPayment env pay nBlockHeight fFilterSigTime).nCount =
      ((CEnodeMan.qualifyLoop env pay nBlockHeight fFilterSigTime
        (man.CountEnabled env (-1)) man.vEnodes).2.length : Int) ∧
    ((sortAscending CompareLastPaidBlock (CEnodeMan.qualifyLoop env pay nBlockHeight
        fFilterSigTime (man.CountEnabled env (-1)) man.vEnodes).2).take
        (max 1 (Int.tdiv (man.CountEnabled env (-1)) 10)).toNat).length =
      min (CEnodeMan.qualifyLoop env pay nBlockHeight fFilterSigTime
          (man.CountEnabled env (-1)) man.vEnodes).2.length
        (max 1 (Int.tdiv (man.CountEnabled env (-1)) 10)).toNat ∧
    ((man.GetNextEnodeInQueueForPayment env pay nBlockHeight fFilterSigTime).pBestEnode = none ↔
      (env.GetBlockHash (nBlockHeight - 101) = none ∨
        (CEnodeMan.qualifyLoop env pay nBlockHeight fFilterSigTime
          (man.CountEnabled env (-1)) man.vEnodes).2.length = 0 ∨
        ∃ bh, env.GetBlockHash (nBlockHeight - 101) = some bh ∧
          ∀ s ∈ (sortAscending CompareLastPaidBlock (CEnodeMan.qualifyLoop env pay
              nBlockHeight fFilterSigTime (man.CountEnabled env (-1)) man.vEnodes).2).take
              (max 1 (Int.tdiv (man.CountEnabled env (-1)) 10)).toNat,
            s.2.CalculateScore env bh = 0)) ∧
    (∀ best,
      (man.GetNextEnodeInQueueForPayment env pay nBlockHeight fFilterSigTime).pBestEnode =
        some best →
      (∃ mn ∈ man.vEnodes,
        (CEnodeMan.GetNotQualifyReason env pay mn nBlockHeight fFilterSigTime
          (man.CountEnabled env (-1))).1 = none ∧
        best = (CEnodeMan.GetNotQualifyReason env pay mn nBlockHeight fFilterSigTime
          (man.CountEnabled env (-1))).2) ∧
      ∃ bh pre s post, env.GetBlockHash (nBlockHeight - 101) = some bh ∧
        (sortAscending CompareLastPaidBlock (CEnodeMan.qualifyLoop env pay
            nBlockHeight fFilterSigTime (man.CountEnabled env (-1)) man.vEnodes).2).take
            (max 1 (Int.tdiv (man.CountEnabled env (-1)) 10)).toNat = pre ++ s :: post ∧
        s.2 = best ∧
        0 < s.2.CalculateScore env bh ∧
        (∀ x ∈ pre, x.2.CalculateScore env bh < s.2.CalculateScore env bh) ∧
        (∀ x ∈ post, x.2.CalculateScore env bh ≤ s.2.CalculateScore env bh)) := by
  have hres := CEnodeMan.GetNextEnodeInQueueForPayment_direct env pay man nBlockHeight
    fFilterSigTime hno
  have hq := (CEnodeMan.qualifyLoop_eq env pay nBlockHeight fFilterSigTime
    (man.CountEnabled env (-1)) man.vEnodes).2
  generalize hv : (CEnodeMan.qualifyLoop env pay nBlockHeight fFilterSigTime
    (man.CountEnabled env (-1)) man.vEnodes).2 = v at hres hq ⊢
  have hperm := sortAscending_perm CompareLastPaidBlock v
  have hcases : ∀ bh, env.GetBlockHash (nBlockHeight - 101) = some bh →
      (man.GetNextEnodeInQueueForPayment env pay nBlockHeight fFilterSigTime).pBestEnode =
        CEnodeMan.scoreLoop env bh (Int.tdiv (man.CountEnabled env (-1)) 10)
          (sortAscending CompareLastPaidBlock v) 0 0 none := by
    intro bh hbh
    rw [hres]
    unfold CEnodeMan.selectFromQueue
    simp only [hbh]
  refine ⟨?_, ?_, ?_, ?_⟩
  · rw [hres]
    unfold CEnodeMan.selectFromQueue
    cases env.GetBlockHash (nBlockHeight - 101) <;> rfl
  · rw [List.length_take, hperm.length_eq, Nat.min_comm]
  · cases hbh : env.GetBlockHash (nBlockHeight - 101) with
    | none =>
      refine ⟨fun _ => Or.inl rfl, fun _ => ?_⟩
      rw [hres]
      unfold CEnodeMan.selectFromQueue
      simp only [hbh]
    | some bh =>
      rw [hcases bh hbh]
      rcases CEnodeMan.scoreLoop_spec env bh (Int.tdiv (man.CountEnabled env (-1)) 10)
          (sortAscending CompareLastPaidBlock v) 0 0 none with
        ⟨hall, heq⟩ | ⟨pre, s, post, hl, heq, hlt, hpre, hpost⟩
      · simp only [sub_zero] at hall
        refine ⟨fun _ => Or.inr (Or.inr ⟨bh, rfl, fun s hs => Nat.le_zero.mp (hall s hs)⟩),
          fun _ => heq⟩
      · simp only [sub_zero] at hl
        rw [heq]
        constructor
        · intro h
          cases h
        · intro h
          exfalso
          have hs : s ∈ (sortAscending CompareLastPaidBlock v).take
              (max 1 (Int.tdiv (man.CountEnabled env (-1)) 10)).toNat := by
            rw [hl]
            simp
          rcases h with h | h | ⟨bh2, hbh2, hall⟩
          · cases h
          · have hnil : v = [] := List.length_eq_zero.mp h
            have : (sortAscending CompareLastPaidBlock v).length = 0 := by
              rw [hperm.length_eq, h]
            rw [List.length_eq_zero.mp this] at hs
            simp at hs
          · cases hbh2
            have := hall s hs
            omega
  · intro best hbest
    cases hbh : env.GetBlockHash (nBlockHeight - 101) with
    | none =>
      exfalso
      rw [hres] at hbest
      unfold CEnodeMan.selectFromQueue at hbest
      simp only [hbh] at hbest
      cases hbest
    | some bh =>
      rw [hcases bh hbh] at hbest
      rcases CEnodeMan.scoreLoop_spec env bh (Int.tdiv (man.CountEnabled env (-1)) 10)
          (sortAscending CompareLastPaidBlock v) 0 0 none with
        ⟨hall, heq⟩ | ⟨pre, s, post, hl, heq, hlt, hpre, hpost⟩
      · rw [heq] at hbest
        cases hbest
      · simp only [sub_zero] at hl
        rw [heq] at hbest
        have hsb : s.2 = best := Option.some.inj hbest
        refine ⟨?_, bh, pre, s, post, rfl, hl, hsb, hlt, hpre, hpost⟩
        have hs : s ∈ v := by
          apply hperm.subset
          apply List.mem_of_mem_take
          rw [hl]
          simp
        rw [hq, List.mem_filterMap] at hs
        obtain ⟨mn, hmn, hsome⟩ := hs
        refine ⟨mn, hmn, ?_⟩
        split_ifs at hsome with hnone
        · refine ⟨hnone, ?_⟩
          rw [← hsb, ← Option.some.inj hsome]

/-- Witness for C35: in the registry of 25 sample enodes, all eligible, the call without the
filter makes no retry, returns `nCount = 25`, examines two candidates and returns a
record. -/
theorem C35_cohort_and_null_result_witness :
    (sampleLargeRegistry.GetNextEnodeInQueueForPayment sampleEnv CEnodePayments.empty 210
      false).nCount =
      ((CEnodeMan.qualifyLoop sampleEnv CEnodePayments.empty 210 false
        (sampleLargeRegistry.CountEnabled sampleEnv (-1)) sampleLargeRegistry.vEnodes).2.length
        : Int) ∧
    (max 1 (Int.tdiv (sampleLargeRegistry.CountEnabled sampleEnv (-1)) 10)).toNat = 2 :=
  ⟨(C35_cohort_and_null_result sampleEnv CEnodePayments.empty sampleLargeRegistry 210 false
      (fun h => Bool.noConfusion h.1)).1, by decide⟩

/-- Counterexample for C35 as stated: in the registry of 25 sample enodes the call examines
the enodes 1 and 2; enode 1, examined first, has a positive score, which is strictly greater
than all earlier ones since there are none, yet the call returns enode 2, whose score is
larger. -/
theorem C35_counterexample_first_record_not_picked :
    ((sortAscending CompareLastPaidBlock (CEnodeMan.qualifyLoop sampleEnv CEnodePayments.empty
        210 false (sampleLargeRegistry.CountEnabled sampleEnv (-1))
        sampleLargeRegistry.vEnodes).2).take
        (max 1 (Int.tdiv (sampleLargeRegistry.CountEnabled sampleEnv (-1)) 10)).toNat).map
      (fun s => (s.2.vin.prevout.hash, (sampleEnv.GetBlockHash 109).map
        (fun bh => s.2.CalculateScore sampleEnv bh))) =
      [(1, some 1108892), (2, some 1108893)] ∧
    (sampleLargeRegistry.GetNextEnodeInQueueForPayment sampleEnv CEnodePayments.empty 210
      false).pBestEnode.map (fun mn => mn.vin.prevout.hash) = some 2 := by
  refine ⟨by decide, by decide⟩

/-! ## The vote handler -/

theorem StdMap.count_set {K V : Type} [DecidableEq K] (m : StdMap K V) (k h : K) (v : V)
    (hc : m.count h = true) : (m.set k v).count h = true := by
  unfold StdMap.count at hc ⊢
  by_cases hk : k = h
  · subst hk
    rw [StdMap.find_set_self]
    rfl
  · rw [StdMap.find_set_other m k h v hk]
    exact hc

theorem StdMap.count_set_self {K V : Type} [DecidableEq K] (m : StdMap K V) (k : K) (v : V) :
    (m.set k v).count k = true := by
  unfold StdMap.count
  rw [StdMap.find_set_self]
  rfl

/-- What `CanVote` leaves of the store: the votes, the payees and the tip. -/
theorem CEnodePayments.CanVote_frame (s : CEnodePayments) (o : COutPoint) (h : Int) :
    (s.CanVote o h).2.mapEnodePaymentVotes = s.mapEnodePaymentVotes ∧
    (s.CanVote o h).2.mapEnodeBlocks = s.mapEnodeBlocks ∧
    (s.CanVote o h).2.pCurrentBlockIndex = s.pCurrentBlockIndex := by
  unfold CEnodePayments.CanVote
  split_ifs <;> exact ⟨rfl, rfl, rfl⟩

/-- What `AddPaymentVote` leaves of the store: every recorded hash and the tip. -/
theorem CEnodePayments.AddPaymentVote_frame (env : Env) (s : CEnodePayments)
    (vote : CEnodePaymentVote) :
    (∀ h, s.mapEnodePaymentVotes.count h = true →
      (s.AddPaymentVote env vote).2.mapEnodePaymentVotes.count h = true) ∧
    (s.AddPaymentVote env vote).2.pCurrentBlockIndex = s.pCurrentBlockIndex := by
  unfold CEnodePayments.AddPaymentVote
  cases env.GetBlockHash (vote.nBlockHeight - 101) with
  | none => exact ⟨fun _ h => h, rfl⟩
  | some bh =>
    simp only []
    split_ifs
    all_goals first
      | exact ⟨fun _ h => h, rfl⟩
      | exact ⟨fun h hc => StdMap.count_set _ _ h _ hc, rfl⟩

/-- The returns of the vote handler, with the store each of them leaves. -/
theorem CEnodePayments.ProcessMessage_shape (env : Env) (man : CEnodeMan)
    (pay : CEnodePayments) (pfrom : CNode) (nVersion : Int) (vote : CEnodePaymentVote) :
    ((pay.ProcessMessage env man pfrom nVersion vote).pay = pay ∧
      (pay.ProcessMessage env man pfrom nVersion vote).man = man ∧
      (pay.ProcessMessage env man pfrom nVersion vote).nMisbehaving = 0 ∧
      ((¬ CEnodePayments.ReadsVotes env pay nVersion ∧
          ((pay.ProcessMessage env man pfrom nVersion vote).outcome =
              VoteMessageOutcome.notSynced ∨
            (pay.ProcessMessage env man pfrom nVersion vote).outcome =
              VoteMessageOutcome.liteMode ∨
            (pay.ProcessMessage env man pfrom nVersion vote).outcome =
              VoteMessageOutcome.oldPeer ∨
            (pay.ProcessMessage env man pfrom nVersion vote).outcome =
              VoteMessageOutcome.noTip)) ∨
        (CEnodePayments.ReadsVotes env pay nVersion ∧
          pay.mapEnodePaymentVotes.count (vote.GetHash env) = true ∧
          (pay.ProcessMessage env man pfrom nVersion vote).outcome =
            VoteMessageOutcome.seen))) ∨
    (CEnodePayments.ReadsVotes env pay nVersion ∧
      pay.mapEnodePaymentVotes.count (vote.GetHash env) = false ∧
      (((pay.ProcessMessage env man pfrom nVersion vote).outcome.failedCheck = true ∧
          (pay.ProcessMessage env man pfrom nVersion vote).pay.mapEnodePaymentVotes =
            pay.mapEnodePaymentVotes.set (vote.GetHash env) vote.MarkAsNotVerified ∧
          (pay.ProcessMessage env man pfrom nVersion vote).pay.mapEnodeBlocks =
            pay.mapEnodeBlocks ∧
          (pay.ProcessMessage env man pfrom nVersion vote).pay.pCurrentBlockIndex =
            pay.pCurrentBlockIndex) ∨
        (((pay.ProcessMessage env man pfrom nVersion vote).outcome =
              VoteMessageOutcome.relayed ∨
            (pay.ProcessMessage env man pfrom nVersion vote).outcome =
              VoteMessageOutcome.notAdded) ∧
          (pay.ProcessMessage env man pfrom nVersion vote).pay =
            (CEnodePayments.AddPaymentVote env
              (CEnodePayments.CanVote
                { pay with mapEnodePaymentVotes :=
                    pay.mapEnodePaymentVotes.set (vote.GetHash env) vote.MarkAsNotVerified }
                vote.vinEnode.prevout vote.nBlockHeight).2 vote).2))) := by
  unfold CEnodePayments.ProcessMessage
  by_cases h1 : (!env.IsEnodeListSynced) = true
  · rw [if_pos h1]
    left
    refine ⟨rfl, rfl, rfl, Or.inl ⟨?_, Or.inl rfl⟩⟩
    intro hg
    rw [hg.1] at h1
    cases h1
  rw [if_neg h1]
  by_cases h2 : env.fLiteMode = true
  · rw [if_pos h2]
    left
    refine ⟨rfl, rfl, rfl, Or.inl ⟨?_, Or.inr (Or.inl rfl)⟩⟩
    intro hg
    rw [hg.2.1] at h2
    cases h2
  rw [if_neg h2]
  by_cases h3 : nVersion < GetMinEnodePaymentsProto env
  · rw [if_pos h3]
    left
    exact ⟨rfl, rfl, rfl, Or.inl ⟨fun hg => hg.2.2.1 h3, Or.inr (Or.inr (Or.inl rfl))⟩⟩
  rw [if_neg h3]
  cases htip : pay.pCurrentBlockIndex with
  | none =>
    left
    exact ⟨rfl, rfl, rfl, Or.inl ⟨fun hg => hg.2.2.2 htip, Or.inr (Or.inr (Or.inr rfl))⟩⟩
  | some nHeight =>
    have hg : CEnodePayments.ReadsVotes env pay nVersion := by
      refine ⟨by simpa using h1, by simpa using h2, h3, ?_⟩
      rw [htip]
      exact Option.some_ne_none _
    simp only []
    by_cases h4 : pay.mapEnodePaymentVotes.count (vote.GetHash env) = true
    · rw [if_pos h4]
      left
      exact ⟨rfl, rfl, rfl, Or.inr ⟨hg, h4, rfl⟩⟩
    rw [if_neg h4]
    right
    refine ⟨hg, by simpa using h4, ?_⟩
    have hcv := CEnodePayments.CanVote_frame
      { pay with mapEnodePaymentVotes :=
          pay.mapEnodePaymentVotes.set (vote.GetHash env) vote.MarkAsNotVerified }
      vote.vinEnode.prevout vote.nBlockHeight
    rw [htip] at hcv
    split_ifs
    all_goals first
      | exact Or.inl ⟨rfl, rfl, rfl, rfl⟩
      | exact Or.inl ⟨rfl, hcv.1, hcv.2.1, hcv.2.2⟩
      | exact Or.inr ⟨Or.inl rfl, rfl⟩
      | exact Or.inr ⟨Or.inr rfl, rfl⟩

/-- The vote handler never forgets a recorded hash and never moves the tip. -/
theorem CEnodePayments.ProcessMessage_keeps (env : Env) (man : CEnodeMan)
    (pay : CEnodePayments) (pfrom : CNode) (nVersion : Int) (vote : CEnodePaymentVote) :
    (∀ h, pay.mapEnodePaymentVotes.count h = true →
      (pay.ProcessMessage env man pfrom nVersion vote).pay.mapEnodePaymentVotes.count h = true) ∧
    (pay.ProcessMessage env man pfrom nVersion vote).pay.pCurrentBlockIndex =
      pay.pCurrentBlockIndex := by
  rcases CEnodePayments.ProcessMessage_shape env man pay pfrom nVersion vote with
    ⟨hp, _⟩ | ⟨_, _, ⟨_, hv, _, ht⟩ | ⟨_, hp⟩⟩
  · rw [hp]
    exact ⟨fun _ h => h, rfl⟩
  · rw [hv]
    exact ⟨fun h hc => StdMap.count_set _ _ h _ hc, ht⟩
  · rw [hp]
    have hcv := CEnodePayments.CanVote_frame
      { pay with mapEnodePaymentVotes :=
          pay.mapEnodePaymentVotes.set (vote.GetHash env) vote.MarkAsNotVerified }
      vote.vinEnode.prevout vote.nBlockHeight
    have hadd := CEnodePayments.AddPaymentVote_frame env
      (CEnodePayments.CanVote
        { pay with mapEnodePaymentVotes :=
            pay.mapEnodePaymentVotes.set (vote.GetHash env) vote.MarkAsNotVerified }
        vote.vinEnode.prevout vote.nBlockHeight).2 vote
    refine ⟨fun h hc => hadd.1 h ?_, ?_⟩
    · rw [hcv.1]
      exact StdMap.count_set _ _ h _ hc
    · rw [hadd.2, hcv.2.2]

/-- Once the vote handler reads votes, the hash of the vote it was given is recorded. -/
theorem CEnodePayments.ProcessMessage_records (env : Env) (man : CEnodeMan)
    (pay : CEnodePayments) (pfrom : CNode) (nVersion : Int) (vote : CEnodePaymentVote)
    (hg : CEnodePayments.ReadsVotes env pay nVersion) :
    (pay.ProcessMessage env man pfrom nVersion vote).pay.mapEnodePaymentVotes.count
      (vote.GetHash env) = true := by
  rcases CEnodePayments.ProcessMessage_shape env man pay pfrom nVersion vote with
    ⟨hp, _, _, ⟨hng, _⟩ | ⟨_, hc, _⟩⟩ | ⟨_, _, ⟨_, hv, _, _⟩ | ⟨_, hp⟩⟩
  · exact absurd hg hng
  · rw [hp]
    exact hc
  · rw [hv]
    exact StdMap.count_set_self _ _ _
  · rw [hp]
    have hcv := CEnodePayments.CanVote_frame
      { pay with mapEnodePaymentVotes :=
          pay.mapEnodePaymentVotes.set (vote.GetHash env) vote.MarkAsNotVerified }
      vote.vinEnode.prevout vote.nBlockHeight
    apply (CEnodePayments.AddPaymentVote_frame env _ vote).1
    rw [hcv.1]
    exact StdMap.count_set_self _ _ _

/-- A sequence of vote messages never forgets a recorded hash and never moves the tip. -/
theorem CEnodePayments.ProcessMessages_keeps (env : Env) (pfrom : CNode) (nVersion : Int)
    (later : List CEnodePaymentVote) (man : CEnodeMan) (pay : CEnodePayments) :
    (∀ h, pay.mapEnodePaymentVotes.count h = true →
      (CEnodePayments.ProcessMessages env pfrom nVersion later man
        pay).2.mapEnodePaymentVotes.count h = true) ∧
    (CEnodePayments.ProcessMessages env pfrom nVersion later man pay).2.pCurrentBlockIndex =
      pay.pCurrentBlockIndex := by
  induction later generalizing man pay with
  | nil => exact ⟨fun _ h => h, rfl⟩
  | cons v rest ih =>
    unfold CEnodePayments.ProcessMessages
    simp only []
    have hk := CEnodePayments.ProcessMessage_keeps env man pay pfrom nVersion v
    have hi := ih (pay.ProcessMessage env man pfrom nVersion v).man
      (pay.ProcessMessage env man pfrom nVersion v).pay
    exact ⟨fun h hc => hi.1 h (hk.1 h hc), hi.2.trans hk.2⟩

/-- Claim C36.  In the `ENODEPAYMENTVOTE` handler of `CEnodePayments::ProcessMessage`, once
the handler reads votes, a vote whose hash is not yet known is stored in the votes-by-hash
map before the height-window, validity, vote-limit and signature checks run, with its
signature cleared; if the vote then fails one of those checks, the map is the old one with
that non-verified entry, and the payees are unchanged.  The hash covers only the payee, the
block height and the voter outpoint, and the handler never erases an entry, so every later
message with the same three fields is dropped as already seen, whatever its signature:
store and registry stay as they are and the peer is not penalised. -/
theorem C36_vote_hash_remembered (env : Env) (man : CEnodeMan) (pay : CEnodePayments)
    (pfrom : CNode) (nVersion : Int) (vote : CEnodePaymentVote) :
    (∀ v2 : CEnodePaymentVote, v2.payee = vote.payee → v2.nBlockHeight = vote.nBlockHeight →
      v2.vinEnode.prevout = vote.vinEnode.prevout → v2.GetHash env = vote.GetHash env) ∧
    (CEnodePayments.ReadsVotes env pay nVersion →
      pay.mapEnodePaymentVotes.count (vote.GetHash env) = false →
      (pay.ProcessMessage env man pfrom nVersion vote).pay.mapEnodePaymentVotes.count
        (vote.GetHash env) = true ∧
      ((pay.ProcessMessage env man pfrom nVersion vote).outcome.failedCheck = true →
        (pay.ProcessMessage env man pfrom nVersion vote).pay.mapEnodePaymentVotes =
          pay.mapEnodePaymentVotes.set (vote.GetHash env) vote.MarkAsNotVerified ∧
        (pay.ProcessMessage env man pfrom nVersion vote).pay.mapEnodePaymentVotes.find
          (vote.GetHash env) = some { vote with vchSig := [] } ∧
        (pay.ProcessMessage env man pfrom nVersion vote).pay.mapEnodeBlocks =
          pay.mapEnodeBlocks)) ∧
    (∀ (later : List CEnodePaymentVote) (v2 : CEnodePaymentVote),
      CEnodePayments.ReadsVotes env pay nVersion →
      v2.payee = vote.payee → v2.nBlockHeight = vote.nBlockHeight →
      v2.vinEnode.prevout = vote.vinEnode.prevout →
      ((CEnodePayments.ProcessMessages env pfrom nVersion later
          (pay.ProcessMessage env man pfrom nVersion vote).man
          (pay.ProcessMessage env man pfrom nVersion vote).pay).2.ProcessMessage env
        (CEnodePayments.ProcessMessages env pfrom nVersion later
          (pay.ProcessMessage env man pfrom nVersion vote).man
          (pay.ProcessMessage env man pfrom nVersion vote).pay).1 pfrom nVersion v2) =
        { outcome := VoteMessageOutcome.seen
          nMisbehaving := 0
          pay := (CEnodePayments.ProcessMessages env pfrom nVersion later
            (pay.ProcessMessage env man pfrom nVersion vote).man
            (pay.ProcessMessage env man pfrom nVersion vote).pay).2
          man := (CEnodePayments.ProcessMessages env pfrom nVersion later
            (pay.ProcessMessage env man pfrom nVersion vote).man
            (pay.ProcessMessage env man pfrom nVersion vote).pay).1 }) := by
  have hhash : ∀ v2 : CEnodePaymentVote, v2.payee = vote.payee →
      v2.nBlockHeight = vote.nBlockHeight →
      v2.vinEnode.prevout = vote.vinEnode.prevout → v2.GetHash env = vote.GetHash env := by
    intro v2 h1 h2 h3
    unfold CEnodePaymentVote.GetHash
    rw [h1, h2, h3]
  refine ⟨hhash, ?_, ?_⟩
  · intro hg hc
    refine ⟨CEnodePayments.ProcessMessage_records env man pay pfrom nVersion vote hg, ?_⟩
    intro hfail
    rcases CEnodePayments.ProcessMessage_shape env man pay pfrom nVersion vote with
      ⟨_, _, _, ⟨hng, _⟩ | ⟨_, hc2, _⟩⟩ | ⟨_, _, ⟨_, hv, hb, _⟩ | ⟨ho, _⟩⟩
    · exact absurd hg hng
    · rw [hc] at hc2
      cases hc2
    · refine ⟨hv, ?_, hb⟩
      rw [hv, StdMap.find_set_self]
      rfl
    · exfalso
      rcases ho with ho | ho <;> rw [ho] at hfail <;> cases hfail
  · intro later v2 hg h1 h2 h3
    have hrec := CEnodePayments.ProcessMessage_records env man pay pfrom nVersion vote hg
    have hk1 := CEnodePayments.ProcessMessage_keeps env man pay pfrom nVersion vote
    have hk := CEnodePayments.ProcessMessages_keeps env pfrom nVersion later
      (pay.ProcessMessage env man pfrom nVersion vote).man
      (pay.ProcessMessage env man pfrom nVersion vote).pay
    have hcount := hk.1 _ hrec
    have htip := hk.2.trans hk1.2
    rw [← hhash v2 h1 h2 h3] at hcount
    generalize CEnodePayments.ProcessMessages env pfrom nVersion later
      (pay.ProcessMessage env man pfrom nVersion vote).man
      (pay.ProcessMessage env man pfrom nVersion vote).pay = st at hcount htip
    obtain ⟨hs, hl, hv, ht⟩ := hg
    obtain ⟨nHeight, hn⟩ := Option.ne_none_iff_exists'.mp ht
    unfold CEnodePayments.ProcessMessage
    rw [if_neg (by rw [hs]; decide), if_neg (by rw [hl]; decide), if_neg hv, htip, hn]
    simp only []
    rw [if_pos hcount]

/-- Witness for C36: a vote for height 210 by enode 17 arrives without a signature and fails
the signature check; its hash stays recorded with no payees added.  The same vote with a
signature, which a store that had not seen the hash would relay, is then dropped as seen. -/
theorem C36_vote_hash_remembered_witness :
    (sampleTipStore.ProcessMessage sampleEnv sampleRegistry samplePeer 90024
      (sampleVote 17 [])).outcome = VoteMessageOutcome.badSignature ∧
    (sampleTipStore.ProcessMessage sampleEnv sampleRegistry samplePeer 90024
      (sampleVote 17 [])).pay.mapEnodeBlocks = [] ∧
    (sampleTipStore.ProcessMessage sampleEnv sampleRegistry samplePeer 90024
      (sampleVote 17 [1])).outcome = VoteMessageOutcome.relayed ∧
    (((CEnodePayments.ProcessMessages sampleEnv samplePeer 90024 []
          (sampleTipStore.ProcessMessage sampleEnv sampleRegistry samplePeer 90024
            (sampleVote 17 [])).man
          (sampleTipStore.ProcessMessage sampleEnv sampleRegistry samplePeer 90024
            (sampleVote 17 [])).pay).2.ProcessMessage sampleEnv
        (CEnodePayments.ProcessMessages sampleEnv samplePeer 90024 []
          (sampleTipStore.ProcessMessage sampleEnv sampleRegistry samplePeer 90024
            (sampleVote 17 [])).man
          (sampleTipStore.ProcessMessage sampleEnv sampleRegistry samplePeer 90024
            (sampleVote 17 [])).pay).1 samplePeer 90024 (sampleVote 17 [1])).outcome =
      VoteMessageOutcome.seen) :=
  ⟨by decide, by decide, by decide,
    congrArg VoteMessageResult.outcome
      ((C36_vote_hash_remembered sampleEnv sampleRegistry sampleTipStore samplePeer 90024
        (sampleVote 17 [])).2.2 [] (sampleVote 17 [1]) (by decide) rfl rfl rfl)⟩

/-! ## The structure of the payees of a height -/

/-- The two ways through the loop of `AddPayee`: the hash is appended to the first entry with
the script, every entry before it having another script, or no entry has the script and a
single-vote entry is appended at the end. -/
theorem CEnodeBlockPayees.addPayeeTo_shape (l : List CEnodePayee) (payee : CScript)
    (hash : uint256) :
    (∃ pre p post, l = pre ++ p :: post ∧ p.scriptPubKey = payee ∧
      (∀ q ∈ pre, q.scriptPubKey ≠ payee) ∧
      CEnodeBlockPayees.addPayeeTo l payee hash =
        pre ++ { p with vecVoteHashes := p.vecVoteHashes ++ [hash] } :: post) ∨
    ((∀ q ∈ l, q.scriptPubKey ≠ payee) ∧
      CEnodeBlockPayees.addPayeeTo l payee hash =
        l ++ [{ scriptPubKey := payee, vecVoteHashes := [hash] }]) := by
  induction l with
  | nil =>
    right
    exact ⟨by simp, rfl⟩
  | cons x rest ih =>
    unfold CEnodeBlockPayees.addPayeeTo
    by_cases hx : x.GetPayee = payee
    · left
      rw [if_pos hx]
      exact ⟨[], x, rest, rfl, hx, by simp, rfl⟩
    · rw [if_neg hx]
      rcases ih with ⟨pre, p, post, h1, h2, h3, h4⟩ | ⟨h1, h2⟩
      · left
        refine ⟨x :: pre, p, post, by rw [h1]; rfl, h2, ?_, by rw [h4]; rfl⟩
        intro q hq
        rcases List.mem_cons.mp hq with h | h
        · rw [h]
          exact hx
        · exact h3 q h
      · right
        refine ⟨?_, by rw [h2]; rfl⟩
        intro q hq
        rcases List.mem_cons.mp hq with h | h
        · rw [h]
          exact hx
        · exact h1 q h

/-- Claim C37.  `CEnodeBlockPayees::AddPayee` keeps the payee scripts of `vecPayees` pairwise
distinct when they were, keeps every payee with at least one vote hash when every payee had
one, and increases the total number of vote hashes of the height by exactly one: it either
appends the hash to the existing entry of the vote's payee, or, when no entry has that payee,
appends a new single-vote payee at the end; all other payees and hashes stay where they
were, and the height of the entry is unchanged. -/
theorem C37_block_payees_structure (env : Env) (bp : CEnodeBlockPayees)
    (vote : CEnodePaymentVote) :
    ((bp.vecPayees.map (fun p => p.scriptPubKey)).Nodup →
      ((bp.AddPayee env vote).vecPayees.map (fun p => p.scriptPubKey)).Nodup) ∧
    ((∀ p ∈ bp.vecPayees, 1 ≤ p.GetVoteCount) →
      ∀ p ∈ (bp.AddPayee env vote).vecPayees, 1 ≤ p.GetVoteCount) ∧
    (((bp.AddPayee env vote).vecPayees.map (fun p => p.GetVoteCount)).sum =
      (bp.vecPayees.map (fun p => p.GetVoteCount)).sum + 1) ∧
    ((∃ pre p post, bp.vecPayees = pre ++ p :: post ∧ p.scriptPubKey = vote.payee ∧
        (∀ q ∈ pre, q.scriptPubKey ≠ vote.payee) ∧
        (bp.AddPayee env vote).vecPayees =
          pre ++ { p with vecVoteHashes := p.vecVoteHashes ++ [vote.GetHash env] } :: post) ∨
      ((∀ q ∈ bp.vecPayees, q.scriptPubKey ≠ vote.payee) ∧
        (bp.AddPayee env vote).vecPayees =
          bp.vecPayees ++ [{ scriptPubKey := vote.payee, vecVoteHashes := [vote.GetHash env] }])) ∧
    (bp.AddPayee env vote).nBlockHeight = bp.nBlockHeight := by
  have hshape := CEnodeBlockPayees.addPayeeTo_shape bp.vecPayees vote.payee (vote.GetHash env)
  have hv : (bp.AddPayee env vote).vecPayees =
      CEnodeBlockPayees.addPayeeTo bp.vecPayees vote.payee (vote.GetHash env) := rfl
  rw [hv]
  refine ⟨?_, ?_, ?_, hshape, rfl⟩
  · intro hnd
    rcases hshape with ⟨pre, p, post, h1, h2, _, h4⟩ | ⟨h1, h2⟩
    · rw [h4]
      rw [h1] at hnd
      simpa using hnd
    · rw [h2, List.map_append, List.nodup_append]
      refine ⟨hnd, by simp, ?_⟩
      intro s hs hs2
      simp only [List.map_cons, List.map_nil, List.mem_singleton] at hs2
      obtain ⟨q, hq, hqs⟩ := List.mem_map.mp hs
      exact h1 q hq (by rw [hqs, hs2])
  · intro hpos p hp
    rcases hshape with ⟨pre, x, post, h1, _, _, h4⟩ | ⟨_, h2⟩
    · rw [h4] at hp
      rcases List.mem_append.mp hp with h | h
      · exact hpos p (by rw [h1]; exact List.mem_append_left _ h)
      · rcases List.mem_cons.mp h with h | h
        · rw [h]
          simp only [CEnodePayee.GetVoteCount, List.length_append, List.length_singleton]
          omega
        · exact hpos p (by rw [h1]; exact List.mem_append_right _ (List.mem_cons_of_mem _ h))
    · rw [h2] at hp
      rcases List.mem_append.mp hp with h | h
      · exact hpos p h
      · rw [List.mem_singleton.mp h]
        simp [CEnodePayee.GetVoteCount]
  · rcases hshape with ⟨pre, x, post, h1, _, _, h4⟩ | ⟨_, h2⟩
    · rw [h4, h1]
      simp only [List.map_append, List.map_cons, List.sum_append, List.sum_cons,
        CEnodePayee.GetVoteCount, List.length_append, List.length_singleton]
      push_cast
      ring
    · rw [h2]
      simp [CEnodePayee.GetVoteCount]

/-- Witness for C37: the payees of height 210 in the sample store hold `[7]` with five
votes and `[8]` with one; a further vote for `[8]` joins the second entry and a vote for
`[9]` opens a third one. -/
theorem C37_block_payees_structure_witness :
    (sampleBlockPayees.vecPayees.map (fun p => (p.scriptPubKey, p.GetVoteCount))) =
      [([7], 5), ([8], 1)] ∧
    (((sampleBlockPayees.AddPayee sampleEnv (sampleVoteFor 9 [8])).vecPayees.map
      (fun p => (p.scriptPubKey, p.GetVoteCount))) = [([7], 5), ([8], 2)]) ∧
    (((sampleBlockPayees.AddPayee sampleEnv (sampleVoteFor 9 [9])).vecPayees.map
      (fun p => (p.scriptPubKey, p.GetVoteCount))) = [([7], 5), ([8], 1), ([9], 1)]) ∧
    (((sampleBlockPayees.AddPayee sampleEnv (sampleVoteFor 9 [9])).vecPayees.map
      (fun p => p.scriptPubKey)).Nodup) :=
  ⟨by decide, by decide, by decide,
    (C37_block_payees_structure sampleEnv sampleBlockPayees (sampleVoteFor 9 [9])).1
      (by decide)⟩

/-! ## The spent state -/

/-- Claim C38.  A `CEnode::Check`, forced or not, on an enode whose state is OutpointSpent
leaves the state, the PoSe score and the ban height unchanged, whatever the score, the
protocol version, the ping times and the UTXO set are: the record comes back as it was, or
with only the time of the last check set to the clock. -/
theorem C38_outpoint_spent_absorbing (env : Env) (man : CEnodeMan) (mn : CEnode)
    (fForce : Bool) (h : mn.nActiveState = state.ENODE_OUTPOINT_SPENT) :
    (CEnode.Check env man mn fForce = mn ∨
      CEnode.Check env man mn fForce = { mn with nTimeLastChecked := env.GetTime }) ∧
    (CEnode.Check env man mn fForce).nActiveState = state.ENODE_OUTPOINT_SPENT ∧
    (CEnode.Check env man mn fForce).nPoSeBanScore = mn.nPoSeBanScore ∧
    (CEnode.Check env man mn fForce).nPoSeBanHeight = mn.nPoSeBanHeight := by
  have hs : CEnode.IsOutpointSpent { mn with nTimeLastChecked := env.GetTime } = true := by
    simp [CEnode.IsOutpointSpent, h]
  have hc : CEnode.Check env man mn fForce = mn ∨
      CEnode.Check env man mn fForce = { mn with nTimeLastChecked := env.GetTime } := by
    unfold CEnode.Check
    simp only [hs, if_true]
    split_ifs
    · exact Or.inl rfl
    · exact Or.inl rfl
    · exact Or.inr rfl
  refine ⟨hc, ?_, ?_, ?_⟩
  · rcases hc with hc | hc <;> rw [hc]
    · exact h
    · exact h
  · rcases hc with hc | hc <;> rw [hc]
  · rcases hc with hc | hc <;> rw [hc]

/-- Witness for C38: the sample enode 17 in state OutpointSpent with the PoSe score 5 and an
outdated protocol version, checked by force while its collateral is unspent: only the time of
the last check changes. -/
theorem C38_outpoint_spent_absorbing_witness :
    CEnode.Check sampleEnv sampleRegistry
        { sampleEnode 17 100 with nActiveState := state.ENODE_OUTPOINT_SPENT,
                                  nPoSeBanScore := 5, nProtocolVersion := 1 } true =
      { sampleEnode 17 100 with nActiveState := state.ENODE_OUTPOINT_SPENT,
                                nPoSeBanScore := 5, nProtocolVersion := 1,
                                nTimeLastChecked := sampleEnv.GetTime } ∧
    (CEnode.Check sampleEnv sampleRegistry
        { sampleEnode 17 100 with nActiveState := state.ENODE_OUTPOINT_SPENT,
                                  nPoSeBanScore := 5, nProtocolVersion := 1 } true).nPoSeBanScore
      = 5 :=
  ⟨by decide,
    (C38_outpoint_spent_absorbing sampleEnv sampleRegistry
      { sampleEnode 17 100 with nActiveState := state.ENODE_OUTPOINT_SPENT,
                                nPoSeBanScore := 5, nProtocolVersion := 1 } true rfl).2.2.1⟩

/-! ## The three rank functions -/

theorem CEnode.copy_eq (mn : CEnode) : CEnode.copy mn = mn := by
  cases mn
  rfl

theorem CEnodeMan.ranksLoop_length (l : List (Int × CEnode)) (k : Int) :
    (CEnodeMan.ranksLoop l k).length = l.length := by
  induction l generalizing k with
  | nil => rfl
  | cons x rest ih => simp [CEnodeMan.ranksLoop, ih]

theorem CEnodeMan.ranksLoop_fst (l : List (Int × CEnode)) (k : Int) :
    (CEnodeMan.ranksLoop l k).map Prod.fst =
      (List.range l.length).map (fun i : Nat => k + (i : Int) + 1) := by
  induction l generalizing k with
  | nil => rfl
  | cons x rest ih =>
    unfold CEnodeMan.ranksLoop
    rw [List.map_cons, ih (k + 1), List.length_cons, List.range_succ_eq_map, List.map_cons,
      List.map_map]
    congr 1
    · simp
    · apply List.map_congr_left
      intro i _
      simp only [Function.comp, Nat.cast_succ]
      ring

theorem CEnodeMan.mem_ranksLoop (l : List (Int × CEnode)) (k : Int) (e : Int × CEnode) :
    e ∈ CEnodeMan.ranksLoop l k ↔
      ∃ pre s post, l = pre ++ s :: post ∧ e = (k + (pre.length : Int) + 1, s.2) := by
  induction l generalizing k with
  | nil => simp [CEnodeMan.ranksLoop]
  | cons x rest ih =>
    unfold CEnodeMan.ranksLoop
    rw [List.mem_cons, ih (k + 1), CEnode.copy_eq]
    constructor
    · rintro (h | ⟨pre, s, post, hl, he⟩)
      · exact ⟨[], x, rest, rfl, by rw [h]; simp⟩
      · refine ⟨x :: pre, s, post, by rw [hl]; rfl, ?_⟩
        rw [he]
        simp only [List.length_cons, Nat.cast_succ, Prod.mk.injEq, and_true]
        ring
    · rintro ⟨pre, s, post, hl, he⟩
      cases pre with
      | nil =>
        left
        simp only [List.nil_append, List.cons.injEq] at hl
        rw [he, hl.1]
        simp
      | cons y pre2 =>
        right
        simp only [List.cons_append, List.cons.injEq] at hl
        refine ⟨pre2, s, post, hl.2, ?_⟩
        rw [he]
        simp only [List.length_cons, Nat.cast_succ, Prod.mk.injEq, and_true]
        ring

theorem CEnodeMan.byRankLoop_at (pre : List (Int × CEnode)) (s : Int × CEnode)
    (post : List (Int × CEnode)) (k : Int) :
    CEnodeMan.byRankLoop (k + (pre.length : Int) + 1) (pre ++ s :: post) k = some s.2 := by
  induction pre generalizing k with
  | nil =>
    unfold CEnodeMan.byRankLoop
    simp
  | cons x rest ih =>
    rw [List.cons_append]
    unfold CEnodeMan.byRankLoop
    have hne : ¬ (k + 1 = k + ((x :: rest).length : Int) + 1) := by
      simp only [List.length_cons, Nat.cast_succ]
      have : (0 : Int) ≤ (rest.length : Int) := Int.natCast_nonneg _
      omega
    rw [if_neg hne]
    have := ih (k + 1)
    rw [← this]
    congr 1
    simp only [List.length_cons, Nat.cast_succ]
    ring

theorem CEnodeMan.rankLoop_at (pre : List (Int × CEnode)) (s : Int × CEnode)
    (post : List (Int × CEnode)) (k : Int)
    (hnd : (pre ++ s :: post).Pairwise (fun a b => a.2.vin.prevout ≠ b.2.vin.prevout)) :
    CEnodeMan.rankLoop s.2.vin (pre ++ s :: post) k = k + (pre.length : Int) + 1 := by
  induction pre generalizing k with
  | nil =>
    unfold CEnodeMan.rankLoop
    simp
  | cons x rest ih =>
    rw [List.cons_append] at hnd ⊢
    unfold CEnodeMan.rankLoop
    rw [List.pairwise_cons] at hnd
    have hne : ¬ (x.2.vin.prevout = s.2.vin.prevout) := hnd.1 s (by simp)
    rw [if_neg hne, ih (k + 1) hnd.2]
    simp only [List.length_cons, Nat.cast_succ]
    ring

/-- With the active-only flag set, the three rank functions scan the same candidates. -/
theorem CEnodeMan.rankCandidates_active (env : Env) (man : CEnodeMan) (bh : uint256)
    (nMinProtocol : Int) :
    (man.vEnodes.filter (fun mn =>
        !(decide (mn.nProtocolVersion < nMinProtocol) || !mn.IsEnabled))).map
        (fun mn => (env.GetCompact (mn.CalculateScore env bh), mn)) =
      CEnodeMan.rankCandidates env man bh nMinProtocol true ∧
    (man.vEnodes.filter (fun mn =>
        !decide (mn.nProtocolVersion < nMinProtocol) &&
        !(true && !mn.IsEnabled))).map
        (fun mn => (env.GetCompact (mn.CalculateScore env bh), mn)) =
      CEnodeMan.rankCandidates env man bh nMinProtocol true := by
  unfold CEnodeMan.rankCandidates
  constructor
  · congr 1
    apply List.filter_congr
    intro mn _
    cases decide (mn.nProtocolVersion < nMinProtocol) <;> cases mn.IsEnabled <;> rfl
  · congr 1
    apply List.filter_congr
    intro mn _
    cases decide (mn.nProtocolVersion < nMinProtocol) <;> cases mn.IsEnabled <;> rfl

/-- In a registry with pairwise distinct outpoints the sorted candidates have pairwise
distinct outpoints. -/
theorem CEnodeMan.rankCandidates_distinct (env : Env) (man : CEnodeMan) (bh : uint256)
    (nMinProtocol : Int) (fOnlyActive : Bool) (hu : man.Unique) :
    (sortDescending CompareScoreMN
      (CEnodeMan.rankCandidates env man bh nMinProtocol fOnlyActive)).Pairwise
      (fun a b => a.2.vin.prevout ≠ b.2.vin.prevout) := by
  have hperm : (sortDescending CompareScoreMN
      (CEnodeMan.rankCandidates env man bh nMinProtocol fOnlyActive)).Perm
      (CEnodeMan.rankCandidates env man bh nMinProtocol fOnlyActive) :=
    (List.reverse_perm _).trans (sortAscending_perm CompareScoreMN _)
  rw [hperm.pairwise_iff (fun {a b} (h : a.2.vin.prevout ≠ b.2.vin.prevout) => h.symm)]
  unfold CEnodeMan.rankCandidates
  rw [List.pairwise_map]
  exact List.Pairwise.sublist (List.filter_sublist _) hu

/-- Claim C39.  For a registry with pairwise distinct outpoints, a height with a known block
hash and a protocol floor, the list returned by `GetEnodeRanks(h, p)` carries the ranks
`1..k` without gaps in increasing order; for each of its entries `(r, mn)`,
`GetEnodeRank(mn.vin, h, p)` is `r` and `GetEnodeByRank(r, h, p, true)` is the registry
record `mn`, so the enode with outpoint `mn.vin.prevout`; and `GetEnodeRank` returns -1 for
every input whose outpoint is not in the list. -/
theorem C39_rank_functions_agree (env : Env) (man : CEnodeMan) (nBlockHeight : Int)
    (nMinProtocol : Int) (bh : uint256) (hu : man.Unique)
    (hbh : env.GetBlockHash nBlockHeight = some bh) :
    (man.GetEnodeRanks env nBlockHeight nMinProtocol).map Prod.fst =
      (List.range (man.GetEnodeRanks env nBlockHeight nMinProtocol).length).map
        (fun i : Nat => (i : Int) + 1) ∧
    (∀ e ∈ man.GetEnodeRanks env nBlockHeight nMinProtocol,
      man.GetEnodeRank env e.2.vin nBlockHeight nMinProtocol true = e.1 ∧
      man.GetEnodeByRank env e.1 nBlockHeight nMinProtocol true = some e.2 ∧
      e.2 ∈ man.vEnodes) ∧
    (∀ vin : CTxIn,
      (∀ e ∈ man.GetEnodeRanks env nBlockHeight nMinProtocol,
        e.2.vin.prevout ≠ vin.prevout) →
      man.GetEnodeRank env vin nBlockHeight nMinProtocol true = -1) := by
  have hcand := CEnodeMan.rankCandidates_active env man bh nMinProtocol
  have hranks : man.GetEnodeRanks env nBlockHeight nMinProtocol =
      CEnodeMan.ranksLoop (sortDescending CompareScoreMN
        (CEnodeMan.rankCandidates env man bh nMinProtocol true)) 0 := by
    unfold CEnodeMan.GetEnodeRanks
    simp only [hbh]
    rw [hcand.1]
  have hby : ∀ r, man.GetEnodeByRank env r nBlockHeight nMinProtocol true =
      CEnodeMan.byRankLoop r (sortDescending CompareScoreMN
        (CEnodeMan.rankCandidates env man bh nMinProtocol true)) 0 := by
    intro r
    unfold CEnodeMan.GetEnodeByRank
    simp only [hbh]
    rw [hcand.2]
  have hrank : ∀ v : CTxIn, man.GetEnodeRank env v nBlockHeight nMinProtocol true =
      CEnodeMan.rankLoop v (sortDescending CompareScoreMN
        (CEnodeMan.rankCandidates env man bh nMinProtocol true)) 0 := by
    intro v
    simp [CEnodeMan.GetEnodeRank, hbh]
  have hnd := CEnodeMan.rankCandidates_distinct env man bh nMinProtocol true hu
  have hperm : (sortDescending CompareScoreMN
      (CEnodeMan.rankCandidates env man bh nMinProtocol true)).Perm
      (CEnodeMan.rankCandidates env man bh nMinProtocol true) :=
    (List.reverse_perm _).trans (sortAscending_perm CompareScoreMN _)
  generalize sortDescending CompareScoreMN
    (CEnodeMan.rankCandidates env man bh nMinProtocol true) = L at hranks hby hrank hnd hperm
  refine ⟨?_, ?_, ?_⟩
  · rw [hranks, CEnodeMan.ranksLoop_fst, CEnodeMan.ranksLoop_length]
    apply List.map_congr_left
    intro i _
    ring
  · intro e he
    rw [hranks, CEnodeMan.mem_ranksLoop] at he
    obtain ⟨pre, s, post, hl, he⟩ := he
    subst hl
    rw [he]
    refine ⟨?_, ?_, ?_⟩
    · rw [hrank]
      exact CEnodeMan.rankLoop_at pre s post 0 hnd
    · rw [hby]
      exact CEnodeMan.byRankLoop_at pre s post 0
    · have hs : s ∈ CEnodeMan.rankCandidates env man bh nMinProtocol true :=
        hperm.subset (by simp)
      exact ((CEnodeMan.mem_rankCandidates env man bh nMinProtocol true s).mp hs).1
  · intro vin hall
    rw [hrank]
    rcases CEnodeMan.rankLoop_spec vin L 0 with
      ⟨_, heq⟩ | ⟨pre, s, post, hl, _, hs, _⟩
    · exact heq
    · exfalso
      refine hall (0 + (pre.length : Int) + 1, s.2) ?_ hs
      rw [hranks, CEnodeMan.mem_ranksLoop]
      exact ⟨pre, s, post, hl, rfl⟩

/-- Witness for C39: in the sample registry at height 109 the rank list is enode 34 with
rank 1 and enode 17 with rank 2, and the three functions agree on it. -/
theorem C39_rank_functions_agree_witness :
    sampleRegistry.Unique ∧ sampleEnv.GetBlockHash 109 = some 1109 ∧
    (sampleRegistry.GetEnodeRanks sampleEnv 109 0).map
      (fun e => (e.1, e.2.vin.prevout.hash)) = [(1, 34), (2, 17)] ∧
    (sampleRegistry.GetEnodeRanks sampleEnv 109 0).map Prod.fst =
      (List.range (sampleRegistry.GetEnodeRanks sampleEnv 109 0).length).map
        (fun i : Nat => (i : Int) + 1) :=
  ⟨by unfold CEnodeMan.Unique; decide, by decide, by decide,
    (C39_rank_functions_agree sampleEnv sampleRegistry 109 0 1109
      (by unfold CEnodeMan.Unique; decide) (by decide)).1⟩

/-! ## The dense index -/

theorem StdMap.set_absent {K V : Type} [DecidableEq K] (m : StdMap K V) (k : K) (v : V)
    (h : StdMap.find m k = none) : StdMap.set m k v = m ++ [(k, v)] := by
  induction m with
  | nil => rfl
  | cons p rest ih =>
    obtain ⟨k0, v0⟩ := p
    unfold StdMap.find at h
    unfold StdMap.set
    by_cases hk : k0 = k
    · rw [if_pos hk] at h
      cases h
    · rw [if_neg hk] at h
      rw [if_neg hk, ih h]
      rfl

theorem CEnodeIndex.forwardFrom_append (l : List CTxIn) (v : CTxIn) :
    ∀ n : Nat, CEnodeIndex.forwardFrom n (l ++ [v]) =
      CEnodeIndex.forwardFrom n l ++ [(v.prevout, (v, ((n + l.length : Nat) : Int)))] := by
  induction l with
  | nil =>
    intro n
    simp [CEnodeIndex.forwardFrom]
  | cons x rest ih =>
    intro n
    have e : n + 1 + rest.length = n + (rest.length + 1) := by omega
    rw [List.cons_append]
    unfold CEnodeIndex.forwardFrom
    rw [ih (n + 1), e]
    rfl

theorem CEnodeIndex.reverseFrom_append (l : List CTxIn) (v : CTxIn) :
    ∀ n : Nat, CEnodeIndex.reverseFrom n (l ++ [v]) =
      CEnodeIndex.reverseFrom n l ++ [(((n + l.length : Nat) : Int), v)] := by
  induction l with
  | nil =>
    intro n
    simp [CEnodeIndex.reverseFrom]
  | cons x rest ih =>
    intro n
    have e : n + 1 + rest.length = n + (rest.length + 1) := by omega
    rw [List.cons_append]
    unfold CEnodeIndex.reverseFrom
    rw [ih (n + 1), e]
    rfl

theorem CEnodeIndex.forwardFrom_absent (l : List CTxIn) (k : COutPoint) :
    ∀ n : Nat, (∀ w ∈ l, w.prevout ≠ k) →
      StdMap.find (CEnodeIndex.forwardFrom n l) k = none := by
  induction l with
  | nil =>
    intro n _
    rfl
  | cons x rest ih =>
    intro n h
    unfold CEnodeIndex.forwardFrom StdMap.find
    rw [if_neg (h x (List.mem_cons_self _ _))]
    exact ih (n + 1) (fun w hw => h w (List.mem_cons_of_mem _ hw))

theorem CEnodeIndex.forwardFrom_present (l : List CTxIn) :
    ∀ (n i : Nat) (h : i < l.length), (l.map (fun w => w.prevout)).Nodup →
      StdMap.find (CEnodeIndex.forwardFrom n l) (l.get ⟨i, h⟩).prevout =
        some (l.get ⟨i, h⟩, ((n + i : Nat) : Int)) := by
  induction l with
  | nil =>
    intro n i h
    exact absurd h (by simp)
  | cons x rest ih =>
    intro n i h hnd
    rw [List.map_cons, List.nodup_cons] at hnd
    unfold CEnodeIndex.forwardFrom StdMap.find
    cases i with
    | zero =>
      simp
    | succ j =>
      have hj : j < rest.length := by simpa using h
      have hne : x.prevout ≠ ((x :: rest).get ⟨j + 1, h⟩).prevout := by
        intro he
        apply hnd.1
        rw [he]
        exact List.mem_map_of_mem _ (List.get_mem rest j hj)
      rw [if_neg hne]
      have := ih (n + 1) j hj hnd.2
      simp only [List.get_cons_succ]
      rw [this]
      have e : n + 1 + j = n + (j + 1) := by omega
      rw [e]

theorem CEnodeIndex.reverseFrom_find (l : List CTxIn) :
    ∀ (n : Nat) (i : Int), StdMap.find (CEnodeIndex.reverseFrom n l) i =
      if (n : Int) ≤ i ∧ i < n + l.length then l[(i - n).toNat]? else none := by
  induction l with
  | nil =>
    intro n i
    simp [CEnodeIndex.reverseFrom, StdMap.find]
  | cons x rest ih =>
    intro n i
    unfold CEnodeIndex.reverseFrom StdMap.find
    by_cases hi : (n : Int) = i
    · rw [if_pos hi, if_pos (by simp only [List.length_cons]; push_cast; omega)]
      have : (i - n).toNat = 0 := by omega
      rw [this]
      simp
    · rw [if_neg hi, ih (n + 1) i]
      by_cases hr : ((n + 1 : Nat) : Int) ≤ i ∧ i < ((n + 1 : Nat) : Int) + rest.length
      · rw [if_pos hr, if_pos (by simp only [List.length_cons]; push_cast at hr ⊢; omega)]
        have e : (i - n).toNat = (i - ((n + 1 : Nat) : Int)).toNat + 1 := by
          push_cast at hr ⊢
          omega
        rw [e, List.getElem?_cons_succ]
      · rw [if_neg hr, if_neg]
        simp only [List.length_cons]
        push_cast at hr ⊢
        omega

/-- The state of the index after a sequence of operations: it holds, under `0`, `1`, ..., a
list `l` of the inputs added since the last `Clear` that keeps their order, has one input for
each outpoint added, and for each outpoint the input added first. -/
theorem CEnodeIndex.runOps_ofList (ops : List IndexOp) :
    ∀ (ix : CEnodeIndex) (added l : List CTxIn),
    ix = CEnodeIndex.ofList l → l.Sublist added → (l.map (fun w => w.prevout)).Nodup →
    (∀ v ∈ added, ∃ w ∈ l, w.prevout = v.prevout) →
    (∀ w ∈ l, added.find? (fun x => decide (x.prevout = w.prevout)) = some w) →
    ∃ l2, ix.runOps ops = CEnodeIndex.ofList l2 ∧ l2.Sublist (IndexOp.addedAfter added ops) ∧
      (l2.map (fun w => w.prevout)).Nodup ∧
      (∀ v ∈ IndexOp.addedAfter added ops, ∃ w ∈ l2, w.prevout = v.prevout) ∧
      (∀ w ∈ l2, (IndexOp.addedAfter added ops).find?
        (fun x => decide (x.prevout = w.prevout)) = some w) := by
  induction ops with
  | nil =>
    intro ix added l h1 h2 h3 h4 h5
    exact ⟨l, h1, h2, h3, h4, h5⟩
  | cons op rest ih =>
    intro ix added l h1 h2 h3 h4 h5
    unfold CEnodeIndex.runOps IndexOp.addedAfter
    rw [List.foldl_cons, List.foldl_cons]
    cases op with
    | Clear =>
      exact ih (IndexOp.apply ix IndexOp.Clear) [] [] rfl (List.Sublist.refl _) (by simp)
        (by simp) (by simp)
    | AddEnodeVIN v =>
      by_cases hv : ∃ w ∈ l, w.prevout = v.prevout
      · obtain ⟨w, hw, hwv⟩ := hv
        have hix : IndexOp.apply ix (IndexOp.AddEnodeVIN v) = CEnodeIndex.ofList l := by
          obtain ⟨⟨i, hi⟩, hget⟩ := List.mem_iff_get.mp hw
          have hf := CEnodeIndex.forwardFrom_present l 0 i hi h3
          rw [hget, hwv] at hf
          show ix.AddEnodeVIN v = _
          unfold CEnodeIndex.AddEnodeVIN
          rw [h1]
          show (match StdMap.find (CEnodeIndex.forwardFrom 0 l) v.prevout with
            | some _ => CEnodeIndex.ofList l
            | none => _) = _
          rw [hf]
        refine ih _ (added ++ [v]) l hix (h2.trans (List.sublist_append_left _ _)) h3 ?_ ?_
        · intro x hx
          rcases List.mem_append.mp hx with h | h
          · exact h4 x h
          · rw [List.mem_singleton.mp h]
            exact ⟨w, hw, hwv⟩
        · intro x hx
          rw [List.find?_append, h5 x hx]
          rfl
      · have hno : ∀ w ∈ l, w.prevout ≠ v.prevout := fun w hw h => hv ⟨w, hw, h⟩
        have hix : IndexOp.apply ix (IndexOp.AddEnodeVIN v) = CEnodeIndex.ofList (l ++ [v]) := by
          have hf := CEnodeIndex.forwardFrom_absent l v.prevout 0 hno
          have hr : StdMap.find (CEnodeIndex.reverseFrom 0 l) (l.length : Int) = none := by
            rw [CEnodeIndex.reverseFrom_find, if_neg]
            push_cast
            omega
          show ix.AddEnodeVIN v = _
          unfold CEnodeIndex.AddEnodeVIN
          rw [h1]
          show (match StdMap.find (CEnodeIndex.forwardFrom 0 l) v.prevout with
            | some _ => CEnodeIndex.ofList l
            | none =>
              { nSize := (l.length : Int) + 1
                mapIndex := StdMap.set (CEnodeIndex.forwardFrom 0 l) v.prevout
                  (v, (l.length : Int))
                mapReverseIndex := StdMap.set (CEnodeIndex.reverseFrom 0 l) (l.length : Int)
                  v }) = _
          rw [hf]
          simp only []
          rw [StdMap.set_absent _ _ _ hf, StdMap.set_absent _ _ _ hr]
          unfold CEnodeIndex.ofList
          rw [CEnodeIndex.forwardFrom_append, CEnodeIndex.reverseFrom_append]
          simp
        have hnoA : ∀ a ∈ added, a.prevout ≠ v.prevout := by
          intro a ha h
          obtain ⟨w, hw, hwa⟩ := h4 a ha
          exact hno w hw (by rw [hwa, h])
        refine ih _ (added ++ [v]) (l ++ [v]) hix
          (List.Sublist.append h2 (List.Sublist.refl _)) ?_ ?_ ?_
        · rw [List.map_append, List.nodup_append]
          refine ⟨h3, by simp, ?_⟩
          intro k hk hk2
          simp only [List.map_cons, List.map_nil, List.mem_singleton] at hk2
          obtain ⟨w, hw, hwk⟩ := List.mem_map.mp hk
          exact hno w hw (by rw [hwk, hk2])
        · intro x hx
          rcases List.mem_append.mp hx with h | h
          · obtain ⟨w, hw, hwx⟩ := h4 x h
            exact ⟨w, List.mem_append_left _ hw, hwx⟩
          · exact ⟨v, by simp, by rw [List.mem_singleton.mp h]⟩
        · intro x hx
          rcases List.mem_append.mp hx with h | h
          · rw [List.find?_append, h5 x h]
            rfl
          · rw [List.mem_singleton.mp h, List.find?_append]
            have hnone : added.find? (fun x => decide (x.prevout = v.prevout)) = none := by
              rw [List.find?_eq_none]
              intro a ha
              simpa using hnoA a ha
            rw [hnone]
            simp

/-- Claim C40 (amended).  After any sequence of `AddEnodeVIN` and `Clear` on a fresh index
there is a list `l` of the inputs added since the last `Clear`, in the order of their
insertion, with one input for each outpoint added, namely the input added first with that
outpoint, such that: `GetSize()` is the length of `l`, which is the number of distinct
outpoints added since the last `Clear`; the indices in use are exactly `0..GetSize()-1`,
`Get(i)` returning the `i`-th input of `l` and `GetEnodeIndex` of that input returning `i`;
`Get` fails for every index outside `0..GetSize()-1`; `GetEnodeIndex` returns `-1` for every
input whose outpoint was not added; and for every input `v` whose outpoint was added,
`Get(GetEnodeIndex(v))` succeeds and returns the input added first with the outpoint of `v`,
and adding `v` changes nothing. -/
theorem C40_dense_index (ops : List IndexOp) :
    ∃ l : List CTxIn,
      l.Sublist (IndexOp.added ops) ∧
      (l.map (fun w => w.prevout)).Nodup ∧
      (∀ v ∈ IndexOp.added ops, ∃ w ∈ l, w.prevout = v.prevout) ∧
      (∀ w ∈ l, (IndexOp.added ops).find? (fun x => decide (x.prevout = w.prevout)) = some w) ∧
      (CEnodeIndex.empty.runOps ops).GetSize = l.length ∧
      (CEnodeIndex.empty.runOps ops).GetSize =
        ((IndexOp.added ops).map (fun w => w.prevout)).dedup.length ∧
      (∀ (i : Nat) (h : i < l.length),
        (CEnodeIndex.empty.runOps ops).Get i = some (l.get ⟨i, h⟩) ∧
        (CEnodeIndex.empty.runOps ops).GetEnodeIndex (l.get ⟨i, h⟩) = i) ∧
      (∀ i : Int, (i < 0 ∨ (CEnodeIndex.empty.runOps ops).GetSize ≤ i) →
        (CEnodeIndex.empty.runOps ops).Get i = none) ∧
      (∀ v : CTxIn, (∀ w ∈ IndexOp.added ops, w.prevout ≠ v.prevout) →
        (CEnodeIndex.empty.runOps ops).GetEnodeIndex v = -1) ∧
      (∀ v w : CTxIn, w ∈ l → w.prevout = v.prevout →
        0 ≤ (CEnodeIndex.empty.runOps ops).GetEnodeIndex v ∧
        (CEnodeIndex.empty.runOps ops).GetEnodeIndex v < (CEnodeIndex.empty.runOps ops).GetSize ∧
        (CEnodeIndex.empty.runOps ops).Get ((CEnodeIndex.empty.runOps ops).GetEnodeIndex v)
          = some w ∧
        (CEnodeIndex.empty.runOps ops).AddEnodeVIN v = CEnodeIndex.empty.runOps ops) := by
  obtain ⟨l, hix, h2, h3, h4, h5⟩ := CEnodeIndex.runOps_ofList ops CEnodeIndex.empty [] [] rfl
    (List.Sublist.refl _) (by simp) (by simp) (by simp)
  have hadd : IndexOp.addedAfter [] ops = IndexOp.added ops := rfl
  rw [hadd] at h2 h4 h5
  rw [hix]
  have hget : ∀ (i : Nat) (h : i < l.length),
      (CEnodeIndex.ofList l).Get i = some (l.get ⟨i, h⟩) := by
    intro i h
    show StdMap.find (CEnodeIndex.reverseFrom 0 l) (i : Int) = _
    rw [CEnodeIndex.reverseFrom_find, if_pos (by push_cast; omega)]
    simp [List.getElem?_eq_getElem h]
  have hidx : ∀ (i : Nat) (h : i < l.length) (v : CTxIn),
      (l.get ⟨i, h⟩).prevout = v.prevout → (CEnodeIndex.ofList l).GetEnodeIndex v = i := by
    intro i h v hv
    have hf := CEnodeIndex.forwardFrom_present l 0 i h h3
    rw [hv] at hf
    show (match StdMap.find (CEnodeIndex.forwardFrom 0 l) v.prevout with
      | none => -1
      | some p => p.2) = _
    rw [hf]
    simp
  refine ⟨l, h2, h3, h4, h5, rfl, ?_, ?_, ?_, ?_, ?_⟩
  · show ((l.length : Nat) : Int) = _
    have hp : (l.map (fun w => w.prevout)).Perm
        ((IndexOp.added ops).map (fun w => w.prevout)).dedup := by
      rw [List.perm_ext_iff_of_nodup h3 (List.nodup_dedup _)]
      intro k
      rw [List.mem_dedup]
      constructor
      · intro hk
        obtain ⟨w, hw, hwk⟩ := List.mem_map.mp hk
        exact List.mem_map.mpr ⟨w, h2.subset hw, hwk⟩
      · intro hk
        obtain ⟨v, hv, hvk⟩ := List.mem_map.mp hk
        obtain ⟨w, hw, hwv⟩ := h4 v hv
        exact List.mem_map.mpr ⟨w, hw, by rw [hwv, hvk]⟩
    rw [← hp.length_eq, List.length_map]
  · intro i h
    exact ⟨hget i h, hidx i h _ rfl⟩
  · intro i hi
    show StdMap.find (CEnodeIndex.reverseFrom 0 l) i = none
    rw [CEnodeIndex.reverseFrom_find, if_neg]
    have : (CEnodeIndex.ofList l).GetSize = (l.length : Int) := rfl
    rw [this] at hi
    push_cast
    omega
  · intro v hv
    have hf := CEnodeIndex.forwardFrom_absent l v.prevout 0
      (fun w hw => hv w (h2.subset hw))
    show (match StdMap.find (CEnodeIndex.forwardFrom 0 l) v.prevout with
      | none => -1
      | some p => p.2) = _
    rw [hf]
  · intro v w hw hwv
    obtain ⟨⟨i, hi⟩, hgetw⟩ := List.mem_iff_get.mp hw
    have hi1 := hidx i hi v (by rw [hgetw, hwv])
    rw [hi1]
    refine ⟨by omega, ?_, ?_, ?_⟩
    · show (i : Int) < ((l.length : Nat) : Int)
      omega
    · rw [hget i hi, hgetw]
    · have hf := CEnodeIndex.forwardFrom_present l 0 i hi h3
      rw [hgetw, hwv] at hf
      unfold CEnodeIndex.AddEnodeVIN
      show (match StdMap.find (CEnodeIndex.forwardFrom 0 l) v.prevout with
        | some _ => CEnodeIndex.ofList l
        | none => _) = _
      rw [hf]

/-- Counterexample for C40 as stated: two inputs with the same outpoint that differ in
their sequence number are added one after the other.  The size is 1 although two distinct
inputs were added, `Get(GetEnodeIndex(v))` for the second returns the first, and
`GetEnodeIndex` of the second is 0 and not `-1` also when only the first was added. -/
theorem C40_counterexample_same_outpoint :
    sampleVinA ≠ sampleVinB ∧
    (CEnodeIndex.empty.runOps
      [IndexOp.AddEnodeVIN sampleVinA, IndexOp.AddEnodeVIN sampleVinB]).GetSize = 1 ∧
    (CEnodeIndex.empty.runOps
      [IndexOp.AddEnodeVIN sampleVinA, IndexOp.AddEnodeVIN sampleVinB]).Get
        ((CEnodeIndex.empty.runOps
          [IndexOp.AddEnodeVIN sampleVinA, IndexOp.AddEnodeVIN sampleVinB]).GetEnodeIndex
          sampleVinB) = some sampleVinA ∧
    (CEnodeIndex.empty.runOps [IndexOp.AddEnodeVIN sampleVinA]).GetEnodeIndex sampleVinB = 0 := by
  refine ⟨by decide, by decide, by decide, by decide⟩

end ELedger
